import Mathlib

/-!
# TEO-lenguaje front end: tokenizer, syntax tree and parser

A shallow embedding of `src/lexer/lexer.c`, `src/ast/ast.c` and
`src/parser/parser.c`, followed by theorems about them.

Conventions of the embedding.

* A C `char` is a Lean `Char`, a byte being the character of that code; the
  source buffer is a `List Char` read through `List.getD`, together with its
  `length`, as in `lexer_init(lexer, source, length)`.
  The character classes `isalpha`, `isalnum`, `isdigit` are those of the "C"
  locale (the program never calls `setlocale`), which are `Char.isAlpha`,
  `Char.isAlphanum` and `Char.isDigit`.
* `size_t` values are natural numbers. Offsets, lines and columns are bounded by
  the buffer length plus one, so the increments cannot overflow; the one
  subtraction that can wrap, in `make_token`, is taken modulo `2 ^ 64`.
* A `const char *` into the source buffer is the offset it points at.
* A `while` loop is a function recursive on a fuel argument. The tokenizer
  loops consume a character per iteration and are run with more fuel than
  there are characters left. The parser functions return `none` when the fuel
  is exhausted; `parser_parse_runs` shows that `parse_fuel` is always enough.
* A nullable `ASTNode *` is an `Option ASTNode`; a node owns its children.
  Allocation is assumed to succeed. The fields `created` and `freed` of the
  parser state are ghost counters of `ast_create` and `ast_free`.
-/

namespace TEO

/-! ## Tokenizer (`src/lexer/lexer.h`, `src/lexer/lexer.c`) -/

/-- Token kinds: the enumeration `TokenType` of `lexer.h`. -/
inductive TokenType where
  | TOKEN_EOF
  | TOKEN_IDENTIFIER
  | TOKEN_NUMBER
  | TOKEN_STRING
  | TOKEN_CHAR
  | TOKEN_TRUE
  | TOKEN_FALSE
  | TOKEN_KW_INT
  | TOKEN_KW_FLOAT
  | TOKEN_KW_CHAR
  | TOKEN_KW_BOOL
  | TOKEN_KW_ARRAY
  | TOKEN_KW_IF
  | TOKEN_KW_FOR
  | TOKEN_KW_IN
  | TOKEN_KW_WHILE
  | TOKEN_KW_FUNC
  | TOKEN_KW_RETURN
  | TOKEN_KW_CSAY
  | TOKEN_KW_CREAD
  | TOKEN_PLUS
  | TOKEN_MINUS
  | TOKEN_STAR
  | TOKEN_SLASH
  | TOKEN_PERCENT
  | TOKEN_EQ
  | TOKEN_EQEQ
  | TOKEN_BANGEQ
  | TOKEN_LT
  | TOKEN_LTE
  | TOKEN_GT
  | TOKEN_GTE
  | TOKEN_ANDAND
  | TOKEN_OROR
  | TOKEN_BANG
  | TOKEN_PLUSPLUS
  | TOKEN_MINUSMINUS
  | TOKEN_LPAREN
  | TOKEN_RPAREN
  | TOKEN_LBRACE
  | TOKEN_RBRACE
  | TOKEN_LBRACKET
  | TOKEN_RBRACKET
  | TOKEN_COMMA
  | TOKEN_SEMICOLON
  | TOKEN_DOT
  | TOKEN_COMMENT
  | TOKEN_UNKNOWN
deriving DecidableEq, Repr

open TokenType

/-- The struct `Token`. The field `lexeme` is the offset in the source buffer the
pointer `lexeme` points at, or `none` for the static empty string `""` of the
end-of-input token. -/
structure Token where
  type : TokenType
  lexeme : Option Nat
  length : Nat
  line : Nat
  column : Nat
deriving DecidableEq, Repr

/-- The struct `Lexer`. -/
structure Lexer where
  source : List Char
  length : Nat
  position : Nat
  line : Nat
  column : Nat
deriving DecidableEq, Repr

/-- The character `'\0'`. -/
def NUL : Char := Char.ofNat 0

/-- The double quote character. -/
def DQUOTE : Char := Char.ofNat 34

/-- The single quote character. -/
def SQUOTE : Char := Char.ofNat 39

/-- The backslash character. -/
def BACKSLASH : Char := Char.ofNat 92

/-- The table `KEYWORDS`, in the order of the source. -/
def KEYWORDS : List (String × TokenType) :=
  [ ("array", TOKEN_KW_ARRAY),
    ("bool", TOKEN_KW_BOOL),
    ("char", TOKEN_KW_CHAR),
    ("cread", TOKEN_KW_CREAD),
    ("csay", TOKEN_KW_CSAY),
    ("false", TOKEN_FALSE),
    ("float", TOKEN_KW_FLOAT),
    ("for", TOKEN_KW_FOR),
    ("func", TOKEN_KW_FUNC),
    ("if", TOKEN_KW_IF),
    ("in", TOKEN_KW_IN),
    ("int", TOKEN_KW_INT),
    ("return", TOKEN_KW_RETURN),
    ("true", TOKEN_TRUE),
    ("while", TOKEN_KW_WHILE) ]

/-- The function `lexer_peek`. -/
def lexer_peek (lexer : Lexer) : Char :=
  if lexer.position ≥ lexer.length then NUL
  else lexer.source.getD lexer.position NUL

/-- The function `lexer_peek_next`. -/
def lexer_peek_next (lexer : Lexer) : Char :=
  if lexer.position + 1 ≥ lexer.length then NUL
  else lexer.source.getD (lexer.position + 1) NUL

/-- The function `lexer_advance`: the character returned and the new state. -/
def lexer_advance (lexer : Lexer) : Char × Lexer :=
  if lexer.position ≥ lexer.length then (NUL, lexer)
  else
    let c := lexer.source.getD lexer.position NUL
    if c = '\n' then
      (c, { lexer with position := lexer.position + 1, line := lexer.line + 1, column := 1 })
    else
      (c, { lexer with position := lexer.position + 1, column := lexer.column + 1 })

/-- The function `is_identifier_start`. -/
def is_identifier_start (c : Char) : Bool :=
  c.isAlpha || c == '_'

/-- The function `is_identifier_part`. -/
def is_identifier_part (c : Char) : Bool :=
  c.isAlphanum || c == '_'

/-- Fuel for the tokenizer loops at a state: one more than the number of
characters left. -/
def lexer_fuel (lexer : Lexer) : Nat :=
  lexer.length - lexer.position + 1

/-- The loop of `skip_whitespace`. -/
def skip_whitespace_loop : Nat → Lexer → Lexer
  | 0, lexer => lexer
  | fuel + 1, lexer =>
    let c := lexer_peek lexer
    if c = ' ' ∨ c = '\t' ∨ c = '\r' ∨ c = '\n' then
      skip_whitespace_loop fuel (lexer_advance lexer).2
    else lexer

/-- The function `skip_whitespace`. -/
def skip_whitespace (lexer : Lexer) : Lexer :=
  skip_whitespace_loop (lexer_fuel lexer) lexer

/-- The loop `while (c != '\n' && c != '\0') c = lexer_advance(lexer);` of the
two line-comment branches of `skip_comment`. -/
def skip_line_loop : Nat → Char → Lexer → Lexer
  | 0, _, lexer => lexer
  | fuel + 1, c, lexer =>
    if c ≠ '\n' ∧ c ≠ NUL then
      skip_line_loop fuel (lexer_advance lexer).1 (lexer_advance lexer).2
    else lexer

/-- The loop of the two block-comment branches of `skip_comment`; the closing
pair is `c1 c2`, that is `*/` or `%%`. -/
def skip_block_loop (c1 c2 : Char) : Nat → Lexer → Lexer
  | 0, lexer => lexer
  | fuel + 1, lexer =>
    if lexer_peek lexer = NUL then lexer
    else if lexer_peek lexer = c1 ∧ lexer_peek_next lexer = c2 then
      (lexer_advance (lexer_advance lexer).2).2
    else skip_block_loop c1 c2 fuel (lexer_advance lexer).2

/-- The function `skip_comment`. -/
def skip_comment (lexer : Lexer) : Lexer :=
  let c := lexer_peek lexer
  let next := lexer_peek_next lexer
  if c = '/' ∧ next = '/' then
    skip_line_loop (lexer_fuel lexer + 1) c lexer
  else if c = '$' then
    skip_line_loop (lexer_fuel lexer + 1) c lexer
  else if c = '/' ∧ next = '*' then
    let lexer2 := (lexer_advance (lexer_advance lexer).2).2
    skip_block_loop '*' '/' (lexer_fuel lexer2) lexer2
  else if c = '%' ∧ next = '%' then
    let lexer2 := (lexer_advance (lexer_advance lexer).2).2
    skip_block_loop '%' '%' (lexer_fuel lexer2) lexer2
  else lexer

/-- The loop of `skip_ignorable`; an iteration that ends with `progress` false
returns. -/
def skip_ignorable_loop : Nat → Lexer → Lexer
  | 0, lexer => lexer
  | fuel + 1, lexer =>
    let before := lexer.position
    let lexer1 := skip_whitespace lexer
    if lexer1.position ≠ before then skip_ignorable_loop fuel lexer1
    else
      let c := lexer_peek lexer1
      let next := lexer_peek_next lexer1
      if (c = '/' ∧ (next = '/' ∨ next = '*')) ∨ c = '$' ∨ (c = '%' ∧ next = '%') then
        skip_ignorable_loop fuel (skip_comment lexer1)
      else lexer1

/-- The function `skip_ignorable`. -/
def skip_ignorable (lexer : Lexer) : Lexer :=
  skip_ignorable_loop (lexer_fuel lexer) lexer

/-- The function `lexer_init`. -/
def lexer_init (source : List Char) (length : Nat) : Lexer :=
  { source := source, length := length, position := 0, line := 1, column := 1 }

/-- The function `make_token`. The column is computed in `size_t` arithmetic. -/
def make_token (lexer : Lexer) (type : TokenType) (start length : Nat) : Token :=
  { type := type
    lexeme := some start
    length := length
    line := lexer.line
    column := (lexer.column + 2 ^ 64 - (if length ≠ 0 then length - 1 else 0) % 2 ^ 64) % 2 ^ 64 }

/-- The call `strncmp(p, keyword, length) == 0` with `p` pointing at the `length`
characters `lexeme`, none of which is `'\0'`, conjoined with
`length == strlen(keyword)`. -/
def keyword_matches (lexeme : List Char) (keyword : String) : Bool :=
  lexeme.length == keyword.length && lexeme == keyword.toList

/-- The `for` loop of `token_from_identifier` over the entries of the table. -/
def keyword_lookup (lexeme : List Char) : List (String × TokenType) → TokenType
  | [] => TOKEN_IDENTIFIER
  | entry :: rest =>
    if keyword_matches lexeme entry.1 then entry.2 else keyword_lookup lexeme rest

/-- The `while` loop of `token_from_identifier`. -/
def identifier_loop : Nat → Lexer → Lexer
  | 0, lexer => lexer
  | fuel + 1, lexer =>
    if is_identifier_part (lexer_peek lexer) then
      identifier_loop fuel (lexer_advance lexer).2
    else lexer

/-- The function `token_from_identifier`. -/
def token_from_identifier (lexer : Lexer) (start : Nat) : Token × Lexer :=
  let lexer1 := identifier_loop (lexer_fuel lexer) lexer
  let length := lexer1.position - start
  (make_token lexer1 (keyword_lookup ((lexer1.source.drop start).take length) KEYWORDS) start length,
    lexer1)

/-- The `while` loop of `token_from_number`, with the local `has_dot`. -/
def number_loop : Nat → Bool → Lexer → Lexer
  | 0, _, lexer => lexer
  | fuel + 1, has_dot, lexer =>
    if (lexer_peek lexer).isDigit ∨ lexer_peek lexer = '.' then
      if lexer_peek lexer = '.' then
        if has_dot then lexer
        else number_loop fuel true (lexer_advance lexer).2
      else number_loop fuel has_dot (lexer_advance lexer).2
    else lexer

/-- The function `token_from_number`. -/
def token_from_number (lexer : Lexer) (start : Nat) : Token × Lexer :=
  let lexer1 := number_loop (lexer_fuel lexer) false lexer
  (make_token lexer1 TOKEN_NUMBER start (lexer1.position - start), lexer1)

/-- The `while` loop of `token_from_string`. -/
def string_loop (quote : Char) : Nat → Lexer → Lexer
  | 0, lexer => lexer
  | fuel + 1, lexer =>
    let c := lexer_peek lexer
    if c = NUL then lexer
    else if c = quote then (lexer_advance lexer).2
    else if c = BACKSLASH ∧ lexer_peek_next lexer ≠ NUL then
      string_loop quote fuel (lexer_advance (lexer_advance lexer).2).2
    else string_loop quote fuel (lexer_advance lexer).2

/-- The function `token_from_string`. -/
def token_from_string (lexer : Lexer) (start : Nat) (quote : Char) : Token × Lexer :=
  let lexer1 := string_loop quote (lexer_fuel lexer) lexer
  (make_token lexer1 (if quote = DQUOTE then TOKEN_STRING else TOKEN_CHAR) start
      (lexer1.position - start), lexer1)

/-- A branch `if (lexer_peek(lexer) == second) { lexer_advance(lexer); return
make_token(lexer, two, start, 2); }` of the `switch` of `lexer_next_token`,
followed by what the branch does otherwise. -/
def two_char (lexer : Lexer) (start : Nat) (second : Char) (two : TokenType)
    (otherwise : Token × Lexer) : Token × Lexer :=
  if lexer_peek lexer = second then
    (make_token (lexer_advance lexer).2 two start 2, (lexer_advance lexer).2)
  else otherwise

/-- The function `lexer_next_token`: the token returned and the new state. -/
def lexer_next_token (lexer0 : Lexer) : Token × Lexer :=
  let lexer1 := skip_ignorable lexer0
  let start := lexer1.position
  if start ≥ lexer1.length then
    ({ type := TOKEN_EOF, lexeme := none, length := 0, line := lexer1.line,
       column := lexer1.column }, lexer1)
  else
    let c := (lexer_advance lexer1).1
    let lexer := (lexer_advance lexer1).2
    if is_identifier_start c then token_from_identifier lexer start
    else if c.isDigit then token_from_number lexer start
    else if c = DQUOTE then token_from_string lexer start DQUOTE
    else if c = SQUOTE then token_from_string lexer start SQUOTE
    else if c = '+' then
      two_char lexer start '+' TOKEN_PLUSPLUS (make_token lexer TOKEN_PLUS start 1, lexer)
    else if c = '-' then
      two_char lexer start '-' TOKEN_MINUSMINUS (make_token lexer TOKEN_MINUS start 1, lexer)
    else if c = '*' then (make_token lexer TOKEN_STAR start 1, lexer)
    else if c = '/' then (make_token lexer TOKEN_SLASH start 1, lexer)
    else if c = '%' then (make_token lexer TOKEN_PERCENT start 1, lexer)
    else if c = '=' then
      two_char lexer start '=' TOKEN_EQEQ (make_token lexer TOKEN_EQ start 1, lexer)
    else if c = '!' then
      two_char lexer start '=' TOKEN_BANGEQ (make_token lexer TOKEN_BANG start 1, lexer)
    else if c = '<' then
      two_char lexer start '=' TOKEN_LTE (make_token lexer TOKEN_LT start 1, lexer)
    else if c = '>' then
      two_char lexer start '=' TOKEN_GTE (make_token lexer TOKEN_GT start 1, lexer)
    else if c = '&' then
      two_char lexer start '&' TOKEN_ANDAND (make_token lexer TOKEN_UNKNOWN start 1, lexer)
    else if c = '|' then
      two_char lexer start '|' TOKEN_OROR (make_token lexer TOKEN_UNKNOWN start 1, lexer)
    else if c = '(' then (make_token lexer TOKEN_LPAREN start 1, lexer)
    else if c = ')' then (make_token lexer TOKEN_RPAREN start 1, lexer)
    else if c = '{' then (make_token lexer TOKEN_LBRACE start 1, lexer)
    else if c = '}' then (make_token lexer TOKEN_RBRACE start 1, lexer)
    else if c = '[' then (make_token lexer TOKEN_LBRACKET start 1, lexer)
    else if c = ']' then (make_token lexer TOKEN_RBRACKET start 1, lexer)
    else if c = ',' then (make_token lexer TOKEN_COMMA start 1, lexer)
    else if c = ';' then (make_token lexer TOKEN_SEMICOLON start 1, lexer)
    else if c = '.' then (make_token lexer TOKEN_DOT start 1, lexer)
    else (make_token lexer TOKEN_UNKNOWN start 1, lexer)

/-- The characters a token's `lexeme` and `length` denote in the buffer. -/
def Token.text (source : List Char) (token : Token) : List Char :=
  match token.lexeme with
  | some start => (source.drop start).take token.length
  | none => []

/-- The tokens of a buffer up to and including the first end-of-input token, by
repeated `lexer_next_token`. -/
def tokens_loop : Nat → Lexer → List Token
  | 0, _ => []
  | fuel + 1, lexer =>
    let r := lexer_next_token lexer
    if r.1.type = TOKEN_EOF then [r.1] else r.1 :: tokens_loop fuel r.2

/-- The token stream of a source buffer. -/
def tokenize (source : List Char) : List Token :=
  tokens_loop (source.length + 1) (lexer_init source source.length)

/-! ## Syntax tree (`src/ast/ast.h`, `src/ast/ast.c`) -/

/-- Node kinds: the enumeration `ASTNodeType` of `ast.h`. -/
inductive ASTNodeType where
  | AST_PROGRAM
  | AST_INSTRUCTION_LIST
  | AST_DECLARATION
  | AST_ASSIGNMENT
  | AST_IF
  | AST_FOR
  | AST_WHILE
  | AST_FUNCTION
  | AST_CALL
  | AST_RETURN
  | AST_EXPRESSION
  | AST_LITERAL
  | AST_IDENTIFIER
  | AST_ARRAY_LITERAL
  | AST_PARAM_LIST
  | AST_ARG_LIST
  | AST_COMMENT
deriving DecidableEq, Repr

open ASTNodeType

/-- The struct `ASTNode`: kind, token and the owned children, in order
(`children` with `child_count`). -/
inductive ASTNode where
  | mk (type : ASTNodeType) (token : Token) (children : List ASTNode)
deriving Repr

/-- The field `type` of a node. -/
def ASTNode.type : ASTNode → ASTNodeType
  | .mk type _ _ => type

/-- The field `token` of a node. -/
def ASTNode.token : ASTNode → Token
  | .mk _ token _ => token

/-- The children of a node, in order. -/
def ASTNode.children : ASTNode → List ASTNode
  | .mk _ _ children => children

mutual
/-- Number of nodes of a tree: what `ast_free` releases on it. -/
def ASTNode.size : ASTNode → Nat
  | .mk _ _ children => 1 + ASTNode.sizeList children
/-- Number of nodes of a list of trees. -/
def ASTNode.sizeList : List ASTNode → Nat
  | [] => 0
  | child :: rest => child.size + ASTNode.sizeList rest
end

/-- The function `ast_create`, with `calloc` succeeding. -/
def ast_create (type : ASTNodeType) (token : Token) : Option ASTNode :=
  some (.mk type token [])

/-- The function `ast_add_child`, with `realloc` succeeding: the parent after the
call. -/
def ast_add_child (parent child : Option ASTNode) : Option ASTNode :=
  match parent, child with
  | some (.mk type token children), some c => some (.mk type token (children ++ [c]))
  | parent, _ => parent

/-- Number of nodes `ast_free` releases on a nullable tree. -/
def ast_free_count (node : Option ASTNode) : Nat :=
  match node with
  | some n => n.size
  | none => 0

/-! ## Parser (`src/parser/parser.h`, `src/parser/parser.c`) -/

/-- The struct `Parser`, without the field `has_next`, which the program neither
writes nor reads. Every message the program records is shorter than the 256
characters of `error_message`, so `snprintf` stores it whole. The fields
`created` and `freed` are ghost state: the number of nodes `ast_create` has
allocated and the number of nodes `ast_free` has released. -/
structure Parser where
  lexer : Lexer
  current : Token
  next : Token
  had_error : Bool
  error_message : String
  error_token : Token
  created : Nat
  freed : Nat
deriving DecidableEq, Repr

/-- Ghost step of a call of `ast_create`. -/
def Parser.allocated (parser : Parser) : Parser :=
  { parser with created := parser.created + 1 }

/-- Ghost step of a call `ast_free(node)`. -/
def Parser.released (parser : Parser) (node : Option ASTNode) : Parser :=
  { parser with freed := parser.freed + ast_free_count node }

/-- Nodes allocated and not released. -/
def Parser.live (parser : Parser) : Int :=
  (parser.created : Int) - (parser.freed : Int)

/-- What a grammar rule returns: `none` when the fuel is exhausted, else the
nullable node and the parser state after the call. -/
abbrev Res := Option (Option ASTNode × Parser)

/-- The function `parser_error`. -/
def parser_error (parser : Parser) (token : Token) (message : String) : Parser :=
  if parser.had_error then parser
  else { parser with had_error := true, error_token := token, error_message := message }

/-- The function `parser_init`. -/
def parser_init (source : List Char) (length : Nat) : Parser :=
  let lexer0 := lexer_init source length
  let r1 := lexer_next_token lexer0
  let r2 := lexer_next_token r1.2
  { lexer := r2.2, current := r1.1, next := r2.1, had_error := false, error_message := "",
    error_token := r1.1, created := 0, freed := 0 }

/-- The function `parser_advance`. -/
def parser_advance (parser : Parser) : Parser :=
  let r := lexer_next_token parser.lexer
  { parser with current := parser.next, next := r.1, lexer := r.2 }

/-- The function `parser_check`. -/
def parser_check (parser : Parser) (type : TokenType) : Bool :=
  parser.current.type = type

/-- The function `parser_consume`: the token returned and the new state. -/
def parser_consume (parser : Parser) (type : TokenType) (message : String) : Token × Parser :=
  if parser.current.type = type then (parser.current, parser_advance parser)
  else (parser.current, parser_error parser parser.current message)

/-- The function `parser_match`. -/
def parser_match (parser : Parser) (type : TokenType) : Bool × Parser :=
  if parser_check parser type then (true, parser_advance parser)
  else (false, parser)

/-- The function `parse_identifier_node`. -/
def parse_identifier_node (parser : Parser) : Option ASTNode × Parser :=
  let r := parser_consume parser TOKEN_IDENTIFIER "Se esperaba un identificador."
  if r.2.had_error then (none, r.2)
  else (ast_create AST_IDENTIFIER r.1, r.2.allocated)

/-- The function `parser_has_error`. -/
def parser_has_error (parser : Parser) : Bool :=
  parser.had_error

/-- The function `parser_error_message`. -/
def parser_error_message (parser : Parser) : String :=
  parser.error_message

/-- The function `parser_error_token`. -/
def parser_error_token (parser : Parser) : Token :=
  parser.error_token

/-! ### Expressions

The rules of the expression ladder call each other in a cycle that goes through
`parse_expression`. Each rule below takes the function `expr` it calls for
`parse_expression`, and `parse_expression` closes the cycle by recursion on the
fuel. The argument `fuel` of a rule bounds its own loop. -/

/-- The `while (true)` loop of `parse_argument_list`. -/
def argument_loop (expr : Parser → Res) : Nat → Option ASTNode → Parser → Res
  | 0, _, _ => none
  | fuel + 1, args, parser =>
    match expr parser with
    | none => none
    | some (e, parser1) =>
      if e.isNone then some (none, parser1.released args)
      else
        let r := parser_match parser1 TOKEN_COMMA
        if r.1 then argument_loop expr fuel (ast_add_child args e) r.2
        else some (ast_add_child args e, r.2)

/-- The function `parse_argument_list`. -/
def parse_argument_list (expr : Parser → Res) (fuel : Nat) (parser : Parser) : Res :=
  let args := ast_create AST_ARG_LIST parser.current
  let parser1 := parser.allocated
  if parser_check parser1 TOKEN_RPAREN then some (args, parser1)
  else argument_loop expr fuel args parser1

/-- The function `parse_call`. -/
def parse_call (expr : Parser → Res) (fuel : Nat) (parser : Parser) (callee : Option ASTNode) :
    Res :=
  let call_token := parser.current
  let parser1 := (parser_consume parser TOKEN_LPAREN "Se esperaba '(' en la llamada.").2
  match parse_argument_list expr fuel parser1 with
  | none => none
  | some (args, parser2) =>
    let parser3 := (parser_consume parser2 TOKEN_RPAREN "Se esperaba ')' al cerrar la llamada.").2
    if parser3.had_error || callee.isNone || args.isNone then
      some (none, (parser3.released callee).released args)
    else
      some (ast_add_child (ast_add_child (ast_create AST_CALL call_token) callee) args,
        parser3.allocated)

/-- The `while (true)` loop of `parse_array_literal`, up to the `break`. -/
def array_loop (expr : Parser → Res) : Nat → Option ASTNode → Parser → Res
  | 0, _, _ => none
  | fuel + 1, array, parser =>
    match expr parser with
    | none => none
    | some (value, parser1) =>
      if value.isNone then some (none, parser1.released array)
      else
        let r := parser_match parser1 TOKEN_COMMA
        if r.1 then array_loop expr fuel (ast_add_child array value) r.2
        else some (ast_add_child array value, r.2)

/-- The function `parse_array_literal`. -/
def parse_array_literal (expr : Parser → Res) (fuel : Nat) (parser : Parser) : Res :=
  let r := parser_consume parser TOKEN_LBRACKET "Se esperaba '['."
  let array := ast_create AST_ARRAY_LITERAL r.1
  let parser1 := r.2.allocated
  if !parser_check parser1 TOKEN_RBRACKET then
    match array_loop expr fuel array parser1 with
    | none => none
    | some (array1, parser2) =>
      if array1.isNone then some (none, parser2)
      else
        some (array1, (parser_consume parser2 TOKEN_RBRACKET "Se esperaba ']' tras el arreglo.").2)
  else
    some (array, (parser_consume parser1 TOKEN_RBRACKET "Se esperaba ']' tras el arreglo.").2)

/-- The function `parse_primary`. -/
def parse_primary (expr : Parser → Res) (fuel : Nat) (parser : Parser) : Res :=
  let token := parser.current
  if token.type = TOKEN_NUMBER ∨ token.type = TOKEN_STRING ∨ token.type = TOKEN_CHAR ∨
      token.type = TOKEN_TRUE ∨ token.type = TOKEN_FALSE then
    some (ast_create AST_LITERAL token, (parser_advance parser).allocated)
  else if token.type = TOKEN_IDENTIFIER then
    let r := parse_identifier_node parser
    if r.2.current.type = TOKEN_LPAREN then parse_call expr fuel r.2 r.1
    else some r
  else if token.type = TOKEN_LPAREN then
    match expr (parser_advance parser) with
    | none => none
    | some (e, parser1) =>
      some (e, (parser_consume parser1 TOKEN_RPAREN "Se esperaba ')' tras la expresión.").2)
  else if token.type = TOKEN_LBRACKET then parse_array_literal expr fuel parser
  else some (none, parser_error parser token "Expresión primaria inválida.")

/-- The function `parse_unary`; the first argument bounds the depth of its
recursion. -/
def parse_unary (expr : Parser → Res) : Nat → Parser → Res
  | 0, _ => none
  | fuel + 1, parser =>
    if parser_check parser TOKEN_MINUS || parser_check parser TOKEN_BANG ||
        parser_check parser TOKEN_PLUSPLUS || parser_check parser TOKEN_MINUSMINUS then
      let op := parser.current
      match parse_unary expr fuel (parser_advance parser) with
      | none => none
      | some (e, parser1) =>
        some (ast_add_child (ast_create AST_EXPRESSION op) e, parser1.allocated)
    else parse_primary expr (fuel + 1) parser

/-- The `while` loop shared, up to the operators `ops` it loops on and the rule
`operand` it calls, by `parse_or`, `parse_and`, `parse_eq`, `parse_rel`,
`parse_add` and `parse_mul`. -/
def binary_loop (ops : List TokenType) (operand : Parser → Res) :
    Nat → Option ASTNode → Parser → Res
  | 0, _, _ => none
  | fuel + 1, left, parser =>
    if ops.any (fun type => parser_check parser type) then
      let op := parser.current
      match operand (parser_advance parser) with
      | none => none
      | some (right, parser1) =>
        binary_loop ops operand fuel
          (ast_add_child (ast_add_child (ast_create AST_EXPRESSION op) left) right)
          parser1.allocated
    else some (left, parser)

/-- The function `parse_mul`. -/
def parse_mul (expr : Parser → Res) (fuel : Nat) (parser : Parser) : Res :=
  match parse_unary expr fuel parser with
  | none => none
  | some (left, parser1) =>
    binary_loop [TOKEN_STAR, TOKEN_SLASH, TOKEN_PERCENT] (parse_unary expr fuel) fuel left parser1

/-- The function `parse_add`. -/
def parse_add (expr : Parser → Res) (fuel : Nat) (parser : Parser) : Res :=
  match parse_mul expr fuel parser with
  | none => none
  | some (left, parser1) =>
    binary_loop [TOKEN_PLUS, TOKEN_MINUS] (parse_mul expr fuel) fuel left parser1

/-- The function `parse_rel`. -/
def parse_rel (expr : Parser → Res) (fuel : Nat) (parser : Parser) : Res :=
  match parse_add expr fuel parser with
  | none => none
  | some (left, parser1) =>
    binary_loop [TOKEN_LT, TOKEN_LTE, TOKEN_GT, TOKEN_GTE] (parse_add expr fuel) fuel left parser1

/-- The function `parse_eq`. -/
def parse_eq (expr : Parser → Res) (fuel : Nat) (parser : Parser) : Res :=
  match parse_rel expr fuel parser with
  | none => none
  | some (left, parser1) =>
    binary_loop [TOKEN_EQEQ, TOKEN_BANGEQ] (parse_rel expr fuel) fuel left parser1

/-- The function `parse_and`. -/
def parse_and (expr : Parser → Res) (fuel : Nat) (parser : Parser) : Res :=
  match parse_eq expr fuel parser with
  | none => none
  | some (left, parser1) =>
    binary_loop [TOKEN_ANDAND] (parse_eq expr fuel) fuel left parser1

/-- The function `parse_or`. -/
def parse_or (expr : Parser → Res) (fuel : Nat) (parser : Parser) : Res :=
  match parse_and expr fuel parser with
  | none => none
  | some (left, parser1) =>
    binary_loop [TOKEN_OROR] (parse_and expr fuel) fuel left parser1

/-- The function `parse_expression`. -/
def parse_expression : Nat → Parser → Res
  | 0, _ => none
  | fuel + 1, parser => parse_or (parse_expression fuel) (fuel + 1) parser

/-! ### Instructions

The rules with a block call `parse_instruction_list`, which calls them back
through `parse_instruction`. Each of them takes the function `block` it calls
for `parse_instruction_list`, and `parse_instruction_list` closes the cycle by
recursion on the fuel. -/

/-- The function `parse_declaration`. -/
def parse_declaration (fuel : Nat) (parser : Parser) : Res :=
  let type_token := parser.current
  let parser1 := (parser_advance parser).allocated
  let node := ast_create AST_DECLARATION type_token
  let r := parse_identifier_node parser1
  if r.1.isNone then some (none, r.2.released node)
  else
    let parser2 := (parser_consume r.2 TOKEN_EQ "Se esperaba '=' en la declaración.").2
    if parser2.had_error then some (none, (parser2.released node).released r.1)
    else
      match parse_expression fuel parser2 with
      | none => none
      | some (e, parser3) =>
        let parser4 :=
          (parser_consume parser3 TOKEN_SEMICOLON "Se esperaba ';' al final de la declaración.").2
        if parser4.had_error || e.isNone then
          some (none, ((parser4.released node).released r.1).released e)
        else some (ast_add_child (ast_add_child node r.1) e, parser4)

/-- The function `parse_array_declaration`. -/
def parse_array_declaration (fuel : Nat) (parser : Parser) : Res :=
  let array_token := parser.current
  let parser1 := (parser_advance parser).allocated
  let node := ast_create AST_DECLARATION array_token
  let r := parse_identifier_node parser1
  let parser2 :=
    (parser_consume r.2 TOKEN_EQ "Se esperaba '=' en la declaración de arreglo.").2
  match parse_array_literal (parse_expression fuel) fuel parser2 with
  | none => none
  | some (array_literal, parser3) =>
    let parser4 :=
      (parser_consume parser3 TOKEN_SEMICOLON "Se esperaba ';' tras la declaración de arreglo.").2
    if parser4.had_error || r.1.isNone || array_literal.isNone then
      some (none, ((parser4.released node).released r.1).released array_literal)
    else some (ast_add_child (ast_add_child node r.1) array_literal, parser4)

/-- The function `parse_assignment`. -/
def parse_assignment (fuel : Nat) (parser : Parser) : Res :=
  let r := parse_identifier_node parser
  let parser1 := (parser_consume r.2 TOKEN_EQ "Se esperaba '=' en la asignación.").2
  match parse_expression fuel parser1 with
  | none => none
  | some (e, parser2) =>
    let parser3 := (parser_consume parser2 TOKEN_SEMICOLON "Se esperaba ';' tras la asignación.").2
    match r.1 with
    | none => some (none, (parser3.released r.1).released e)
    | some identifier =>
      if parser3.had_error || e.isNone then some (none, (parser3.released r.1).released e)
      else
        some (ast_add_child (ast_add_child (ast_create AST_ASSIGNMENT identifier.token) r.1) e,
          parser3.allocated)

/-- The function `parse_if`. -/
def parse_if (block : Bool → Parser → Res) (fuel : Nat) (parser : Parser) : Res :=
  let if_token := parser.current
  let parser1 := parser_advance parser
  let parser2 := (parser_consume parser1 TOKEN_LPAREN "Se esperaba '(' en la condición del if.").2
  match parse_expression fuel parser2 with
  | none => none
  | some (condition, parser3) =>
    let parser4 :=
      (parser_consume parser3 TOKEN_RPAREN "Se esperaba ')' tras la condición del if.").2
    let parser5 :=
      (parser_consume parser4 TOKEN_LBRACE "Se esperaba '\x7b' para iniciar el bloque del if.").2
    match block true parser5 with
    | none => none
    | some (body, parser6) =>
      let parser7 :=
        (parser_consume parser6 TOKEN_RBRACE "Se esperaba '\x7d' al cerrar el bloque del if.").2
      if parser7.had_error || condition.isNone || body.isNone then
        some (none, (parser7.released condition).released body)
      else
        some (ast_add_child (ast_add_child (ast_create AST_IF if_token) condition) body,
          parser7.allocated)

/-- The function `parse_for`. -/
def parse_for (block : Bool → Parser → Res) (parser : Parser) : Res :=
  let for_token := parser.current
  let parser1 := parser_advance parser
  let parser2 := (parser_consume parser1 TOKEN_LPAREN "Se esperaba '(' en el for.").2
  let iterator := parse_identifier_node parser2
  let parser3 :=
    (parser_consume iterator.2 TOKEN_KW_IN "Se esperaba la palabra clave 'in'.").2
  let iterable := parse_identifier_node parser3
  let parser4 :=
    (parser_consume iterable.2 TOKEN_RPAREN "Se esperaba ')' tras la cabecera del for.").2
  let parser5 :=
    (parser_consume parser4 TOKEN_LBRACE "Se esperaba '\x7b' para el cuerpo del for.").2
  match block true parser5 with
  | none => none
  | some (body, parser6) =>
    let parser7 := (parser_consume parser6 TOKEN_RBRACE "Se esperaba '\x7d' al cerrar el for.").2
    if parser7.had_error || iterator.1.isNone || iterable.1.isNone || body.isNone then
      some (none, ((parser7.released iterator.1).released iterable.1).released body)
    else
      some (ast_add_child
          (ast_add_child (ast_add_child (ast_create AST_FOR for_token) iterator.1) iterable.1)
          body,
        parser7.allocated)

/-- The function `parse_while`. -/
def parse_while (block : Bool → Parser → Res) (fuel : Nat) (parser : Parser) : Res :=
  let while_token := parser.current
  let parser1 := parser_advance parser
  let parser2 := (parser_consume parser1 TOKEN_LPAREN "Se esperaba '(' en el while.").2
  match parse_expression fuel parser2 with
  | none => none
  | some (condition, parser3) =>
    let parser4 :=
      (parser_consume parser3 TOKEN_RPAREN "Se esperaba ')' tras la condición del while.").2
    let parser5 :=
      (parser_consume parser4 TOKEN_LBRACE "Se esperaba '\x7b' para el cuerpo del while.").2
    match block true parser5 with
    | none => none
    | some (body, parser6) =>
      let parser7 :=
        (parser_consume parser6 TOKEN_RBRACE "Se esperaba '\x7d' al cerrar el while.").2
      if parser7.had_error || condition.isNone || body.isNone then
        some (none, (parser7.released condition).released body)
      else
        some (ast_add_child (ast_add_child (ast_create AST_WHILE while_token) condition) body,
          parser7.allocated)

/-- The `while (true)` loop of `parse_parameter_list`. -/
def parameter_loop : Nat → Option ASTNode → Parser → Res
  | 0, _, _ => none
  | fuel + 1, params, parser =>
    let param := parse_identifier_node parser
    if param.1.isNone then some (none, param.2.released params)
    else
      let r := parser_match param.2 TOKEN_COMMA
      if r.1 then parameter_loop fuel (ast_add_child params param.1) r.2
      else some (ast_add_child params param.1, r.2)

/-- The function `parse_parameter_list`. -/
def parse_parameter_list (fuel : Nat) (parser : Parser) : Res :=
  let params := ast_create AST_PARAM_LIST parser.current
  let parser1 := parser.allocated
  if parser1.current.type = TOKEN_RPAREN then some (params, parser1)
  else parameter_loop fuel params parser1

/-- The function `parse_return`. -/
def parse_return (fuel : Nat) (parser : Parser) : Res :=
  let return_token := parser.current
  let parser1 := parser_advance parser
  match parse_expression fuel parser1 with
  | none => none
  | some (e, parser2) =>
    let parser3 := (parser_consume parser2 TOKEN_SEMICOLON "Se esperaba ';' tras return.").2
    if parser3.had_error || e.isNone then some (none, parser3.released e)
    else some (ast_add_child (ast_create AST_RETURN return_token) e, parser3.allocated)

/-- The function `parse_function`. -/
def parse_function (block : Bool → Parser → Res) (fuel : Nat) (parser : Parser) : Res :=
  let func_token := parser.current
  let parser1 := parser_advance parser
  let name := parse_identifier_node parser1
  let parser2 :=
    (parser_consume name.2 TOKEN_LPAREN "Se esperaba '(' tras el nombre de la función.").2
  match parse_parameter_list fuel parser2 with
  | none => none
  | some (params, parser3) =>
    let parser4 := (parser_consume parser3 TOKEN_RPAREN "Se esperaba ')' tras los parámetros.").2
    let parser5 :=
      (parser_consume parser4 TOKEN_LBRACE "Se esperaba '\x7b' para el cuerpo de la función.").2
    match block true parser5 with
    | none => none
    | some (body, parser6) =>
      match (if parser_check parser6 TOKEN_KW_RETURN then parse_return fuel parser6
             else some (none, parser6)) with
      | none => none
      | some (maybe_return, parser7) =>
        let parser8 :=
          (parser_consume parser7 TOKEN_RBRACE "Se esperaba '\x7d' al cerrar la función.").2
        if parser8.had_error || name.1.isNone || params.isNone || body.isNone then
          some (none,
            (((parser8.released name.1).released params).released body).released maybe_return)
        else
          some (ast_add_child
              (ast_add_child
                (ast_add_child (ast_add_child (ast_create AST_FUNCTION func_token) name.1) params)
                body)
              maybe_return,
            parser8.allocated)

/-- The function `parse_call_statement`. -/
def parse_call_statement (fuel : Nat) (parser : Parser) : Res :=
  let callee := parse_identifier_node parser
  match parse_call (parse_expression fuel) fuel callee.2 callee.1 with
  | none => none
  | some (call, parser1) =>
    some (call, (parser_consume parser1 TOKEN_SEMICOLON "Se esperaba ';' tras la llamada.").2)

/-- The function `parse_special_call`. -/
def parse_special_call (fuel : Nat) (parser : Parser) (keyword : Token) : Res :=
  let parser1 := parser_advance parser
  let parser2 := (parser_consume parser1 TOKEN_LPAREN "Se esperaba '(' tras llamada especial.").2
  match parse_argument_list (parse_expression fuel) fuel parser2 with
  | none => none
  | some (args, parser3) =>
    let parser4 :=
      (parser_consume parser3 TOKEN_RPAREN "Se esperaba ')' en la llamada especial.").2
    let call := ast_add_child (ast_create AST_CALL keyword) args
    let parser5 := parser4.allocated
    if keyword.type = TOKEN_KW_CREAD then
      let destination := parse_identifier_node parser5
      some (ast_add_child call destination.1,
        (parser_consume destination.2 TOKEN_SEMICOLON
          "Se esperaba ';' tras la llamada especial.").2)
    else
      some (call,
        (parser_consume parser5 TOKEN_SEMICOLON "Se esperaba ';' tras la llamada especial.").2)

/-- The function `parse_expression_statement`. -/
def parse_expression_statement (fuel : Nat) (parser : Parser) : Res :=
  match parse_expression fuel parser with
  | none => none
  | some (e, parser1) =>
    let parser2 := (parser_consume parser1 TOKEN_SEMICOLON "Se esperaba ';' tras la expresión.").2
    match e with
    | none => some (none, parser2.released e)
    | some node =>
      if parser2.had_error then some (none, parser2.released e)
      else some (ast_add_child (ast_create AST_EXPRESSION node.token) e, parser2.allocated)

/-- The function `parse_instruction`. -/
def parse_instruction (block : Bool → Parser → Res) (fuel : Nat) (parser : Parser) : Res :=
  let type := parser.current.type
  if type = TOKEN_KW_INT ∨ type = TOKEN_KW_FLOAT ∨ type = TOKEN_KW_CHAR ∨ type = TOKEN_KW_BOOL then
    parse_declaration fuel parser
  else if type = TOKEN_KW_ARRAY then parse_array_declaration fuel parser
  else if type = TOKEN_KW_IF then parse_if block fuel parser
  else if type = TOKEN_KW_FOR then parse_for block parser
  else if type = TOKEN_KW_WHILE then parse_while block fuel parser
  else if type = TOKEN_KW_FUNC then parse_function block fuel parser
  else if type = TOKEN_KW_RETURN then parse_return fuel parser
  else if type = TOKEN_KW_CSAY ∨ type = TOKEN_KW_CREAD then
    parse_special_call fuel parser parser.current
  else if type = TOKEN_IDENTIFIER then
    if parser.next.type = TOKEN_LPAREN then parse_call_statement fuel parser
    else parse_assignment fuel parser
  else parse_expression_statement fuel parser

/-- The `while` loop of `parse_instruction_list`. -/
def instruction_loop (instruction : Parser → Res) (stop_on_rbrace : Bool) :
    Nat → Option ASTNode → Parser → Res
  | 0, _, _ => none
  | fuel + 1, list, parser =>
    if parser_check parser TOKEN_EOF then some (list, parser)
    else if stop_on_rbrace && parser_check parser TOKEN_RBRACE then some (list, parser)
    else
      match instruction parser with
      | none => none
      | some (instr, parser1) =>
        if instr.isNone then some (none, parser1.released list)
        else instruction_loop instruction stop_on_rbrace fuel (ast_add_child list instr) parser1

/-- The function `parse_instruction_list`. -/
def parse_instruction_list : Nat → Bool → Parser → Res
  | 0, _, _ => none
  | fuel + 1, stop_on_rbrace, parser =>
    instruction_loop (parse_instruction (parse_instruction_list fuel) (fuel + 1)) stop_on_rbrace
      (fuel + 1) (ast_create AST_INSTRUCTION_LIST parser.current) parser.allocated

/-- The function `parser_parse`. -/
def parser_parse (fuel : Nat) (parser : Parser) : Res :=
  let program := ast_create AST_PROGRAM parser.current
  match parse_instruction_list fuel false parser.allocated with
  | none => none
  | some (instructions, parser1) =>
    if instructions.isNone then some (none, parser1.released program)
    else
      let program1 := ast_add_child program instructions
      if !parser1.had_error && parser1.current.type ≠ TOKEN_EOF then
        let parser2 := parser_error parser1 parser1.current "Fin inesperado del programa."
        some (none, parser2.released program1)
      else some (if parser1.had_error then none else program1, parser1)

/-- Fuel that suffices to parse from a state: one more than the number of
characters the tokenizer has not read, plus the two buffered tokens. -/
def parse_fuel (parser : Parser) : Nat :=
  parser.lexer.length - parser.lexer.position + 3

/-- The calls `parser_init(&parser, source, source_size)` and
`parser_parse(&parser)` of `main` on a source buffer. -/
def parse (source : List Char) : Res :=
  parser_parse (parse_fuel (parser_init source source.length))
    (parser_init source source.length)

/-! ## Definitions used in the statements -/

/-- The relation between a tokenizer state and a later one: same buffer, and an
offset that has not moved back nor past the end of the buffer. -/
def Lexer.Step (a b : Lexer) : Prop :=
  b.source = a.source ∧ b.length = a.length ∧ a.position ≤ b.position ∧
    (a.position ≤ a.length → b.position ≤ a.length)

/-- A token `r.1` returned with state `r.2` that starts at the offset of the
state `s` and is not the end-of-input token: its lexeme is the part of the
buffer the tokenizer has moved over since `s`, which is not empty. -/
def Lexer.Scanned (s : Lexer) (r : Token × Lexer) : Prop :=
  Lexer.Step s r.2 ∧ r.1.lexeme = some s.position ∧ r.1.length = r.2.position - s.position ∧
    s.position < r.2.position ∧ r.1.type ≠ TOKEN_EOF

/-- The characters of a buffer from offset `a` up to, not including, offset `b`. -/
def slice (source : List Char) (a b : Nat) : List Char :=
  (source.drop a).take (b - a)

/-- The pieces of a buffer in scan order, by repeated `lexer_next_token` up to
and including the end-of-input token: before every token the span skipped as
ignorable, then the lexeme of the token. -/
def scan_pieces : Nat → Lexer → List (List Char)
  | 0, _ => []
  | fuel + 1, lexer =>
    let r := lexer_next_token lexer
    let skipped := slice lexer.source lexer.position (skip_ignorable lexer).position
    if r.1.type = TOKEN_EOF then [skipped, r.1.text lexer.source]
    else skipped :: r.1.text lexer.source :: scan_pieces fuel r.2


/-- The number of tokens a parser state can still consume: at most the
characters the tokenizer has not read, plus the two buffered tokens when they
are not end-of-input. -/
def Parser.remaining (parser : Parser) : Nat :=
  (parser.lexer.length - parser.lexer.position) +
    (if parser.next.type = TOKEN_EOF then 0 else 1) +
    (if parser.current.type = TOKEN_EOF then 0 else 1)

/-- A state with the error flag set has a message recorded. -/
def Parser.Recorded (parser : Parser) : Prop :=
  parser.had_error = true → parser.error_message ≠ ""

/-- The state `b` keeps the error record of the state `a`. -/
def Parser.Keeps (a b : Parser) : Prop :=
  b.had_error = true ∧ b.error_token = a.error_token ∧ b.error_message = a.error_message

/-- The tokenizer state after `k` calls of `lexer_next_token` on a buffer. -/
def lexer_at (source : List Char) (length : Nat) : Nat → Lexer
  | 0 => lexer_init source length
  | k + 1 => (lexer_next_token (lexer_at source length k)).2

/-- The token number `k`, from 0, of a buffer; after the end-of-input token
come end-of-input tokens. -/
def token_at (source : List Char) (length : Nat) (k : Nat) : Token :=
  (lexer_next_token (lexer_at source length k)).1

/-- The buffered tokens of the state are two consecutive tokens of the buffer,
the tokenizer is right after them, and the token of a recorded error is a
token of the buffer. -/
def Parser.Aligned (parser : Parser) : Prop :=
  ∃ k, parser.current = token_at parser.lexer.source parser.lexer.length k ∧
    parser.next = token_at parser.lexer.source parser.lexer.length (k + 1) ∧
    parser.lexer = lexer_at parser.lexer.source parser.lexer.length (k + 2) ∧
    (parser.had_error = true →
      ∃ j, parser.error_token = token_at parser.lexer.source parser.lexer.length j)

/-- The relation between a parser state and a later one of the same parse: the
same buffer, no more tokens left to consume, an error record that, once
written, stays as it is, and is that of a token of the buffer with a message. -/
def Parser.Frame (a b : Parser) : Prop :=
  b.lexer.source = a.lexer.source ∧ b.lexer.length = a.lexer.length ∧
    b.remaining ≤ a.remaining ∧ (a.had_error = true → a.Keeps b) ∧
    (a.Recorded → b.Recorded) ∧ (a.Aligned → b.Aligned)

/-- What holds when a rule called in state `a` returns `r` in state `b`: `b` is
a later state of `a`, a null result comes with the error flag set, and a node
returned with the flag clear satisfies `good`. -/
def Parser.Post (good : ASTNode → Prop) (a : Parser) (r : Option ASTNode) (b : Parser) : Prop :=
  a.Frame b ∧ (r = none → b.had_error = true) ∧
    ∀ t, r = some t → b.had_error = false → good t

/-- The rule `f` returns when called in the state `a`, and `Parser.Post` holds
of what it returns. -/
def Parser.Runs (f : Parser → Res) (good : ASTNode → Prop) (a : Parser) : Prop :=
  ∃ r b, f a = some (r, b) ∧ a.Post good r b

/-- The kinds of the nodes the expression rules return. -/
def ASTNode.is_expression (node : ASTNode) : Bool :=
  node.type = AST_EXPRESSION || node.type = AST_LITERAL || node.type = AST_IDENTIFIER ||
    node.type = AST_CALL || node.type = AST_ARRAY_LITERAL

/-- The child list a node kind fixes: `if` and `while` have a condition and an
instruction list, `for` two identifiers and an instruction list, a declaration
and an assignment an identifier and a value, `return` an expression. The other
kinds fix nothing. -/
def children_fixed (type : ASTNodeType) (children : List ASTNode) : Bool :=
  match type with
  | AST_IF | AST_WHILE =>
    match children with
    | [condition, body] => condition.is_expression && body.type = AST_INSTRUCTION_LIST
    | _ => false
  | AST_FOR =>
    match children with
    | [iterator, iterable, body] =>
      iterator.type = AST_IDENTIFIER && iterable.type = AST_IDENTIFIER &&
        body.type = AST_INSTRUCTION_LIST
    | _ => false
  | AST_DECLARATION | AST_ASSIGNMENT =>
    match children with
    | [identifier, value] => identifier.type = AST_IDENTIFIER && value.is_expression
    | _ => false
  | AST_RETURN =>
    match children with
    | [value] => value.is_expression
    | _ => false
  | _ => true

mutual
/-- Every node of the tree has the child list its kind fixes. -/
def ASTNode.shaped : ASTNode → Bool
  | .mk type _ children => children_fixed type children && ASTNode.shapedList children
/-- Every node of every tree of the list has the child list its kind fixes. -/
def ASTNode.shapedList : List ASTNode → Bool
  | [] => true
  | child :: rest => child.shaped && ASTNode.shapedList rest
end

/-- What the expression rules return: a shaped node of an expression kind. -/
def ASTNode.ExprGood (node : ASTNode) : Prop :=
  node.shaped = true ∧ node.is_expression = true

/-- What the list rules return for the kind `kind`: a shaped node of that kind. -/
def ASTNode.KindGood (kind : ASTNodeType) (node : ASTNode) : Prop :=
  node.type = kind ∧ node.shaped = true

/-- The node a loop appends to, in a state: a node of kind `kind` whose
children, when the error flag is clear, are shaped. -/
def ListAcc (kind : ASTNodeType) (acc : Option ASTNode) (parser : Parser) : Prop :=
  ∃ token children, acc = some (.mk kind token children) ∧
    (parser.had_error = false → ∀ c ∈ children, c.shaped = true)

/-- A nullable node handed to a rule in a state: null only with the error flag
set, and satisfying `good` when the flag is clear. -/
def NodeArg (good : ASTNode → Prop) (node : Option ASTNode) (parser : Parser) : Prop :=
  (node = none → parser.had_error = true) ∧
    ∀ t, node = some t → parser.had_error = false → good t

/-- What the instruction rules return: a shaped node. -/
def ASTNode.Shaped (node : ASTNode) : Prop :=
  node.shaped = true

/-- The value `res` is what an instruction rule called in the state `a` may
return: a result of which `Parser.Post` holds and which, when it is a node and
the rule was not called at the end of the input, comes after the consumption
of a token. -/
def Parser.InstrOk (a : Parser) (res : Res) : Prop :=
  ∃ r b, res = some (r, b) ∧ a.Post ASTNode.Shaped r b ∧
    (a.current.type ≠ TOKEN_EOF → r.isSome = true → b.remaining < a.remaining)

/-- The rule `f` returns when called in the state `a`, with `Parser.InstrOk`. -/
def Parser.RunsInstr (f : Parser → Res) (a : Parser) : Prop :=
  a.InstrOk (f a)

/-- What a block rule returns. -/
def Parser.RunsBlock (block : Bool → Parser → Res) (bound : Nat) : Prop :=
  ∀ (stop_on_rbrace : Bool) (q : Parser), q.remaining < bound →
    q.Runs (block stop_on_rbrace) (ASTNode.KindGood AST_INSTRUCTION_LIST)

/-- The grammar rules of the parser. -/
inductive Rule where
  | program
  | instruction_list (stop_on_rbrace : Bool)
  | instruction
  | declaration
  | array_declaration
  | assignment
  | if_statement
  | for_statement
  | while_statement
  | parameter_list
  | function
  | return_statement
  | argument_list
  | call (callee : Option ASTNode)
  | call_statement
  | special_call (keyword : Token)
  | expression_statement
  | expression
  | or_level
  | and_level
  | eq_level
  | rel_level
  | add_level
  | mul_level
  | unary
  | primary
  | array_literal
  | identifier_node

/-- A grammar rule as a function of the parser state, with the fuel that
suffices for a state with at most `n` tokens left: `parse_expression` and
`parse_instruction_list` are called with fuel `n + 1`. -/
def Rule.run (n : Nat) : Rule → Parser → Res
  | .program => parser_parse (n + 1)
  | .instruction_list stop_on_rbrace => parse_instruction_list (n + 1) stop_on_rbrace
  | .instruction => parse_instruction (parse_instruction_list (n + 1)) (n + 1)
  | .declaration => parse_declaration (n + 1)
  | .array_declaration => parse_array_declaration (n + 1)
  | .assignment => parse_assignment (n + 1)
  | .if_statement => parse_if (parse_instruction_list (n + 1)) (n + 1)
  | .for_statement => parse_for (parse_instruction_list (n + 1))
  | .while_statement => parse_while (parse_instruction_list (n + 1)) (n + 1)
  | .parameter_list => parse_parameter_list (n + 1)
  | .function => parse_function (parse_instruction_list (n + 1)) (n + 1)
  | .return_statement => parse_return (n + 1)
  | .argument_list => parse_argument_list (parse_expression (n + 1)) (n + 1)
  | .call callee => fun parser => parse_call (parse_expression (n + 1)) (n + 1) parser callee
  | .call_statement => parse_call_statement (n + 1)
  | .special_call keyword => fun parser => parse_special_call (n + 1) parser keyword
  | .expression_statement => parse_expression_statement (n + 1)
  | .expression => parse_expression (n + 1)
  | .or_level => parse_or (parse_expression (n + 1)) (n + 2)
  | .and_level => parse_and (parse_expression (n + 1)) (n + 2)
  | .eq_level => parse_eq (parse_expression (n + 1)) (n + 2)
  | .rel_level => parse_rel (parse_expression (n + 1)) (n + 2)
  | .add_level => parse_add (parse_expression (n + 1)) (n + 2)
  | .mul_level => parse_mul (parse_expression (n + 1)) (n + 2)
  | .unary => parse_unary (parse_expression (n + 1)) (n + 2)
  | .primary => parse_primary (parse_expression (n + 1)) (n + 2)
  | .array_literal => parse_array_literal (parse_expression (n + 1)) (n + 1)
  | .identifier_node => fun parser => some (parse_identifier_node parser)

/-- A tree reduced to the kinds and the lexemes of its nodes. -/
inductive Outline where
  | node (kind : ASTNodeType) (lexeme : String) (children : List Outline)

mutual
/-- The outline of a tree built from the buffer `source`. -/
def ASTNode.outline (source : List Char) : ASTNode → Outline
  | .mk type token children =>
    .node type (String.mk (token.text source)) (ASTNode.outlineList source children)
/-- The outlines of a list of trees. -/
def ASTNode.outlineList (source : List Char) : List ASTNode → List Outline
  | [] => []
  | child :: rest => child.outline source :: ASTNode.outlineList source rest
end

/-- What a parse of a source text gives: the outline of the tree returned, if
any, the error flag, the recorded message, the lexeme of the recorded token,
and the number of nodes allocated and not released. -/
def parse_summary (source : String) :
    Option (Option Outline × Bool × String × String × Int) :=
  (parse source.toList).map fun r =>
    (r.1.map (ASTNode.outline source.toList), parser_has_error r.2, parser_error_message r.2,
      String.mk ((parser_error_token r.2).text source.toList), r.2.live)

/-- What a rule returned on a source buffer: the outline of the node, if any,
the error flag and the recorded message. -/
def result_summary (source : List Char) (res : Res) : Option (Option Outline × Bool × String) :=
  res.map fun r => (r.1.map (ASTNode.outline source), r.2.had_error, r.2.error_message)


/-- A tokenizer state inside its buffer: `length` is the length of the buffer
and the offset is not past it. -/
def Lexer.WF (lexer : Lexer) : Prop :=
  lexer.length = lexer.source.length ∧ lexer.position ≤ lexer.length

/-- The characters the tokenizer has not read. -/
def Lexer.rest (lexer : Lexer) : List Char :=
  lexer.source.drop lexer.position

/-- The two-character operators: first character, second character, kind. -/
def two_char_operators : List (Char × Char × TokenType) :=
  [ ('+', '+', TOKEN_PLUSPLUS), ('-', '-', TOKEN_MINUSMINUS), ('=', '=', TOKEN_EQEQ),
    ('!', '=', TOKEN_BANGEQ), ('<', '=', TOKEN_LTE), ('>', '=', TOKEN_GTE),
    ('&', '&', TOKEN_ANDAND), ('|', '|', TOKEN_OROR) ]

/-- The one-character operators that begin a two-character one: the character,
the character that pairs with it, and the kind of the character alone. -/
def one_char_operators : List (Char × Char × TokenType) :=
  [ ('+', '+', TOKEN_PLUS), ('-', '-', TOKEN_MINUS), ('=', '=', TOKEN_EQ),
    ('!', '=', TOKEN_BANG), ('<', '=', TOKEN_LT), ('>', '=', TOKEN_GT) ]

/-- The kinds and lexemes of the token stream of a source buffer. -/
def token_texts (source : List Char) : List (TokenType × String) :=
  (tokenize source).map (fun token => (token.type, String.mk (token.text source)))

/-- The characters, other than letters, `_` and digits, that begin a token of
a kind of its own whatever follows: the quotes, the operators and the
punctuation. The characters `&` and `|` are not among them: they begin a token
of a kind of its own only when doubled. -/
def token_start_chars : List Char :=
  [DQUOTE, SQUOTE, '+', '-', '*', '/', '%', '=', '!', '<', '>', '(', ')', '{', '}', '[', ']',
    ',', ';', '.']

/-- The extent of a literal after its opening quote as the specification words
it, to be compared with `string_loop`: the number of characters from there up
to and including the first `quote` that is not the second character of a
backslash pair, or up to the end of the input when there is none. The input is
read left to right, a backslash forming a pair with the character after it. -/
def spec_literal_body (quote : Char) : List Char → Nat
  | [] => 0
  | [_] => 1
  | c :: d :: rest =>
    if c = quote then 1
    else if c = BACKSLASH then 2 + spec_literal_body quote rest
    else 1 + spec_literal_body quote (d :: rest)

/-- Two tokenizer states, each inside its buffer, with the same characters
left to read. -/
def Lexer.Sim (a b : Lexer) : Prop :=
  a.WF ∧ b.WF ∧ a.rest = b.rest

/-- Two results of `lexer_next_token`, from the states `s1` and `s2`, that are
the same token up to where it lies in its buffer: the same kind, length and
lexeme, and the same characters left to read. -/
def Lexer.SameToken (s1 s2 : Lexer) (r1 r2 : Token × Lexer) : Prop :=
  Lexer.Sim r1.2 r2.2 ∧ r1.1.type = r2.1.type ∧ r1.1.length = r2.1.length ∧
    r1.1.text s1.source = r2.1.text s2.source

/-- The characters `skip_whitespace` moves over. -/
def is_blank (c : Char) : Bool :=
  c == ' ' || c == '\t' || c == '\r' || c == '\n'

/-- The condition under which `skip_ignorable` calls `skip_comment`: the state
is at the opening of a comment. -/
def at_comment (lexer : Lexer) : Prop :=
  (lexer_peek lexer = '/' ∧ (lexer_peek_next lexer = '/' ∨ lexer_peek_next lexer = '*')) ∨
    lexer_peek lexer = '$' ∨ (lexer_peek lexer = '%' ∧ lexer_peek_next lexer = '%')

/-- The four forms of a comment with the given body: `//body` and `$body` with
the newline that ends them, `/*body*/` and `%%body%%`. -/
def comment_forms (body : List Char) : List (List Char) :=
  [ '/' :: '/' :: (body ++ ['\n']), '$' :: (body ++ ['\n']),
    '/' :: '*' :: (body ++ ['*', '/']), '%' :: '%' :: (body ++ ['%', '%']) ]

/-- The source `a = 1;` and a newline, followed by the characters `tail`. -/
def statement_then (tail : List Char) : List Char :=
  'a' :: ' ' :: '=' :: ' ' :: '1' :: ';' :: '\n' :: tail

/-- The tokenizer state at an offset of the first line of `statement_then tail`. -/
def statement_state (tail : List Char) (position column : Nat) : Lexer :=
  { source := statement_then tail, length := tail.length + 7, position := position, line := 1,
    column := column }


/-- The state with `n` more nodes allocated. -/
def Parser.bump (parser : Parser) (n : Nat) : Parser :=
  { parser with created := parser.created + n }

/-- The state after `k` calls of `parser_advance`. -/
def Parser.skip : Nat → Parser → Parser
  | 0, parser => parser
  | k + 1, parser => Parser.skip k (parser_advance parser)

/-- The token `k` tokens ahead of the current one: `current` for 0, `next` for
1, then the tokens the tokenizer returns. -/
def Parser.ahead (parser : Parser) (k : Nat) : Token :=
  (Parser.skip k parser).current

/-- The level of the expression ladder at which a token is a binary operator,
from the tightest: 1 for `* / %` (`parse_mul`), 2 for `+ -` (`parse_add`), 3 for
`< <= > >=` (`parse_rel`), 4 for `== !=` (`parse_eq`), 5 for `&&` (`parse_and`),
6 for `||` (`parse_or`); 0 for a token that is no binary operator. -/
def binary_level (type : TokenType) : Nat :=
  match type with
  | TOKEN_STAR | TOKEN_SLASH | TOKEN_PERCENT => 1
  | TOKEN_PLUS | TOKEN_MINUS => 2
  | TOKEN_LT | TOKEN_LTE | TOKEN_GT | TOKEN_GTE => 3
  | TOKEN_EQEQ | TOKEN_BANGEQ => 4
  | TOKEN_ANDAND => 5
  | TOKEN_OROR => 6
  | _ => 0

/-- The operators the loop of a level of the ladder loops on. -/
def level_ops : Nat → List TokenType
  | 1 => [TOKEN_STAR, TOKEN_SLASH, TOKEN_PERCENT]
  | 2 => [TOKEN_PLUS, TOKEN_MINUS]
  | 3 => [TOKEN_LT, TOKEN_LTE, TOKEN_GT, TOKEN_GTE]
  | 4 => [TOKEN_EQEQ, TOKEN_BANGEQ]
  | 5 => [TOKEN_ANDAND]
  | 6 => [TOKEN_OROR]
  | _ => []

/-- The ladder by level: `parse_unary` at level 0, then `parse_mul`,
`parse_add`, `parse_rel`, `parse_eq`, `parse_and` and `parse_or` at the levels
1 to 6 (`parse_level_eq`). -/
def parse_level (expr : Parser → Res) (fuel : Nat) : Nat → Parser → Res
  | 0 => parse_unary expr fuel
  | k + 1 => fun parser =>
    match parse_level expr fuel k parser with
    | none => none
    | some (left, parser1) =>
      binary_loop (level_ops (k + 1)) (parse_level expr fuel k) fuel left parser1

/-- The node of an identifier. -/
def identifier_leaf (token : Token) : ASTNode :=
  .mk AST_IDENTIFIER token []

/-- The node of a binary operation. -/
def binary_node (op : Token) (left right : ASTNode) : ASTNode :=
  .mk AST_EXPRESSION op [left, right]

/-- The tree of `x0 op1 x1 ... opn xn` grouped to the left, the tokens being
those from the current one of the state on:
`(...((x0 op1 x1) op2 x2)...) opn xn`. -/
def left_chain : Nat → Parser → ASTNode
  | 0, parser => identifier_leaf parser.current
  | n + 1, parser =>
    binary_node (parser.ahead (2 * n + 1)) (left_chain n parser)
      (identifier_leaf (parser.ahead (2 * n + 2)))


/-- A piece of ignorable text: one blank character, or a comment in one of the
four forms whose body has no newline, `*`, `%` or NUL character. -/
def ignorable_piece (piece : List Char) : Prop :=
  (∃ c, piece = [c] ∧ is_blank c = true) ∨
    ∃ body, (∀ x ∈ body, x ≠ '\n' ∧ x ≠ '*' ∧ x ≠ '%' ∧ x ≠ NUL) ∧ piece ∈ comment_forms body

/-- The text begins a token or is empty: its first character is not blank and
its first two characters do not open a comment. -/
def begins_token (text : List Char) : Prop :=
  is_blank (text.getD 0 NUL) = false ∧
    ¬ ((text.getD 0 NUL = '/' ∧ (text.getD 1 NUL = '/' ∨ text.getD 1 NUL = '*')) ∨
      text.getD 0 NUL = '$' ∨ (text.getD 0 NUL = '%' ∧ text.getD 1 NUL = '%'))

/-- The state after `n` calls of `lexer_advance`. -/
def advance_times : Nat → Lexer → Lexer
  | 0, lexer => lexer
  | n + 1, lexer => advance_times n (lexer_advance lexer).2

/-- The state `b` is the state `a` after some calls of `lexer_advance`. -/
def Lexer.Advances (a b : Lexer) : Prop :=
  ∃ n, b = advance_times n a

/-- The number of newline characters of a text. -/
def newline_count (text : List Char) : Nat :=
  text.count '\n'

/-- The column after a text read from the start of a buffer: 1 plus the number
of characters after the last newline of the text, or of the text when it has
no newline. -/
def column_after (text : List Char) : Nat :=
  1 + (text.reverse.takeWhile (fun c => c != '\n')).length

/-- The line and column of the state are those of its offset: the line is 1
plus the number of newlines read, the column is the one after the text read. -/
def Lexer.Tracked (lexer : Lexer) : Prop :=
  lexer.line = 1 + newline_count (lexer.source.take lexer.position) ∧
    lexer.column = column_after (lexer.source.take lexer.position)

/-- The fields of `struct ASTNode` as `ast.c` uses them: the field `children`
is the block of pointers it points at (the empty block for the `NULL` of
`calloc`), each cell a nullable pointer, and `child_count` is a field of its
own. -/
structure NodeCells where
  type : ASTNodeType
  token : Token
  children : List (Option ASTNode)
  child_count : Nat

/-- The call `realloc(block, count * sizeof(ASTNode *))`, succeeding: a block
of `count` cells that keeps the cells of the old block up to the smaller of
the two sizes; the new cells are indeterminate, here `NULL`. -/
def realloc_block (block : List (Option ASTNode)) (count : Nat) : List (Option ASTNode) :=
  block.take count ++ List.replicate (count - block.length) none

/-- The function `ast_create` on the fields of the struct, with `calloc`
succeeding: all fields zero, then the kind and the token are set. -/
def ast_create_cells (type : ASTNodeType) (token : Token) : Option NodeCells :=
  some { type := type, token := token, children := [], child_count := 0 }

/-- The function `ast_add_child` on the fields of the struct, with `realloc`
succeeding: the parent after the call. -/
def ast_add_child_cells (parent : Option NodeCells) (child : Option ASTNode) :
    Option NodeCells :=
  match parent, child with
  | some p, some c =>
    let new_count := p.child_count + 1
    let new_children := realloc_block p.children new_count
    some { p with children := new_children.set p.child_count (some c), child_count := new_count }
  | parent, _ => parent

/-- The fields of the struct of a node: the block holds the children in order
and `child_count` is their number. -/
def ASTNode.cells (node : ASTNode) : NodeCells :=
  { type := node.type, token := node.token, children := node.children.map some,
    child_count := node.children.length }

/-- The buffered tokens of the state are the tokens number `k` and `k + 1` of
the buffer, and the tokenizer is right after them. -/
def Parser.At (source : List Char) (length : Nat) (parser : Parser) (k : Nat) : Prop :=
  parser.current = token_at source length k ∧ parser.next = token_at source length (k + 1) ∧
    parser.lexer = lexer_at source length (k + 2)

/-- The rule `expr` parses, from the state `a`, the expressions `es` separated
by commas, each to a node, and is in the state `b` after the last one, at a
token that is not a comma. -/
inductive Elements (expr : Parser → Res) : Parser → List ASTNode → Parser → Prop where
  | last (a b : Parser) (e : ASTNode) : expr a = some (some e, b) →
      b.current.type ≠ TOKEN_COMMA → Elements expr a [e] b
  | more (a a1 b : Parser) (e : ASTNode) (es : List ASTNode) : expr a = some (some e, a1) →
      a1.current.type = TOKEN_COMMA → Elements expr (parser_advance a1) es b →
      Elements expr a (e :: es) b

/-- The child list of a function node: an identifier, a parameter list and an
instruction list. -/
def function_children (children : List ASTNode) : Bool :=
  match children with
  | [name, params, body] =>
    decide (name.type = AST_IDENTIFIER) && decide (params.type = AST_PARAM_LIST) &&
      decide (body.type = AST_INSTRUCTION_LIST)
  | _ => false

mutual
/-- Every function node of the tree has the child list of a function node. -/
def ASTNode.functions_ok : ASTNode → Bool
  | .mk type _ children =>
    (decide (type ≠ AST_FUNCTION) || function_children children) &&
      ASTNode.functions_ok_list children
/-- Every function node of every tree of the list has the child list of a
function node. -/
def ASTNode.functions_ok_list : List ASTNode → Bool
  | [] => true
  | child :: rest => child.functions_ok && ASTNode.functions_ok_list rest
end

/-- A nullable node that, when not null, has the kind `kind` and function nodes
with the child list of a function node. -/
def NodeOk (kind : ASTNodeType) (node : Option ASTNode) : Prop :=
  ∀ t, node = some t → t.type = kind ∧ t.functions_ok = true

/-- A nullable node that, when not null, has function nodes with the child list
of a function node. -/
def TreeOk (node : Option ASTNode) : Prop :=
  ∀ t, node = some t → t.functions_ok = true

/-- The state records no error with the message of the trailing-token check of
`parser_parse`, and while its error flag is clear its buffered tokens are
tokens of the buffer before which there is no unknown token. -/
def Parser.Sound (source : List Char) (length : Nat) (parser : Parser) : Prop :=
  parser.error_message ≠ "Fin inesperado del programa." ∧
    (parser.had_error = false →
      ∃ k, parser.At source length k ∧
        ∀ i, i < k → (token_at source length i).type ≠ TOKEN_UNKNOWN)

/-- From the state `a` to the state `b` the error flag stays set and
`Parser.Sound` is kept. -/
def Parser.Trail (source : List Char) (length : Nat) (a b : Parser) : Prop :=
  (a.had_error = true → b.had_error = true) ∧ (a.Sound source length → b.Sound source length)

/-- Whatever a rule called in a state after `a` returns, it returns in a state
that `Parser.Trail` relates to `a`, with a node of which `good` holds. -/
def Parser.Yields (source : List Char) (length : Nat) (good : Option ASTNode → Prop)
    (a : Parser) (res : Res) : Prop :=
  ∀ r b, res = some (r, b) → a.Trail source length b ∧ good r

/-- Whatever a block rule returns, it returns as `Parser.Yields` says, and a
list is returned only at the end of the input or, when the block stops at
`}`, at a `}`. -/
def Parser.YieldsBlock (source : List Char) (length : Nat) (stop_on_rbrace : Bool)
    (a : Parser) (res : Res) : Prop :=
  ∀ r b, res = some (r, b) → a.Trail source length b ∧ NodeOk AST_INSTRUCTION_LIST r ∧
    (r.isSome = true → b.current.type = TOKEN_EOF ∨
      (stop_on_rbrace = true ∧ b.current.type = TOKEN_RBRACE))

/-- The node `node` is a node of the tree `tree`: the tree itself or a node of
one of its children. -/
inductive ASTNode.Inside : ASTNode → ASTNode → Prop where
  | self (tree : ASTNode) : ASTNode.Inside tree tree
  | child (node c tree : ASTNode) : c ∈ tree.children → ASTNode.Inside node c →
      ASTNode.Inside node tree


/-! # Theorems -/


/-! ## The tokenizer only moves forward -/

theorem Lexer.Step.same (a : Lexer) : Lexer.Step a a :=
  ⟨rfl, rfl, le_refl _, fun h => h⟩

theorem Lexer.Step.andThen {a b c : Lexer} (h1 : Lexer.Step a b) (h2 : Lexer.Step b c) :
    Lexer.Step a c := by
  obtain ⟨s1, l1, p1, b1⟩ := h1
  obtain ⟨s2, l2, p2, b2⟩ := h2
  refine ⟨s2.trans s1, l2.trans l1, le_trans p1 p2, fun h => ?_⟩
  have := b1 h
  have := b2 (by omega)
  omega

theorem lexer_advance_position (lexer : Lexer) :
    (lexer_advance lexer).2.position =
      if lexer.position < lexer.length then lexer.position + 1 else lexer.position := by
  unfold lexer_advance
  by_cases h : lexer.position ≥ lexer.length
  · simp [h, not_lt.mpr h]
  · have h2 : lexer.position < lexer.length := not_le.mp h
    simp only [h, h2, if_true, if_false]
    split <;> rfl

theorem lexer_advance_source (lexer : Lexer) :
    (lexer_advance lexer).2.source = lexer.source ∧
      (lexer_advance lexer).2.length = lexer.length := by
  unfold lexer_advance
  by_cases h : lexer.position ≥ lexer.length
  · simp [h]
  · simp only [h, if_false]
    split <;> exact ⟨rfl, rfl⟩

theorem lexer_advance_step (lexer : Lexer) : Lexer.Step lexer (lexer_advance lexer).2 := by
  have hp := lexer_advance_position lexer
  have hs := lexer_advance_source lexer
  refine ⟨hs.1, hs.2, ?_, fun h => ?_⟩ <;> rw [hp] <;> split <;> omega

theorem lexer_peek_lt {lexer : Lexer} (h : lexer_peek lexer ≠ NUL) :
    lexer.position < lexer.length := by
  unfold lexer_peek at h
  by_contra hc
  simp [not_lt.mp hc] at h

theorem lexer_advance_fst (lexer : Lexer) : (lexer_advance lexer).1 = lexer_peek lexer := by
  unfold lexer_advance lexer_peek
  by_cases h : lexer.position ≥ lexer.length
  · simp [h]
  · simp only [h, if_false]
    split <;> rfl

theorem skip_whitespace_loop_step (fuel : Nat) (lexer : Lexer) :
    Lexer.Step lexer (skip_whitespace_loop fuel lexer) := by
  induction fuel generalizing lexer with
  | zero => exact Lexer.Step.same _
  | succ n ih =>
    unfold skip_whitespace_loop
    simp only
    split
    · exact (lexer_advance_step lexer).andThen (ih _)
    · exact Lexer.Step.same _

theorem skip_line_loop_step (fuel : Nat) (c : Char) (lexer : Lexer) :
    Lexer.Step lexer (skip_line_loop fuel c lexer) := by
  induction fuel generalizing c lexer with
  | zero => exact Lexer.Step.same _
  | succ n ih =>
    unfold skip_line_loop
    split
    · exact (lexer_advance_step lexer).andThen (ih _ _)
    · exact Lexer.Step.same _

theorem skip_block_loop_step (c1 c2 : Char) (fuel : Nat) (lexer : Lexer) :
    Lexer.Step lexer (skip_block_loop c1 c2 fuel lexer) := by
  induction fuel generalizing lexer with
  | zero => exact Lexer.Step.same _
  | succ n ih =>
    unfold skip_block_loop
    split
    · exact Lexer.Step.same _
    · split
      · exact (lexer_advance_step lexer).andThen (lexer_advance_step _)
      · exact (lexer_advance_step lexer).andThen (ih _)

theorem skip_comment_step (lexer : Lexer) : Lexer.Step lexer (skip_comment lexer) := by
  unfold skip_comment
  simp only
  split
  · exact skip_line_loop_step _ _ _
  · split
    · exact skip_line_loop_step _ _ _
    · split
      · exact ((lexer_advance_step lexer).andThen (lexer_advance_step _)).andThen
          (skip_block_loop_step _ _ _ _)
      · split
        · exact ((lexer_advance_step lexer).andThen (lexer_advance_step _)).andThen
            (skip_block_loop_step _ _ _ _)
        · exact Lexer.Step.same _

theorem skip_ignorable_loop_step (fuel : Nat) (lexer : Lexer) :
    Lexer.Step lexer (skip_ignorable_loop fuel lexer) := by
  induction fuel generalizing lexer with
  | zero => exact Lexer.Step.same _
  | succ n ih =>
    unfold skip_ignorable_loop
    simp only
    split
    · exact (skip_whitespace_loop_step _ lexer).andThen (ih _)
    · split
      · exact ((skip_whitespace_loop_step _ lexer).andThen (skip_comment_step _)).andThen (ih _)
      · exact skip_whitespace_loop_step _ lexer

theorem skip_ignorable_step (lexer : Lexer) : Lexer.Step lexer (skip_ignorable lexer) :=
  skip_ignorable_loop_step _ _

theorem identifier_loop_step (fuel : Nat) (lexer : Lexer) :
    Lexer.Step lexer (identifier_loop fuel lexer) := by
  induction fuel generalizing lexer with
  | zero => exact Lexer.Step.same _
  | succ n ih =>
    unfold identifier_loop
    split
    · exact (lexer_advance_step lexer).andThen (ih _)
    · exact Lexer.Step.same _

theorem number_loop_step (fuel : Nat) (has_dot : Bool) (lexer : Lexer) :
    Lexer.Step lexer (number_loop fuel has_dot lexer) := by
  induction fuel generalizing has_dot lexer with
  | zero => exact Lexer.Step.same _
  | succ n ih =>
    unfold number_loop
    split
    · split
      · split
        · exact Lexer.Step.same _
        · exact (lexer_advance_step lexer).andThen (ih _ _)
      · exact (lexer_advance_step lexer).andThen (ih _ _)
    · exact Lexer.Step.same _

theorem string_loop_step (quote : Char) (fuel : Nat) (lexer : Lexer) :
    Lexer.Step lexer (string_loop quote fuel lexer) := by
  induction fuel generalizing lexer with
  | zero => exact Lexer.Step.same _
  | succ n ih =>
    unfold string_loop
    simp only
    split
    · exact Lexer.Step.same _
    · split
      · exact lexer_advance_step lexer
      · split
        · exact ((lexer_advance_step lexer).andThen (lexer_advance_step _)).andThen (ih _)
        · exact (lexer_advance_step lexer).andThen (ih _)



/-! ## What a call of `lexer_next_token` returns -/

theorem keyword_lookup_mem (lexeme : List Char) (table : List (String × TokenType)) :
    keyword_lookup lexeme table = TOKEN_IDENTIFIER ∨
      keyword_lookup lexeme table ∈ table.map Prod.snd := by
  induction table with
  | nil => exact Or.inl rfl
  | cons entry rest ih =>
    unfold keyword_lookup
    split
    · exact Or.inr (List.mem_cons_self _ _)
    · rcases ih with h | h
      · exact Or.inl h
      · exact Or.inr (List.mem_cons_of_mem _ h)

theorem keyword_lookup_ne_eof (lexeme : List Char) :
    keyword_lookup lexeme KEYWORDS ≠ TOKEN_EOF := by
  intro h
  rcases keyword_lookup_mem lexeme KEYWORDS with h1 | h1
  · rw [h] at h1; exact absurd h1 (by decide)
  · rw [h] at h1; exact absurd h1 (by decide)

theorem advance_lt {s : Lexer} (h : s.position < s.length) :
    s.position < (lexer_advance s).2.position := by
  rw [lexer_advance_position, if_pos h]; omega

theorem scanned_of_step {s l : Lexer} (h : s.position < s.length)
    (hl : Lexer.Step (lexer_advance s).2 l) (type : TokenType) (ht : type ≠ TOKEN_EOF) :
    Lexer.Scanned s (make_token l type s.position (l.position - s.position), l) := by
  have h1 := advance_lt h
  have h2 := hl.2.2.1
  exact ⟨(lexer_advance_step s).andThen hl, rfl, rfl, by simp only; omega, ht⟩

theorem scanned_one {s : Lexer} (h : s.position < s.length) (type : TokenType)
    (ht : type ≠ TOKEN_EOF) :
    Lexer.Scanned s (make_token (lexer_advance s).2 type s.position 1, (lexer_advance s).2) := by
  have h1 : (lexer_advance s).2.position = s.position + 1 := by
    rw [lexer_advance_position, if_pos h]
  have h2 := scanned_of_step h (Lexer.Step.same _) type ht
  rw [h1] at h2
  simpa using h2

theorem scanned_two {s : Lexer} (h : s.position < s.length) (second : Char)
    (hs : second ≠ NUL) (two : TokenType) (ht : two ≠ TOKEN_EOF) (otherwise : Token × Lexer)
    (ho : Lexer.Scanned s otherwise) :
    Lexer.Scanned s (two_char (lexer_advance s).2 s.position second two otherwise) := by
  unfold two_char
  split
  · rename_i hp
    have h0 : (lexer_advance s).2.position = s.position + 1 := by
      rw [lexer_advance_position, if_pos h]
    have h1 : (lexer_advance s).2.position < (lexer_advance s).2.length :=
      lexer_peek_lt (by rw [hp]; exact hs)
    have h2 : (lexer_advance (lexer_advance s).2).2.position = s.position + 2 := by
      rw [lexer_advance_position, if_pos h1, h0]
    have h3 := scanned_of_step h (lexer_advance_step (lexer_advance s).2) two ht
    rw [h2] at h3
    simpa using h3
  · exact ho

theorem lexer_next_token_eof {lexer : Lexer}
    (h : (skip_ignorable lexer).position ≥ (skip_ignorable lexer).length) :
    lexer_next_token lexer =
      ({ type := TOKEN_EOF, lexeme := none, length := 0, line := (skip_ignorable lexer).line,
         column := (skip_ignorable lexer).column }, skip_ignorable lexer) := by
  unfold lexer_next_token
  dsimp only
  rw [if_pos h]

theorem ite_cases {α : Type} (P : α → Prop) {c : Prop} [Decidable c] {a b : α}
    (ha : c → P a) (hb : ¬ c → P b) : P (if c then a else b) := by
  split
  · exact ha ‹_›
  · exact hb ‹_›

theorem lexer_next_token_scanned {lexer : Lexer}
    (h : (skip_ignorable lexer).position < (skip_ignorable lexer).length) :
    Lexer.Scanned (skip_ignorable lexer) (lexer_next_token lexer) := by
  have hn : ¬ (skip_ignorable lexer).position ≥ (skip_ignorable lexer).length := not_le.mpr h
  unfold lexer_next_token
  dsimp only
  rw [if_neg hn]
  refine ite_cases (Lexer.Scanned _) (fun _ => scanned_of_step h (identifier_loop_step _ _) _ (keyword_lookup_ne_eof _)) (fun _ => ?_)
  refine ite_cases (Lexer.Scanned _) (fun _ => scanned_of_step h (number_loop_step _ _ _) _ (by simp)) (fun _ => ?_)
  refine ite_cases (Lexer.Scanned _) (fun _ => scanned_of_step h (string_loop_step _ _ _) _ (by simp)) (fun _ => ?_)
  refine ite_cases (Lexer.Scanned _) (fun _ => scanned_of_step h (string_loop_step _ _ _) _ (by simp [SQUOTE, DQUOTE])) (fun _ => ?_)
  refine ite_cases (Lexer.Scanned _) (fun _ => scanned_two h _ (by decide) _ (by simp) _ (scanned_one h _ (by simp))) (fun _ => ?_)
  refine ite_cases (Lexer.Scanned _) (fun _ => scanned_two h _ (by decide) _ (by simp) _ (scanned_one h _ (by simp))) (fun _ => ?_)
  refine ite_cases (Lexer.Scanned _) (fun _ => scanned_one h _ (by simp)) (fun _ => ?_)
  refine ite_cases (Lexer.Scanned _) (fun _ => scanned_one h _ (by simp)) (fun _ => ?_)
  refine ite_cases (Lexer.Scanned _) (fun _ => scanned_one h _ (by simp)) (fun _ => ?_)
  refine ite_cases (Lexer.Scanned _) (fun _ => scanned_two h _ (by decide) _ (by simp) _ (scanned_one h _ (by simp))) (fun _ => ?_)
  refine ite_cases (Lexer.Scanned _) (fun _ => scanned_two h _ (by decide) _ (by simp) _ (scanned_one h _ (by simp))) (fun _ => ?_)
  refine ite_cases (Lexer.Scanned _) (fun _ => scanned_two h _ (by decide) _ (by simp) _ (scanned_one h _ (by simp))) (fun _ => ?_)
  refine ite_cases (Lexer.Scanned _) (fun _ => scanned_two h _ (by decide) _ (by simp) _ (scanned_one h _ (by simp))) (fun _ => ?_)
  refine ite_cases (Lexer.Scanned _) (fun _ => scanned_two h _ (by decide) _ (by simp) _ (scanned_one h _ (by simp))) (fun _ => ?_)
  refine ite_cases (Lexer.Scanned _) (fun _ => scanned_two h _ (by decide) _ (by simp) _ (scanned_one h _ (by simp))) (fun _ => ?_)
  refine ite_cases (Lexer.Scanned _) (fun _ => scanned_one h _ (by simp)) (fun _ => ?_)
  refine ite_cases (Lexer.Scanned _) (fun _ => scanned_one h _ (by simp)) (fun _ => ?_)
  refine ite_cases (Lexer.Scanned _) (fun _ => scanned_one h _ (by simp)) (fun _ => ?_)
  refine ite_cases (Lexer.Scanned _) (fun _ => scanned_one h _ (by simp)) (fun _ => ?_)
  refine ite_cases (Lexer.Scanned _) (fun _ => scanned_one h _ (by simp)) (fun _ => ?_)
  refine ite_cases (Lexer.Scanned _) (fun _ => scanned_one h _ (by simp)) (fun _ => ?_)
  refine ite_cases (Lexer.Scanned _) (fun _ => scanned_one h _ (by simp)) (fun _ => ?_)
  refine ite_cases (Lexer.Scanned _) (fun _ => scanned_one h _ (by simp)) (fun _ => ?_)
  refine ite_cases (Lexer.Scanned _) (fun _ => scanned_one h _ (by simp)) (fun _ => ?_)
  exact scanned_one h _ (by simp)

theorem lexer_next_token_step (lexer : Lexer) : Lexer.Step lexer (lexer_next_token lexer).2 := by
  by_cases h : (skip_ignorable lexer).position < (skip_ignorable lexer).length
  · exact (skip_ignorable_step lexer).andThen (lexer_next_token_scanned h).1
  · rw [lexer_next_token_eof (not_lt.mp h)]
    exact skip_ignorable_step lexer

theorem lexer_next_token_progress {lexer : Lexer}
    (h : (lexer_next_token lexer).1.type ≠ TOKEN_EOF) :
    lexer.position < (lexer_next_token lexer).2.position ∧ lexer.position < lexer.length := by
  by_cases hc : (skip_ignorable lexer).position < (skip_ignorable lexer).length
  · have h1 := lexer_next_token_scanned hc
    have h2 := skip_ignorable_step lexer
    refine ⟨lt_of_le_of_lt h2.2.2.1 h1.2.2.2.1, ?_⟩
    have h3 := h2.2.2.1
    have h4 := h2.2.1
    omega
  · rw [lexer_next_token_eof (not_lt.mp hc)] at h
    exact absurd rfl h


/-! ## Lossless scanning -/

theorem slice_append_drop (source : List Char) {a b : Nat} (h : a ≤ b) :
    slice source a b ++ source.drop b = source.drop a := by
  have e : source.drop b = (source.drop a).drop (b - a) := by
    rw [List.drop_drop]; congr 1; omega
  rw [e]
  exact List.take_append_drop _ _

theorem slice_to_end (source : List Char) (a : Nat) :
    slice source a source.length = source.drop a := by
  unfold slice
  exact List.take_of_length_le (by simp)

/-- One call of `lexer_next_token` from a state inside the buffer. -/
theorem lexer_next_token_slice (lexer : Lexer) (hlen : lexer.length = lexer.source.length)
    (hpos : lexer.position ≤ lexer.length) :
    lexer.position ≤ (skip_ignorable lexer).position ∧
      (lexer_next_token lexer).2.position =
        (skip_ignorable lexer).position + (lexer_next_token lexer).1.length ∧
      (lexer_next_token lexer).2.position ≤ lexer.length ∧
      (lexer_next_token lexer).2.source = lexer.source ∧
      (lexer_next_token lexer).2.length = lexer.length ∧
      (lexer_next_token lexer).1.text lexer.source =
        slice lexer.source (skip_ignorable lexer).position
          ((skip_ignorable lexer).position + (lexer_next_token lexer).1.length) ∧
      ((lexer_next_token lexer).1.type = TOKEN_EOF →
        (lexer_next_token lexer).1.length = 0 ∧
          (lexer_next_token lexer).2.position = lexer.length) := by
  have hs := skip_ignorable_step lexer
  have ht := lexer_next_token_step lexer
  have hb := ht.2.2.2 hpos
  have hsb := hs.2.2.2 hpos
  refine ⟨hs.2.2.1, ?_, hb, ht.1, ht.2.1, ?_⟩
  all_goals
    by_cases hc : (skip_ignorable lexer).position < (skip_ignorable lexer).length
  · have h1 := lexer_next_token_scanned hc
    have := h1.2.2.1
    have := h1.2.2.2.1
    omega
  · rw [lexer_next_token_eof (not_lt.mp hc)]
    rfl
  · have h1 := lexer_next_token_scanned hc
    refine ⟨?_, fun h => absurd h h1.2.2.2.2⟩
    unfold Token.text slice
    rw [h1.2.1]
    simp
  · have h2 := hs.2.1
    rw [lexer_next_token_eof (not_lt.mp hc)]
    refine ⟨by simp [Token.text, slice], fun _ => ⟨rfl, ?_⟩⟩
    simp only
    omega

theorem scan_pieces_join (fuel : Nat) (lexer : Lexer)
    (hlen : lexer.length = lexer.source.length) (hpos : lexer.position ≤ lexer.length)
    (hfuel : lexer.length - lexer.position < fuel) :
    (scan_pieces fuel lexer).flatten = lexer.source.drop lexer.position := by
  induction fuel generalizing lexer with
  | zero => omega
  | succ n ih =>
    obtain ⟨h1, h2, h3, h4, h5, h6, h7⟩ := lexer_next_token_slice lexer hlen hpos
    unfold scan_pieces
    dsimp only
    split
    · rename_i he
      obtain ⟨h8, h9⟩ := h7 he
      rw [h8] at h2
      rw [h6, h8]
      have e1 : (skip_ignorable lexer).position = lexer.source.length := by omega
      rw [e1]
      simp [slice, slice_to_end]
    · rename_i he
      have hp := lexer_next_token_progress he
      have := ih (lexer_next_token lexer).2 (by rw [h5, h4]; exact hlen) (by rw [h5]; exact h3)
        (by rw [h5]; omega)
      rw [List.flatten_cons, List.flatten_cons, this, h4, h6, ← h2,
        slice_append_drop _ (by omega), slice_append_drop _ h1]

/-- C1. Lossless scanning. For every source buffer and every tokenizer state
inside it, the token returned by `lexer_next_token` has as lexeme the slice of
the buffer from the offset reached after skipping ignorable content up to the
offset of the tokenizer after the call, which is that offset plus the token
length, and an end-of-input token has length 0 and is returned at the end of
the buffer. Hence the skipped spans and the lexemes, concatenated in scan
order, are the whole buffer. -/
theorem lossless_scanning (source : List Char) :
    (∀ lexer : Lexer, lexer.source = source → lexer.length = source.length →
      lexer.position ≤ lexer.length →
        lexer.position ≤ (skip_ignorable lexer).position ∧
        (lexer_next_token lexer).2.position =
          (skip_ignorable lexer).position + (lexer_next_token lexer).1.length ∧
        (lexer_next_token lexer).2.position ≤ source.length ∧
        (lexer_next_token lexer).2.source = source ∧
        (lexer_next_token lexer).2.length = source.length ∧
        (lexer_next_token lexer).1.text source =
          slice source (skip_ignorable lexer).position
            ((skip_ignorable lexer).position + (lexer_next_token lexer).1.length) ∧
        ((lexer_next_token lexer).1.type = TOKEN_EOF →
          (lexer_next_token lexer).1.length = 0 ∧
            (lexer_next_token lexer).2.position = source.length)) ∧
      (scan_pieces (source.length + 1) (lexer_init source source.length)).flatten = source := by
  constructor
  · intro lexer hs hl hp
    have h := lexer_next_token_slice lexer (by rw [hl, hs]) hp
    rw [hs, hl] at h
    exact h
  · have h := scan_pieces_join (source.length + 1) (lexer_init source source.length) rfl
      (Nat.zero_le _) (by simp [lexer_init])
    simpa [lexer_init] using h

/-- C1 at the buffer `x = 1; // c`: the first call from the initial state. -/
theorem lossless_scanning_witness :
    (0 ≤ (skip_ignorable (lexer_init "x = 1; // c".toList 11)).position ∧
      (lexer_next_token (lexer_init "x = 1; // c".toList 11)).2.position =
        (skip_ignorable (lexer_init "x = 1; // c".toList 11)).position +
          (lexer_next_token (lexer_init "x = 1; // c".toList 11)).1.length ∧
      (lexer_next_token (lexer_init "x = 1; // c".toList 11)).2.position ≤ 11 ∧
      (lexer_next_token (lexer_init "x = 1; // c".toList 11)).2.source = "x = 1; // c".toList ∧
      (lexer_next_token (lexer_init "x = 1; // c".toList 11)).2.length = 11 ∧
      (lexer_next_token (lexer_init "x = 1; // c".toList 11)).1.text "x = 1; // c".toList =
        slice "x = 1; // c".toList (skip_ignorable (lexer_init "x = 1; // c".toList 11)).position
          ((skip_ignorable (lexer_init "x = 1; // c".toList 11)).position +
            (lexer_next_token (lexer_init "x = 1; // c".toList 11)).1.length) ∧
      ((lexer_next_token (lexer_init "x = 1; // c".toList 11)).1.type = TOKEN_EOF →
        (lexer_next_token (lexer_init "x = 1; // c".toList 11)).1.length = 0 ∧
          (lexer_next_token (lexer_init "x = 1; // c".toList 11)).2.position = 11)) ∧
      scan_pieces 12 (lexer_init "x = 1; // c".toList 11) =
        ["".toList, "x".toList, " ".toList, "=".toList, " ".toList, "1".toList, "".toList,
          ";".toList, " // c".toList, "".toList] :=
  ⟨(lossless_scanning "x = 1; // c".toList).1 (lexer_init "x = 1; // c".toList 11) rfl rfl
      (by decide), by decide⟩


/-! ## Keyword lookup -/

theorem slice_cons (source : List Char) {a b : Nat} (hab : a < b) (ha : a < source.length) :
    slice source a b = source.getD a NUL :: slice source (a + 1) b := by
  unfold slice
  have e : b - a = (b - (a + 1)) + 1 := by omega
  rw [e, List.drop_eq_getElem_cons ha, List.take_succ_cons, List.getD_eq_getElem _ _ ha]

theorem keyword_matches_iff (lexeme : List Char) (keyword : String) :
    keyword_matches lexeme keyword = true ↔ lexeme = keyword.toList := by
  unfold keyword_matches
  constructor
  · intro h
    simp only [Bool.and_eq_true, beq_iff_eq] at h
    exact h.2
  · intro h
    subst h
    show (keyword.data.length == keyword.data.length && keyword.data == keyword.data) = true
    simp

theorem keyword_lookup_eq_iff (lexeme : List Char) (table : List (String × TokenType))
    (hk : (table.map (fun e => e.1.toList)).Nodup) (hv : (table.map Prod.snd).Nodup)
    (hid : TOKEN_IDENTIFIER ∉ table.map Prod.snd) (keyword : String) (type : TokenType)
    (hm : (keyword, type) ∈ table) :
    keyword_lookup lexeme table = type ↔ lexeme = keyword.toList := by
  induction table with
  | nil => simp at hm
  | cons entry rest ih =>
    obtain ⟨k, t⟩ := entry
    rw [List.map_cons, List.nodup_cons] at hk hv
    rw [List.map_cons, List.mem_cons, not_or] at hid
    dsimp only at hk hv hid
    unfold keyword_lookup
    dsimp only
    by_cases hmatch : keyword_matches lexeme k = true
    · rw [if_pos hmatch]
      have h1 := (keyword_matches_iff _ _).mp hmatch
      rcases List.mem_cons.mp hm with he | hr
      · cases he
        exact ⟨fun _ => h1, fun _ => rfl⟩
      · constructor
        · intro h
          exact absurd (List.mem_map_of_mem Prod.snd hr) (by rw [← h]; exact hv.1)
        · intro h
          have h2 := List.mem_map_of_mem (fun e => e.1.toList) hr
          dsimp only at h2
          rw [← h, h1] at h2
          exact absurd h2 hk.1
    · rw [if_neg hmatch]
      have hne : lexeme ≠ k.toList := fun h => hmatch ((keyword_matches_iff _ _).mpr h)
      rcases List.mem_cons.mp hm with he | hr
      · cases he
        constructor
        · intro h
          rcases keyword_lookup_mem lexeme rest with h1 | h1
          · exact absurd (h1.symm.trans h) hid.1
          · rw [h] at h1
            exact absurd h1 hv.1
        · intro h
          exact absurd h hne
      · exact ih hk.2 hv.2 hid.2 hr

theorem keyword_lookup_identifier (lexeme : List Char) (table : List (String × TokenType))
    (h : ∀ keyword type, (keyword, type) ∈ table → lexeme ≠ keyword.toList) :
    keyword_lookup lexeme table = TOKEN_IDENTIFIER := by
  induction table with
  | nil => rfl
  | cons entry rest ih =>
    unfold keyword_lookup
    have hne : ¬ keyword_matches lexeme entry.1 = true := fun hm =>
      h entry.1 entry.2 (List.mem_cons_self _ _) ((keyword_matches_iff _ _).mp hm)
    simp only [hne]
    exact ih (fun k t hkt => h k t (List.mem_cons_of_mem _ hkt))

theorem lexer_peek_eq (lexer : Lexer) (h : lexer.position < lexer.length) :
    lexer_peek lexer = lexer.source.getD lexer.position NUL := by
  unfold lexer_peek
  rw [if_neg (not_le.mpr h)]

theorem identifier_loop_spec (fuel : Nat) (lexer : Lexer)
    (hlen : lexer.length = lexer.source.length)
    (hfuel : lexer.length - lexer.position < fuel) :
    is_identifier_part (lexer_peek (identifier_loop fuel lexer)) = false ∧
      ∀ c ∈ slice lexer.source lexer.position (identifier_loop fuel lexer).position,
        is_identifier_part c = true := by
  induction fuel generalizing lexer with
  | zero => omega
  | succ n ih =>
    unfold identifier_loop
    split
    · rename_i hpart
      have hlt : lexer.position < lexer.length :=
        lexer_peek_lt (by intro e; rw [e] at hpart; exact absurd hpart (by decide))
      have hadv := lexer_advance_step lexer
      have hp1 : (lexer_advance lexer).2.position = lexer.position + 1 := by
        rw [lexer_advance_position, if_pos hlt]
      have h1 := ih (lexer_advance lexer).2 (by rw [hadv.2.1, hadv.1]; exact hlen)
        (by rw [hadv.2.1, hp1]; omega)
      refine ⟨h1.1, ?_⟩
      have hmono := (identifier_loop_step n (lexer_advance lexer).2).2.2.1
      rw [slice_cons _ (by omega) (by omega)]
      intro c hc
      rcases List.mem_cons.mp hc with e | hin
      · rw [e, ← lexer_peek_eq _ hlt]; exact hpart
      · apply h1.2
        rw [hadv.1, hp1]
        exact hin
    · rename_i hpart
      refine ⟨by simpa using hpart, ?_⟩
      simp [slice]

theorem token_from_identifier_state (lexer : Lexer) (start : Nat) :
    (token_from_identifier lexer start).2 = identifier_loop (lexer_fuel lexer) lexer := rfl

theorem token_from_identifier_text (lexer : Lexer) (start : Nat) :
    (token_from_identifier lexer start).1.text (identifier_loop (lexer_fuel lexer) lexer).source =
      slice (identifier_loop (lexer_fuel lexer) lexer).source start
        (identifier_loop (lexer_fuel lexer) lexer).position := rfl

theorem token_from_identifier_type (lexer : Lexer) (start : Nat) :
    (token_from_identifier lexer start).1.type =
      keyword_lookup (slice (identifier_loop (lexer_fuel lexer) lexer).source start
        (identifier_loop (lexer_fuel lexer) lexer).position) KEYWORDS := rfl

theorem lexer_next_token_identifier (lexer : Lexer) (hlen : lexer.length = lexer.source.length)
    (hstart : is_identifier_start (lexer_peek (skip_ignorable lexer)) = true) :
    (lexer_next_token lexer).1.text lexer.source =
        lexer_peek (skip_ignorable lexer) ::
          slice lexer.source ((skip_ignorable lexer).position + 1)
            (lexer_next_token lexer).2.position ∧
      (∀ c ∈ slice lexer.source ((skip_ignorable lexer).position + 1)
          (lexer_next_token lexer).2.position, is_identifier_part c = true) ∧
      is_identifier_part (lexer_peek (lexer_next_token lexer).2) = false ∧
      (lexer_next_token lexer).1.type =
        keyword_lookup ((lexer_next_token lexer).1.text lexer.source) KEYWORDS := by
  have hs := skip_ignorable_step lexer
  have hlt : (skip_ignorable lexer).position < (skip_ignorable lexer).length :=
    lexer_peek_lt (by intro e; rw [e] at hstart; exact absurd hstart (by decide))
  have hn : ¬ (skip_ignorable lexer).position ≥ (skip_ignorable lexer).length := not_le.mpr hlt
  have hadv := lexer_advance_step (skip_ignorable lexer)
  have hp1 : (lexer_advance (skip_ignorable lexer)).2.position =
      (skip_ignorable lexer).position + 1 := by
    rw [lexer_advance_position, if_pos hlt]
  have hsrc : (lexer_advance (skip_ignorable lexer)).2.source = lexer.source := by
    rw [hadv.1, hs.1]
  have hloop := identifier_loop_spec (lexer_fuel (lexer_advance (skip_ignorable lexer)).2)
    (lexer_advance (skip_ignorable lexer)).2
    (by rw [hadv.2.1, hadv.1, hs.2.1, hs.1]; exact hlen) (by unfold lexer_fuel; omega)
  have hstep := identifier_loop_step (lexer_fuel (lexer_advance (skip_ignorable lexer)).2)
    (lexer_advance (skip_ignorable lexer)).2
  have hnext : lexer_next_token lexer =
      token_from_identifier (lexer_advance (skip_ignorable lexer)).2
        (skip_ignorable lexer).position := by
    unfold lexer_next_token
    dsimp only
    rw [if_neg hn, lexer_advance_fst, if_pos hstart]
  have htext := token_from_identifier_text (lexer_advance (skip_ignorable lexer)).2
    (skip_ignorable lexer).position
  have htype := token_from_identifier_type (lexer_advance (skip_ignorable lexer)).2
    (skip_ignorable lexer).position
  rw [hstep.1, hsrc] at htext htype
  rw [hsrc, hp1] at hloop
  have hmono := hstep.2.2.1
  rw [hnext, token_from_identifier_state, htext, htype]
  refine ⟨?_, hloop.2, hloop.1, rfl⟩
  rw [slice_cons _ (by omega) (by rw [← hlen, ← hs.2.1]; exact hlt), lexer_peek_eq _ hlt, hs.1]

theorem tokenize_Int : (tokenize "Int".toList).map (fun t => t.type) = [TOKEN_IDENTIFIER, TOKEN_EOF] := by
  decide!

theorem tokenize_integer :
    (tokenize "integer".toList).map (fun t => t.type) = [TOKEN_IDENTIFIER, TOKEN_EOF] := by
  decide!

theorem tokenize_int_underscore :
    (tokenize "int_".toList).map (fun t => t.type) = [TOKEN_IDENTIFIER, TOKEN_EOF] := by
  decide!

theorem tokenize_int_x :
    (tokenize "int x = 5;".toList).map (fun t => (t.type, String.mk (t.text "int x = 5;".toList))) =
      [(TOKEN_KW_INT, "int"), (TOKEN_IDENTIFIER, "x"), (TOKEN_EQ, "="), (TOKEN_NUMBER, "5"),
        (TOKEN_SEMICOLON, ";"), (TOKEN_EOF, "")] := by
  decide!

/-- C10. Keyword lookup. When the tokenizer, after skipping, is at a character
that starts an identifier, the token it returns has as lexeme that character
followed by the longest run of identifier characters, its kind is the kind of
a keyword of the table exactly when the lexeme is that keyword, and it is
identifier when the lexeme is none of the 15 keywords; `Int`, `integer` and
`int_` are identifiers, and `int x = 5;` is keyword-int, identifier `x`,
equals, number `5`, semicolon, end-of-input. -/
theorem keyword_lookup_exact :
    (∀ lexer : Lexer, lexer.length = lexer.source.length →
      is_identifier_start (lexer_peek (skip_ignorable lexer)) = true →
        (lexer_next_token lexer).1.text lexer.source =
            lexer_peek (skip_ignorable lexer) ::
              slice lexer.source ((skip_ignorable lexer).position + 1)
                (lexer_next_token lexer).2.position ∧
          (∀ c ∈ slice lexer.source ((skip_ignorable lexer).position + 1)
              (lexer_next_token lexer).2.position, is_identifier_part c = true) ∧
          is_identifier_part (lexer_peek (lexer_next_token lexer).2) = false ∧
          (∀ keyword type, (keyword, type) ∈ KEYWORDS →
            ((lexer_next_token lexer).1.type = type ↔
              (lexer_next_token lexer).1.text lexer.source = keyword.toList)) ∧
          ((∀ keyword type, (keyword, type) ∈ KEYWORDS →
              (lexer_next_token lexer).1.text lexer.source ≠ keyword.toList) →
            (lexer_next_token lexer).1.type = TOKEN_IDENTIFIER)) ∧
      KEYWORDS.map Prod.fst =
        ["array", "bool", "char", "cread", "csay", "false", "float", "for", "func", "if", "in",
          "int", "return", "true", "while"] ∧
      (tokenize "Int".toList).map (fun t => t.type) = [TOKEN_IDENTIFIER, TOKEN_EOF] ∧
      (tokenize "integer".toList).map (fun t => t.type) = [TOKEN_IDENTIFIER, TOKEN_EOF] ∧
      (tokenize "int_".toList).map (fun t => t.type) = [TOKEN_IDENTIFIER, TOKEN_EOF] ∧
      (tokenize "int x = 5;".toList).map (fun t => (t.type, String.mk (t.text "int x = 5;".toList))) =
        [(TOKEN_KW_INT, "int"), (TOKEN_IDENTIFIER, "x"), (TOKEN_EQ, "="), (TOKEN_NUMBER, "5"),
          (TOKEN_SEMICOLON, ";"), (TOKEN_EOF, "")] := by
  refine ⟨?_, by decide, tokenize_Int, tokenize_integer, tokenize_int_underscore,
    tokenize_int_x⟩
  intro lexer hlen hstart
  obtain ⟨h1, h2, h3, h4⟩ := lexer_next_token_identifier lexer hlen hstart
  refine ⟨h1, h2, h3, ?_, ?_⟩
  · intro keyword type hm
    rw [h4]
    exact keyword_lookup_eq_iff _ KEYWORDS (by decide!) (by decide!) (by decide!) keyword type hm
  · intro h
    rw [h4]
    exact keyword_lookup_identifier _ KEYWORDS h

/-- C10 at the buffer ` while(` from its initial state: the token is the keyword
`while`. -/
theorem keyword_lookup_exact_witness :
    (lexer_next_token (lexer_init " while(".toList 7)).1.type = TOKEN_KW_WHILE :=
  ((keyword_lookup_exact.1 (lexer_init " while(".toList 7) rfl (by decide)).2.2.2.1
    "while" TOKEN_KW_WHILE (by decide)).mpr (by decide)


/-! ## The parser only moves forward, and keeps its first error -/

theorem Parser.Frame.refl (a : Parser) : a.Frame a :=
  ⟨rfl, rfl, le_refl _, fun h => ⟨h, rfl, rfl⟩, fun h => h, fun h => h⟩

theorem Parser.Frame.trans {a b c : Parser} (h1 : a.Frame b) (h2 : b.Frame c) : a.Frame c := by
  obtain ⟨s1, l1, r1, k1, m1, a1⟩ := h1
  obtain ⟨s2, l2, r2, k2, m2, a2⟩ := h2
  refine ⟨s2.trans s1, l2.trans l1, le_trans r2 r1, fun h => ?_, fun h => m2 (m1 h),
    fun h => a2 (a1 h)⟩
  obtain ⟨e1, t1, g1⟩ := k1 h
  obtain ⟨e2, t2, g2⟩ := k2 e1
  exact ⟨e2, t2.trans t1, g2.trans g1⟩

theorem Parser.Frame.no_error {a b : Parser} (h : a.Frame b) (hb : b.had_error = false) :
    a.had_error = false := by
  cases ha : a.had_error
  · rfl
  · rw [(h.2.2.2.1 ha).1] at hb
    exact absurd hb (by decide)

theorem Parser.Frame.error {a b : Parser} (h : a.Frame b) (ha : a.had_error = true) :
    b.had_error = true :=
  (h.2.2.2.1 ha).1

theorem Parser.Frame.allocated {a b : Parser} (h : a.Frame b) : a.Frame b.allocated := h

theorem Parser.Frame.released {a b : Parser} (h : a.Frame b) (node : Option ASTNode) :
    a.Frame (b.released node) := h

theorem Parser.remaining_allocated (a : Parser) : a.allocated.remaining = a.remaining := rfl

theorem parser_advance_remaining (parser : Parser) :
    (parser_advance parser).remaining ≤ parser.remaining ∧
      (parser.current.type ≠ TOKEN_EOF →
        (parser_advance parser).remaining < parser.remaining) := by
  have hs := lexer_next_token_step parser.lexer
  have hp := @lexer_next_token_progress parser.lexer
  have hl := hs.2.1
  have hm := hs.2.2.1
  unfold Parser.remaining parser_advance
  dsimp only
  rw [hl]
  by_cases h1 : (lexer_next_token parser.lexer).1.type = TOKEN_EOF
  · rw [if_pos h1]
    constructor
    · split <;> split <;> omega
    · intro hc
      rw [if_neg hc]
      split <;> omega
  · rw [if_neg h1]
    have := hp h1
    constructor
    · split <;> split <;> omega
    · intro hc
      rw [if_neg hc]
      split <;> omega

theorem parser_advance_aligned (parser : Parser) (h : parser.Aligned) :
    (parser_advance parser).Aligned := by
  have hs := lexer_next_token_step parser.lexer
  obtain ⟨k, hc, hn, hl, he⟩ := h
  have e1 : (parser_advance parser).lexer.source = parser.lexer.source := hs.1
  have e2 : (parser_advance parser).lexer.length = parser.lexer.length := hs.2.1
  unfold Parser.Aligned
  rw [e1, e2]
  refine ⟨k + 1, hn, ?_, ?_, he⟩
  · show (lexer_next_token parser.lexer).1 =
      (lexer_next_token (lexer_at parser.lexer.source parser.lexer.length (k + 2))).1
    rw [← hl]
  · show (lexer_next_token parser.lexer).2 =
      (lexer_next_token (lexer_at parser.lexer.source parser.lexer.length (k + 2))).2
    rw [← hl]

theorem parser_advance_frame (parser : Parser) : parser.Frame (parser_advance parser) := by
  have hs := lexer_next_token_step parser.lexer
  exact ⟨hs.1, hs.2.1, (parser_advance_remaining parser).1, fun h => ⟨h, rfl, rfl⟩, fun h => h,
    parser_advance_aligned parser⟩

theorem parser_error_frame (parser : Parser) (message : String)
    (hm : message ≠ "") : parser.Frame (parser_error parser parser.current message) := by
  unfold parser_error
  split
  · exact Parser.Frame.refl _
  · rename_i h
    refine ⟨rfl, rfl, le_refl _, fun h2 => absurd h2 h, fun _ _ => hm, fun ha => ?_⟩
    obtain ⟨k, hc, hn, hl, _⟩ := ha
    exact ⟨k, hc, hn, hl, fun _ => ⟨k, hc⟩⟩

theorem parser_error_had_error (parser : Parser) (token : Token) (message : String) :
    (parser_error parser token message).had_error = true := by
  unfold parser_error
  split
  · assumption
  · rfl

theorem parser_consume_frame (parser : Parser) (type : TokenType) (message : String)
    (hm : message ≠ "") : parser.Frame (parser_consume parser type message).2 := by
  unfold parser_consume
  split
  · exact parser_advance_frame parser
  · exact parser_error_frame parser _ hm

/-- After a call of `parser_consume` that leaves the error flag clear, the
expected token has been consumed. -/
theorem parser_consume_ok (parser : Parser) (type : TokenType) (message : String)
    (h : (parser_consume parser type message).2.had_error = false) :
    parser.current.type = type ∧ (parser_consume parser type message).2 = parser_advance parser ∧
      (parser_consume parser type message).1 = parser.current := by
  unfold parser_consume at h ⊢
  split
  · rename_i hc
    exact ⟨hc, rfl, rfl⟩
  · rename_i hc
    rw [if_neg hc] at h
    rw [parser_error_had_error] at h
    exact absurd h (by decide)

theorem parser_consume_progress (parser : Parser) (type : TokenType) (message : String)
    (ht : type ≠ TOKEN_EOF) (h : (parser_consume parser type message).2.had_error = false) :
    (parser_consume parser type message).2.remaining < parser.remaining := by
  obtain ⟨h1, h2, _⟩ := parser_consume_ok parser type message h
  rw [h2]
  exact (parser_advance_remaining parser).2 (by rw [h1]; exact ht)

theorem parser_match_frame (parser : Parser) (type : TokenType) :
    parser.Frame (parser_match parser type).2 := by
  unfold parser_match
  split
  · exact parser_advance_frame parser
  · exact Parser.Frame.refl _

theorem parser_match_progress (parser : Parser) (type : TokenType) (ht : type ≠ TOKEN_EOF)
    (h : (parser_match parser type).1 = true) :
    (parser_match parser type).2.remaining < parser.remaining := by
  unfold parser_match at h ⊢
  split
  · rename_i hc
    refine (parser_advance_remaining parser).2 ?_
    unfold parser_check at hc
    rw [of_decide_eq_true hc]
    exact ht
  · rename_i hc
    rw [if_neg hc] at h
    exact absurd h Bool.false_ne_true

theorem parse_identifier_node_post (parser : Parser) :
    parser.Post (fun t => t.type = AST_IDENTIFIER ∧ t.shaped = true ∧ t.is_expression = true)
      (parse_identifier_node parser).1 (parse_identifier_node parser).2 := by
  have hf := parser_consume_frame parser TOKEN_IDENTIFIER "Se esperaba un identificador."
    (by decide)
  unfold parse_identifier_node
  dsimp only
  split
  · rename_i h
    exact ⟨hf, fun _ => h, fun t ht => absurd ht (by simp)⟩
  · rename_i h
    refine ⟨hf.allocated, fun hn => absurd hn (by simp [ast_create]), fun t ht _ => ?_⟩
    simp only [ast_create, Option.some.injEq] at ht
    subst ht
    exact ⟨rfl, rfl, rfl⟩

/-- A call of `parse_identifier_node` on an identifier token consumes it. -/
theorem parse_identifier_node_progress (parser : Parser)
    (h : parser.current.type = TOKEN_IDENTIFIER) :
    (parse_identifier_node parser).2.remaining < parser.remaining := by
  have ha := (parser_advance_remaining parser).2 (by rw [h]; decide)
  unfold parse_identifier_node parser_consume
  dsimp only
  rw [if_pos h]
  dsimp only
  split
  · exact ha
  · exact ha


/-! ## The expression rules -/

theorem ast_add_child_none (parent : Option ASTNode) : ast_add_child parent none = parent := by
  unfold ast_add_child
  split
  · rename_i h; cases h
  · rfl

theorem ast_add_child_some (type : ASTNodeType) (token : Token) (children : List ASTNode)
    (c : ASTNode) :
    ast_add_child (some (.mk type token children)) (some c) =
      some (.mk type token (children ++ [c])) := rfl

theorem shapedList_iff (children : List ASTNode) :
    ASTNode.shapedList children = true ↔ ∀ c ∈ children, c.shaped = true := by
  induction children with
  | nil => simp [ASTNode.shapedList]
  | cons c cs ih => simp [ASTNode.shapedList, ih]

theorem shaped_mk (type : ASTNodeType) (token : Token) (children : List ASTNode) :
    (ASTNode.mk type token children).shaped = true ↔
      children_fixed type children = true ∧ ∀ c ∈ children, c.shaped = true := by
  simp [ASTNode.shaped, shapedList_iff]

theorem Parser.Post.isSome {good : ASTNode → Prop} {a b : Parser} {r : Option ASTNode}
    (h : a.Post good r b) (hb : b.had_error = false) : ∃ t, r = some t ∧ good t := by
  cases r with
  | none => rw [h.2.1 rfl] at hb; exact absurd hb (by decide)
  | some t => exact ⟨t, rfl, h.2.2 t rfl hb⟩

theorem Parser.Post.nodeArg {good : ASTNode → Prop} {a b : Parser} {r : Option ASTNode}
    (h : a.Post good r b) : NodeArg good r b := ⟨h.2.1, h.2.2⟩

theorem NodeArg.later {good : ASTNode → Prop} {a b : Parser} {r : Option ASTNode}
    (h : NodeArg good r a) (hf : a.Frame b) : NodeArg good r b :=
  ⟨fun hn => hf.error (h.1 hn), fun t ht hb => h.2 t ht (hf.no_error hb)⟩

theorem NodeArg.node {good : ASTNode → Prop} {a : Parser} {r : Option ASTNode}
    (h : NodeArg good r a) (ha : a.had_error = false) : ∃ t, r = some t ∧ good t := by
  cases r with
  | none => rw [h.1 rfl] at ha; exact absurd ha (by decide)
  | some t => exact ⟨t, rfl, h.2 t rfl ha⟩

theorem NodeArg.isNone_error {good : ASTNode → Prop} {a : Parser} {r : Option ASTNode}
    (h : NodeArg good r a) (hn : r.isNone = true) : a.had_error = true :=
  h.1 (Option.isNone_iff_eq_none.mp hn)

theorem Parser.Post.fail {good : ASTNode → Prop} {a b : Parser} (hf : a.Frame b)
    (he : b.had_error = true) : a.Post good none b :=
  ⟨hf, fun _ => he, fun t ht => by cases ht⟩

/-- A failure after the release of one node. -/
theorem Parser.Post.fail1 {good : ASTNode → Prop} {a b : Parser} (hf : a.Frame b)
    (x : Option ASTNode) (he : b.had_error = true) : a.Post good none (b.released x) :=
  Parser.Post.fail hf he

/-- A failure after the release of two nodes. -/
theorem Parser.Post.fail2 {good : ASTNode → Prop} {a b : Parser} (hf : a.Frame b)
    (x y : Option ASTNode) (he : b.had_error = true) :
    a.Post good none ((b.released x).released y) :=
  Parser.Post.fail hf he

/-- A failure after the release of three nodes. -/
theorem Parser.Post.fail3 {good : ASTNode → Prop} {a b : Parser} (hf : a.Frame b)
    (x y z : Option ASTNode) (he : b.had_error = true) :
    a.Post good none (((b.released x).released y).released z) :=
  Parser.Post.fail hf he

/-- A failure after the release of four nodes. -/
theorem Parser.Post.fail4 {good : ASTNode → Prop} {a b : Parser} (hf : a.Frame b)
    (x y z w : Option ASTNode) (he : b.had_error = true) :
    a.Post good none ((((b.released x).released y).released z).released w) :=
  Parser.Post.fail hf he

theorem NodeArg.created {good : ASTNode → Prop} {a : Parser} {r : Option ASTNode}
    (h : NodeArg good r a) : NodeArg good r a.allocated := h

theorem ListAcc.carry {kind : ASTNodeType} {a b : Parser} {acc : Option ASTNode}
    (h : ListAcc kind acc a) (hf : a.Frame b) : ListAcc kind acc b := by
  obtain ⟨token, children, e, hs⟩ := h
  exact ⟨token, children, e, fun hb => hs (hf.no_error hb)⟩

/-- Appending a nullable node to the node a loop builds. -/
theorem ListAcc.add {kind : ASTNodeType} {a : Parser} {acc e : Option ASTNode}
    {good : ASTNode → Prop} (h : ListAcc kind acc a) (he : NodeArg good e a)
    (hg : ∀ t, good t → t.shaped = true) : ListAcc kind (ast_add_child acc e) a := by
  obtain ⟨token, children, eacc, hs⟩ := h
  subst eacc
  cases e with
  | none => rw [ast_add_child_none]; exact ⟨token, children, rfl, hs⟩
  | some t =>
    rw [ast_add_child_some]
    refine ⟨token, children ++ [t], rfl, fun ha c hc => ?_⟩
    rcases List.mem_append.mp hc with h1 | h1
    · exact hs ha c h1
    · rw [List.mem_singleton.mp h1]
      exact hg t (he.2 t rfl ha)

/-- The node a loop has built is a result of the kind of the list, when that
kind fixes no child list. -/
theorem ListAcc.post {kind : ASTNodeType} {a b : Parser} {acc : Option ASTNode}
    (h : ListAcc kind acc b) (hf : a.Frame b) (hk : ∀ cs, children_fixed kind cs = true) :
    a.Post (ASTNode.KindGood kind) acc b := by
  obtain ⟨token, children, eacc, hs⟩ := h
  subst eacc
  refine ⟨hf, (fun hn => by cases hn), fun t ht hb => ?_⟩
  cases ht
  exact ⟨rfl, (shaped_mk _ _ _).mpr ⟨hk _, hs hb⟩⟩

theorem argument_loop_runs (expr : Parser → Res) (bound : Nat)
    (hexpr : ∀ q : Parser, q.remaining < bound → q.Runs expr ASTNode.ExprGood)
    (fuel : Nat) (args : Option ASTNode) (parser : Parser) (hb : parser.remaining < bound)
    (hfuel : parser.remaining < fuel) (hacc : ListAcc AST_ARG_LIST args parser) :
    parser.Runs (argument_loop expr fuel args) (ASTNode.KindGood AST_ARG_LIST) := by
  induction fuel generalizing args parser with
  | zero => omega
  | succ n ih =>
    obtain ⟨e, p1, he, hpost⟩ := hexpr parser hb
    unfold Parser.Runs argument_loop
    rw [he]
    dsimp only
    cases hn : e.isNone
    · rw [if_neg (by simp)]
      have hacc1 : ListAcc AST_ARG_LIST (ast_add_child args e) p1 :=
        (hacc.carry hpost.1).add hpost.nodeArg (fun t ht => ht.1)
      have hm := parser_match_frame p1 TOKEN_COMMA
      cases hmatch : (parser_match p1 TOKEN_COMMA).1
      · rw [if_neg (by simp)]
        exact ⟨_, _, rfl, (hacc1.carry hm).post (hpost.1.trans hm) (fun _ => rfl)⟩
      · rw [if_pos rfl]
        have hlt := parser_match_progress p1 TOKEN_COMMA (by decide) hmatch
        have hle := hpost.1.2.2.1
        obtain ⟨r, b, hr, hp⟩ := ih (ast_add_child args e) (parser_match p1 TOKEN_COMMA).2
          (by omega) (by omega) (hacc1.carry hm)
        exact ⟨r, b, hr, (hpost.1.trans hm).trans hp.1, hp.2⟩
    · rw [if_pos rfl]
      have e0 : e = none := by cases e <;> simp_all
      exact ⟨_, _, rfl, Parser.Post.fail1 hpost.1 _ (hpost.2.1 e0)⟩

theorem parse_argument_list_runs (expr : Parser → Res) (bound : Nat)
    (hexpr : ∀ q : Parser, q.remaining < bound → q.Runs expr ASTNode.ExprGood)
    (fuel : Nat) (parser : Parser) (hb : parser.remaining < bound)
    (hfuel : parser.remaining < fuel) :
    parser.Runs (parse_argument_list expr fuel) (ASTNode.KindGood AST_ARG_LIST) := by
  have hacc : ListAcc AST_ARG_LIST (ast_create AST_ARG_LIST parser.current) parser.allocated :=
    ⟨_, [], rfl, fun _ c hc => by cases hc⟩
  unfold Parser.Runs parse_argument_list
  dsimp only
  split
  · exact ⟨_, _, rfl, hacc.post (Parser.Frame.refl parser).allocated (fun _ => rfl)⟩
  · exact argument_loop_runs expr bound hexpr fuel _ parser.allocated hb hfuel hacc

theorem parse_call_runs (expr : Parser → Res) (bound : Nat)
    (hexpr : ∀ q : Parser, q.remaining < bound → q.Runs expr ASTNode.ExprGood)
    (fuel : Nat) (parser : Parser) (callee : Option ASTNode) (hb : parser.remaining < bound)
    (hfuel : parser.remaining < fuel)
    (hcallee : NodeArg (fun t => t.shaped = true) callee parser) :
    parser.Runs (fun p => parse_call expr fuel p callee) ASTNode.ExprGood := by
  have h1 := parser_consume_frame parser TOKEN_LPAREN "Se esperaba '(' en la llamada." (by decide)
  have hle := h1.2.2.1
  obtain ⟨args, p2, he, hpost⟩ := parse_argument_list_runs expr bound hexpr fuel
    (parser_consume parser TOKEN_LPAREN "Se esperaba '(' en la llamada.").2 (by omega) (by omega)
  have h3 := parser_consume_frame p2 TOKEN_RPAREN "Se esperaba ')' al cerrar la llamada."
    (by decide)
  have hf := (h1.trans hpost.1).trans h3
  show ∃ r b, parse_call expr fuel parser callee = some (r, b) ∧ _
  unfold parse_call
  dsimp only
  rw [he]
  dsimp only
  split
  · rename_i hc
    refine ⟨_, _, rfl, Parser.Post.fail2 hf _ _ ?_⟩
    simp only [Bool.or_eq_true] at hc
    rcases hc with (h | h) | h
    · exact h
    · exact (hcallee.later hf).isNone_error h
    · exact (hpost.nodeArg.later h3).isNone_error h
  · rename_i hc
    simp only [Bool.or_eq_true, not_or, Bool.not_eq_true] at hc
    have hne := hc.1.1
    obtain ⟨c, hc1, hcs⟩ := (hcallee.later hf).node hne
    obtain ⟨a, ha1, hag⟩ := (hpost.nodeArg.later h3).node hne
    subst hc1 ha1
    refine ⟨_, _, rfl, hf.allocated, (fun hn => by cases hn), fun t ht _ => ?_⟩
    simp only [ast_create, ast_add_child_some, Option.some.injEq] at ht
    subst ht
    exact ⟨(shaped_mk _ _ _).mpr ⟨rfl, by simpa using ⟨hcs, hag.2⟩⟩, rfl⟩


theorem Parser.Post.mono {good good2 : ASTNode → Prop} {a b : Parser} {r : Option ASTNode}
    (h : a.Post good r b) (hg : ∀ t, good t → good2 t) : a.Post good2 r b :=
  ⟨h.1, h.2.1, fun t ht hb => hg t (h.2.2 t ht hb)⟩

/-- A result of a call made in a later state `b` of `a` is a result for `a`. -/
theorem Parser.Post.from {good : ASTNode → Prop} {a b c : Parser} {r : Option ASTNode}
    (h : b.Post good r c) (hf : a.Frame b) : a.Post good r c :=
  ⟨hf.trans h.1, h.2.1, h.2.2⟩

/-- A result returned as it is, after further steps of the parser. -/
theorem Parser.Post.after {good : ASTNode → Prop} {a b c : Parser} {r : Option ASTNode}
    (h : a.Post good r b) (hf : b.Frame c) : a.Post good r c :=
  ⟨h.1.trans hf, fun hn => hf.error (h.2.1 hn), fun t ht hc => h.2.2 t ht (hf.no_error hc)⟩

theorem array_literal_good (t : ASTNode) (h : ASTNode.KindGood AST_ARRAY_LITERAL t) :
    t.ExprGood := by
  refine ⟨h.2, ?_⟩
  unfold ASTNode.is_expression
  rw [h.1]
  rfl

theorem array_loop_runs (expr : Parser → Res) (bound : Nat)
    (hexpr : ∀ q : Parser, q.remaining < bound → q.Runs expr ASTNode.ExprGood)
    (fuel : Nat) (array : Option ASTNode) (parser : Parser) (hb : parser.remaining < bound)
    (hfuel : parser.remaining < fuel) (hacc : ListAcc AST_ARRAY_LITERAL array parser) :
    parser.Runs (array_loop expr fuel array) (ASTNode.KindGood AST_ARRAY_LITERAL) := by
  induction fuel generalizing array parser with
  | zero => omega
  | succ n ih =>
    obtain ⟨e, p1, he, hpost⟩ := hexpr parser hb
    unfold Parser.Runs array_loop
    rw [he]
    dsimp only
    cases hn : e.isNone
    · rw [if_neg (by simp)]
      have hacc1 : ListAcc AST_ARRAY_LITERAL (ast_add_child array e) p1 :=
        (hacc.carry hpost.1).add hpost.nodeArg (fun t ht => ht.1)
      have hm := parser_match_frame p1 TOKEN_COMMA
      cases hmatch : (parser_match p1 TOKEN_COMMA).1
      · rw [if_neg (by simp)]
        exact ⟨_, _, rfl, (hacc1.carry hm).post (hpost.1.trans hm) (fun _ => rfl)⟩
      · rw [if_pos rfl]
        have hlt := parser_match_progress p1 TOKEN_COMMA (by decide) hmatch
        have hle := hpost.1.2.2.1
        obtain ⟨r, b, hr, hp⟩ := ih (ast_add_child array e) (parser_match p1 TOKEN_COMMA).2
          (by omega) (by omega) (hacc1.carry hm)
        exact ⟨r, b, hr, hp.from (hpost.1.trans hm)⟩
    · rw [if_pos rfl]
      exact ⟨_, _, rfl, Parser.Post.fail1 hpost.1 _ (hpost.nodeArg.isNone_error hn)⟩

theorem parse_array_literal_runs (expr : Parser → Res) (bound : Nat)
    (hexpr : ∀ q : Parser, q.remaining < bound → q.Runs expr ASTNode.ExprGood)
    (fuel : Nat) (parser : Parser)
    (hb : (parser_consume parser TOKEN_LBRACKET "Se esperaba '['.").2.remaining < bound)
    (hfuel : (parser_consume parser TOKEN_LBRACKET "Se esperaba '['.").2.remaining < fuel) :
    parser.Runs (parse_array_literal expr fuel) ASTNode.ExprGood := by
  have h1 := parser_consume_frame parser TOKEN_LBRACKET "Se esperaba '['." (by decide)
  have hacc : ListAcc AST_ARRAY_LITERAL
      (ast_create AST_ARRAY_LITERAL (parser_consume parser TOKEN_LBRACKET "Se esperaba '['.").1)
      (parser_consume parser TOKEN_LBRACKET "Se esperaba '['.").2.allocated :=
    ⟨_, [], rfl, fun _ c hc => by cases hc⟩
  unfold Parser.Runs parse_array_literal
  dsimp only
  split
  · obtain ⟨r, p2, hr, hp⟩ := array_loop_runs expr bound hexpr fuel _
      (parser_consume parser TOKEN_LBRACKET "Se esperaba '['.").2.allocated hb hfuel hacc
    rw [hr]
    dsimp only
    have hp2 := (hp.mono array_literal_good).from h1.allocated
    split
    · exact ⟨_, _, rfl, hp2.1, fun _ => hp.nodeArg.isNone_error ‹_›, fun t ht => by cases ht⟩
    · exact ⟨_, _, rfl, hp2.after (parser_consume_frame _ _ _ (by decide))⟩
  · exact ⟨_, _, rfl, ((hacc.post h1.allocated (fun _ => rfl)).mono array_literal_good).after
      (parser_consume_frame _ _ _ (by decide))⟩

theorem parse_primary_runs (expr : Parser → Res) (bound : Nat)
    (hexpr : ∀ q : Parser, q.remaining < bound → q.Runs expr ASTNode.ExprGood)
    (fuel : Nat) (parser : Parser) (hb : parser.remaining ≤ bound)
    (hfuel : parser.remaining < fuel) :
    parser.Runs (parse_primary expr fuel) ASTNode.ExprGood := by
  unfold Parser.Runs parse_primary
  dsimp only
  split
  · refine ⟨_, _, rfl, (parser_advance_frame parser).allocated, (fun hn => by cases hn),
      fun t ht _ => ?_⟩
    simp only [ast_create, Option.some.injEq] at ht
    subst ht
    exact ⟨rfl, rfl⟩
  split
  · rename_i _ hid
    have hpost := parse_identifier_node_post parser
    have hlt := parse_identifier_node_progress parser hid
    split
    · obtain ⟨r, b, hr, hp⟩ := parse_call_runs expr bound hexpr fuel
        (parse_identifier_node parser).2 (parse_identifier_node parser).1 (by omega) (by omega)
        (hpost.mono (fun t ht => ht.2.1)).nodeArg
      exact ⟨r, b, hr, hp.from hpost.1⟩
    · exact ⟨_, _, rfl, hpost.mono (fun t ht => ⟨ht.2.1, ht.2.2⟩)⟩
  split
  · rename_i _ _ hlp
    have hadv := parser_advance_remaining parser
    have hlt := hadv.2 (by rw [hlp]; decide)
    obtain ⟨e, p1, he, hp⟩ := hexpr (parser_advance parser) (by omega)
    rw [he]
    exact ⟨_, _, rfl, (hp.from (parser_advance_frame parser)).after
      (parser_consume_frame _ _ _ (by decide))⟩
  split
  · rename_i _ _ _ hlb
    have hc : (parser_consume parser TOKEN_LBRACKET "Se esperaba '['.").2 =
        parser_advance parser := by
      unfold parser_consume
      rw [if_pos hlb]
    have hadv := parser_advance_remaining parser
    have hlt := hadv.2 (by rw [hlb]; decide)
    exact parse_array_literal_runs expr bound hexpr fuel parser (by rw [hc]; omega)
      (by rw [hc]; omega)
  · exact ⟨_, _, rfl, parser_error_frame _ _ (by decide),
      fun _ => parser_error_had_error _ _ _, fun t ht => by cases ht⟩

theorem parse_unary_runs (expr : Parser → Res) (bound : Nat)
    (hexpr : ∀ q : Parser, q.remaining < bound → q.Runs expr ASTNode.ExprGood)
    (fuel : Nat) (parser : Parser) (hb : parser.remaining ≤ bound)
    (hfuel : parser.remaining < fuel) :
    parser.Runs (parse_unary expr fuel) ASTNode.ExprGood := by
  induction fuel generalizing parser with
  | zero => omega
  | succ n ih =>
    unfold Parser.Runs parse_unary
    split
    · rename_i hop
      have hne : parser.current.type ≠ TOKEN_EOF := by
        intro h
        simp [parser_check, h] at hop
      have hlt := (parser_advance_remaining parser).2 hne
      obtain ⟨e, p1, he, hp⟩ := ih (parser_advance parser) (by omega) (by omega)
      rw [he]
      dsimp only
      refine ⟨_, _, rfl, ((parser_advance_frame parser).trans hp.1).allocated, ?_,
        fun t ht hne => ?_⟩
      · intro hn
        cases e <;> simp [ast_create, ast_add_child] at hn
      · obtain ⟨c, hc, hg⟩ := hp.isSome hne
        subst hc
        simp only [ast_create, ast_add_child_some, Option.some.injEq] at ht
        subst ht
        exact ⟨(shaped_mk _ _ _).mpr ⟨rfl, by simpa using hg.1⟩, rfl⟩
    · exact parse_primary_runs expr bound hexpr (n + 1) parser hb hfuel

theorem binary_loop_runs (ops : List TokenType) (hops : TOKEN_EOF ∉ ops)
    (operand : Parser → Res) (bound : Nat)
    (hoperand : ∀ q : Parser, q.remaining ≤ bound → q.Runs operand ASTNode.ExprGood)
    (fuel : Nat) (left : Option ASTNode) (parser : Parser) (hb : parser.remaining ≤ bound)
    (hfuel : parser.remaining < fuel) (hleft : NodeArg ASTNode.ExprGood left parser) :
    parser.Runs (binary_loop ops operand fuel left) ASTNode.ExprGood := by
  induction fuel generalizing left parser with
  | zero => omega
  | succ n ih =>
    unfold Parser.Runs binary_loop
    split
    · rename_i hop
      have hne : parser.current.type ≠ TOKEN_EOF := by
        intro h
        apply hops
        obtain ⟨type, hmem, hcheck⟩ := List.any_eq_true.mp hop
        unfold parser_check at hcheck
        rw [← of_decide_eq_true hcheck, h] at hmem
        exact hmem
      have hadv := parser_advance_frame parser
      have hlt := (parser_advance_remaining parser).2 hne
      obtain ⟨right, p1, he, hp⟩ := hoperand (parser_advance parser) (by omega)
      rw [he]
      dsimp only
      have hle := hp.1.2.2.1
      have hnode : NodeArg ASTNode.ExprGood
          (ast_add_child (ast_add_child (ast_create AST_EXPRESSION parser.current) left) right)
          p1.allocated := by
        constructor
        · intro hn
          cases left <;> cases right <;> simp [ast_create, ast_add_child] at hn
        · intro t ht hne1
          obtain ⟨l, hl, hlg⟩ := (hleft.later (hadv.trans hp.1)).node hne1
          obtain ⟨r, hr, hrg⟩ := hp.isSome hne1
          subst hl hr
          simp only [ast_create, ast_add_child_some, Option.some.injEq] at ht
          subst ht
          exact ⟨(shaped_mk _ _ _).mpr ⟨rfl, by simpa using ⟨hlg.1, hrg.1⟩⟩, rfl⟩
      obtain ⟨r, b, hr, hpost⟩ := ih _ p1.allocated
        (by rw [Parser.remaining_allocated]; omega) (by rw [Parser.remaining_allocated]; omega)
        hnode
      exact ⟨r, b, hr, hpost.from (hadv.trans hp.1).allocated⟩
    · exact ⟨_, _, rfl, Parser.Frame.refl _, hleft.1, hleft.2⟩

/-- A rule of the ladder: its operand rule, then the loop on its operators. -/
theorem binary_level_runs (ops : List TokenType) (hops : TOKEN_EOF ∉ ops)
    (operand : Parser → Res) (bound : Nat)
    (hoperand : ∀ q : Parser, q.remaining ≤ bound → q.Runs operand ASTNode.ExprGood)
    (fuel : Nat) (parser : Parser) (hb : parser.remaining ≤ bound)
    (hfuel : parser.remaining < fuel) :
    parser.Runs (fun p =>
      match operand p with
      | none => none
      | some (left, parser1) => binary_loop ops operand fuel left parser1) ASTNode.ExprGood := by
  obtain ⟨left, p1, he, hp⟩ := hoperand parser hb
  have hle := hp.1.2.2.1
  obtain ⟨r, b, hr, hpost⟩ := binary_loop_runs ops hops operand bound hoperand fuel left p1
    (by omega) (by omega) hp.nodeArg
  unfold Parser.Runs
  dsimp only
  rw [he]
  exact ⟨r, b, hr, hpost.from hp.1⟩

theorem parse_mul_runs (expr : Parser → Res) (bound : Nat)
    (hexpr : ∀ q : Parser, q.remaining < bound → q.Runs expr ASTNode.ExprGood)
    (fuel : Nat) (hfuel : bound < fuel) (parser : Parser) (hb : parser.remaining ≤ bound) :
    parser.Runs (parse_mul expr fuel) ASTNode.ExprGood :=
  binary_level_runs _ (by decide) (parse_unary expr fuel) bound
    (fun q hq => parse_unary_runs expr bound hexpr fuel q hq (by omega)) fuel parser hb (by omega)

theorem parse_add_runs (expr : Parser → Res) (bound : Nat)
    (hexpr : ∀ q : Parser, q.remaining < bound → q.Runs expr ASTNode.ExprGood)
    (fuel : Nat) (hfuel : bound < fuel) (parser : Parser) (hb : parser.remaining ≤ bound) :
    parser.Runs (parse_add expr fuel) ASTNode.ExprGood :=
  binary_level_runs _ (by decide) (parse_mul expr fuel) bound
    (fun q hq => parse_mul_runs expr bound hexpr fuel hfuel q hq) fuel parser hb (by omega)

theorem parse_rel_runs (expr : Parser → Res) (bound : Nat)
    (hexpr : ∀ q : Parser, q.remaining < bound → q.Runs expr ASTNode.ExprGood)
    (fuel : Nat) (hfuel : bound < fuel) (parser : Parser) (hb : parser.remaining ≤ bound) :
    parser.Runs (parse_rel expr fuel) ASTNode.ExprGood :=
  binary_level_runs _ (by decide) (parse_add expr fuel) bound
    (fun q hq => parse_add_runs expr bound hexpr fuel hfuel q hq) fuel parser hb (by omega)

theorem parse_eq_runs (expr : Parser → Res) (bound : Nat)
    (hexpr : ∀ q : Parser, q.remaining < bound → q.Runs expr ASTNode.ExprGood)
    (fuel : Nat) (hfuel : bound < fuel) (parser : Parser) (hb : parser.remaining ≤ bound) :
    parser.Runs (parse_eq expr fuel) ASTNode.ExprGood :=
  binary_level_runs _ (by decide) (parse_rel expr fuel) bound
    (fun q hq => parse_rel_runs expr bound hexpr fuel hfuel q hq) fuel parser hb (by omega)

theorem parse_and_runs (expr : Parser → Res) (bound : Nat)
    (hexpr : ∀ q : Parser, q.remaining < bound → q.Runs expr ASTNode.ExprGood)
    (fuel : Nat) (hfuel : bound < fuel) (parser : Parser) (hb : parser.remaining ≤ bound) :
    parser.Runs (parse_and expr fuel) ASTNode.ExprGood :=
  binary_level_runs _ (by decide) (parse_eq expr fuel) bound
    (fun q hq => parse_eq_runs expr bound hexpr fuel hfuel q hq) fuel parser hb (by omega)

theorem parse_or_runs (expr : Parser → Res) (bound : Nat)
    (hexpr : ∀ q : Parser, q.remaining < bound → q.Runs expr ASTNode.ExprGood)
    (fuel : Nat) (hfuel : bound < fuel) (parser : Parser) (hb : parser.remaining ≤ bound) :
    parser.Runs (parse_or expr fuel) ASTNode.ExprGood :=
  binary_level_runs _ (by decide) (parse_and expr fuel) bound
    (fun q hq => parse_and_runs expr bound hexpr fuel hfuel q hq) fuel parser hb (by omega)

/-- The rule `parse_expression` returns whenever its fuel exceeds the number of
tokens left. -/
theorem parse_expression_runs (fuel : Nat) (parser : Parser) (hfuel : parser.remaining < fuel) :
    parser.Runs (parse_expression fuel) ASTNode.ExprGood := by
  induction fuel generalizing parser with
  | zero => omega
  | succ n ih =>
    exact parse_or_runs (parse_expression n) n (fun q hq => ih q hq) (n + 1) (by omega) parser
      (by omega)


/-! ## The instruction rules -/

theorem ast_add_child_eq_none {parent child : Option ASTNode}
    (h : ast_add_child parent child = none) : parent = none := by
  cases parent with
  | none => rfl
  | some p =>
    cases child with
    | none => rw [ast_add_child_none] at h; exact h
    | some c => cases p; rw [ast_add_child_some] at h; cases h

theorem ast_create_ne_none (type : ASTNodeType) (token : Token) : ast_create type token ≠ none := by
  intro h; cases h

/-- A node built from one nullable child. -/
theorem Parser.Post.node1 {a b : Parser} (hf : a.Frame b) (type : ASTNodeType) (token : Token)
    {gx : ASTNode → Prop} {x : Option ASTNode} (hx : NodeArg gx x b)
    (hfix : ∀ tx, gx tx → (ASTNode.mk type token [tx]).shaped = true) :
    a.Post ASTNode.Shaped (ast_add_child (ast_create type token) x) b := by
  refine ⟨hf, fun hn => ?_, fun t ht hb => ?_⟩
  · exact absurd (ast_add_child_eq_none hn) (ast_create_ne_none _ _)
  · obtain ⟨tx, ex, hgx⟩ := hx.node hb
    subst ex
    simp only [ast_create, ast_add_child_some, Option.some.injEq] at ht
    subst ht
    exact hfix tx hgx

/-- A node built from two nullable children. -/
theorem Parser.Post.node2 {a b : Parser} (hf : a.Frame b) (type : ASTNodeType) (token : Token)
    {gx gy : ASTNode → Prop} {x y : Option ASTNode} (hx : NodeArg gx x b) (hy : NodeArg gy y b)
    (hfix : ∀ tx ty, gx tx → gy ty → (ASTNode.mk type token [tx, ty]).shaped = true) :
    a.Post ASTNode.Shaped (ast_add_child (ast_add_child (ast_create type token) x) y) b := by
  refine ⟨hf, fun hn => ?_, fun t ht hb => ?_⟩
  · exact absurd (ast_add_child_eq_none (ast_add_child_eq_none hn)) (ast_create_ne_none _ _)
  · obtain ⟨tx, ex, hgx⟩ := hx.node hb
    obtain ⟨ty, ey, hgy⟩ := hy.node hb
    subst ex ey
    simp only [ast_create, ast_add_child_some, Option.some.injEq] at ht
    subst ht
    exact hfix tx ty hgx hgy

/-- A node built from three nullable children. -/
theorem Parser.Post.node3 {a b : Parser} (hf : a.Frame b) (type : ASTNodeType) (token : Token)
    {gx gy gz : ASTNode → Prop} {x y z : Option ASTNode} (hx : NodeArg gx x b)
    (hy : NodeArg gy y b) (hz : NodeArg gz z b)
    (hfix : ∀ tx ty tz, gx tx → gy ty → gz tz →
      (ASTNode.mk type token [tx, ty, tz]).shaped = true) :
    a.Post ASTNode.Shaped
      (ast_add_child (ast_add_child (ast_add_child (ast_create type token) x) y) z) b := by
  refine ⟨hf, fun hn => ?_, fun t ht hb => ?_⟩
  · exact absurd (ast_add_child_eq_none (ast_add_child_eq_none (ast_add_child_eq_none hn)))
      (ast_create_ne_none _ _)
  · obtain ⟨tx, ex, hgx⟩ := hx.node hb
    obtain ⟨ty, ey, hgy⟩ := hy.node hb
    obtain ⟨tz, ez, hgz⟩ := hz.node hb
    subst ex ey ez
    simp only [ast_create, ast_add_child_some, Option.some.injEq] at ht
    subst ht
    exact hfix tx ty tz hgx hgy hgz

theorem shaped_pair (type : ASTNodeType) (token : Token) (x y : ASTNode)
    (hfix : children_fixed type [x, y] = true) (hx : x.shaped = true) (hy : y.shaped = true) :
    (ASTNode.mk type token [x, y]).shaped = true :=
  (shaped_mk _ _ _).mpr ⟨hfix, by simpa using ⟨hx, hy⟩⟩

theorem parse_declaration_runs (fuel : Nat) (parser : Parser)
    (hfuel : (parser_advance parser).remaining < fuel) :
    ∃ r b, parse_declaration fuel parser = some (r, b) ∧
      (parser_advance parser).Post ASTNode.Shaped r b := by
  have hid := parse_identifier_node_post (parser_advance parser).allocated
  have hle1 := hid.1.2.2.1
  have h2 := parser_consume_frame (parse_identifier_node (parser_advance parser).allocated).2
    TOKEN_EQ "Se esperaba '=' en la declaración." (by decide)
  have hle2 := h2.2.2.1
  unfold parse_declaration
  dsimp only
  split
  · exact ⟨_, _, rfl, Parser.Post.fail1 (hid.1) _ (hid.nodeArg.isNone_error ‹_›)⟩
  split
  · exact ⟨_, _, rfl, Parser.Post.fail2 ((hid.1.trans h2)) _ _ ‹_›⟩
  obtain ⟨e, p3, he, hp⟩ := parse_expression_runs fuel
    (parser_consume (parse_identifier_node (parser_advance parser).allocated).2 TOKEN_EQ
      "Se esperaba '=' en la declaración.").2
    (by rw [Parser.remaining_allocated] at hle1; omega)
  rw [he]
  dsimp only
  have h4 := parser_consume_frame p3 TOKEN_SEMICOLON
    "Se esperaba ';' al final de la declaración." (by decide)
  have hf : (parser_advance parser).Frame (parser_consume p3 TOKEN_SEMICOLON
      "Se esperaba ';' al final de la declaración.").2 :=
    ((hid.1.trans h2).trans hp.1).trans h4
  split
  · rename_i hc
    refine ⟨_, _, rfl, Parser.Post.fail3 (hf) _ _ _ ?_⟩
    simp only [Bool.or_eq_true] at hc
    rcases hc with h | h
    · exact h
    · exact (hp.nodeArg.later h4).isNone_error h
  · exact ⟨_, _, rfl, Parser.Post.node2 hf _ _ (hid.nodeArg.later ((h2.trans hp.1).trans h4))
      (hp.nodeArg.later h4) (fun tx ty hx hy => shaped_pair _ _ _ _
        (by simp [children_fixed, hx.1, hy.2]) hx.2.1 hy.1)⟩

theorem parse_array_declaration_runs (fuel : Nat) (parser : Parser)
    (hfuel : (parser_advance parser).remaining < fuel) :
    ∃ r b, parse_array_declaration fuel parser = some (r, b) ∧
      (parser_advance parser).Post ASTNode.Shaped r b := by
  have hid := parse_identifier_node_post (parser_advance parser).allocated
  have hle1 := hid.1.2.2.1
  have h2 := parser_consume_frame (parse_identifier_node (parser_advance parser).allocated).2
    TOKEN_EQ "Se esperaba '=' en la declaración de arreglo." (by decide)
  have hle2 := h2.2.2.1
  have h3 := parser_consume_frame
    (parser_consume (parse_identifier_node (parser_advance parser).allocated).2
      TOKEN_EQ "Se esperaba '=' en la declaración de arreglo.").2
    TOKEN_LBRACKET "Se esperaba '['." (by decide)
  have hle3 := h3.2.2.1
  rw [Parser.remaining_allocated] at hle1
  obtain ⟨e, p3, he, hp⟩ := parse_array_literal_runs (parse_expression fuel) fuel
    (fun q hq => parse_expression_runs fuel q hq) fuel
    (parser_consume (parse_identifier_node (parser_advance parser).allocated).2 TOKEN_EQ
      "Se esperaba '=' en la declaración de arreglo.").2 (by omega) (by omega)
  unfold parse_array_declaration
  dsimp only
  rw [he]
  dsimp only
  have h4 := parser_consume_frame p3 TOKEN_SEMICOLON
    "Se esperaba ';' tras la declaración de arreglo." (by decide)
  have hf : (parser_advance parser).Frame (parser_consume p3 TOKEN_SEMICOLON
      "Se esperaba ';' tras la declaración de arreglo.").2 :=
    ((hid.1.trans h2).trans hp.1).trans h4
  have hidarg := hid.nodeArg.later ((h2.trans hp.1).trans h4)
  split
  · rename_i hc
    refine ⟨_, _, rfl, Parser.Post.fail3 (hf) _ _ _ ?_⟩
    simp only [Bool.or_eq_true] at hc
    rcases hc with (h | h) | h
    · exact h
    · exact hidarg.isNone_error h
    · exact (hp.nodeArg.later h4).isNone_error h
  · exact ⟨_, _, rfl, Parser.Post.node2 hf _ _ hidarg
      (hp.nodeArg.later h4) (fun tx ty hx hy => shaped_pair _ _ _ _
        (by simp [children_fixed, hx.1, hy.2]) hx.2.1 hy.1)⟩

theorem parse_assignment_runs (fuel : Nat) (parser : Parser) (hfuel : parser.remaining < fuel) :
    ∃ r b, parse_assignment fuel parser = some (r, b) ∧
      (parse_identifier_node parser).2.Post ASTNode.Shaped r b := by
  have hid := parse_identifier_node_post parser
  have hle1 := hid.1.2.2.1
  have h2 := parser_consume_frame (parse_identifier_node parser).2
    TOKEN_EQ "Se esperaba '=' en la asignación." (by decide)
  have hle2 := h2.2.2.1
  obtain ⟨e, p3, he, hp⟩ := parse_expression_runs fuel
    (parser_consume (parse_identifier_node parser).2 TOKEN_EQ
      "Se esperaba '=' en la asignación.").2 (by omega)
  unfold parse_assignment
  dsimp only
  rw [he]
  dsimp only
  have h4 := parser_consume_frame p3 TOKEN_SEMICOLON "Se esperaba ';' tras la asignación."
    (by decide)
  have hf : (parse_identifier_node parser).2.Frame (parser_consume p3 TOKEN_SEMICOLON
      "Se esperaba ';' tras la asignación.").2 := (h2.trans hp.1).trans h4
  have hidarg := hid.nodeArg.later ((h2.trans hp.1).trans h4)
  split
  · rename_i hn
    exact ⟨_, _, rfl, Parser.Post.fail2 (hf) _ _ (hidarg.1 hn)⟩
  · rename_i identifier hsome
    split
    · rename_i hc
      refine ⟨_, _, rfl, Parser.Post.fail2 (hf) _ _ ?_⟩
      simp only [Bool.or_eq_true] at hc
      rcases hc with h | h
      · exact h
      · exact (hp.nodeArg.later h4).isNone_error h
    · exact ⟨_, _, rfl, Parser.Post.node2 hf.allocated _ _ hidarg.created
        (hp.nodeArg.later h4).created (fun tx ty hx hy => shaped_pair _ _ _ _
          (by simp [children_fixed, hx.1, hy.2]) hx.2.1 hy.1)⟩

theorem parse_return_runs (fuel : Nat) (parser : Parser)
    (hfuel : (parser_advance parser).remaining < fuel) :
    ∃ r b, parse_return fuel parser = some (r, b) ∧
      (parser_advance parser).Post ASTNode.Shaped r b := by
  obtain ⟨e, p2, he, hp⟩ := parse_expression_runs fuel (parser_advance parser) hfuel
  unfold parse_return
  dsimp only
  rw [he]
  dsimp only
  have h3 := parser_consume_frame p2 TOKEN_SEMICOLON "Se esperaba ';' tras return." (by decide)
  split
  · rename_i hc
    refine ⟨_, _, rfl, Parser.Post.fail1 ((hp.1.trans h3)) _ ?_⟩
    simp only [Bool.or_eq_true] at hc
    rcases hc with h | h
    · exact h
    · exact (hp.nodeArg.later h3).isNone_error h
  · exact ⟨_, _, rfl, Parser.Post.node1 (hp.1.trans h3).allocated _ _
      (hp.nodeArg.later h3).created
      (fun tx hx => (shaped_mk _ _ _).mpr
        ⟨by simp [children_fixed, hx.2], by simpa using hx.1⟩)⟩


theorem parse_expression_statement_runs (fuel : Nat) (parser : Parser)
    (hfuel : parser.remaining < fuel) :
    parser.RunsInstr (parse_expression_statement fuel) := by
  obtain ⟨e, p1, he, hp⟩ := parse_expression_runs fuel parser hfuel
  have hle := hp.1.2.2.1
  have h2 := parser_consume_frame p1 TOKEN_SEMICOLON "Se esperaba ';' tras la expresión."
    (by decide)
  unfold Parser.RunsInstr Parser.InstrOk parse_expression_statement
  rw [he]
  dsimp only
  split
  · exact ⟨_, _, rfl, Parser.Post.fail1 ((hp.1.trans h2)) _
      (h2.error (hp.2.1 rfl)), fun _ h => by cases h⟩
  · rename_i node
    split
    · exact ⟨_, _, rfl, Parser.Post.fail1 ((hp.1.trans h2)) _ ‹_›, fun _ h => by cases h⟩
    · rename_i hne
      have hne : (parser_consume p1 TOKEN_SEMICOLON
          "Se esperaba ';' tras la expresión.").2.had_error = false := by simpa using hne
      have hlt := parser_consume_progress p1 _ _ (by decide) hne
      refine ⟨_, _, rfl, Parser.Post.node1 (hp.1.trans h2).allocated _ _
        (hp.nodeArg.later h2).created
        (fun tx hx => (shaped_mk _ _ _).mpr ⟨rfl, by simpa using hx.1⟩), fun _ _ => ?_⟩
      rw [Parser.remaining_allocated]
      omega

theorem parse_call_statement_runs (fuel : Nat) (parser : Parser)
    (hfuel : parser.remaining < fuel) :
    ∃ r b, parse_call_statement fuel parser = some (r, b) ∧
      (parse_identifier_node parser).2.Post ASTNode.Shaped r b := by
  have hid := parse_identifier_node_post parser
  have hle := hid.1.2.2.1
  obtain ⟨call, p1, he, hp⟩ := parse_call_runs (parse_expression fuel) fuel
    (fun q hq => parse_expression_runs fuel q hq) fuel (parse_identifier_node parser).2
    (parse_identifier_node parser).1 (by omega) (by omega)
    (hid.mono (fun t ht => ht.2.1)).nodeArg
  dsimp only at he
  unfold parse_call_statement
  dsimp only
  rw [he]
  exact ⟨_, _, rfl, (hp.mono (fun t ht => ht.1)).after (parser_consume_frame _ _ _ (by decide))⟩

theorem kind_good_shaped {kind : ASTNodeType} (t : ASTNode) (h : ASTNode.KindGood kind t) :
    t.shaped = true := h.2

theorem parse_special_call_runs (fuel : Nat) (parser : Parser) (keyword : Token)
    (hfuel : (parser_advance parser).remaining < fuel) :
    ∃ r b, parse_special_call fuel parser keyword = some (r, b) ∧
      (parser_advance parser).Post ASTNode.Shaped r b := by
  have h2 := parser_consume_frame (parser_advance parser) TOKEN_LPAREN
    "Se esperaba '(' tras llamada especial." (by decide)
  have hle2 := h2.2.2.1
  obtain ⟨args, p3, he, hp⟩ := parse_argument_list_runs (parse_expression fuel) fuel
    (fun q hq => parse_expression_runs fuel q hq) fuel
    (parser_consume (parser_advance parser) TOKEN_LPAREN
      "Se esperaba '(' tras llamada especial.").2 (by omega) (by omega)
  have h4 := parser_consume_frame p3 TOKEN_RPAREN "Se esperaba ')' en la llamada especial."
    (by decide)
  have hf := ((h2.trans hp.1).trans h4).allocated
  have hargs := (hp.mono kind_good_shaped).nodeArg.later h4.allocated
  unfold parse_special_call
  dsimp only
  rw [he]
  dsimp only
  split
  · have hid := parse_identifier_node_post
      (parser_consume p3 TOKEN_RPAREN "Se esperaba ')' en la llamada especial.").2.allocated
    have h6 := parser_consume_frame (parse_identifier_node
      (parser_consume p3 TOKEN_RPAREN "Se esperaba ')' en la llamada especial.").2.allocated).2
      TOKEN_SEMICOLON "Se esperaba ';' tras la llamada especial." (by decide)
    exact ⟨_, _, rfl, Parser.Post.node2 ((hf.trans hid.1).trans h6) _ _
      (hargs.later (hid.1.trans h6)) (hid.nodeArg.later h6)
      (fun tx ty hx hy => shaped_pair _ _ _ _ rfl hx hy.2.1)⟩
  · have h6 := parser_consume_frame
      (parser_consume p3 TOKEN_RPAREN "Se esperaba ')' en la llamada especial.").2.allocated
      TOKEN_SEMICOLON "Se esperaba ';' tras la llamada especial." (by decide)
    exact ⟨_, _, rfl, Parser.Post.node1 (hf.trans h6) _ _ (hargs.later h6)
      (fun tx hx => (shaped_mk _ _ _).mpr ⟨rfl, by simpa using hx⟩)⟩

theorem parameter_loop_runs (fuel : Nat) (params : Option ASTNode) (parser : Parser)
    (hfuel : parser.remaining < fuel) (hacc : ListAcc AST_PARAM_LIST params parser) :
    parser.Runs (parameter_loop fuel params) (ASTNode.KindGood AST_PARAM_LIST) := by
  induction fuel generalizing params parser with
  | zero => omega
  | succ n ih =>
    have hpost := parse_identifier_node_post parser
    unfold Parser.Runs parameter_loop
    dsimp only
    cases hn : (parse_identifier_node parser).1.isNone
    · rw [if_neg (by simp)]
      have hacc1 : ListAcc AST_PARAM_LIST (ast_add_child params (parse_identifier_node parser).1)
          (parse_identifier_node parser).2 :=
        (hacc.carry hpost.1).add hpost.nodeArg (fun t ht => ht.2.1)
      have hm := parser_match_frame (parse_identifier_node parser).2 TOKEN_COMMA
      cases hmatch : (parser_match (parse_identifier_node parser).2 TOKEN_COMMA).1
      · rw [if_neg (by simp)]
        exact ⟨_, _, rfl, (hacc1.carry hm).post (hpost.1.trans hm) (fun _ => rfl)⟩
      · rw [if_pos rfl]
        have hlt := parser_match_progress (parse_identifier_node parser).2 TOKEN_COMMA
          (by decide) hmatch
        have hle := hpost.1.2.2.1
        obtain ⟨r, b, hr, hp⟩ := ih (ast_add_child params (parse_identifier_node parser).1)
          (parser_match (parse_identifier_node parser).2 TOKEN_COMMA).2 (by omega)
          (hacc1.carry hm)
        exact ⟨r, b, hr, hp.from (hpost.1.trans hm)⟩
    · rw [if_pos rfl]
      exact ⟨_, _, rfl, Parser.Post.fail1 hpost.1 _ (hpost.nodeArg.isNone_error hn)⟩

theorem parse_parameter_list_runs (fuel : Nat) (parser : Parser)
    (hfuel : parser.remaining < fuel) :
    parser.Runs (parse_parameter_list fuel) (ASTNode.KindGood AST_PARAM_LIST) := by
  have hacc : ListAcc AST_PARAM_LIST (ast_create AST_PARAM_LIST parser.current)
      parser.allocated := ⟨_, [], rfl, fun _ c hc => by cases hc⟩
  unfold Parser.Runs parse_parameter_list
  dsimp only
  split
  · exact ⟨_, _, rfl, hacc.post (Parser.Frame.refl parser).allocated (fun _ => rfl)⟩
  · exact parameter_loop_runs fuel _ parser.allocated hfuel hacc

theorem parse_if_runs (block : Bool → Parser → Res) (bound : Nat)
    (hblock : Parser.RunsBlock block bound) (fuel : Nat) (parser : Parser)
    (hb : (parser_advance parser).remaining < bound)
    (hfuel : (parser_advance parser).remaining < fuel) :
    ∃ r b, parse_if block fuel parser = some (r, b) ∧
      (parser_advance parser).Post ASTNode.Shaped r b := by
  have h2 := parser_consume_frame (parser_advance parser) TOKEN_LPAREN
    "Se esperaba '(' en la condición del if." (by decide)
  have hle2 := h2.2.2.1
  obtain ⟨condition, p3, he, hp⟩ := parse_expression_runs fuel
    (parser_consume (parser_advance parser) TOKEN_LPAREN
      "Se esperaba '(' en la condición del if.").2 (by omega)
  have hle3 := hp.1.2.2.1
  have h4 := parser_consume_frame p3 TOKEN_RPAREN "Se esperaba ')' tras la condición del if."
    (by decide)
  have hle4 := h4.2.2.1
  have h5 := parser_consume_frame
    (parser_consume p3 TOKEN_RPAREN "Se esperaba ')' tras la condición del if.").2 TOKEN_LBRACE
    "Se esperaba '\x7b' para iniciar el bloque del if." (by decide)
  have hle5 := h5.2.2.1
  obtain ⟨body, p6, hbody, hpb⟩ := hblock true
    (parser_consume
      (parser_consume p3 TOKEN_RPAREN "Se esperaba ')' tras la condición del if.").2 TOKEN_LBRACE
      "Se esperaba '\x7b' para iniciar el bloque del if.").2 (by omega)
  have h7 := parser_consume_frame p6 TOKEN_RBRACE "Se esperaba '\x7d' al cerrar el bloque del if."
    (by decide)
  have hf := ((((h2.trans hp.1).trans h4).trans h5).trans hpb.1).trans h7
  have hcond := hp.nodeArg.later (((h4.trans h5).trans hpb.1).trans h7)
  have hbod := hpb.nodeArg.later h7
  unfold parse_if
  dsimp only
  rw [he]
  dsimp only
  rw [hbody]
  dsimp only
  split
  · rename_i hc
    refine ⟨_, _, rfl, Parser.Post.fail2 (hf) _ _ ?_⟩
    simp only [Bool.or_eq_true] at hc
    rcases hc with (h | h) | h
    · exact h
    · exact hcond.isNone_error h
    · exact hbod.isNone_error h
  · exact ⟨_, _, rfl, Parser.Post.node2 hf.allocated _ _ hcond.created hbod.created
      (fun tx ty hx hy => shaped_pair _ _ _ _
        (by simp [children_fixed, hx.2, hy.1]) hx.1 hy.2)⟩

theorem parse_while_runs (block : Bool → Parser → Res) (bound : Nat)
    (hblock : Parser.RunsBlock block bound) (fuel : Nat) (parser : Parser)
    (hb : (parser_advance parser).remaining < bound)
    (hfuel : (parser_advance parser).remaining < fuel) :
    ∃ r b, parse_while block fuel parser = some (r, b) ∧
      (parser_advance parser).Post ASTNode.Shaped r b := by
  have h2 := parser_consume_frame (parser_advance parser) TOKEN_LPAREN
    "Se esperaba '(' en el while." (by decide)
  have hle2 := h2.2.2.1
  obtain ⟨condition, p3, he, hp⟩ := parse_expression_runs fuel
    (parser_consume (parser_advance parser) TOKEN_LPAREN "Se esperaba '(' en el while.").2
    (by omega)
  have hle3 := hp.1.2.2.1
  have h4 := parser_consume_frame p3 TOKEN_RPAREN "Se esperaba ')' tras la condición del while."
    (by decide)
  have hle4 := h4.2.2.1
  have h5 := parser_consume_frame
    (parser_consume p3 TOKEN_RPAREN "Se esperaba ')' tras la condición del while.").2
    TOKEN_LBRACE "Se esperaba '\x7b' para el cuerpo del while." (by decide)
  have hle5 := h5.2.2.1
  obtain ⟨body, p6, hbody, hpb⟩ := hblock true
    (parser_consume
      (parser_consume p3 TOKEN_RPAREN "Se esperaba ')' tras la condición del while.").2
      TOKEN_LBRACE "Se esperaba '\x7b' para el cuerpo del while.").2 (by omega)
  have h7 := parser_consume_frame p6 TOKEN_RBRACE "Se esperaba '\x7d' al cerrar el while."
    (by decide)
  have hf := ((((h2.trans hp.1).trans h4).trans h5).trans hpb.1).trans h7
  have hcond := hp.nodeArg.later (((h4.trans h5).trans hpb.1).trans h7)
  have hbod := hpb.nodeArg.later h7
  unfold parse_while
  dsimp only
  rw [he]
  dsimp only
  rw [hbody]
  dsimp only
  split
  · rename_i hc
    refine ⟨_, _, rfl, Parser.Post.fail2 (hf) _ _ ?_⟩
    simp only [Bool.or_eq_true] at hc
    rcases hc with (h | h) | h
    · exact h
    · exact hcond.isNone_error h
    · exact hbod.isNone_error h
  · exact ⟨_, _, rfl, Parser.Post.node2 hf.allocated _ _ hcond.created hbod.created
      (fun tx ty hx hy => shaped_pair _ _ _ _
        (by simp [children_fixed, hx.2, hy.1]) hx.1 hy.2)⟩


theorem parse_for_runs (block : Bool → Parser → Res) (bound : Nat)
    (hblock : Parser.RunsBlock block bound) (parser : Parser)
    (hb : (parser_advance parser).remaining < bound) :
    ∃ r b, parse_for block parser = some (r, b) ∧
      (parser_advance parser).Post ASTNode.Shaped r b := by
  unfold parse_for
  dsimp only
  have h2 := parser_consume_frame (parser_advance parser) TOKEN_LPAREN
    "Se esperaba '(' en el for." (by decide)
  have hle2 := h2.2.2.1
  have hit := parse_identifier_node_post
    (parser_consume (parser_advance parser) TOKEN_LPAREN "Se esperaba '(' en el for.").2
  have hle3 := hit.1.2.2.1
  generalize (parse_identifier_node
    (parser_consume (parser_advance parser) TOKEN_LPAREN "Se esperaba '(' en el for.").2) = it
    at hit hle3 ⊢
  have h3 := parser_consume_frame it.2 TOKEN_KW_IN "Se esperaba la palabra clave 'in'."
    (by decide)
  have hle4 := h3.2.2.1
  have hib := parse_identifier_node_post
    (parser_consume it.2 TOKEN_KW_IN "Se esperaba la palabra clave 'in'.").2
  have hle5 := hib.1.2.2.1
  generalize (parse_identifier_node
    (parser_consume it.2 TOKEN_KW_IN "Se esperaba la palabra clave 'in'.").2) = ib
    at hib hle5 ⊢
  have h4 := parser_consume_frame ib.2 TOKEN_RPAREN "Se esperaba ')' tras la cabecera del for."
    (by decide)
  have hle6 := h4.2.2.1
  have h5 := parser_consume_frame
    (parser_consume ib.2 TOKEN_RPAREN "Se esperaba ')' tras la cabecera del for.").2
    TOKEN_LBRACE "Se esperaba '\x7b' para el cuerpo del for." (by decide)
  have hle7 := h5.2.2.1
  obtain ⟨body, p6, hbody, hpb⟩ := hblock true
    (parser_consume
      (parser_consume ib.2 TOKEN_RPAREN "Se esperaba ')' tras la cabecera del for.").2
      TOKEN_LBRACE "Se esperaba '\x7b' para el cuerpo del for.").2 (by omega)
  have h7 := parser_consume_frame p6 TOKEN_RBRACE "Se esperaba '\x7d' al cerrar el for."
    (by decide)
  have hf := ((((((h2.trans hit.1).trans h3).trans hib.1).trans h4).trans h5).trans hpb.1).trans
    h7
  have hitarg := hit.nodeArg.later ((((((h3.trans hib.1).trans h4).trans h5).trans hpb.1)).trans
    h7)
  have hibarg := hib.nodeArg.later (((h4.trans h5).trans hpb.1).trans h7)
  have hbod := hpb.nodeArg.later h7
  rw [hbody]
  dsimp only
  split
  · rename_i hc
    refine ⟨_, _, rfl, Parser.Post.fail3 (hf) _ _ _ ?_⟩
    simp only [Bool.or_eq_true] at hc
    rcases hc with ((h | h) | h) | h
    · exact h
    · exact hitarg.isNone_error h
    · exact hibarg.isNone_error h
    · exact hbod.isNone_error h
  · exact ⟨_, _, rfl, Parser.Post.node3 hf.allocated _ _ hitarg.created hibarg.created
      hbod.created
      (fun tx ty tz hx hy hz => (shaped_mk _ _ _).mpr
        ⟨by simp [children_fixed, hx.1, hy.1, hz.1], by simpa using ⟨hx.2.1, hy.2.1, hz.2⟩⟩)⟩

theorem maybe_return_runs (fuel : Nat) (parser : Parser) (hfuel : parser.remaining < fuel) :
    ∃ r b, (if parser_check parser TOKEN_KW_RETURN then parse_return fuel parser
        else some (none, parser)) = some (r, b) ∧ parser.Frame b ∧
      ∀ t, r = some t → b.had_error = false → t.shaped = true := by
  split
  · have hadv := parser_advance_frame parser
    have hle := hadv.2.2.1
    obtain ⟨r, b, hr, hp⟩ := parse_return_runs fuel parser (by omega)
    exact ⟨r, b, hr, hadv.trans hp.1, hp.2.2⟩
  · exact ⟨_, _, rfl, Parser.Frame.refl _, fun t ht => by cases ht⟩

theorem parse_function_runs (block : Bool → Parser → Res) (bound : Nat)
    (hblock : Parser.RunsBlock block bound) (fuel : Nat) (parser : Parser)
    (hb : (parser_advance parser).remaining < bound)
    (hfuel : (parser_advance parser).remaining < fuel) :
    ∃ r b, parse_function block fuel parser = some (r, b) ∧
      (parser_advance parser).Post ASTNode.Shaped r b := by
  unfold parse_function
  dsimp only
  have hname := parse_identifier_node_post (parser_advance parser)
  have hle1 := hname.1.2.2.1
  generalize (parse_identifier_node (parser_advance parser)) = name at hname hle1 ⊢
  have h2 := parser_consume_frame name.2 TOKEN_LPAREN
    "Se esperaba '(' tras el nombre de la función." (by decide)
  have hle2 := h2.2.2.1
  obtain ⟨params, p3, hparams, hpp⟩ := parse_parameter_list_runs fuel
    (parser_consume name.2 TOKEN_LPAREN "Se esperaba '(' tras el nombre de la función.").2
    (by omega)
  have hle3 := hpp.1.2.2.1
  have h4 := parser_consume_frame p3 TOKEN_RPAREN "Se esperaba ')' tras los parámetros."
    (by decide)
  have hle4 := h4.2.2.1
  have h5 := parser_consume_frame
    (parser_consume p3 TOKEN_RPAREN "Se esperaba ')' tras los parámetros.").2 TOKEN_LBRACE
    "Se esperaba '\x7b' para el cuerpo de la función." (by decide)
  have hle5 := h5.2.2.1
  obtain ⟨body, p6, hbody, hpb⟩ := hblock true
    (parser_consume (parser_consume p3 TOKEN_RPAREN "Se esperaba ')' tras los parámetros.").2
      TOKEN_LBRACE "Se esperaba '\x7b' para el cuerpo de la función.").2 (by omega)
  have hle6 := hpb.1.2.2.1
  obtain ⟨ret, p7, hret, hfr, hrs⟩ := maybe_return_runs fuel p6 (by omega)
  have h8 := parser_consume_frame p7 TOKEN_RBRACE "Se esperaba '\x7d' al cerrar la función."
    (by decide)
  have hf := ((((((hname.1.trans h2).trans hpp.1).trans h4).trans h5).trans hpb.1).trans
    hfr).trans h8
  have hnarg := hname.nodeArg.later ((((((h2.trans hpp.1).trans h4).trans h5).trans hpb.1).trans
    hfr).trans h8)
  have hparg := hpp.nodeArg.later ((((h4.trans h5).trans hpb.1).trans hfr).trans h8)
  have hbarg := hpb.nodeArg.later (hfr.trans h8)
  rw [hparams]
  dsimp only
  rw [hbody]
  dsimp only
  rw [hret]
  dsimp only
  split
  · rename_i hc
    refine ⟨_, _, rfl,
      Parser.Post.fail4 hf _ _ _ _ ?_⟩
    simp only [Bool.or_eq_true] at hc
    rcases hc with ((h | h) | h) | h
    · exact h
    · exact hnarg.isNone_error h
    · exact hparg.isNone_error h
    · exact hbarg.isNone_error h
  · refine ⟨_, _, rfl, hf.allocated, fun hn => ?_, fun t ht hne => ?_⟩
    · exact absurd (ast_add_child_eq_none (ast_add_child_eq_none (ast_add_child_eq_none
        (ast_add_child_eq_none hn)))) (ast_create_ne_none _ _)
    · have hne : (parser_consume p7 TOKEN_RBRACE
          "Se esperaba '\x7d' al cerrar la función.").2.had_error = false := hne
      obtain ⟨tn, en, hgn⟩ := hnarg.node hne
      obtain ⟨tp, ep, hgp⟩ := hparg.node hne
      obtain ⟨tb, eb, hgb⟩ := hbarg.node hne
      rw [en, ep, eb] at ht
      cases ret with
      | none =>
        simp only [ast_create, ast_add_child_some, ast_add_child_none, Option.some.injEq] at ht
        subst ht
        exact (shaped_mk _ _ _).mpr ⟨rfl, by simpa using ⟨hgn.2.1, hgp.2, hgb.2⟩⟩
      | some tr =>
        have hgr := hrs tr rfl (h8.no_error hne)
        simp only [ast_create, ast_add_child_some, Option.some.injEq] at ht
        subst ht
        exact (shaped_mk _ _ _).mpr ⟨rfl, by simpa using ⟨hgn.2.1, hgp.2, hgb.2, hgr⟩⟩

/-- A rule that first consumes the token it is called on. -/
theorem runs_instr_of_advance {res : Res} {parser : Parser}
    (h : ∃ r b, res = some (r, b) ∧ (parser_advance parser).Post ASTNode.Shaped r b) :
    parser.InstrOk res := by
  obtain ⟨r, b, hr, hp⟩ := h
  have hle := hp.1.2.2.1
  refine ⟨r, b, hr, hp.from (parser_advance_frame parser), fun hne _ => ?_⟩
  have hlt := (parser_advance_remaining parser).2 hne
  omega

/-- A rule that first consumes the identifier it is called on. -/
theorem runs_instr_of_identifier {res : Res} {parser : Parser}
    (h : ∃ r b, res = some (r, b) ∧ (parse_identifier_node parser).2.Post ASTNode.Shaped r b)
    (hid : parser.current.type = TOKEN_IDENTIFIER) : parser.InstrOk res := by
  obtain ⟨r, b, hr, hp⟩ := h
  have hlt := parse_identifier_node_progress parser hid
  have hle := hp.1.2.2.1
  exact ⟨r, b, hr, hp.from (parse_identifier_node_post parser).1, fun _ _ => by omega⟩

theorem parse_instruction_runs (block : Bool → Parser → Res) (bound : Nat)
    (hblock : Parser.RunsBlock block bound) (fuel : Nat) (parser : Parser)
    (hb2 : (parser_advance parser).remaining < bound) (hfuel : parser.remaining < fuel) :
    parser.RunsInstr (parse_instruction block fuel) := by
  have hle := (parser_advance_remaining parser).1
  have hfuel2 : (parser_advance parser).remaining < fuel := by omega
  unfold Parser.RunsInstr parse_instruction
  dsimp only
  refine ite_cases parser.InstrOk
    (fun _ => runs_instr_of_advance (parse_declaration_runs fuel parser hfuel2))
    (fun _ => ?_)
  refine ite_cases parser.InstrOk
    (fun _ => runs_instr_of_advance (parse_array_declaration_runs fuel parser hfuel2))
    (fun _ => ?_)
  refine ite_cases parser.InstrOk
    (fun _ => runs_instr_of_advance (parse_if_runs block bound hblock fuel parser hb2 hfuel2))
    (fun _ => ?_)
  refine ite_cases parser.InstrOk
    (fun _ => runs_instr_of_advance (parse_for_runs block bound hblock parser hb2))
    (fun _ => ?_)
  refine ite_cases parser.InstrOk
    (fun _ => runs_instr_of_advance (parse_while_runs block bound hblock fuel parser hb2 hfuel2))
    (fun _ => ?_)
  refine ite_cases parser.InstrOk
    (fun _ => runs_instr_of_advance
      (parse_function_runs block bound hblock fuel parser hb2 hfuel2))
    (fun _ => ?_)
  refine ite_cases parser.InstrOk
    (fun _ => runs_instr_of_advance (parse_return_runs fuel parser hfuel2))
    (fun _ => ?_)
  refine ite_cases parser.InstrOk
    (fun _ => runs_instr_of_advance
      (parse_special_call_runs fuel parser parser.current hfuel2))
    (fun _ => ?_)
  refine ite_cases parser.InstrOk (fun hid => ?_)
    (fun _ => parse_expression_statement_runs fuel parser hfuel)
  exact ite_cases parser.InstrOk
    (fun _ => runs_instr_of_identifier (parse_call_statement_runs fuel parser hfuel) hid)
    (fun _ => runs_instr_of_identifier (parse_assignment_runs fuel parser hfuel) hid)

theorem instruction_loop_runs (instruction : Parser → Res) (bound : Nat)
    (hinstr : ∀ q : Parser, q.current.type ≠ TOKEN_EOF → q.remaining ≤ bound →
      q.RunsInstr instruction)
    (stop_on_rbrace : Bool) (fuel : Nat) (list : Option ASTNode) (parser : Parser)
    (hb : parser.remaining ≤ bound) (hfuel : parser.remaining < fuel)
    (hacc : ListAcc AST_INSTRUCTION_LIST list parser) :
    parser.Runs (instruction_loop instruction stop_on_rbrace fuel list)
      (ASTNode.KindGood AST_INSTRUCTION_LIST) := by
  induction fuel generalizing list parser with
  | zero => omega
  | succ n ih =>
    unfold Parser.Runs instruction_loop
    split
    · exact ⟨_, _, rfl, hacc.post (Parser.Frame.refl _) (fun _ => rfl)⟩
    rename_i heof
    split
    · exact ⟨_, _, rfl, hacc.post (Parser.Frame.refl _) (fun _ => rfl)⟩
    have hne : parser.current.type ≠ TOKEN_EOF := by
      intro h
      apply heof
      unfold parser_check
      exact decide_eq_true h
    obtain ⟨instr, p1, hi, hp, hprog⟩ := hinstr parser hne hb
    rw [hi]
    dsimp only
    cases hn : instr.isNone
    · rw [if_neg (by simp)]
      have hlt := hprog hne (by cases instr <;> simp_all)
      obtain ⟨r, b, hr, hpost⟩ := ih (ast_add_child list instr) p1 (by omega) (by omega)
        ((hacc.carry hp.1).add hp.nodeArg (fun t ht => ht))
      exact ⟨r, b, hr, hpost.from hp.1⟩
    · rw [if_pos rfl]
      exact ⟨_, _, rfl, Parser.Post.fail1 (hp.1) _ (hp.nodeArg.isNone_error hn)⟩

theorem parse_instruction_list_succ (fuel : Nat) (stop_on_rbrace : Bool) (parser : Parser) :
    parse_instruction_list (fuel + 1) stop_on_rbrace parser =
      instruction_loop (parse_instruction (parse_instruction_list fuel) (fuel + 1)) stop_on_rbrace
        (fuel + 1) (ast_create AST_INSTRUCTION_LIST parser.current) parser.allocated := rfl

/-- The rule `parse_instruction_list` returns whenever its fuel exceeds the
number of tokens left. -/
theorem parse_instruction_list_runs (fuel : Nat) :
    Parser.RunsBlock (parse_instruction_list fuel) fuel := by
  induction fuel with
  | zero => intro stop q hq; omega
  | succ n ih =>
    intro stop q hq
    have hq2 : q.allocated.remaining ≤ n := by rw [Parser.remaining_allocated]; omega
    have hacc : ListAcc AST_INSTRUCTION_LIST (ast_create AST_INSTRUCTION_LIST q.current)
        q.allocated := ⟨_, [], rfl, fun _ c hc => by cases hc⟩
    obtain ⟨r, b, hr, hp⟩ := instruction_loop_runs
      (parse_instruction (parse_instruction_list n) (n + 1)) n
      (fun p hne hp => parse_instruction_runs (parse_instruction_list n) n ih (n + 1) p
        (by have := (parser_advance_remaining p).2 hne; omega) (by omega))
      stop (n + 1) (ast_create AST_INSTRUCTION_LIST q.current) q.allocated hq2 (by omega) hacc
    unfold Parser.Runs
    rw [parse_instruction_list_succ]
    exact ⟨r, b, hr, hp.from (Parser.Frame.refl q).allocated⟩

/-- The function `parser_parse` returns whenever its fuel exceeds the number of
tokens left: it returns a tree exactly when the error flag is clear, and the
tree is a shaped program node whose one child is an instruction list. -/
theorem parser_parse_runs (fuel : Nat) (parser : Parser) (hfuel : parser.remaining < fuel) :
    ∃ r b, parser_parse fuel parser = some (r, b) ∧ parser.Frame b ∧
      (r = none ↔ b.had_error = true) ∧
      ∀ t, r = some t → t.shaped = true ∧ t.type = AST_PROGRAM ∧
        ∃ c, t.children = [c] ∧ c.type = AST_INSTRUCTION_LIST := by
  obtain ⟨instructions, p1, hi, hp⟩ := parse_instruction_list_runs fuel false parser.allocated
    (by rw [Parser.remaining_allocated]; exact hfuel)
  have hf : parser.Frame p1 := hp.1
  unfold parser_parse
  dsimp only
  rw [hi]
  dsimp only
  cases instructions with
  | none =>
    simp only [Option.isNone_none, if_true]
    exact ⟨_, _, rfl, hf.released _, ⟨fun _ => hp.2.1 rfl, fun _ => rfl⟩, fun t ht => by cases ht⟩
  | some list =>
    simp only [Option.isNone_some, Bool.false_eq_true, if_false]
    split
    · exact ⟨_, _, rfl, (hf.trans (parser_error_frame _ _ (by decide))).released _,
        ⟨fun _ => parser_error_had_error _ _ _, fun _ => rfl⟩, fun t ht => by cases ht⟩
    · cases he : p1.had_error
      · refine ⟨_, _, rfl, hf, ⟨fun h => ?_, fun h => ?_⟩, fun t ht => ?_⟩
        · simp [ast_create, ast_add_child] at h
        · rw [he] at h; cases h
        · have hg := hp.2.2 list rfl he
          simp only [ast_create, ast_add_child_some, Bool.false_eq_true, if_false,
            Option.some.injEq] at ht
          subst ht
          exact ⟨(shaped_mk _ _ _).mpr ⟨rfl, by simpa using hg.2⟩, rfl, list, rfl, hg.1⟩
      · exact ⟨_, _, rfl, hf, ⟨fun _ => he, fun _ => by simp⟩, fun t ht => by simp at ht⟩


/-! ## The result of a parse and the sticky first error -/

theorem parser_init_lexer (source : List Char) (length : Nat) :
    (parser_init source length).lexer =
      (lexer_next_token (lexer_next_token (lexer_init source length)).2).2 := by
  unfold parser_init
  dsimp only

theorem parser_init_current (source : List Char) (length : Nat) :
    (parser_init source length).current = (lexer_next_token (lexer_init source length)).1 := by
  unfold parser_init
  exact rfl

theorem parser_init_next (source : List Char) (length : Nat) :
    (parser_init source length).next =
      (lexer_next_token (lexer_next_token (lexer_init source length)).2).1 := by
  unfold parser_init
  dsimp only

theorem parser_init_had_error (source : List Char) (length : Nat) :
    (parser_init source length).had_error = false := by
  unfold parser_init
  exact rfl

theorem parser_init_source (source : List Char) (length : Nat) :
    (parser_init source length).lexer.source = source ∧
      (parser_init source length).lexer.length = length := by
  have h1 := lexer_next_token_step (lexer_init source length)
  have h2 := lexer_next_token_step (lexer_next_token (lexer_init source length)).2
  rw [parser_init_lexer]
  exact ⟨h2.1.trans h1.1, h2.2.1.trans h1.2.1⟩

theorem lexer_at_two (source : List Char) (length : Nat) :
    lexer_at source length 2 =
      (lexer_next_token (lexer_next_token (lexer_init source length)).2).2 := by
  simp only [lexer_at]

theorem token_at_zero (source : List Char) (length : Nat) :
    token_at source length 0 = (lexer_next_token (lexer_init source length)).1 := by
  simp only [token_at, lexer_at]

theorem token_at_one (source : List Char) (length : Nat) :
    token_at source length 1 =
      (lexer_next_token (lexer_next_token (lexer_init source length)).2).1 := by
  simp only [token_at, lexer_at]

theorem parser_init_aligned (source : List Char) (length : Nat) :
    (parser_init source length).Aligned := by
  unfold Parser.Aligned
  rw [(parser_init_source source length).1, (parser_init_source source length).2,
    parser_init_had_error]
  exact ⟨0, (parser_init_current source length).trans (token_at_zero source length).symm,
    (parser_init_next source length).trans (token_at_one source length).symm,
    (parser_init_lexer source length).trans (lexer_at_two source length).symm,
    fun h => absurd h (by decide)⟩

theorem parser_init_remaining (source : List Char) (length : Nat) :
    (parser_init source length).remaining < parse_fuel (parser_init source length) := by
  unfold Parser.remaining parse_fuel
  split <;> split <;> omega

/-- C2. For every source, `parser_parse` after `parser_init` returns, and it
returns a tree if and only if no error has been recorded; a tree returned has
kind program and exactly one child, of kind instruction-list; and when no tree
is returned the error flag is set, the recorded message is not empty and the
recorded token is a token of the source. -/
theorem parse_tree_iff_no_error (source : List Char) :
    ∃ r b, parse source = some (r, b) ∧
      (r.isSome = true ↔ parser_has_error b = false) ∧
      (∀ t, r = some t → t.type = AST_PROGRAM ∧
        ∃ list, t.children = [list] ∧ list.type = AST_INSTRUCTION_LIST) ∧
      (r = none → parser_has_error b = true ∧ parser_error_message b ≠ "" ∧
        ∃ j, parser_error_token b = token_at source source.length j) := by
  obtain ⟨r, b, hr, hf, hiff, htree⟩ := parser_parse_runs
    (parse_fuel (parser_init source source.length)) (parser_init source source.length)
    (parser_init_remaining source source.length)
  refine ⟨r, b, hr, ?_, fun t ht => (htree t ht).2, fun hn => ?_⟩
  · unfold parser_has_error
    constructor
    · intro hs
      cases hb : b.had_error
      · rfl
      · rw [hiff.mpr hb] at hs
        cases hs
    · intro hb
      cases r with
      | none => rw [hiff.mp rfl] at hb; cases hb
      | some t => rfl
  · have he : b.had_error = true := hiff.mp hn
    have hrec : b.Recorded := hf.2.2.2.2.1
      (fun h => absurd h (by rw [parser_init_had_error]; decide))
    obtain ⟨k, _, _, _, htok⟩ := hf.2.2.2.2.2 (parser_init_aligned source source.length)
    obtain ⟨j, hj⟩ := htok he
    rw [hf.1, hf.2.1, (parser_init_source source source.length).1,
      (parser_init_source source source.length).2] at hj
    exact ⟨he, hrec he, j, hj⟩

theorem parser_error_keeps (parser : Parser) (token : Token) (message : String)
    (h : parser.had_error = true) : parser.Keeps (parser_error parser token message) := by
  unfold parser_error
  rw [if_pos h]
  exact ⟨h, rfl, rfl⟩

theorem parser_consume_keeps (parser : Parser) (type : TokenType) (message : String)
    (h : parser.had_error = true) : parser.Keeps (parser_consume parser type message).2 := by
  unfold parser_consume
  split
  · exact ⟨h, rfl, rfl⟩
  · exact parser_error_keeps parser _ _ h

/-- Every grammar rule, called with enough fuel in a state from which it can
take its nullable argument, returns in a later state of the parse. -/
theorem rule_run_frame (rule : Rule) (n : Nat) (parser : Parser) (hn : parser.remaining ≤ n)
    (hcall : ∀ callee, rule = Rule.call callee →
      NodeArg (fun t => t.shaped = true) callee parser) :
    ∃ r b, rule.run n parser = some (r, b) ∧ parser.Frame b := by
  have hadv := parser_advance_frame parser
  have hle := hadv.2.2.1
  have hexpr : ∀ q : Parser, q.remaining < n + 1 →
      q.Runs (parse_expression (n + 1)) ASTNode.ExprGood :=
    fun q hq => parse_expression_runs (n + 1) q hq
  have hblock := parse_instruction_list_runs (n + 1)
  have of_runs : ∀ {f : Parser → Res} {good : ASTNode → Prop}, parser.Runs f good →
      ∃ r b, f parser = some (r, b) ∧ parser.Frame b :=
    fun h => h.elim fun r h => h.elim fun b h => ⟨r, b, h.1, h.2.1⟩
  have of_adv : ∀ {res : Res},
      (∃ r b, res = some (r, b) ∧ (parser_advance parser).Post ASTNode.Shaped r b) →
      ∃ r b, res = some (r, b) ∧ parser.Frame b :=
    fun h => h.elim fun r h => h.elim fun b h => ⟨r, b, h.1, hadv.trans h.2.1⟩
  have of_id : ∀ {res : Res},
      (∃ r b, res = some (r, b) ∧ (parse_identifier_node parser).2.Post ASTNode.Shaped r b) →
      ∃ r b, res = some (r, b) ∧ parser.Frame b :=
    fun h => h.elim fun r h => h.elim fun b h =>
      ⟨r, b, h.1, (parse_identifier_node_post parser).1.trans h.2.1⟩
  have of_instr : ∀ {res : Res}, parser.InstrOk res →
      ∃ r b, res = some (r, b) ∧ parser.Frame b :=
    fun h => h.elim fun r h => h.elim fun b h => ⟨r, b, h.1, h.2.1.1⟩
  cases rule with
  | program =>
    obtain ⟨r, b, hr, hf, _⟩ := parser_parse_runs (n + 1) parser (by omega)
    exact ⟨r, b, hr, hf⟩
  | instruction_list stop => exact of_runs (hblock stop parser (by omega))
  | instruction =>
    exact of_instr (parse_instruction_runs (parse_instruction_list (n + 1)) (n + 1) hblock
      (n + 1) parser (by omega) (by omega))
  | declaration => exact of_adv (parse_declaration_runs (n + 1) parser (by omega))
  | array_declaration => exact of_adv (parse_array_declaration_runs (n + 1) parser (by omega))
  | assignment => exact of_id (parse_assignment_runs (n + 1) parser (by omega))
  | if_statement =>
    exact of_adv (parse_if_runs (parse_instruction_list (n + 1)) (n + 1) hblock (n + 1) parser
      (by omega) (by omega))
  | for_statement =>
    exact of_adv (parse_for_runs (parse_instruction_list (n + 1)) (n + 1) hblock parser
      (by omega))
  | while_statement =>
    exact of_adv (parse_while_runs (parse_instruction_list (n + 1)) (n + 1) hblock (n + 1)
      parser (by omega) (by omega))
  | parameter_list => exact of_runs (parse_parameter_list_runs (n + 1) parser (by omega))
  | function =>
    exact of_adv (parse_function_runs (parse_instruction_list (n + 1)) (n + 1) hblock (n + 1)
      parser (by omega) (by omega))
  | return_statement => exact of_adv (parse_return_runs (n + 1) parser (by omega))
  | argument_list =>
    exact of_runs (parse_argument_list_runs (parse_expression (n + 1)) (n + 1) hexpr (n + 1)
      parser (by omega) (by omega))
  | call callee =>
    exact of_runs (parse_call_runs (parse_expression (n + 1)) (n + 1) hexpr (n + 1) parser
      callee (by omega) (by omega) (hcall callee rfl))
  | call_statement => exact of_id (parse_call_statement_runs (n + 1) parser (by omega))
  | special_call keyword =>
    exact of_adv (parse_special_call_runs (n + 1) parser keyword (by omega))
  | expression_statement =>
    exact of_instr (parse_expression_statement_runs (n + 1) parser (by omega))
  | expression => exact of_runs (hexpr parser (by omega))
  | or_level =>
    exact of_runs (parse_or_runs (parse_expression (n + 1)) (n + 1) hexpr (n + 2) (by omega)
      parser (by omega))
  | and_level =>
    exact of_runs (parse_and_runs (parse_expression (n + 1)) (n + 1) hexpr (n + 2) (by omega)
      parser (by omega))
  | eq_level =>
    exact of_runs (parse_eq_runs (parse_expression (n + 1)) (n + 1) hexpr (n + 2) (by omega)
      parser (by omega))
  | rel_level =>
    exact of_runs (parse_rel_runs (parse_expression (n + 1)) (n + 1) hexpr (n + 2) (by omega)
      parser (by omega))
  | add_level =>
    exact of_runs (parse_add_runs (parse_expression (n + 1)) (n + 1) hexpr (n + 2) (by omega)
      parser (by omega))
  | mul_level =>
    exact of_runs (parse_mul_runs (parse_expression (n + 1)) (n + 1) hexpr (n + 2) (by omega)
      parser (by omega))
  | unary =>
    exact of_runs (parse_unary_runs (parse_expression (n + 1)) (n + 1) hexpr (n + 2) parser
      (by omega) (by omega))
  | primary =>
    exact of_runs (parse_primary_runs (parse_expression (n + 1)) (n + 1) hexpr (n + 2) parser
      (by omega) (by omega))
  | array_literal =>
    have hc := (parser_consume_frame parser TOKEN_LBRACKET "Se esperaba '['." (by decide)).2.2.1
    exact of_runs (parse_array_literal_runs (parse_expression (n + 1)) (n + 1) hexpr (n + 1)
      parser (by omega) (by omega))
  | identifier_node => exact ⟨_, _, rfl, (parse_identifier_node_post parser).1⟩

/-- C3. Sticky first error. In every parser state in which the error flag is
set, `parser_error`, `parser_consume`, `parser_advance`, `parser_match` and
every grammar rule leave the flag set and leave the recorded error token and
error message as they are; a grammar rule returns in such a state whenever its
fuel covers the tokens left. -/
theorem sticky_first_error :
    (∀ (parser : Parser) (token : Token) (message : String), parser.had_error = true →
      parser.Keeps (parser_error parser token message)) ∧
    (∀ (parser : Parser) (type : TokenType) (message : String), parser.had_error = true →
      parser.Keeps (parser_consume parser type message).2) ∧
    (∀ parser : Parser, parser.had_error = true → parser.Keeps (parser_advance parser)) ∧
    (∀ (parser : Parser) (type : TokenType), parser.had_error = true →
      parser.Keeps (parser_match parser type).2) ∧
    (∀ (rule : Rule) (n : Nat) (parser : Parser), parser.remaining ≤ n →
      parser.had_error = true → ∃ r b, rule.run n parser = some (r, b) ∧ parser.Keeps b) := by
  refine ⟨parser_error_keeps, parser_consume_keeps, fun p h => ⟨h, rfl, rfl⟩,
    fun p type h => (parser_match_frame p type).2.2.2.1 h, fun rule n p hn h => ?_⟩
  obtain ⟨r, b, hr, hf⟩ := rule_run_frame rule n p hn
    (fun callee _ => ⟨fun _ => h, fun t _ hne => absurd h (by rw [hne]; decide)⟩)
  exact ⟨r, b, hr, hf.2.2.2.1 h⟩


/-- C3 at the state of `parser_init` on `a b` in which `parser_error` has
recorded an error: `parse_instruction` returns and keeps the record. -/
theorem sticky_first_error_witness :
    ∃ r b,
      Rule.run 3 Rule.instruction
          (parser_error (parser_init "a b".toList 3) (parser_init "a b".toList 3).current
            "Se esperaba ';' tras la expresión.") = some (r, b) ∧
        (parser_error (parser_init "a b".toList 3) (parser_init "a b".toList 3).current
          "Se esperaba ';' tras la expresión.").Keeps b :=
  sticky_first_error.2.2.2.2 Rule.instruction 3
    (parser_error (parser_init "a b".toList 3) (parser_init "a b".toList 3).current
      "Se esperaba ';' tras la expresión.") (by decide) rfl

/-! ## A declaration without its `=` -/

theorem parse_declaration_missing_eq (fuel : Nat) (parser : Parser)
    (hn : parser.next.type = TOKEN_IDENTIFIER) (he : parser.had_error = false)
    (ht : (lexer_next_token parser.lexer).1.type ≠ TOKEN_EQ) :
    ∃ b, parse_declaration fuel parser = some (none, b) ∧ b.had_error = true ∧
      b.error_token = (lexer_next_token parser.lexer).1 ∧
      b.error_message = "Se esperaba '=' en la declaración." := by
  simp [parse_declaration, parse_identifier_node, parser_consume, parser_advance, parser_error,
    Parser.allocated, Parser.released, ast_create, hn, he, ht]

theorem parser_parse_missing_eq (fuel : Nat) (parser : Parser)
    (hc : parser.current.type = TOKEN_KW_INT ∨ parser.current.type = TOKEN_KW_FLOAT ∨
      parser.current.type = TOKEN_KW_CHAR ∨ parser.current.type = TOKEN_KW_BOOL)
    (hn : parser.next.type = TOKEN_IDENTIFIER) (he : parser.had_error = false)
    (ht : (lexer_next_token parser.lexer).1.type ≠ TOKEN_EQ) :
    ∃ b, parser_parse (fuel + 1) parser = some (none, b) ∧ b.had_error = true ∧
      b.error_token = (lexer_next_token parser.lexer).1 ∧
      b.error_message = "Se esperaba '=' en la declaración." := by
  obtain ⟨b, hb, h1, h2, h3⟩ := parse_declaration_missing_eq (fuel + 1)
    parser.allocated.allocated hn he ht
  have hinstr : parse_instruction (parse_instruction_list fuel) (fuel + 1)
      parser.allocated.allocated = some (none, b) := by
    rw [← hb]
    unfold parse_instruction
    dsimp only
    exact if_pos hc
  have hne : parser_check parser.allocated.allocated TOKEN_EOF = false := by
    unfold parser_check
    have hcur : parser.allocated.allocated.current.type = parser.current.type := rfl
    rcases hc with h | h | h | h <;> exact decide_eq_false (by rw [hcur, h]; decide)
  refine ⟨(b.released (ast_create AST_INSTRUCTION_LIST parser.allocated.current)).released
    (ast_create AST_PROGRAM parser.current), ?_, h1, h2, h3⟩
  unfold parser_parse
  dsimp only
  rw [parse_instruction_list_succ]
  unfold instruction_loop
  rw [hne, hinstr]
  rfl

/-- C4. For every source whose first token is `int`, `float`, `char` or
`bool`, whose second token is an identifier and whose third token is not `=`,
parsing fails, and the recorded error is that of the third token with the
message of the declaration that expects `=`. -/
theorem declaration_missing_equals (source : List Char)
    (h1 : (token_at source source.length 0).type = TOKEN_KW_INT ∨
      (token_at source source.length 0).type = TOKEN_KW_FLOAT ∨
      (token_at source source.length 0).type = TOKEN_KW_CHAR ∨
      (token_at source source.length 0).type = TOKEN_KW_BOOL)
    (h2 : (token_at source source.length 1).type = TOKEN_IDENTIFIER)
    (h3 : (token_at source source.length 2).type ≠ TOKEN_EQ) :
    ∃ b, parse source = some (none, b) ∧ parser_has_error b = true ∧
      parser_error_token b = token_at source source.length 2 ∧
      parser_error_message b = "Se esperaba '=' en la declaración." := by
  have e3 : token_at source source.length 2 =
      (lexer_next_token (parser_init source source.length).lexer).1 := by
    rw [parser_init_lexer, ← lexer_at_two]
    rfl
  rw [e3] at h3 ⊢
  rw [token_at_zero, ← parser_init_current] at h1
  rw [token_at_one, ← parser_init_next] at h2
  exact parser_parse_missing_eq _ (parser_init source source.length) h1 h2
    (parser_init_had_error _ _) h3

/-- C4 at the source `int x 5;`: the recorded token is `5`. -/
theorem declaration_missing_equals_witness :
    ∃ b, parse "int x 5;".toList = some (none, b) ∧ parser_has_error b = true ∧
      parser_error_token b =
        { type := TOKEN_NUMBER, lexeme := some 6, length := 1, line := 1, column := 8 } ∧
      parser_error_message b = "Se esperaba '=' en la declaración." :=
  declaration_missing_equals "int x 5;".toList (by decide) (by decide) (by decide)


/-! ## The parser on example sources -/

/-- C5. The source `x = 1;` parses, and on the source `x = 1; }` the parse fails
with the error of an invalid primary expression at the token `}`: the check of
`parser_parse` for a token left after the program, with its message
"Fin inesperado del programa.", is not what records the error. -/
theorem stray_rbrace_is_invalid_primary :
    parse_summary "x = 1;" =
        some (some (.node AST_PROGRAM "x" [.node AST_INSTRUCTION_LIST "x"
          [.node AST_ASSIGNMENT "x" [.node AST_IDENTIFIER "x" [], .node AST_LITERAL "1" []]]]),
          false, "", "x", 5) ∧
      parse_summary "x = 1; \x7d" =
        some (none, true, "Expresión primaria inválida.", "\x7d", 0) :=
  ⟨rfl, rfl⟩

/-- C6. The source `func f(a, b) { return a + b; }` parses to a function node
with three children: the identifier `f`, the parameter list of `a` and `b`, and
an instruction list that holds the return node; the function node has no
fourth child. -/
theorem function_return_is_in_body :
    parse_summary "func f(a, b) \x7b return a + b; \x7d" =
      some (some (.node AST_PROGRAM "func" [.node AST_INSTRUCTION_LIST "func"
        [.node AST_FUNCTION "func"
          [.node AST_IDENTIFIER "f" [],
            .node AST_PARAM_LIST "a" [.node AST_IDENTIFIER "a" [], .node AST_IDENTIFIER "b" []],
            .node AST_INSTRUCTION_LIST "return" [.node AST_RETURN "return"
              [.node AST_EXPRESSION "+"
                [.node AST_IDENTIFIER "a" [], .node AST_IDENTIFIER "b" []]]]]]]),
        false, "", "func", 12) :=
  rfl

/-- C7. On the source `f()`, `parse_instruction` records the error of the
missing `;` and returns the call node all the same, and `parse_instruction_list`
appends that node and returns the list; on `csay(1)`, `parse_instruction` does
the same through `parse_special_call`. -/
theorem call_statement_returns_node_with_error :
    result_summary "f()".toList
        (parse_instruction (parse_instruction_list 4) 4 (parser_init "f()".toList 3)) =
        some (some (.node AST_CALL "(" [.node AST_IDENTIFIER "f" [], .node AST_ARG_LIST ")" []]),
          true, "Se esperaba ';' tras la llamada.") ∧
      result_summary "f()".toList (parse_instruction_list 4 false (parser_init "f()".toList 3)) =
        some (some (.node AST_INSTRUCTION_LIST "f"
          [.node AST_CALL "(" [.node AST_IDENTIFIER "f" [], .node AST_ARG_LIST ")" []]]),
          true, "Se esperaba ';' tras la llamada.") ∧
      result_summary "csay(1)".toList
        (parse_instruction (parse_instruction_list 8) 8 (parser_init "csay(1)".toList 7)) =
        some (some (.node AST_CALL "csay" [.node AST_ARG_LIST "1" [.node AST_LITERAL "1" []]]),
          true, "Se esperaba ';' tras la llamada especial.") :=
  ⟨rfl, rfl, rfl⟩

/-- C8. On the sources `f()` and `csay(1)` the parse fails, `parser_parse`
returns no tree, and five of the nodes it has allocated are not released. -/
theorem failed_parse_leaves_nodes :
    parse_summary "f()" = some (none, true, "Se esperaba ';' tras la llamada.", "", 5) ∧
      parse_summary "csay(1)" =
        some (none, true, "Se esperaba ';' tras la llamada especial.", "", 5) :=
  ⟨rfl, rfl⟩

/-- C9. Tree shape on success. Every node of a tree returned by a parse has the
child list its kind fixes: a condition and an instruction list for `if` and
`while`, two identifiers and an instruction list for `for`, an identifier and a
value for a declaration and an assignment, an expression for `return`; and
`if (a == 1) { b = 2; }` gives an `if` node whose children are the expression
`==` of the identifier `a` and the literal `1`, and the instruction list of the
assignment of the literal `2` to the identifier `b`. -/
theorem tree_shape_on_success :
    (∀ (source : List Char) (t : ASTNode),
      (parse source).map Prod.fst = some (some t) → t.shaped = true) ∧
      (parse_summary "if (a == 1) \x7b b = 2; \x7d").map Prod.fst =
        some (some (.node AST_PROGRAM "if" [.node AST_INSTRUCTION_LIST "if" [.node AST_IF "if"
          [.node AST_EXPRESSION "==" [.node AST_IDENTIFIER "a" [], .node AST_LITERAL "1" []],
            .node AST_INSTRUCTION_LIST "b" [.node AST_ASSIGNMENT "b"
              [.node AST_IDENTIFIER "b" [], .node AST_LITERAL "2" []]]]]])) := by
  refine ⟨fun source t h => ?_, rfl⟩
  obtain ⟨r, b, hr, _, _, htree⟩ := parser_parse_runs
    (parse_fuel (parser_init source source.length)) (parser_init source source.length)
    (parser_init_remaining source source.length)
  have hp : parse source = some (r, b) := hr
  rw [hp] at h
  simp only [Option.map_some', Option.some.injEq] at h
  exact (htree t h).1

/-- C9 at the source `x = 1;`. -/
theorem tree_shape_on_success_witness :
    (ASTNode.mk AST_PROGRAM
      { type := TOKEN_IDENTIFIER, lexeme := some 0, length := 1, line := 1, column := 2 }
      [ASTNode.mk AST_INSTRUCTION_LIST
        { type := TOKEN_IDENTIFIER, lexeme := some 0, length := 1, line := 1, column := 2 }
        [ASTNode.mk AST_ASSIGNMENT
          { type := TOKEN_IDENTIFIER, lexeme := some 0, length := 1, line := 1, column := 2 }
          [ASTNode.mk AST_IDENTIFIER
            { type := TOKEN_IDENTIFIER, lexeme := some 0, length := 1, line := 1, column := 2 }
            [],
          ASTNode.mk AST_LITERAL
            { type := TOKEN_NUMBER, lexeme := some 4, length := 1, line := 1, column := 6 }
            []]]]).shaped = true :=
  tree_shape_on_success.1 "x = 1;".toList _ rfl


/-! ## The tokenizer reads the buffer through the characters left -/

theorem Lexer.WF.step {a b : Lexer} (h : a.WF) (hs : Lexer.Step a b) : b.WF := by
  obtain ⟨h1, h2⟩ := h
  obtain ⟨s1, s2, _, s4⟩ := hs
  refine ⟨by rw [s2, s1]; exact h1, ?_⟩
  rw [s2]
  exact s4 h2

theorem lexer_init_wf (source : List Char) : (lexer_init source source.length).WF :=
  ⟨rfl, Nat.zero_le _⟩

theorem Lexer.rest_length {lexer : Lexer} (h : lexer.WF) :
    lexer.rest.length = lexer.length - lexer.position := by
  unfold Lexer.rest
  rw [List.length_drop, h.1]

theorem lexer_peek_rest {lexer : Lexer} (h : lexer.WF) :
    lexer_peek lexer = lexer.rest.getD 0 NUL := by
  unfold lexer_peek Lexer.rest
  by_cases hp : lexer.position ≥ lexer.length
  · rw [if_pos hp, List.drop_of_length_le (by rw [← h.1]; exact hp)]
    rfl
  · rw [if_neg hp]
    simp [List.getD_eq_getElem?_getD, List.getElem?_drop]

theorem lexer_peek_next_rest {lexer : Lexer} (h : lexer.WF) :
    lexer_peek_next lexer = lexer.rest.getD 1 NUL := by
  unfold lexer_peek_next Lexer.rest
  by_cases hp : lexer.position + 1 ≥ lexer.length
  · rw [if_pos hp]
    have : (List.drop lexer.position lexer.source).length ≤ 1 := by
      rw [List.length_drop, ← h.1]; omega
    rw [List.getD_eq_default _ _ this]
  · rw [if_neg hp]
    simp [List.getD_eq_getElem?_getD, List.getElem?_drop]

theorem lexer_advance_rest {lexer : Lexer} (h : lexer.WF) :
    (lexer_advance lexer).2.rest = lexer.rest.tail := by
  have hs := lexer_advance_source lexer
  have hp := lexer_advance_position lexer
  unfold Lexer.rest
  rw [hs.1, hp]
  by_cases hlt : lexer.position < lexer.length
  · rw [if_pos hlt, List.tail_drop]
  · rw [if_neg hlt, List.drop_of_length_le (by rw [← h.1]; omega)]
    rfl

theorem lexer_advance_wf {lexer : Lexer} (h : lexer.WF) : (lexer_advance lexer).2.WF :=
  h.step (lexer_advance_step lexer)

theorem Lexer.rest_nil_iff {lexer : Lexer} (h : lexer.WF) :
    lexer.rest = [] ↔ lexer.position ≥ lexer.length := by
  unfold Lexer.rest
  rw [List.drop_eq_nil_iff, h.1]

theorem Lexer.rest_position {a b : Lexer} (ha : a.WF) (hs : Lexer.Step a b) :
    b.position = a.position + (a.rest.length - b.rest.length) := by
  have hb := ha.step hs
  rw [Lexer.rest_length ha, Lexer.rest_length hb, hs.2.1]
  have := hs.2.2.1
  have := hb.2
  rw [hs.2.1] at this
  omega


/-! ## The tokenizer loops leave by their own condition

Each loop is run with more fuel than it makes iterations: more fuel gives the
same state. -/

theorem lexer_advance_length (lexer : Lexer) :
    (lexer_advance lexer).2.length = lexer.length :=
  (lexer_advance_source lexer).2

theorem lexer_advance_left {lexer : Lexer} (h : lexer.position < lexer.length) :
    (lexer_advance lexer).2.length - (lexer_advance lexer).2.position + 1 =
      lexer.length - lexer.position := by
  rw [lexer_advance_length, lexer_advance_position, if_pos h]
  omega

theorem lexer_advance_left_le (lexer : Lexer) :
    (lexer_advance lexer).2.length - (lexer_advance lexer).2.position ≤
      lexer.length - lexer.position := by
  rw [lexer_advance_length, lexer_advance_position]
  split <;> omega

theorem skip_whitespace_loop_fuel (k : Nat) : ∀ (fuel : Nat) (lexer : Lexer),
    lexer.length - lexer.position < fuel →
    skip_whitespace_loop (fuel + k) lexer = skip_whitespace_loop fuel lexer := by
  intro fuel
  induction fuel with
  | zero => intro lexer h; omega
  | succ n ih =>
    intro lexer h
    rw [Nat.add_right_comm]
    unfold skip_whitespace_loop
    dsimp only
    by_cases hc : lexer_peek lexer = ' ' ∨ lexer_peek lexer = '\t' ∨ lexer_peek lexer = '\r' ∨
        lexer_peek lexer = '\n'
    · rw [if_pos hc, if_pos hc]
      have hlt : lexer.position < lexer.length := by
        apply lexer_peek_lt
        rcases hc with hc | hc | hc | hc <;> rw [hc] <;> decide
      exact ih _ (by have := lexer_advance_left hlt; omega)
    · rw [if_neg hc, if_neg hc]

theorem identifier_loop_fuel (k : Nat) : ∀ (fuel : Nat) (lexer : Lexer),
    lexer.length - lexer.position < fuel →
    identifier_loop (fuel + k) lexer = identifier_loop fuel lexer := by
  intro fuel
  induction fuel with
  | zero => intro lexer h; omega
  | succ n ih =>
    intro lexer h
    rw [Nat.add_right_comm]
    unfold identifier_loop
    by_cases hc : is_identifier_part (lexer_peek lexer) = true
    · rw [if_pos hc, if_pos hc]
      have hlt : lexer.position < lexer.length := by
        apply lexer_peek_lt
        intro h0
        rw [h0] at hc
        exact absurd hc (by decide)
      exact ih _ (by have := lexer_advance_left hlt; omega)
    · rw [if_neg hc, if_neg hc]

theorem number_loop_fuel (k : Nat) : ∀ (fuel : Nat) (has_dot : Bool) (lexer : Lexer),
    lexer.length - lexer.position < fuel →
    number_loop (fuel + k) has_dot lexer = number_loop fuel has_dot lexer := by
  intro fuel
  induction fuel with
  | zero => intro _ lexer h; omega
  | succ n ih =>
    intro has_dot lexer h
    rw [Nat.add_right_comm]
    unfold number_loop
    by_cases hc : (lexer_peek lexer).isDigit = true ∨ lexer_peek lexer = '.'
    · rw [if_pos hc, if_pos hc]
      have hlt : lexer.position < lexer.length := by
        apply lexer_peek_lt
        intro h0
        rw [h0] at hc
        rcases hc with hc | hc
        · exact absurd hc (by decide)
        · exact absurd hc (by decide)
      have hle : (lexer_advance lexer).2.length - (lexer_advance lexer).2.position < n := by
        have := lexer_advance_left hlt; omega
      by_cases hd : lexer_peek lexer = '.'
      · rw [if_pos hd, if_pos hd]
        cases has_dot with
        | true => rfl
        | false =>
          simp only [Bool.false_eq_true, if_false]
          exact ih _ _ hle
      · rw [if_neg hd, if_neg hd]
        exact ih _ _ hle
    · rw [if_neg hc, if_neg hc]

theorem string_loop_fuel (quote : Char) (k : Nat) : ∀ (fuel : Nat) (lexer : Lexer),
    lexer.length - lexer.position < fuel →
    string_loop quote (fuel + k) lexer = string_loop quote fuel lexer := by
  intro fuel
  induction fuel with
  | zero => intro lexer h; omega
  | succ n ih =>
    intro lexer h
    rw [Nat.add_right_comm]
    unfold string_loop
    dsimp only
    by_cases h0 : lexer_peek lexer = NUL
    · rw [if_pos h0, if_pos h0]
    · rw [if_neg h0, if_neg h0]
      have hlt := lexer_peek_lt h0
      have hle : (lexer_advance lexer).2.length - (lexer_advance lexer).2.position < n := by
        have := lexer_advance_left hlt; omega
      by_cases hq : lexer_peek lexer = quote
      · rw [if_pos hq, if_pos hq]
      · rw [if_neg hq, if_neg hq]
        by_cases hb : lexer_peek lexer = BACKSLASH ∧ lexer_peek_next lexer ≠ NUL
        · rw [if_pos hb, if_pos hb]
          exact ih _ (Nat.lt_of_le_of_lt (lexer_advance_left_le _) hle)
        · rw [if_neg hb, if_neg hb]
          exact ih _ hle

theorem skip_block_loop_fuel (c1 c2 : Char) (k : Nat) : ∀ (fuel : Nat) (lexer : Lexer),
    lexer.length - lexer.position < fuel →
    skip_block_loop c1 c2 (fuel + k) lexer = skip_block_loop c1 c2 fuel lexer := by
  intro fuel
  induction fuel with
  | zero => intro lexer h; omega
  | succ n ih =>
    intro lexer h
    rw [Nat.add_right_comm]
    unfold skip_block_loop
    by_cases h0 : lexer_peek lexer = NUL
    · rw [if_pos h0, if_pos h0]
    · rw [if_neg h0, if_neg h0]
      have hlt := lexer_peek_lt h0
      by_cases hq : lexer_peek lexer = c1 ∧ lexer_peek_next lexer = c2
      · rw [if_pos hq, if_pos hq]
      · rw [if_neg hq, if_neg hq]
        exact ih _ (by have := lexer_advance_left hlt; omega)

theorem skip_line_loop_fuel (k : Nat) : ∀ (fuel : Nat) (c : Char) (lexer : Lexer),
    lexer.length - lexer.position + 1 < fuel →
    skip_line_loop (fuel + k) c lexer = skip_line_loop fuel c lexer := by
  intro fuel
  induction fuel with
  | zero => intro _ lexer h; omega
  | succ n ih =>
    intro c lexer h
    rw [Nat.add_right_comm]
    unfold skip_line_loop
    by_cases hc : c ≠ '\n' ∧ c ≠ NUL
    · rw [if_pos hc, if_pos hc]
      by_cases hlt : lexer.position < lexer.length
      · exact ih _ _ (by have := lexer_advance_left hlt; omega)
      · have ha : lexer_advance lexer = (NUL, lexer) := by
          unfold lexer_advance
          rw [if_pos (by omega)]
        rw [ha]
        obtain ⟨m, rfl⟩ : ∃ m, n = m + 1 := ⟨n - 1, by omega⟩
        rw [Nat.add_right_comm]
        unfold skip_line_loop
        rw [if_neg (fun h => h.2 rfl), if_neg (fun h => h.2 rfl)]
    · rw [if_neg hc, if_neg hc]

theorem skip_comment_progress {lexer : Lexer}
    (h : (lexer_peek lexer = '/' ∧ (lexer_peek_next lexer = '/' ∨ lexer_peek_next lexer = '*')) ∨
      lexer_peek lexer = '$' ∨ (lexer_peek lexer = '%' ∧ lexer_peek_next lexer = '%')) :
    lexer.position < (skip_comment lexer).position := by
  have hlt : lexer.position < lexer.length := by
    apply lexer_peek_lt
    rcases h with h | h | h
    · rw [h.1]; decide
    · rw [h]; decide
    · rw [h.1]; decide
  have ha : lexer.position < (lexer_advance lexer).2.position := by
    rw [lexer_advance_position, if_pos hlt]
    exact Nat.lt_succ_self _
  have hline : ∀ c : Char, c ≠ '\n' ∧ c ≠ NUL →
      lexer.position < (skip_line_loop (lexer_fuel lexer + 1) c lexer).position := by
    intro c hc
    unfold skip_line_loop
    rw [if_pos hc]
    exact Nat.lt_of_lt_of_le ha (skip_line_loop_step _ _ _).2.2.1
  have hblock : ∀ (c1 c2 : Char) (fuel : Nat), lexer.position <
      (skip_block_loop c1 c2 fuel (lexer_advance (lexer_advance lexer).2).2).position := by
    intro c1 c2 fuel
    exact Nat.lt_of_lt_of_le ha
      ((lexer_advance_step _).andThen (skip_block_loop_step _ _ _ _)).2.2.1
  unfold skip_comment
  dsimp only
  by_cases h1 : lexer_peek lexer = '/' ∧ lexer_peek_next lexer = '/'
  · rw [if_pos h1]
    exact hline _ (by rw [h1.1]; decide)
  · rw [if_neg h1]
    by_cases h2 : lexer_peek lexer = '$'
    · rw [if_pos h2]
      exact hline _ (by rw [h2]; decide)
    · rw [if_neg h2]
      by_cases h3 : lexer_peek lexer = '/' ∧ lexer_peek_next lexer = '*'
      · rw [if_pos h3]
        exact hblock _ _ _
      · rw [if_neg h3]
        by_cases h4 : lexer_peek lexer = '%' ∧ lexer_peek_next lexer = '%'
        · rw [if_pos h4]
          exact hblock _ _ _
        · exfalso
          rcases h with h | h | h
          · rcases h.2 with hn | hn
            · exact h1 ⟨h.1, hn⟩
            · exact h3 ⟨h.1, hn⟩
          · exact h2 h
          · exact h4 h

theorem skip_ignorable_loop_fuel (k : Nat) : ∀ (fuel : Nat) (lexer : Lexer),
    lexer.position ≤ lexer.length → lexer.length - lexer.position < fuel →
    skip_ignorable_loop (fuel + k) lexer = skip_ignorable_loop fuel lexer := by
  intro fuel
  induction fuel with
  | zero => intro lexer _ h; omega
  | succ n ih =>
    intro lexer hle h
    rw [Nat.add_right_comm]
    unfold skip_ignorable_loop
    dsimp only
    have hw := skip_whitespace_loop_step (lexer_fuel lexer) lexer
    have hw2 : Lexer.Step lexer (skip_whitespace lexer) := hw
    by_cases hp : (skip_whitespace lexer).position ≠ lexer.position
    · rw [if_pos hp, if_pos hp]
      have h1 := hw2.2.2.1
      have h2 := hw2.2.2.2 hle
      have h3 := hw2.2.1
      exact ih _ (by omega) (by omega)
    · rw [if_neg hp, if_neg hp]
      by_cases hc : (lexer_peek (skip_whitespace lexer) = '/' ∧
          (lexer_peek_next (skip_whitespace lexer) = '/' ∨
            lexer_peek_next (skip_whitespace lexer) = '*')) ∨
          lexer_peek (skip_whitespace lexer) = '$' ∨
          (lexer_peek (skip_whitespace lexer) = '%' ∧
            lexer_peek_next (skip_whitespace lexer) = '%')
      · rw [if_pos hc, if_pos hc]
        have hs := (skip_comment_step (skip_whitespace lexer))
        have hpr := skip_comment_progress hc
        have h1 := hw2.2.2.1
        have h2 := hw2.2.2.2 hle
        have h3 := hw2.2.1
        have h4 := hs.2.2.2 (by omega)
        have h5 := hs.2.1
        exact ih _ (by omega) (by omega)
      · rw [if_neg hc, if_neg hc]

theorem skip_ignorable_fuel (lexer : Lexer) (hle : lexer.position ≤ lexer.length) (k : Nat) :
    skip_ignorable_loop (lexer_fuel lexer + k) lexer = skip_ignorable lexer :=
  skip_ignorable_loop_fuel k _ lexer hle (Nat.lt_succ_self _)


/-! ## Operators: the longest match -/

theorem lexer_peek_advance {lexer : Lexer} (h : lexer.position < lexer.length) :
    lexer_peek (lexer_advance lexer).2 = lexer_peek_next lexer := by
  unfold lexer_peek lexer_peek_next
  rw [lexer_advance_position, if_pos h, (lexer_advance_source lexer).1,
    (lexer_advance_source lexer).2]

theorem lexer_advance_succ {lexer : Lexer} (h : lexer.position < lexer.length) :
    (lexer_advance lexer).2.position = lexer.position + 1 := by
  rw [lexer_advance_position, if_pos h]

theorem two_char_pos (lexer : Lexer) (start : Nat) (second : Char) (two : TokenType)
    (otherwise : Token × Lexer) (h : lexer_peek lexer = second) :
    two_char lexer start second two otherwise =
      (make_token (lexer_advance lexer).2 two start 2, (lexer_advance lexer).2) := by
  unfold two_char
  rw [if_pos h]

theorem two_char_neg (lexer : Lexer) (start : Nat) (second : Char) (two : TokenType)
    (otherwise : Token × Lexer) (h : lexer_peek lexer ≠ second) :
    two_char lexer start second two otherwise = otherwise := by
  unfold two_char
  rw [if_neg h]

theorem tokenize_plus_plus_plus :
    token_texts "+++".toList = [(TOKEN_PLUSPLUS, "++"), (TOKEN_PLUS, "+"), (TOKEN_EOF, "")] := by
  decide

/-- C13. Maximal munch for operators: when the token starts at one of the pairs
`++ -- == != <= >= && ||`, it is that two-character operator, of length 2, and
the tokenizer moves over both characters; a `+ - = ! < >` not followed by its
pairing character is the one-character operator, of length 1. -/
theorem maximal_munch (lexer : Lexer) :
    (∀ e ∈ two_char_operators,
      lexer_peek (skip_ignorable lexer) = e.1 →
      lexer_peek_next (skip_ignorable lexer) = e.2.1 →
        (lexer_next_token lexer).1.type = e.2.2 ∧
        (lexer_next_token lexer).1.length = 2 ∧
        (lexer_next_token lexer).1.lexeme = some (skip_ignorable lexer).position ∧
        (lexer_next_token lexer).2.position = (skip_ignorable lexer).position + 2) ∧
    (∀ e ∈ one_char_operators,
      lexer_peek (skip_ignorable lexer) = e.1 →
      lexer_peek_next (skip_ignorable lexer) ≠ e.2.1 →
        (lexer_next_token lexer).1.type = e.2.2 ∧
        (lexer_next_token lexer).1.length = 1 ∧
        (lexer_next_token lexer).1.lexeme = some (skip_ignorable lexer).position ∧
        (lexer_next_token lexer).2.position = (skip_ignorable lexer).position + 1) := by
  have key : ∀ c : Char, c ≠ NUL → lexer_peek (skip_ignorable lexer) = c →
      (skip_ignorable lexer).position < (skip_ignorable lexer).length := by
    intro c hc h
    exact lexer_peek_lt (by rw [h]; exact hc)
  constructor
  · intro e he hc hnext
    have hlt := key e.1 (by
      simp only [two_char_operators, List.mem_cons, List.mem_singleton, List.mem_nil_iff,
        or_false] at he
      rcases he with rfl | rfl | rfl | rfl | rfl | rfl | rfl | rfl <;> decide) hc
    have hn : ¬ (skip_ignorable lexer).position ≥ (skip_ignorable lexer).length := by omega
    have hp := lexer_peek_advance hlt
    rw [hnext] at hp
    have h1 := lexer_advance_succ hlt
    have hlt2 : (lexer_advance (skip_ignorable lexer)).2.position <
        (lexer_advance (skip_ignorable lexer)).2.length := by
      apply lexer_peek_lt
      rw [hp]
      simp only [two_char_operators, List.mem_cons, List.mem_singleton, List.mem_nil_iff,
        or_false] at he
      rcases he with rfl | rfl | rfl | rfl | rfl | rfl | rfl | rfl <;> decide
    have h2 := lexer_advance_succ hlt2
    rw [h1] at h2
    have hr : lexer_next_token lexer =
        (make_token (lexer_advance (lexer_advance (skip_ignorable lexer)).2).2 e.2.2
          (skip_ignorable lexer).position 2,
          (lexer_advance (lexer_advance (skip_ignorable lexer)).2).2) := by
      unfold lexer_next_token
      dsimp only
      rw [if_neg hn, lexer_advance_fst, hc]
      generalize (lexer_advance (skip_ignorable lexer)).2 = a at hp ⊢
      generalize (skip_ignorable lexer).position = start
      simp only [two_char_operators, List.mem_cons, List.mem_singleton, List.mem_nil_iff,
        or_false] at he
      rcases he with rfl | rfl | rfl | rfl | rfl | rfl | rfl | rfl <;>
        simp [is_identifier_start, DQUOTE, SQUOTE, two_char, hp]
    rw [hr]
    exact ⟨rfl, rfl, rfl, h2⟩
  · intro e he hc hnext
    have hlt := key e.1 (by
      simp only [one_char_operators, List.mem_cons, List.mem_singleton, List.mem_nil_iff,
        or_false] at he
      rcases he with rfl | rfl | rfl | rfl | rfl | rfl <;> decide) hc
    have hn : ¬ (skip_ignorable lexer).position ≥ (skip_ignorable lexer).length := by omega
    have hp := lexer_peek_advance hlt
    rw [← hp] at hnext
    have h1 := lexer_advance_succ hlt
    have hr : lexer_next_token lexer =
        (make_token (lexer_advance (skip_ignorable lexer)).2 e.2.2
          (skip_ignorable lexer).position 1, (lexer_advance (skip_ignorable lexer)).2) := by
      unfold lexer_next_token
      dsimp only
      rw [if_neg hn, lexer_advance_fst, hc]
      generalize (lexer_advance (skip_ignorable lexer)).2 = a at hnext ⊢
      generalize (skip_ignorable lexer).position = start
      simp only [one_char_operators, List.mem_cons, List.mem_singleton, List.mem_nil_iff,
        or_false] at he
      rcases he with rfl | rfl | rfl | rfl | rfl | rfl <;>
        simp [is_identifier_start, DQUOTE, SQUOTE, two_char, hnext]
    rw [hr]
    exact ⟨rfl, rfl, rfl, h1⟩

theorem maximal_munch_witness :
    (lexer_next_token (lexer_init "+++".toList 3)).1.type = TOKEN_PLUSPLUS ∧
    (lexer_next_token (lexer_init "+++".toList 3)).1.length = 2 ∧
    (lexer_next_token (lexer_init "+=".toList 2)).1.type = TOKEN_PLUS ∧
    (lexer_next_token (lexer_init "+=".toList 2)).1.length = 1 ∧
    token_texts "+++".toList = [(TOKEN_PLUSPLUS, "++"), (TOKEN_PLUS, "+"), (TOKEN_EOF, "")] := by
  have h1 := (maximal_munch (lexer_init "+++".toList 3)).1 ('+', '+', TOKEN_PLUSPLUS)
    (by decide) (by decide) (by decide)
  have h2 := (maximal_munch (lexer_init "+=".toList 2)).2 ('+', '+', TOKEN_PLUS)
    (by decide) (by decide) (by decide)
  exact ⟨h1.1, h1.2.1, h2.1, h2.2.1, tokenize_plus_plus_plus⟩


/-! ## The tokenizer returns a token at every state -/

theorem lexer_next_token_unknown (lexer : Lexer)
    (hlt : (skip_ignorable lexer).position < (skip_ignorable lexer).length)
    (hid : is_identifier_start (lexer_peek (skip_ignorable lexer)) = false)
    (hdigit : (lexer_peek (skip_ignorable lexer)).isDigit = false)
    (hstart : lexer_peek (skip_ignorable lexer) ∉ token_start_chars)
    (hand : lexer_peek (skip_ignorable lexer) = '&' →
      lexer_peek_next (skip_ignorable lexer) ≠ '&')
    (hor : lexer_peek (skip_ignorable lexer) = '|' →
      lexer_peek_next (skip_ignorable lexer) ≠ '|') :
    lexer_next_token lexer =
      (make_token (lexer_advance (skip_ignorable lexer)).2 TOKEN_UNKNOWN
        (skip_ignorable lexer).position 1, (lexer_advance (skip_ignorable lexer)).2) := by
  have hn : ¬ (skip_ignorable lexer).position ≥ (skip_ignorable lexer).length := by omega
  rw [← lexer_peek_advance hlt] at hand hor
  unfold lexer_next_token
  dsimp only
  rw [if_neg hn, lexer_advance_fst]
  generalize (lexer_advance (skip_ignorable lexer)).2 = a at hand hor ⊢
  generalize (skip_ignorable lexer).position = start
  generalize lexer_peek (skip_ignorable lexer) = c at hid hdigit hstart hand hor
  simp only [token_start_chars, List.mem_cons, List.mem_singleton, List.mem_nil_iff, or_false,
    not_or] at hstart
  obtain ⟨h1, h2, h3, h4, h5, h6, h7, h8, h9, h10, h11, h12, h13, h14, h15, h16, h17, h18,
    h19, h20⟩ := hstart
  rw [if_neg (by rw [hid]; exact Bool.false_ne_true), if_neg (by rw [hdigit]; exact Bool.false_ne_true),
    if_neg h1, if_neg h2, if_neg h3, if_neg h4, if_neg h5, if_neg h6, if_neg h7, if_neg h8,
    if_neg h9, if_neg h10, if_neg h11]
  by_cases ha : c = '&'
  · rw [if_pos ha, two_char_neg _ _ _ _ _ (hand ha)]
  · rw [if_neg ha]
    by_cases hb : c = '|'
    · rw [if_pos hb, two_char_neg _ _ _ _ _ (hor hb)]
    · rw [if_neg hb, if_neg h12, if_neg h13, if_neg h14, if_neg h15, if_neg h16, if_neg h17,
        if_neg h18, if_neg h19, if_neg h20]

theorem lexer_at_inside (source : List Char) (k : Nat) :
    (lexer_at source source.length k).position ≤ (lexer_at source source.length k).length := by
  induction k with
  | zero => exact Nat.zero_le _
  | succ n ih =>
    have hs := lexer_next_token_step (lexer_at source source.length n)
    show (lexer_next_token (lexer_at source source.length n)).2.position ≤
      (lexer_next_token (lexer_at source source.length n)).2.length
    rw [hs.2.1]
    exact hs.2.2.2 ih

theorem tokenize_unknown :
    token_texts "a @ & | b".toList =
      [(TOKEN_IDENTIFIER, "a"), (TOKEN_UNKNOWN, "@"), (TOKEN_UNKNOWN, "&"), (TOKEN_UNKNOWN, "|"),
        (TOKEN_IDENTIFIER, "b"), (TOKEN_EOF, "")] := by
  decide

/-- C14. The tokenizer never fails. At a state inside its buffer, as is every
state reached from `lexer_init` (`lexer_at_inside`), every loop of the
tokenizer leaves by its own condition (more fuel gives the same state), so
`lexer_next_token` returns a token and a later state of the same buffer; and a
character that begins no identifier, number, literal, operator or punctuation
token, a lone `&` or `|` included, gives an unknown token of length 1 and only
that character is consumed. -/
theorem tokenizer_never_fails (lexer : Lexer) (hle : lexer.position ≤ lexer.length) :
    (∀ k : Nat,
      skip_whitespace_loop (lexer_fuel lexer + k) lexer = skip_whitespace lexer ∧
      (∀ c, skip_line_loop (lexer_fuel lexer + 1 + k) c lexer =
        skip_line_loop (lexer_fuel lexer + 1) c lexer) ∧
      (∀ c1 c2, skip_block_loop c1 c2 (lexer_fuel lexer + k) lexer =
        skip_block_loop c1 c2 (lexer_fuel lexer) lexer) ∧
      skip_ignorable_loop (lexer_fuel lexer + k) lexer = skip_ignorable lexer ∧
      identifier_loop (lexer_fuel lexer + k) lexer = identifier_loop (lexer_fuel lexer) lexer ∧
      (∀ has_dot, number_loop (lexer_fuel lexer + k) has_dot lexer =
        number_loop (lexer_fuel lexer) has_dot lexer) ∧
      (∀ quote, string_loop quote (lexer_fuel lexer + k) lexer =
        string_loop quote (lexer_fuel lexer) lexer)) ∧
    Lexer.Step lexer (lexer_next_token lexer).2 ∧
    ((skip_ignorable lexer).position < (skip_ignorable lexer).length →
      is_identifier_start (lexer_peek (skip_ignorable lexer)) = false →
      (lexer_peek (skip_ignorable lexer)).isDigit = false →
      lexer_peek (skip_ignorable lexer) ∉ token_start_chars →
      (lexer_peek (skip_ignorable lexer) = '&' → lexer_peek_next (skip_ignorable lexer) ≠ '&') →
      (lexer_peek (skip_ignorable lexer) = '|' → lexer_peek_next (skip_ignorable lexer) ≠ '|') →
        (lexer_next_token lexer).1.type = TOKEN_UNKNOWN ∧
        (lexer_next_token lexer).1.length = 1 ∧
        (lexer_next_token lexer).1.lexeme = some (skip_ignorable lexer).position ∧
        (lexer_next_token lexer).2.position = (skip_ignorable lexer).position + 1) := by
  have hf : lexer.length - lexer.position < lexer_fuel lexer := Nat.lt_succ_self _
  refine ⟨fun k => ⟨skip_whitespace_loop_fuel k _ _ hf, fun c => skip_line_loop_fuel k _ c _
    (Nat.succ_lt_succ hf), fun c1 c2 => skip_block_loop_fuel c1 c2 k _ _ hf,
    skip_ignorable_fuel lexer hle k, identifier_loop_fuel k _ _ hf,
    fun d => number_loop_fuel k _ d _ hf, fun q => string_loop_fuel q k _ _ hf⟩,
    lexer_next_token_step lexer, ?_⟩
  intro hlt hid hdigit hstart hand hor
  rw [lexer_next_token_unknown lexer hlt hid hdigit hstart hand hor]
  exact ⟨rfl, rfl, rfl, lexer_advance_succ hlt⟩

theorem tokenizer_never_fails_witness :
    ((lexer_next_token (lexer_init "& b".toList 3)).1.type = TOKEN_UNKNOWN ∧
      (lexer_next_token (lexer_init "& b".toList 3)).1.length = 1 ∧
      (lexer_next_token (lexer_init "& b".toList 3)).1.lexeme = some 0 ∧
      (lexer_next_token (lexer_init "& b".toList 3)).2.position = 1) ∧
    token_texts "a @ & | b".toList =
      [(TOKEN_IDENTIFIER, "a"), (TOKEN_UNKNOWN, "@"), (TOKEN_UNKNOWN, "&"), (TOKEN_UNKNOWN, "|"),
        (TOKEN_IDENTIFIER, "b"), (TOKEN_EOF, "")] :=
  ⟨(tokenizer_never_fails (lexer_init "& b".toList 3) (by decide)).2.2 (by decide) (by decide)
    (by decide) (by decide) (by decide) (by decide), tokenize_unknown⟩


/-! ## Which branch a literal token comes from -/

theorem two_char_type (lexer : Lexer) (start : Nat) (second : Char) (two : TokenType)
    (otherwise : Token × Lexer) :
    (two_char lexer start second two otherwise).1.type = two ∨
      (two_char lexer start second two otherwise).1.type = otherwise.1.type := by
  unfold two_char
  split
  · exact Or.inl rfl
  · exact Or.inr rfl

theorem keyword_lookup_not_literal (lexeme : List Char) :
    keyword_lookup lexeme KEYWORDS ∉ [TOKEN_NUMBER, TOKEN_STRING, TOKEN_CHAR] := by
  intro h
  rcases keyword_lookup_mem lexeme KEYWORDS with h1 | h1
  · rw [h1] at h; exact absurd h (by decide)
  · generalize keyword_lookup lexeme KEYWORDS = t at h h1
    revert h
    revert t
    decide

theorem lexer_next_token_literal (lexer : Lexer) :
    ((lexer_next_token lexer).1.type = TOKEN_NUMBER →
      is_identifier_start (lexer_peek (skip_ignorable lexer)) = false ∧
      (lexer_peek (skip_ignorable lexer)).isDigit = true) ∧
    ((lexer_next_token lexer).1.type = TOKEN_STRING →
      lexer_peek (skip_ignorable lexer) = DQUOTE) ∧
    ((lexer_next_token lexer).1.type = TOKEN_CHAR →
      lexer_peek (skip_ignorable lexer) = SQUOTE) := by
  by_cases hn : (skip_ignorable lexer).position ≥ (skip_ignorable lexer).length
  · rw [lexer_next_token_eof hn]
    exact ⟨fun h => (by cases h), fun h => (by cases h), fun h => (by cases h)⟩
  · unfold lexer_next_token
    dsimp only
    rw [if_neg hn, lexer_advance_fst]
    generalize (lexer_advance (skip_ignorable lexer)).2 = a
    generalize (skip_ignorable lexer).position = start
    generalize lexer_peek (skip_ignorable lexer) = c
    let P : Token × Lexer → Prop := fun r =>
      (r.1.type = TOKEN_NUMBER → is_identifier_start c = false ∧ c.isDigit = true) ∧
      (r.1.type = TOKEN_STRING → c = DQUOTE) ∧ (r.1.type = TOKEN_CHAR → c = SQUOTE)
    have other : ∀ r : Token × Lexer, r.1.type ∉ [TOKEN_NUMBER, TOKEN_STRING, TOKEN_CHAR] →
        P r := by
      intro r hr
      simp only [List.mem_cons, List.mem_singleton, List.mem_nil_iff, or_false, not_or] at hr
      exact ⟨fun h => absurd h hr.1, fun h => absurd h hr.2.1, fun h => absurd h hr.2.2⟩
    have two : ∀ (second : Char) (t2 t1 : TokenType),
        t2 ∉ [TOKEN_NUMBER, TOKEN_STRING, TOKEN_CHAR] →
        t1 ∉ [TOKEN_NUMBER, TOKEN_STRING, TOKEN_CHAR] →
        (two_char a start second t2 (make_token a t1 start 1, a)).1.type ∉
          [TOKEN_NUMBER, TOKEN_STRING, TOKEN_CHAR] := by
      intro second t2 t1 h2 h1
      rcases two_char_type a start second t2 (make_token a t1 start 1, a) with h | h
      · rw [h]; exact h2
      · rw [h]; exact h1
    show P _
    refine ite_cases P (fun _ => other _ (keyword_lookup_not_literal _)) (fun h1 => ?_)
    refine ite_cases P (fun h2 => ⟨fun _ => ⟨by simpa using h1, h2⟩, fun h => (by cases h),
      fun h => (by cases h)⟩) (fun _ => ?_)
    refine ite_cases P (fun h3 => ⟨fun h => (by cases h), fun _ => h3, fun h => ?_⟩) (fun _ => ?_)
    · simp [token_from_string, make_token] at h
    refine ite_cases P (fun h4 => ⟨fun h => (by cases h), fun h => ?_, fun _ => h4⟩) (fun _ => ?_)
    · simp [token_from_string, make_token, SQUOTE, DQUOTE] at h
    iterate 20 refine ite_cases P (fun _ => other _ (by first
      | exact two _ _ _ (by decide) (by decide)
      | simp [make_token])) (fun _ => ?_)
    exact other _ (by simp [make_token])

theorem digit_not_identifier_start (c : Char) (h : c.isDigit = true) :
    is_identifier_start c = false := by
  unfold is_identifier_start
  simp only [Char.isDigit, Char.isAlpha, Char.isUpper, Char.isLower, Bool.and_eq_true,
    decide_eq_true_eq, Bool.or_eq_false_iff, Bool.and_eq_false_imp, beq_eq_false_iff_ne,
    decide_eq_false_iff_not, Bool.or_eq_true, not_or, not_and] at h ⊢
  obtain ⟨h1, h2⟩ := h
  have h3 : c.val.toNat ≤ 57 := h2
  refine ⟨⟨fun h => ?_, fun h => ?_⟩, fun h => ?_⟩
  · exfalso
    have : 65 ≤ c.val.toNat := h
    omega
  · exfalso
    have : 97 ≤ c.val.toNat := h
    omega
  · rw [h] at h3
    exact absurd h3 (by decide)

/-! ## Number tokens -/

theorem slice_self (source : List Char) (a : Nat) : slice source a a = [] := by
  simp [slice]

theorem number_loop_spec (fuel : Nat) (has_dot : Bool) (lexer : Lexer)
    (hlen : lexer.length = lexer.source.length)
    (hfuel : lexer.length - lexer.position < fuel) :
    (∀ c ∈ slice lexer.source lexer.position (number_loop fuel has_dot lexer).position,
      c.isDigit = true ∨ c = '.') ∧
    (slice lexer.source lexer.position (number_loop fuel has_dot lexer).position).count '.' +
      (if has_dot = true then 1 else 0) ≤ 1 ∧
    (lexer_peek (number_loop fuel has_dot lexer)).isDigit = false ∧
    (lexer_peek (number_loop fuel has_dot lexer) = '.' → has_dot = true ∨
      '.' ∈ slice lexer.source lexer.position (number_loop fuel has_dot lexer).position) := by
  induction fuel generalizing has_dot lexer with
  | zero => omega
  | succ n ih =>
    unfold number_loop
    by_cases hc : (lexer_peek lexer).isDigit = true ∨ lexer_peek lexer = '.'
    · rw [if_pos hc]
      have hlt : lexer.position < lexer.length :=
        lexer_peek_lt (by
          intro e
          rw [e] at hc
          rcases hc with hc | hc
          · exact absurd hc (by decide)
          · exact absurd hc (by decide))
      have hadv := lexer_advance_step lexer
      have hp1 := lexer_advance_succ hlt
      have hlen1 : (lexer_advance lexer).2.length = (lexer_advance lexer).2.source.length := by
        rw [hadv.2.1, hadv.1]; exact hlen
      have hf1 : (lexer_advance lexer).2.length - (lexer_advance lexer).2.position < n := by
        rw [hadv.2.1, hp1]; omega
      have hcons : ∀ d, slice lexer.source lexer.position
          (number_loop n d (lexer_advance lexer).2).position =
          lexer_peek lexer :: slice (lexer_advance lexer).2.source
            (lexer_advance lexer).2.position
            (number_loop n d (lexer_advance lexer).2).position := by
        intro d
        have hmono := (number_loop_step n d (lexer_advance lexer).2).2.2.1
        rw [slice_cons _ (by omega) (by omega), lexer_peek_eq _ hlt, hadv.1, hp1]
      by_cases hd : lexer_peek lexer = '.'
      · rw [if_pos hd]
        cases has_dot with
        | true =>
          rw [if_pos rfl, slice_self]
          refine ⟨fun c h => absurd h (List.not_mem_nil c), by simp, by rw [hd]; decide,
            fun _ => Or.inl rfl⟩
        | false =>
          simp only [Bool.false_eq_true, if_false]
          have h := ih true (lexer_advance lexer).2 hlen1 hf1
          rw [hcons true]
          refine ⟨?_, ?_, h.2.2.1, fun _ => Or.inr (by rw [hd]; exact List.mem_cons_self _ _)⟩
          · intro c hin
            rcases List.mem_cons.mp hin with e | hin
            · exact Or.inr (by rw [e, hd])
            · exact h.1 c hin
          · have h2 := h.2.1
            simp only [if_true] at h2
            rw [hd, List.count_cons_self]
            omega
      · rw [if_neg hd]
        have hdig : (lexer_peek lexer).isDigit = true := hc.resolve_right hd
        have h := ih has_dot (lexer_advance lexer).2 hlen1 hf1
        rw [hcons has_dot]
        refine ⟨?_, ?_, h.2.2.1, fun hp => ?_⟩
        · intro c hin
          rcases List.mem_cons.mp hin with e | hin
          · exact Or.inl (by rw [e]; exact hdig)
          · exact h.1 c hin
        · rw [List.count_cons_of_ne (fun e => hd e.symm)]
          exact h.2.1
        · rcases h.2.2.2 hp with h1 | h1
          · exact Or.inl h1
          · exact Or.inr (List.mem_cons_of_mem _ h1)
    · rw [if_neg hc]
      simp only [slice_self]
      refine ⟨fun c h => absurd h (List.not_mem_nil c), ?_, ?_, fun hp => absurd (Or.inr hp) hc⟩
      · cases has_dot <;> simp
      · cases hd : (lexer_peek lexer).isDigit
        · rfl
        · exact absurd (Or.inl hd) hc

theorem token_from_number_token (lexer : Lexer) (start : Nat) :
    (token_from_number lexer start).2 = number_loop (lexer_fuel lexer) false lexer ∧
      (token_from_number lexer start).1.type = TOKEN_NUMBER ∧
      (token_from_number lexer start).1.lexeme = some start ∧
      (token_from_number lexer start).1.length =
        (number_loop (lexer_fuel lexer) false lexer).position - start :=
  ⟨rfl, rfl, rfl, rfl⟩

theorem lexer_next_token_number (lexer : Lexer)
    (hdigit : (lexer_peek (skip_ignorable lexer)).isDigit = true) :
    (skip_ignorable lexer).position < (skip_ignorable lexer).length ∧
    lexer_next_token lexer =
      token_from_number (lexer_advance (skip_ignorable lexer)).2
        (skip_ignorable lexer).position := by
  have hlt : (skip_ignorable lexer).position < (skip_ignorable lexer).length :=
    lexer_peek_lt (by intro e; rw [e] at hdigit; exact absurd hdigit (by decide))
  refine ⟨hlt, ?_⟩
  unfold lexer_next_token
  dsimp only
  rw [if_neg (not_le.mpr hlt), lexer_advance_fst,
    if_neg (by rw [digit_not_identifier_start _ hdigit]; exact Bool.false_ne_true),
    if_pos hdigit]

theorem tokenize_number_dots :
    token_texts "1.2.3".toList =
      [(TOKEN_NUMBER, "1.2"), (TOKEN_DOT, "."), (TOKEN_NUMBER, "3"), (TOKEN_EOF, "")] := by
  decide

/-- C12. Number boundary. The token is a number token exactly when it starts at
a digit. The lexeme of a number token is the part of the buffer scanned; it
starts with a digit, consists of digits and at most one `.`, and is the
longest such run: the character after it is not a digit, and is a `.` only if
the lexeme has one already. The source `1.2.3` gives the number `1.2`, a dot,
the number `3` and the end of input. -/
theorem number_boundary (lexer : Lexer) (hlen : lexer.length = lexer.source.length) :
    ((lexer_next_token lexer).1.type = TOKEN_NUMBER ↔
      (lexer_peek (skip_ignorable lexer)).isDigit = true) ∧
    ((lexer_next_token lexer).1.type = TOKEN_NUMBER →
      (lexer_next_token lexer).1.text lexer.source =
        slice lexer.source (skip_ignorable lexer).position (lexer_next_token lexer).2.position ∧
      (∃ c t, (lexer_next_token lexer).1.text lexer.source = c :: t ∧ c.isDigit = true) ∧
      (∀ c ∈ (lexer_next_token lexer).1.text lexer.source, c.isDigit = true ∨ c = '.') ∧
      ((lexer_next_token lexer).1.text lexer.source).count '.' ≤ 1 ∧
      (lexer_peek (lexer_next_token lexer).2).isDigit = false ∧
      (lexer_peek (lexer_next_token lexer).2 = '.' →
        '.' ∈ (lexer_next_token lexer).1.text lexer.source)) ∧
    token_texts "1.2.3".toList =
      [(TOKEN_NUMBER, "1.2"), (TOKEN_DOT, "."), (TOKEN_NUMBER, "3"), (TOKEN_EOF, "")] := by
  have hiff : (lexer_next_token lexer).1.type = TOKEN_NUMBER ↔
      (lexer_peek (skip_ignorable lexer)).isDigit = true := by
    constructor
    · intro h
      exact ((lexer_next_token_literal lexer).1 h).2
    · intro h
      rw [(lexer_next_token_number lexer h).2, (token_from_number_token _ _).2.1]
  refine ⟨hiff, fun ht => ?_, tokenize_number_dots⟩
  have hdigit := hiff.mp ht
  obtain ⟨hlt, hnext⟩ := lexer_next_token_number lexer hdigit
  have hs := skip_ignorable_step lexer
  have hadv := lexer_advance_step (skip_ignorable lexer)
  have hp1 := lexer_advance_succ hlt
  have hsrc : (lexer_advance (skip_ignorable lexer)).2.source = lexer.source := by
    rw [hadv.1, hs.1]
  have hloop := number_loop_spec (lexer_fuel (lexer_advance (skip_ignorable lexer)).2) false
    (lexer_advance (skip_ignorable lexer)).2
    (by rw [hadv.2.1, hadv.1, hs.2.1, hs.1]; exact hlen) (Nat.lt_succ_self _)
  have hstep := number_loop_step (lexer_fuel (lexer_advance (skip_ignorable lexer)).2) false
    (lexer_advance (skip_ignorable lexer)).2
  have hmono := hstep.2.2.1
  rw [hsrc, hp1] at hloop
  rw [hp1] at hmono
  have hstate : (lexer_next_token lexer).2 =
      number_loop (lexer_fuel (lexer_advance (skip_ignorable lexer)).2) false
        (lexer_advance (skip_ignorable lexer)).2 := by
    rw [hnext, (token_from_number_token _ _).1]
  have htext : (lexer_next_token lexer).1.text lexer.source =
      slice lexer.source (skip_ignorable lexer).position (lexer_next_token lexer).2.position := by
    unfold Token.text slice
    rw [hstate, hnext, (token_from_number_token _ _).2.2.1, (token_from_number_token _ _).2.2.2]
  have hcons : slice lexer.source (skip_ignorable lexer).position
      (lexer_next_token lexer).2.position =
      lexer_peek (skip_ignorable lexer) ::
        slice lexer.source ((skip_ignorable lexer).position + 1)
          (lexer_next_token lexer).2.position := by
    rw [hstate, slice_cons _ (by omega) (by rw [← hlen, ← hs.2.1]; exact hlt),
      lexer_peek_eq _ hlt, hs.1]
  rw [htext, hcons]
  rw [← hstate] at hloop
  have hnd : lexer_peek (skip_ignorable lexer) ≠ '.' := by
    intro e
    rw [e] at hdigit
    exact absurd hdigit (by decide)
  refine ⟨rfl, ⟨_, _, rfl, hdigit⟩, ?_, ?_, hloop.2.2.1, fun hp => ?_⟩
  · intro c hin
    rcases List.mem_cons.mp hin with e | hin
    · exact Or.inl (by rw [e]; exact hdigit)
    · exact hloop.1 c hin
  · rw [List.count_cons_of_ne (fun e => hnd e.symm)]
    have := hloop.2.1
    simp only [Bool.false_eq_true, if_false] at this
    omega
  · rcases hloop.2.2.2 hp with h1 | h1
    · exact absurd h1 Bool.false_ne_true
    · exact List.mem_cons_of_mem _ h1

theorem number_boundary_witness :
    (lexer_next_token (lexer_init "1.2.3".toList 5)).1.text "1.2.3".toList = "1.2".toList ∧
    (lexer_peek (lexer_next_token (lexer_init "1.2.3".toList 5)).2).isDigit = false ∧
    lexer_peek (lexer_next_token (lexer_init "1.2.3".toList 5)).2 = '.' := by
  have h := ((number_boundary (lexer_init "1.2.3".toList 5) rfl).2.1 (by decide))
  exact ⟨by decide, h.2.2.2.2.1, by decide⟩


/-! ## String and character literals -/

theorem string_loop_spec (quote : Char) (fuel : Nat) (lexer : Lexer) (hwf : lexer.WF)
    (hnul : ∀ c ∈ lexer.rest, c ≠ NUL) (hfuel : lexer.length - lexer.position < fuel) :
    (string_loop quote fuel lexer).position =
      lexer.position + spec_literal_body quote lexer.rest := by
  induction fuel generalizing lexer with
  | zero => omega
  | succ n ih =>
    have hpeek := lexer_peek_rest hwf
    have hnext := lexer_peek_next_rest hwf
    have hrest := lexer_advance_rest hwf
    have hlen := Lexer.rest_length hwf
    have hwf1 := lexer_advance_wf hwf
    unfold string_loop
    dsimp only
    cases hr : lexer.rest with
    | nil =>
      rw [hr] at hpeek
      have hp0 : lexer_peek lexer = NUL := hpeek
      rw [if_pos hp0]
      rfl
    | cons c t =>
      rw [hr] at hpeek hnext hrest hlen hnul
      have hc0 : c ≠ NUL := hnul c (List.mem_cons_self _ _)
      have hpc : lexer_peek lexer = c := hpeek
      have hlt : lexer.position < lexer.length := by
        simp only [List.length_cons] at hlen
        omega
      have hp1 := lexer_advance_succ hlt
      have hf1 : (lexer_advance lexer).2.length - (lexer_advance lexer).2.position < n := by
        have := lexer_advance_left hlt
        omega
      have hnul1 : ∀ x ∈ (lexer_advance lexer).2.rest, x ≠ NUL := by
        rw [hrest]
        exact fun x hx => hnul x (List.mem_cons_of_mem _ hx)
      rw [hpc, if_neg hc0]
      cases t with
      | nil =>
        have hn0 : lexer_peek_next lexer = NUL := hnext
        by_cases hq : c = quote
        · rw [if_pos hq, hp1]
          rfl
        · rw [if_neg hq, if_neg (fun h => h.2 hn0), ih _ hwf1 hnul1 hf1, hrest, hp1]
          rfl
      | cons d t =>
        have hnd : lexer_peek_next lexer = d := hnext
        have hd0 : d ≠ NUL := hnul d (List.mem_cons_of_mem _ (List.mem_cons_self _ _))
        by_cases hq : c = quote
        · rw [if_pos hq, hp1]
          unfold spec_literal_body
          rw [if_pos hq]
        · rw [if_neg hq]
          by_cases hb : c = BACKSLASH
          · rw [if_pos ⟨hb, by rw [hnd]; exact hd0⟩]
            have hlt2 : (lexer_advance lexer).2.position < (lexer_advance lexer).2.length := by
              have := Lexer.rest_length hwf1
              rw [hrest] at this
              simp only [List.tail_cons, List.length_cons] at this
              omega
            have hp2 := lexer_advance_succ hlt2
            have hrest2 := lexer_advance_rest hwf1
            rw [hrest] at hrest2
            rw [ih _ (lexer_advance_wf hwf1)
              (by rw [hrest2]; exact fun x hx => hnul x
                    (List.mem_cons_of_mem _ (List.mem_cons_of_mem _ hx)))
              (by have := lexer_advance_left hlt2; omega), hrest2, hp2, hp1]
            conv => rhs; unfold spec_literal_body
            rw [if_neg hq, if_pos hb]
            simp only [List.tail_cons]
            omega
          · rw [if_neg (fun h => hb h.1), ih _ hwf1 hnul1 hf1, hrest, hp1]
            conv => rhs; unfold spec_literal_body
            rw [if_neg hq, if_neg hb]
            simp only [List.tail_cons]
            omega

theorem token_from_string_state (lexer : Lexer) (start : Nat) (quote : Char) :
    (token_from_string lexer start quote).2 = string_loop quote (lexer_fuel lexer) lexer := rfl

theorem token_from_string_token (lexer : Lexer) (start : Nat) (quote : Char) :
    (token_from_string lexer start quote).1.type =
        (if quote = DQUOTE then TOKEN_STRING else TOKEN_CHAR) ∧
      (token_from_string lexer start quote).1.lexeme = some start ∧
      (token_from_string lexer start quote).1.length =
        (string_loop quote (lexer_fuel lexer) lexer).position - start :=
  ⟨rfl, rfl, rfl⟩

theorem lexer_next_token_string (lexer : Lexer) (quote : Char)
    (hquote : quote = DQUOTE ∨ quote = SQUOTE)
    (hpeek : lexer_peek (skip_ignorable lexer) = quote) :
    (skip_ignorable lexer).position < (skip_ignorable lexer).length ∧
    lexer_next_token lexer =
      token_from_string (lexer_advance (skip_ignorable lexer)).2
        (skip_ignorable lexer).position quote := by
  have hlt : (skip_ignorable lexer).position < (skip_ignorable lexer).length :=
    lexer_peek_lt (by
      rw [hpeek]
      rcases hquote with h | h <;> rw [h] <;> decide)
  refine ⟨hlt, ?_⟩
  unfold lexer_next_token
  dsimp only
  rw [if_neg (not_le.mpr hlt), lexer_advance_fst, hpeek]
  rcases hquote with h | h
  · rw [h, if_neg (by decide), if_neg (by decide), if_pos rfl]
  · rw [h, if_neg (by decide), if_neg (by decide), if_neg (by decide), if_pos rfl]

theorem tokenize_escaped_quote :
    (tokenize [DQUOTE, 'a', BACKSLASH, DQUOTE, 'b', DQUOTE]).map
        (fun token => (token.type, token.lexeme, token.length)) =
      [(TOKEN_STRING, some 0, 6), (TOKEN_EOF, none, 0)] := by
  decide

theorem tokenize_unterminated :
    (tokenize [DQUOTE, 'a', 'b', 'c']).map
        (fun token => (token.type, token.lexeme, token.length)) =
      [(TOKEN_STRING, some 0, 4), (TOKEN_EOF, none, 0)] := by
  decide

/-- C15. String and character literals. In a buffer without NUL characters, a
token is a string (a character) token exactly when it starts at a double (a
single) quote; it then extends from the opening quote up to and including the
first later quote of the same kind that is not the second character of a
backslash pair, or to the end of the input when there is none, and its lexeme
is that part of the buffer as it stands, escapes included. -/
theorem string_and_char_literals (lexer : Lexer) (hwf : lexer.WF)
    (hnul : ∀ c ∈ lexer.source, c ≠ NUL) :
    ((lexer_next_token lexer).1.type = TOKEN_STRING ↔
      lexer_peek (skip_ignorable lexer) = DQUOTE) ∧
    ((lexer_next_token lexer).1.type = TOKEN_CHAR ↔
      lexer_peek (skip_ignorable lexer) = SQUOTE) ∧
    (∀ quote, (quote = DQUOTE ∨ quote = SQUOTE) → lexer_peek (skip_ignorable lexer) = quote →
      (lexer_next_token lexer).1.lexeme = some (skip_ignorable lexer).position ∧
      (lexer_next_token lexer).1.length =
        1 + spec_literal_body quote (lexer.source.drop ((skip_ignorable lexer).position + 1)) ∧
      (lexer_next_token lexer).2.position =
        (skip_ignorable lexer).position + (lexer_next_token lexer).1.length ∧
      (lexer_next_token lexer).1.text lexer.source =
        slice lexer.source (skip_ignorable lexer).position
          ((skip_ignorable lexer).position + (lexer_next_token lexer).1.length)) := by
  have main : ∀ quote, (quote = DQUOTE ∨ quote = SQUOTE) →
      lexer_peek (skip_ignorable lexer) = quote →
      (lexer_next_token lexer).1.type = (if quote = DQUOTE then TOKEN_STRING else TOKEN_CHAR) ∧
      (lexer_next_token lexer).1.lexeme = some (skip_ignorable lexer).position ∧
      (lexer_next_token lexer).1.length =
        1 + spec_literal_body quote (lexer.source.drop ((skip_ignorable lexer).position + 1)) ∧
      (lexer_next_token lexer).2.position =
        (skip_ignorable lexer).position + (lexer_next_token lexer).1.length := by
    intro quote hquote hpeek
    obtain ⟨hlt, hnext⟩ := lexer_next_token_string lexer quote hquote hpeek
    have hs := skip_ignorable_step lexer
    have hwf1 := hwf.step hs
    have hwf2 := lexer_advance_wf hwf1
    have hp1 := lexer_advance_succ hlt
    have hrest : (lexer_advance (skip_ignorable lexer)).2.rest =
        lexer.source.drop ((skip_ignorable lexer).position + 1) := by
      unfold Lexer.rest
      rw [hp1, (lexer_advance_source _).1, hs.1]
    have hloop := string_loop_spec quote (lexer_fuel (lexer_advance (skip_ignorable lexer)).2)
      (lexer_advance (skip_ignorable lexer)).2 hwf2
      (by rw [hrest]; exact fun c hc => hnul c (List.mem_of_mem_drop hc))
      (Nat.lt_succ_self _)
    rw [hrest, hp1] at hloop
    have hstate : (lexer_next_token lexer).2 =
        string_loop quote (lexer_fuel (lexer_advance (skip_ignorable lexer)).2)
          (lexer_advance (skip_ignorable lexer)).2 := by
      rw [hnext, token_from_string_state]
    have hlength : (lexer_next_token lexer).1.length =
        (string_loop quote (lexer_fuel (lexer_advance (skip_ignorable lexer)).2)
          (lexer_advance (skip_ignorable lexer)).2).position -
          (skip_ignorable lexer).position := by
      rw [hnext, (token_from_string_token _ _ _).2.2]
    rw [hloop] at hlength
    refine ⟨by rw [hnext, (token_from_string_token _ _ _).1],
      by rw [hnext, (token_from_string_token _ _ _).2.1], by rw [hlength]; omega, ?_⟩
    rw [hstate, hloop, hlength]
    omega
  refine ⟨⟨fun h => (lexer_next_token_literal lexer).2.1 h, fun h => ?_⟩,
    ⟨fun h => (lexer_next_token_literal lexer).2.2 h, fun h => ?_⟩, ?_⟩
  · rw [(main DQUOTE (Or.inl rfl) h).1, if_pos rfl]
  · rw [(main SQUOTE (Or.inr rfl) h).1, if_neg (by decide)]
  · intro quote hquote hpeek
    obtain ⟨_, h2, h3, h4⟩ := main quote hquote hpeek
    refine ⟨h2, h3, h4, ?_⟩
    unfold Token.text
    rw [h2]
    unfold slice
    dsimp only
    rw [Nat.add_sub_cancel_left]

theorem string_and_char_literals_witness :
    (lexer_next_token (lexer_init [DQUOTE, 'a', BACKSLASH, DQUOTE, 'b', DQUOTE] 6)).1.length
        = 6 ∧
      (lexer_next_token (lexer_init [DQUOTE, 'a', 'b', 'c'] 4)).1.length = 4 ∧
      (tokenize [DQUOTE, 'a', BACKSLASH, DQUOTE, 'b', DQUOTE]).map
          (fun token => (token.type, token.lexeme, token.length)) =
        [(TOKEN_STRING, some 0, 6), (TOKEN_EOF, none, 0)] ∧
      (tokenize [DQUOTE, 'a', 'b', 'c']).map
          (fun token => (token.type, token.lexeme, token.length)) =
        [(TOKEN_STRING, some 0, 4), (TOKEN_EOF, none, 0)] := by
  have h1 := ((string_and_char_literals
    (lexer_init [DQUOTE, 'a', BACKSLASH, DQUOTE, 'b', DQUOTE] 6) ⟨rfl, Nat.zero_le _⟩
    (by decide!)).2.2 DQUOTE (Or.inl rfl) (by decide!)).2.1
  have h2 := ((string_and_char_literals (lexer_init [DQUOTE, 'a', 'b', 'c'] 4)
    ⟨rfl, Nat.zero_le _⟩ (by decide!)).2.2 DQUOTE (Or.inl rfl) (by decide!)).2.1
  refine ⟨?_, ?_, tokenize_escaped_quote, tokenize_unterminated⟩
  · rw [h1]; decide!
  · rw [h2]; decide!

/-! ## The tokens depend on the characters left only -/

theorem Lexer.Sim.peek {a b : Lexer} (h : Lexer.Sim a b) : lexer_peek a = lexer_peek b := by
  rw [lexer_peek_rest h.1, lexer_peek_rest h.2.1, h.2.2]

theorem Lexer.Sim.peek_next {a b : Lexer} (h : Lexer.Sim a b) :
    lexer_peek_next a = lexer_peek_next b := by
  rw [lexer_peek_next_rest h.1, lexer_peek_next_rest h.2.1, h.2.2]

theorem Lexer.Sim.advance {a b : Lexer} (h : Lexer.Sim a b) :
    Lexer.Sim (lexer_advance a).2 (lexer_advance b).2 :=
  ⟨lexer_advance_wf h.1, lexer_advance_wf h.2.1, by
    rw [lexer_advance_rest h.1, lexer_advance_rest h.2.1, h.2.2]⟩

theorem Lexer.Sim.fuel {a b : Lexer} (h : Lexer.Sim a b) : lexer_fuel a = lexer_fuel b := by
  unfold lexer_fuel
  rw [← Lexer.rest_length h.1, ← Lexer.rest_length h.2.1, h.2.2]

theorem Lexer.Sim.of_wf (a : Lexer) (h : a.WF) : Lexer.Sim a a := ⟨h, h, rfl⟩

theorem Lexer.Sim.moved {a b a1 b1 : Lexer} (h : Lexer.Sim a b) (h1 : Lexer.Sim a1 b1)
    (ha : Lexer.Step a a1) (hb : Lexer.Step b b1) :
    a1.position - a.position = b1.position - b.position := by
  rw [Lexer.rest_position h.1 ha, Lexer.rest_position h.2.1 hb, h.2.2, h1.2.2]
  omega

theorem skip_whitespace_loop_sim (fuel : Nat) {a b : Lexer} (h : Lexer.Sim a b) :
    Lexer.Sim (skip_whitespace_loop fuel a) (skip_whitespace_loop fuel b) := by
  induction fuel generalizing a b with
  | zero => exact h
  | succ n ih =>
    unfold skip_whitespace_loop
    dsimp only
    rw [h.peek]
    by_cases hc : lexer_peek b = ' ' ∨ lexer_peek b = '\t' ∨ lexer_peek b = '\r' ∨
        lexer_peek b = '\n'
    · rw [if_pos hc, if_pos hc]
      exact ih h.advance
    · rw [if_neg hc, if_neg hc]
      exact h

theorem skip_whitespace_sim {a b : Lexer} (h : Lexer.Sim a b) :
    Lexer.Sim (skip_whitespace a) (skip_whitespace b) := by
  unfold skip_whitespace
  rw [h.fuel]
  exact skip_whitespace_loop_sim _ h

theorem skip_line_loop_sim (fuel : Nat) (c : Char) {a b : Lexer} (h : Lexer.Sim a b) :
    Lexer.Sim (skip_line_loop fuel c a) (skip_line_loop fuel c b) := by
  induction fuel generalizing c a b with
  | zero => exact h
  | succ n ih =>
    unfold skip_line_loop
    by_cases hc : c ≠ '\n' ∧ c ≠ NUL
    · rw [if_pos hc, if_pos hc, lexer_advance_fst, lexer_advance_fst, h.peek]
      exact ih _ h.advance
    · rw [if_neg hc, if_neg hc]
      exact h

theorem skip_block_loop_sim (c1 c2 : Char) (fuel : Nat) {a b : Lexer} (h : Lexer.Sim a b) :
    Lexer.Sim (skip_block_loop c1 c2 fuel a) (skip_block_loop c1 c2 fuel b) := by
  induction fuel generalizing a b with
  | zero => exact h
  | succ n ih =>
    unfold skip_block_loop
    rw [h.peek, h.peek_next]
    by_cases h0 : lexer_peek b = NUL
    · rw [if_pos h0, if_pos h0]
      exact h
    · rw [if_neg h0, if_neg h0]
      by_cases hq : lexer_peek b = c1 ∧ lexer_peek_next b = c2
      · rw [if_pos hq, if_pos hq]
        exact h.advance.advance
      · rw [if_neg hq, if_neg hq]
        exact ih h.advance

theorem skip_comment_sim {a b : Lexer} (h : Lexer.Sim a b) :
    Lexer.Sim (skip_comment a) (skip_comment b) := by
  unfold skip_comment
  dsimp only
  rw [h.peek, h.peek_next, h.fuel, h.advance.advance.fuel]
  by_cases h1 : lexer_peek b = '/' ∧ lexer_peek_next b = '/'
  · rw [if_pos h1, if_pos h1]
    exact skip_line_loop_sim _ _ h
  · rw [if_neg h1, if_neg h1]
    by_cases h2 : lexer_peek b = '$'
    · rw [if_pos h2, if_pos h2]
      exact skip_line_loop_sim _ _ h
    · rw [if_neg h2, if_neg h2]
      by_cases h3 : lexer_peek b = '/' ∧ lexer_peek_next b = '*'
      · rw [if_pos h3, if_pos h3]
        exact skip_block_loop_sim _ _ _ h.advance.advance
      · rw [if_neg h3, if_neg h3]
        by_cases h4 : lexer_peek b = '%' ∧ lexer_peek_next b = '%'
        · rw [if_pos h4, if_pos h4]
          exact skip_block_loop_sim _ _ _ h.advance.advance
        · rw [if_neg h4, if_neg h4]
          exact h

theorem skip_ignorable_loop_sim (fuel : Nat) {a b : Lexer} (h : Lexer.Sim a b) :
    Lexer.Sim (skip_ignorable_loop fuel a) (skip_ignorable_loop fuel b) := by
  induction fuel generalizing a b with
  | zero => exact h
  | succ n ih =>
    have hw := skip_whitespace_sim h
    have hmoved := h.moved hw (skip_whitespace_loop_step _ a) (skip_whitespace_loop_step _ b)
    have ha := (skip_whitespace_loop_step (lexer_fuel a) a).2.2.1
    have hb := (skip_whitespace_loop_step (lexer_fuel b) b).2.2.1
    have hiff : (skip_whitespace a).position ≠ a.position ↔
        (skip_whitespace b).position ≠ b.position := by
      unfold skip_whitespace at hmoved ⊢
      omega
    unfold skip_ignorable_loop
    dsimp only
    by_cases hp : (skip_whitespace b).position ≠ b.position
    · rw [if_pos hp, if_pos (hiff.mpr hp)]
      exact ih hw
    · rw [if_neg hp, if_neg (fun x => hp (hiff.mp x)), hw.peek, hw.peek_next]
      by_cases hc : (lexer_peek (skip_whitespace b) = '/' ∧
          (lexer_peek_next (skip_whitespace b) = '/' ∨
            lexer_peek_next (skip_whitespace b) = '*')) ∨
          lexer_peek (skip_whitespace b) = '$' ∨
          (lexer_peek (skip_whitespace b) = '%' ∧
            lexer_peek_next (skip_whitespace b) = '%')
      · rw [if_pos hc, if_pos hc]
        exact ih (skip_comment_sim hw)
      · rw [if_neg hc, if_neg hc]
        exact hw

theorem skip_ignorable_sim {a b : Lexer} (h : Lexer.Sim a b) :
    Lexer.Sim (skip_ignorable a) (skip_ignorable b) := by
  unfold skip_ignorable
  rw [h.fuel]
  exact skip_ignorable_loop_sim _ h

theorem identifier_loop_sim (fuel : Nat) {a b : Lexer} (h : Lexer.Sim a b) :
    Lexer.Sim (identifier_loop fuel a) (identifier_loop fuel b) := by
  induction fuel generalizing a b with
  | zero => exact h
  | succ n ih =>
    unfold identifier_loop
    rw [h.peek]
    by_cases hc : is_identifier_part (lexer_peek b) = true
    · rw [if_pos hc, if_pos hc]
      exact ih h.advance
    · rw [if_neg hc, if_neg hc]
      exact h

theorem number_loop_sim (fuel : Nat) (has_dot : Bool) {a b : Lexer} (h : Lexer.Sim a b) :
    Lexer.Sim (number_loop fuel has_dot a) (number_loop fuel has_dot b) := by
  induction fuel generalizing has_dot a b with
  | zero => exact h
  | succ n ih =>
    unfold number_loop
    rw [h.peek]
    by_cases hc : (lexer_peek b).isDigit = true ∨ lexer_peek b = '.'
    · rw [if_pos hc, if_pos hc]
      by_cases hd : lexer_peek b = '.'
      · rw [if_pos hd, if_pos hd]
        cases has_dot with
        | true => exact h
        | false => exact ih _ h.advance
      · rw [if_neg hd, if_neg hd]
        exact ih _ h.advance
    · rw [if_neg hc, if_neg hc]
      exact h

theorem string_loop_sim (quote : Char) (fuel : Nat) {a b : Lexer} (h : Lexer.Sim a b) :
    Lexer.Sim (string_loop quote fuel a) (string_loop quote fuel b) := by
  induction fuel generalizing a b with
  | zero => exact h
  | succ n ih =>
    unfold string_loop
    dsimp only
    rw [h.peek, h.peek_next]
    by_cases h0 : lexer_peek b = NUL
    · rw [if_pos h0, if_pos h0]
      exact h
    · rw [if_neg h0, if_neg h0]
      by_cases hq : lexer_peek b = quote
      · rw [if_pos hq, if_pos hq]
        exact h.advance
      · rw [if_neg hq, if_neg hq]
        by_cases hb : lexer_peek b = BACKSLASH ∧ lexer_peek_next b ≠ NUL
        · rw [if_pos hb, if_pos hb]
          exact ih h.advance.advance
        · rw [if_neg hb, if_neg hb]
          exact ih h.advance


theorem ite_rel {α : Type} (R : α → α → Prop) {c : Prop} [Decidable c] {a1 b1 a2 b2 : α}
    (h1 : c → R a1 a2) (h2 : ¬ c → R b1 b2) :
    R (if c then a1 else b1) (if c then a2 else b2) := by
  by_cases h : c
  · rw [if_pos h, if_pos h]
    exact h1 h
  · rw [if_neg h, if_neg h]
    exact h2 h

theorem Lexer.Sim.lt {a b : Lexer} (h : Lexer.Sim a b) (hlt : a.position < a.length) :
    b.position < b.length := by
  have h1 := Lexer.rest_length h.1
  have h2 := Lexer.rest_length h.2.1
  rw [h.2.2] at h1
  omega

theorem Lexer.Sim.symm_lt {a b : Lexer} (h : Lexer.Sim a b) (hlt : b.position < b.length) :
    a.position < a.length := by
  have h1 := Lexer.rest_length h.1
  have h2 := Lexer.rest_length h.2.1
  rw [h.2.2] at h1
  omega

theorem same_token_made {s1 s2 l1 l2 : Lexer} (hs : Lexer.Sim s1 s2) (hl : Lexer.Sim l1 l2)
    (h1 : Lexer.Step s1 l1) (h2 : Lexer.Step s2 l2) (t1 t2 : TokenType) (ht : t1 = t2) :
    Lexer.SameToken s1 s2 (make_token l1 t1 s1.position (l1.position - s1.position), l1)
      (make_token l2 t2 s2.position (l2.position - s2.position), l2) := by
  have hm := hs.moved hl h1 h2
  refine ⟨hl, ht, hm, ?_⟩
  show (s1.source.drop s1.position).take (l1.position - s1.position) =
    (s2.source.drop s2.position).take (l2.position - s2.position)
  rw [hm]
  exact congrArg (List.take _) hs.2.2

theorem same_token_identifier {s1 s2 : Lexer} (hs : Lexer.Sim s1 s2) :
    Lexer.SameToken s1 s2 (token_from_identifier (lexer_advance s1).2 s1.position)
      (token_from_identifier (lexer_advance s2).2 s2.position) := by
  have ha := hs.advance
  have hl := identifier_loop_sim (lexer_fuel (lexer_advance s2).2) ha
  have h1 := (lexer_advance_step s1).andThen
    (identifier_loop_step (lexer_fuel (lexer_advance s2).2) (lexer_advance s1).2)
  have h2 := (lexer_advance_step s2).andThen
    (identifier_loop_step (lexer_fuel (lexer_advance s2).2) (lexer_advance s2).2)
  have hm := hs.moved hl h1 h2
  unfold token_from_identifier
  dsimp only
  rw [ha.fuel]
  refine same_token_made hs hl h1 h2 _ _ ?_
  rw [h1.1, h2.1, hm]
  exact congrArg (fun w => keyword_lookup (List.take _ w) KEYWORDS) hs.2.2

theorem same_token_number {s1 s2 : Lexer} (hs : Lexer.Sim s1 s2) :
    Lexer.SameToken s1 s2 (token_from_number (lexer_advance s1).2 s1.position)
      (token_from_number (lexer_advance s2).2 s2.position) := by
  have ha := hs.advance
  unfold token_from_number
  dsimp only
  rw [ha.fuel]
  exact same_token_made hs (number_loop_sim _ _ ha)
    ((lexer_advance_step s1).andThen (number_loop_step _ _ _))
    ((lexer_advance_step s2).andThen (number_loop_step _ _ _)) _ _ rfl

theorem same_token_string {s1 s2 : Lexer} (hs : Lexer.Sim s1 s2) (quote : Char) :
    Lexer.SameToken s1 s2 (token_from_string (lexer_advance s1).2 s1.position quote)
      (token_from_string (lexer_advance s2).2 s2.position quote) := by
  have ha := hs.advance
  unfold token_from_string
  dsimp only
  rw [ha.fuel]
  exact same_token_made hs (string_loop_sim _ _ ha)
    ((lexer_advance_step s1).andThen (string_loop_step _ _ _))
    ((lexer_advance_step s2).andThen (string_loop_step _ _ _)) _ _ rfl

theorem same_token_one {s1 s2 : Lexer} (hs : Lexer.Sim s1 s2) (hlt : s1.position < s1.length)
    (type : TokenType) :
    Lexer.SameToken s1 s2 (make_token (lexer_advance s1).2 type s1.position 1, (lexer_advance s1).2)
      (make_token (lexer_advance s2).2 type s2.position 1, (lexer_advance s2).2) := by
  have h := same_token_made hs hs.advance (lexer_advance_step s1) (lexer_advance_step s2)
    type type rfl
  rw [lexer_advance_succ hlt, lexer_advance_succ (hs.lt hlt), Nat.add_sub_cancel_left,
    Nat.add_sub_cancel_left] at h
  exact h

theorem same_token_two {s1 s2 : Lexer} (hs : Lexer.Sim s1 s2) (hlt : s1.position < s1.length)
    (second : Char) (hsecond : second ≠ NUL) (two one : TokenType) :
    Lexer.SameToken s1 s2
      (two_char (lexer_advance s1).2 s1.position second two
        (make_token (lexer_advance s1).2 one s1.position 1, (lexer_advance s1).2))
      (two_char (lexer_advance s2).2 s2.position second two
        (make_token (lexer_advance s2).2 one s2.position 1, (lexer_advance s2).2)) := by
  have ha := hs.advance
  unfold two_char
  rw [ha.peek]
  refine ite_rel (Lexer.SameToken s1 s2) (fun hp => ?_) (fun _ => same_token_one hs hlt one)
  have hlt2 : (lexer_advance s2).2.position < (lexer_advance s2).2.length :=
    lexer_peek_lt (by rw [hp]; exact hsecond)
  have hlt1 : (lexer_advance s1).2.position < (lexer_advance s1).2.length := by
    have := ha.peek
    exact lexer_peek_lt (by rw [this, hp]; exact hsecond)
  have h := same_token_made hs ha.advance
    ((lexer_advance_step s1).andThen (lexer_advance_step _))
    ((lexer_advance_step s2).andThen (lexer_advance_step _)) two two rfl
  rw [lexer_advance_succ hlt1, lexer_advance_succ hlt2, lexer_advance_succ hlt,
    lexer_advance_succ (hs.lt hlt), Nat.add_assoc, Nat.add_assoc, Nat.add_sub_cancel_left,
    Nat.add_sub_cancel_left] at h
  exact h

theorem lexer_next_token_sim_skip {a b : Lexer}
    (hs : Lexer.Sim (skip_ignorable a) (skip_ignorable b)) :
    Lexer.SameToken a b (lexer_next_token a) (lexer_next_token b) := by
  have hsrc1 := (skip_ignorable_step a).1
  have hsrc2 := (skip_ignorable_step b).1
  suffices hx : Lexer.SameToken (skip_ignorable a) (skip_ignorable b) (lexer_next_token a)
      (lexer_next_token b) by
    unfold Lexer.SameToken at hx ⊢
    rw [hsrc1, hsrc2] at hx
    exact hx
  by_cases hn : (skip_ignorable a).position ≥ (skip_ignorable a).length
  · have hn2 : (skip_ignorable b).position ≥ (skip_ignorable b).length := by
      by_contra hc
      have := hs.symm_lt (not_le.mp hc)
      omega
    rw [lexer_next_token_eof hn, lexer_next_token_eof hn2]
    exact ⟨hs, rfl, rfl, rfl⟩
  · have hlt : (skip_ignorable a).position < (skip_ignorable a).length := not_le.mp hn
    have hn2 : ¬ (skip_ignorable b).position ≥ (skip_ignorable b).length :=
      not_le.mpr (hs.lt hlt)
    unfold lexer_next_token
    dsimp only
    rw [if_neg hn, if_neg hn2, lexer_advance_fst, lexer_advance_fst, hs.peek]
    refine ite_rel (Lexer.SameToken _ _) (fun _ => same_token_identifier hs) (fun _ => ?_)
    refine ite_rel (Lexer.SameToken _ _) (fun _ => same_token_number hs) (fun _ => ?_)
    refine ite_rel (Lexer.SameToken _ _) (fun _ => same_token_string hs _) (fun _ => ?_)
    refine ite_rel (Lexer.SameToken _ _) (fun _ => same_token_string hs _) (fun _ => ?_)
    refine ite_rel (Lexer.SameToken _ _)
      (fun _ => same_token_two hs hlt _ (by decide) _ _) (fun _ => ?_)
    refine ite_rel (Lexer.SameToken _ _)
      (fun _ => same_token_two hs hlt _ (by decide) _ _) (fun _ => ?_)
    refine ite_rel (Lexer.SameToken _ _) (fun _ => same_token_one hs hlt _) (fun _ => ?_)
    refine ite_rel (Lexer.SameToken _ _) (fun _ => same_token_one hs hlt _) (fun _ => ?_)
    refine ite_rel (Lexer.SameToken _ _) (fun _ => same_token_one hs hlt _) (fun _ => ?_)
    refine ite_rel (Lexer.SameToken _ _)
      (fun _ => same_token_two hs hlt _ (by decide) _ _) (fun _ => ?_)
    refine ite_rel (Lexer.SameToken _ _)
      (fun _ => same_token_two hs hlt _ (by decide) _ _) (fun _ => ?_)
    refine ite_rel (Lexer.SameToken _ _)
      (fun _ => same_token_two hs hlt _ (by decide) _ _) (fun _ => ?_)
    refine ite_rel (Lexer.SameToken _ _)
      (fun _ => same_token_two hs hlt _ (by decide) _ _) (fun _ => ?_)
    refine ite_rel (Lexer.SameToken _ _)
      (fun _ => same_token_two hs hlt _ (by decide) _ _) (fun _ => ?_)
    refine ite_rel (Lexer.SameToken _ _)
      (fun _ => same_token_two hs hlt _ (by decide) _ _) (fun _ => ?_)
    refine ite_rel (Lexer.SameToken _ _) (fun _ => same_token_one hs hlt _) (fun _ => ?_)
    refine ite_rel (Lexer.SameToken _ _) (fun _ => same_token_one hs hlt _) (fun _ => ?_)
    refine ite_rel (Lexer.SameToken _ _) (fun _ => same_token_one hs hlt _) (fun _ => ?_)
    refine ite_rel (Lexer.SameToken _ _) (fun _ => same_token_one hs hlt _) (fun _ => ?_)
    refine ite_rel (Lexer.SameToken _ _) (fun _ => same_token_one hs hlt _) (fun _ => ?_)
    refine ite_rel (Lexer.SameToken _ _) (fun _ => same_token_one hs hlt _) (fun _ => ?_)
    refine ite_rel (Lexer.SameToken _ _) (fun _ => same_token_one hs hlt _) (fun _ => ?_)
    refine ite_rel (Lexer.SameToken _ _) (fun _ => same_token_one hs hlt _) (fun _ => ?_)
    refine ite_rel (Lexer.SameToken _ _) (fun _ => same_token_one hs hlt _) (fun _ => ?_)
    exact same_token_one hs hlt _

theorem lexer_next_token_sim {a b : Lexer} (h : Lexer.Sim a b) :
    Lexer.SameToken a b (lexer_next_token a) (lexer_next_token b) :=
  lexer_next_token_sim_skip (skip_ignorable_sim h)

theorem tokens_loop_sim : ∀ (fa fb : Nat) (a b : Lexer),
    Lexer.Sim (skip_ignorable a) (skip_ignorable b) →
    a.length - a.position < fa → b.length - b.position < fb →
    (tokens_loop fa a).map (fun token => (token.type, String.mk (token.text a.source))) =
      (tokens_loop fb b).map (fun token => (token.type, String.mk (token.text b.source))) := by
  intro fa
  induction fa with
  | zero => intro fb a b _ h; omega
  | succ n ih =>
    intro fb a b hs ha hb
    obtain ⟨m, rfl⟩ : ∃ m, fb = m + 1 := ⟨fb - 1, by omega⟩
    have hst := lexer_next_token_sim_skip hs
    unfold tokens_loop
    dsimp only
    rw [hst.2.1]
    by_cases he : (lexer_next_token b).1.type = TOKEN_EOF
    · rw [if_pos he, if_pos he, List.map_singleton, List.map_singleton, hst.2.1, hst.2.2.2]
    · rw [if_neg he, if_neg he, List.map_cons, List.map_cons, hst.2.1, hst.2.2.2]
      have hea : (lexer_next_token a).1.type ≠ TOKEN_EOF := by rw [hst.2.1]; exact he
      have hpa := lexer_next_token_progress hea
      have hpb := lexer_next_token_progress he
      have hsa := lexer_next_token_step a
      have hsb := lexer_next_token_step b
      have hrec := ih m (lexer_next_token a).2 (lexer_next_token b).2
        (skip_ignorable_sim hst.1) (by rw [hsa.2.1]; omega) (by rw [hsb.2.1]; omega)
      rw [hsa.1, hsb.1] at hrec
      rw [hrec]


/-! ## What `skip_ignorable` moves over -/

theorem is_blank_iff (c : Char) :
    is_blank c = true ↔ (c = ' ' ∨ c = '\t' ∨ c = '\r' ∨ c = '\n') := by
  simp [is_blank, or_assoc]

theorem lexer_peek_cons {lexer : Lexer} (h : lexer.WF) {c : Char} {t : List Char}
    (hr : lexer.rest = c :: t) : lexer_peek lexer = c := by
  rw [lexer_peek_rest h, hr]
  rfl

theorem lexer_peek_nil {lexer : Lexer} (h : lexer.WF) (hr : lexer.rest = []) :
    lexer_peek lexer = NUL := by
  rw [lexer_peek_rest h, hr]
  rfl

theorem lexer_peek_next_cons {lexer : Lexer} (h : lexer.WF) {c d : Char} {t : List Char}
    (hr : lexer.rest = c :: d :: t) : lexer_peek_next lexer = d := by
  rw [lexer_peek_next_rest h, hr]
  rfl

theorem lexer_advance_cons {lexer : Lexer} (h : lexer.WF) {c : Char} {t : List Char}
    (hr : lexer.rest = c :: t) : (lexer_advance lexer).2.rest = t := by
  rw [lexer_advance_rest h, hr]
  rfl

theorem Lexer.rest_left {lexer : Lexer} (h : lexer.WF) :
    lexer.length - lexer.position = lexer.rest.length :=
  (Lexer.rest_length h).symm

theorem skip_whitespace_loop_rest (fuel : Nat) (lexer : Lexer) (hwf : lexer.WF)
    (hfuel : lexer.rest.length < fuel) :
    (skip_whitespace_loop fuel lexer).rest = lexer.rest.dropWhile is_blank := by
  induction fuel generalizing lexer with
  | zero => omega
  | succ n ih =>
    unfold skip_whitespace_loop
    dsimp only
    cases hr : lexer.rest with
    | nil =>
      rw [lexer_peek_nil hwf hr, if_neg (by decide), hr]
      rfl
    | cons c t =>
      rw [lexer_peek_cons hwf hr]
      by_cases hb : is_blank c = true
      · rw [if_pos ((is_blank_iff c).mp hb), List.dropWhile_cons_of_pos hb,
          ih _ (lexer_advance_wf hwf) (by
            rw [lexer_advance_cons hwf hr]
            rw [hr] at hfuel
            simp only [List.length_cons] at hfuel
            omega), lexer_advance_cons hwf hr]
      · rw [if_neg (fun x => hb ((is_blank_iff c).mpr x)), List.dropWhile_cons_of_neg hb, hr]

theorem skip_whitespace_rest (lexer : Lexer) (hwf : lexer.WF) :
    (skip_whitespace lexer).rest = lexer.rest.dropWhile is_blank := by
  unfold skip_whitespace
  exact skip_whitespace_loop_rest _ lexer hwf (by
    unfold lexer_fuel
    rw [Lexer.rest_left hwf]
    exact Nat.lt_succ_self _)

theorem skip_whitespace_fixed (lexer : Lexer) (h : is_blank (lexer_peek lexer) = false) :
    skip_whitespace lexer = lexer := by
  unfold skip_whitespace lexer_fuel skip_whitespace_loop
  dsimp only
  rw [if_neg (fun x => Bool.false_ne_true (h ▸ (is_blank_iff _).mpr x))]

theorem skip_ignorable_of_blank (lexer : Lexer) (hle : lexer.position ≤ lexer.length)
    (h : (skip_whitespace lexer).position ≠ lexer.position) :
    skip_ignorable lexer = skip_ignorable (skip_whitespace lexer) := by
  have hs : Lexer.Step lexer (skip_whitespace lexer) := skip_whitespace_loop_step _ _
  have h1 := hs.2.2.1
  have h2 := hs.2.2.2 hle
  have h3 := hs.2.1
  obtain ⟨k, hk⟩ : ∃ k, lexer.length - lexer.position =
      lexer_fuel (skip_whitespace lexer) + k :=
    ⟨lexer.length - lexer.position - lexer_fuel (skip_whitespace lexer), by
      unfold lexer_fuel; omega⟩
  conv => lhs; unfold skip_ignorable lexer_fuel skip_ignorable_loop
  dsimp only
  rw [if_pos h, hk]
  exact skip_ignorable_fuel _ (by omega) k

theorem skip_ignorable_of_comment (lexer : Lexer) (hle : lexer.position ≤ lexer.length)
    (hb : is_blank (lexer_peek lexer) = false) (h : at_comment lexer) :
    skip_ignorable lexer = skip_ignorable (skip_comment lexer) := by
  have hs := skip_comment_step lexer
  have hp := @skip_comment_progress lexer h
  have h2 := hs.2.2.2 hle
  have h3 := hs.2.1
  obtain ⟨k, hk⟩ : ∃ k, lexer.length - lexer.position =
      lexer_fuel (skip_comment lexer) + k :=
    ⟨lexer.length - lexer.position - lexer_fuel (skip_comment lexer), by
      unfold lexer_fuel; omega⟩
  conv => lhs; unfold skip_ignorable lexer_fuel skip_ignorable_loop
  dsimp only
  unfold at_comment at h
  rw [skip_whitespace_fixed lexer hb, if_neg (fun x => x rfl), if_pos h, hk]
  exact skip_ignorable_fuel _ (by omega) k

theorem skip_ignorable_fixed (lexer : Lexer)
    (hb : is_blank (lexer_peek lexer) = false) (h : ¬ at_comment lexer) :
    skip_ignorable lexer = lexer := by
  unfold skip_ignorable lexer_fuel skip_ignorable_loop
  dsimp only
  unfold at_comment at h
  rw [skip_whitespace_fixed lexer hb, if_neg (fun x => x rfl), if_neg h]


/-! ## What `skip_comment` moves over -/

theorem skip_line_loop_rest (W R : List Char) : ∀ (fuel : Nat) (c : Char) (lexer : Lexer),
    lexer.WF → lexer.rest = W ++ '\n' :: R → (∀ x ∈ W, x ≠ '\n' ∧ x ≠ NUL) →
    c ≠ '\n' ∧ c ≠ NUL → W.length + 2 ≤ fuel →
    (skip_line_loop fuel c lexer).rest = R := by
  induction W with
  | nil =>
    intro fuel c lexer hwf hr _ hc hfuel
    obtain ⟨n, rfl⟩ : ∃ n, fuel = n + 1 + 1 := ⟨fuel - 2, by simp only [List.length_nil] at hfuel; omega⟩
    unfold skip_line_loop
    rw [if_pos hc, lexer_advance_fst, lexer_peek_cons hwf hr]
    unfold skip_line_loop
    rw [if_neg (fun h => h.1 rfl)]
    exact lexer_advance_cons hwf hr
  | cons x W ih =>
    intro fuel c lexer hwf hr hW hc hfuel
    obtain ⟨n, rfl⟩ : ∃ n, fuel = n + 1 := ⟨fuel - 1, by simp only [List.length_cons] at hfuel; omega⟩
    unfold skip_line_loop
    rw [if_pos hc, lexer_advance_fst, lexer_peek_cons hwf hr]
    exact ih n x _ (lexer_advance_wf hwf) (lexer_advance_cons hwf hr)
      (fun y hy => hW y (List.mem_cons_of_mem _ hy)) (hW x (List.mem_cons_self _ _))
      (by simp only [List.length_cons] at hfuel; omega)

theorem skip_block_loop_rest (c1 c2 : Char) (hc1 : c1 ≠ NUL) (B R : List Char) :
    ∀ (fuel : Nat) (lexer : Lexer),
    lexer.WF → lexer.rest = B ++ c1 :: c2 :: R → (∀ x ∈ B, x ≠ c1 ∧ x ≠ NUL) →
    B.length + 1 ≤ fuel →
    (skip_block_loop c1 c2 fuel lexer).rest = R := by
  induction B with
  | nil =>
    intro fuel lexer hwf hr _ hfuel
    obtain ⟨n, rfl⟩ : ∃ n, fuel = n + 1 := ⟨fuel - 1, by omega⟩
    unfold skip_block_loop
    rw [lexer_peek_cons hwf hr, lexer_peek_next_cons hwf hr, if_neg hc1, if_pos ⟨rfl, rfl⟩]
    exact lexer_advance_cons (lexer_advance_wf hwf) (lexer_advance_cons hwf hr)
  | cons x B ih =>
    intro fuel lexer hwf hr hB hfuel
    obtain ⟨n, rfl⟩ : ∃ n, fuel = n + 1 := ⟨fuel - 1, by omega⟩
    have hx := hB x (List.mem_cons_self _ _)
    unfold skip_block_loop
    rw [lexer_peek_cons hwf hr, if_neg hx.2, if_neg (fun h => hx.1 h.1)]
    exact ih n _ (lexer_advance_wf hwf) (lexer_advance_cons hwf hr)
      (fun y hy => hB y (List.mem_cons_of_mem _ hy))
      (by simp only [List.length_cons] at hfuel; omega)

theorem skip_comment_rest (body R : List Char)
    (hbody : ∀ x ∈ body, x ≠ '\n' ∧ x ≠ '*' ∧ x ≠ '%' ∧ x ≠ NUL)
    (C : List Char) (hC : C ∈ comment_forms body) (lexer : Lexer) (hwf : lexer.WF)
    (hr : lexer.rest = C ++ R) :
    (skip_comment lexer).rest = R ∧ at_comment lexer ∧ is_blank (lexer_peek lexer) = false := by
  have hlen := Lexer.rest_left hwf
  simp only [comment_forms, List.mem_cons, List.mem_singleton, List.mem_nil_iff, or_false] at hC
  rcases hC with rfl | rfl | rfl | rfl
  · have hr2 : lexer.rest = ('/' :: '/' :: body) ++ '\n' :: R := by
      rw [hr]; simp
    have hp := lexer_peek_cons hwf hr2
    have hn := lexer_peek_next_cons hwf hr2
    refine ⟨?_, Or.inl ⟨hp, Or.inl hn⟩, by rw [hp]; decide⟩
    unfold skip_comment
    dsimp only
    rw [if_pos ⟨hp, hn⟩]
    refine skip_line_loop_rest _ R _ _ lexer hwf hr2 ?_ (by rw [hp]; decide) ?_
    · intro x hx
      rcases List.mem_cons.mp hx with e | hx
      · rw [e]; decide
      · rcases List.mem_cons.mp hx with e | hx
        · rw [e]; decide
        · exact ⟨(hbody x hx).1, (hbody x hx).2.2.2⟩
    · unfold lexer_fuel
      rw [hlen, hr2]
      simp only [List.length_append, List.length_cons]
      omega
  · have hr2 : lexer.rest = ('$' :: body) ++ '\n' :: R := by
      rw [hr]; simp
    have hp := lexer_peek_cons hwf hr2
    refine ⟨?_, Or.inr (Or.inl hp), by rw [hp]; decide⟩
    unfold skip_comment
    dsimp only
    rw [if_neg (fun h => absurd (hp ▸ h.1) (by decide)), if_pos hp]
    refine skip_line_loop_rest _ R _ _ lexer hwf hr2 ?_ (by rw [hp]; decide) ?_
    · intro x hx
      rcases List.mem_cons.mp hx with e | hx
      · rw [e]; decide
      · exact ⟨(hbody x hx).1, (hbody x hx).2.2.2⟩
    · unfold lexer_fuel
      rw [hlen, hr2]
      simp only [List.length_append, List.length_cons]
      omega
  · have hr2 : lexer.rest = '/' :: '*' :: (body ++ '*' :: '/' :: R) := by
      rw [hr]; simp
    have hp := lexer_peek_cons hwf hr2
    have hn := lexer_peek_next_cons hwf hr2
    have hwf2 := lexer_advance_wf (lexer_advance_wf hwf)
    have hrest := lexer_advance_cons (lexer_advance_wf hwf) (lexer_advance_cons hwf hr2)
    refine ⟨?_, Or.inl ⟨hp, Or.inr hn⟩, by rw [hp]; decide⟩
    unfold skip_comment
    dsimp only
    rw [if_neg (fun h => absurd (hn ▸ h.2) (by decide)),
      if_neg (fun h => absurd (hp ▸ h) (by decide)), if_pos ⟨hp, hn⟩]
    refine skip_block_loop_rest '*' '/' (by decide) body R _ _ hwf2 hrest
      (fun x hx => ⟨(hbody x hx).2.1, (hbody x hx).2.2.2⟩) ?_
    unfold lexer_fuel
    rw [Lexer.rest_left hwf2, hrest]
    simp only [List.length_append, List.length_cons]
    omega
  · have hr2 : lexer.rest = '%' :: '%' :: (body ++ '%' :: '%' :: R) := by
      rw [hr]; simp
    have hp := lexer_peek_cons hwf hr2
    have hn := lexer_peek_next_cons hwf hr2
    have hwf2 := lexer_advance_wf (lexer_advance_wf hwf)
    have hrest := lexer_advance_cons (lexer_advance_wf hwf) (lexer_advance_cons hwf hr2)
    refine ⟨?_, Or.inr (Or.inr ⟨hp, hn⟩), by rw [hp]; decide⟩
    unfold skip_comment
    dsimp only
    rw [if_neg (fun h => absurd (hp ▸ h.1) (by decide)),
      if_neg (fun h => absurd (hp ▸ h) (by decide)),
      if_neg (fun h => absurd (hp ▸ h.1) (by decide)), if_pos ⟨hp, hn⟩]
    refine skip_block_loop_rest '%' '%' (by decide) body R _ _ hwf2 hrest
      (fun x hx => ⟨(hbody x hx).2.2.1, (hbody x hx).2.2.2⟩) ?_
    unfold lexer_fuel
    rw [Lexer.rest_left hwf2, hrest]
    simp only [List.length_append, List.length_cons]
    omega


/-! ## Comments contribute no tokens -/

theorem statement_skip_0 (T : List Char) :
    skip_ignorable (statement_state T 0 1) = statement_state T 0 1 := by
  simp [statement_state, statement_then, lexer_peek, lexer_peek_next, skip_whitespace,
    skip_whitespace_loop, lexer_fuel, skip_ignorable, skip_ignorable_loop]

theorem statement_skip_1 (T : List Char) :
    skip_ignorable (statement_state T 1 2) = statement_state T 2 3 := by
  simp [statement_state, statement_then, lexer_peek, lexer_peek_next, skip_whitespace,
    skip_whitespace_loop, lexer_fuel, skip_ignorable, skip_ignorable_loop, lexer_advance]

theorem statement_skip_3 (T : List Char) :
    skip_ignorable (statement_state T 3 4) = statement_state T 4 5 := by
  simp [statement_state, statement_then, lexer_peek, lexer_peek_next, skip_whitespace,
    skip_whitespace_loop, lexer_fuel, skip_ignorable, skip_ignorable_loop, lexer_advance]

theorem statement_skip_5 (T : List Char) :
    skip_ignorable (statement_state T 5 6) = statement_state T 5 6 := by
  simp [statement_state, statement_then, lexer_peek, lexer_peek_next, skip_whitespace,
    skip_whitespace_loop, lexer_fuel, skip_ignorable, skip_ignorable_loop]

theorem statement_advance_0 (T : List Char) :
    lexer_advance (statement_state T 0 1) = ('a', statement_state T 1 2) := by
  simp [statement_state, statement_then, lexer_advance]

theorem statement_advance_2 (T : List Char) :
    lexer_advance (statement_state T 2 3) = ('=', statement_state T 3 4) := by
  simp [statement_state, statement_then, lexer_advance]

theorem statement_advance_4 (T : List Char) :
    lexer_advance (statement_state T 4 5) = ('1', statement_state T 5 6) := by
  simp [statement_state, statement_then, lexer_advance]

theorem statement_advance_5 (T : List Char) :
    lexer_advance (statement_state T 5 6) = (';', statement_state T 6 7) := by
  simp [statement_state, statement_then, lexer_advance]

theorem statement_token_0 (T : List Char) :
    lexer_next_token (statement_state T 0 1) =
      (make_token (statement_state T 1 2) TOKEN_IDENTIFIER 0 1, statement_state T 1 2) := by
  have hk : keyword_lookup ['a'] KEYWORDS = TOKEN_IDENTIFIER := by decide
  unfold lexer_next_token
  dsimp only
  rw [statement_skip_0, statement_advance_0]
  dsimp only
  rw [if_neg (by simp [statement_state]), if_pos (by decide)]
  simp [statement_state, statement_then, lexer_peek, identifier_loop, is_identifier_part,
    token_from_identifier, lexer_fuel, hk]

theorem statement_token_1 (T : List Char) :
    lexer_next_token (statement_state T 1 2) =
      (make_token (statement_state T 3 4) TOKEN_EQ 2 1, statement_state T 3 4) := by
  unfold lexer_next_token
  dsimp only
  rw [statement_skip_1, statement_advance_2]
  dsimp only
  rw [if_neg (by simp [statement_state])]
  simp [statement_state, statement_then, lexer_peek, is_identifier_start, DQUOTE, SQUOTE,
    two_char]

theorem statement_token_3 (T : List Char) :
    lexer_next_token (statement_state T 3 4) =
      (make_token (statement_state T 5 6) TOKEN_NUMBER 4 1, statement_state T 5 6) := by
  unfold lexer_next_token
  dsimp only
  rw [statement_skip_3, statement_advance_4]
  dsimp only
  rw [if_neg (by simp [statement_state]), if_neg (by decide), if_pos (by decide)]
  simp [statement_state, statement_then, lexer_peek, token_from_number, number_loop, lexer_fuel]

theorem statement_token_5 (T : List Char) :
    lexer_next_token (statement_state T 5 6) =
      (make_token (statement_state T 6 7) TOKEN_SEMICOLON 5 1, statement_state T 6 7) := by
  unfold lexer_next_token
  dsimp only
  rw [statement_skip_5, statement_advance_5]
  dsimp only
  rw [if_neg (by simp [statement_state])]
  simp [statement_state, statement_then, is_identifier_start, DQUOTE, SQUOTE]

theorem make_token_type (lexer : Lexer) (type : TokenType) (start length : Nat) :
    (make_token lexer type start length).type = type := rfl

theorem make_token_lexeme (lexer : Lexer) (type : TokenType) (start length : Nat) :
    (make_token lexer type start length).lexeme = some start := rfl

theorem make_token_length (lexer : Lexer) (type : TokenType) (start length : Nat) :
    (make_token lexer type start length).length = length := rfl

theorem statement_tokens (T : List Char) :
    token_texts (statement_then T) =
      (TOKEN_IDENTIFIER, "a") :: (TOKEN_EQ, "=") :: (TOKEN_NUMBER, "1") :: (TOKEN_SEMICOLON, ";") ::
        (tokens_loop (T.length + 4) (statement_state T 6 7)).map
          (fun token => (token.type, String.mk (token.text (statement_then T)))) := by
  have hinit : lexer_init (statement_then T) (statement_then T).length = statement_state T 0 1 := by
    simp [lexer_init, statement_state, statement_then]
  have hlen : (statement_then T).length + 1 = T.length + 4 + 1 + 1 + 1 + 1 := by
    simp [statement_then]
  unfold token_texts tokenize
  rw [hinit, hlen]
  rw [tokens_loop, statement_token_0]
  dsimp only
  rw [make_token_type, if_neg (by decide), tokens_loop, statement_token_1]
  dsimp only
  rw [make_token_type, if_neg (by decide), tokens_loop, statement_token_3]
  dsimp only
  rw [make_token_type, if_neg (by decide), tokens_loop, statement_token_5]
  dsimp only
  rw [make_token_type, if_neg (by decide)]
  simp [Token.text, statement_then, make_token_type, make_token_lexeme, make_token_length]

theorem comment_forms_head (body : List Char) (C : List Char) (hC : C ∈ comment_forms body)
    (R : List Char) : (C ++ R).dropWhile is_blank = C ++ R := by
  simp only [comment_forms, List.mem_cons, List.mem_singleton, List.mem_nil_iff, or_false] at hC
  rcases hC with rfl | rfl | rfl | rfl <;>
    exact List.dropWhile_cons_of_neg (by decide)

theorem statement_state_wf (T : List Char) : (statement_state T 6 7).WF := by
  constructor
  · simp [statement_state, statement_then]
  · simp [statement_state]

theorem statement_state_rest (T : List Char) : (statement_state T 6 7).rest = '\n' :: T := by
  simp [statement_state, statement_then, Lexer.rest]

theorem skip_ignorable_newline (lexer : Lexer) (hwf : lexer.WF) (R : List Char)
    (hr : lexer.rest = '\n' :: R) (hR : R.dropWhile is_blank = R) :
    skip_ignorable lexer = skip_ignorable (skip_whitespace lexer) ∧
      (skip_whitespace lexer).WF ∧ (skip_whitespace lexer).rest = R := by
  have hs : Lexer.Step lexer (skip_whitespace lexer) := skip_whitespace_loop_step _ _
  have hw := skip_whitespace_rest lexer hwf
  rw [hr, List.dropWhile_cons_of_pos (by decide), hR] at hw
  refine ⟨skip_ignorable_of_blank lexer hwf.2 ?_, hwf.step hs, hw⟩
  rw [Lexer.rest_position hwf hs, hw, hr]
  simp only [List.length_cons]
  omega

theorem skip_ignorable_statement (R : List Char) (c : Char) (R1 : List Char)
    (hR : R = c :: R1) (hb : is_blank c = false) (hc : c ≠ '/' ∧ c ≠ '$' ∧ c ≠ '%') :
    (skip_ignorable (statement_state R 6 7)).WF ∧
      (skip_ignorable (statement_state R 6 7)).rest = R := by
  obtain ⟨h1, h2, h3⟩ := skip_ignorable_newline _ (statement_state_wf R) R
    (statement_state_rest R) (by rw [hR]; exact List.dropWhile_cons_of_neg (by rw [hb]; decide))
  have hp := lexer_peek_cons h2 (h3.trans hR)
  rw [h1, skip_ignorable_fixed _ (by rw [hp]; exact hb) (by
    unfold at_comment
    rw [hp]
    exact fun h => h.elim (fun x => hc.1 x.1) (fun h => h.elim hc.2.1 (fun x => hc.2.2 x.1)))]
  exact ⟨h2, h3⟩

theorem skip_ignorable_statement_comment (body : List Char)
    (hbody : ∀ x ∈ body, x ≠ '\n' ∧ x ≠ '*' ∧ x ≠ '%' ∧ x ≠ NUL)
    (C : List Char) (hC : C ∈ comment_forms body) (R : List Char) (c : Char) (R1 : List Char)
    (hR : R = c :: R1) (hb : is_blank c = false) (hc : c ≠ '/' ∧ c ≠ '$' ∧ c ≠ '%') :
    (skip_ignorable (statement_state (C ++ R) 6 7)).WF ∧
      (skip_ignorable (statement_state (C ++ R) 6 7)).rest = R := by
  obtain ⟨h1, h2, h3⟩ := skip_ignorable_newline _ (statement_state_wf (C ++ R)) (C ++ R)
    (statement_state_rest (C ++ R)) (comment_forms_head body C hC R)
  obtain ⟨k1, k2, k3⟩ := skip_comment_rest body R hbody C hC _ h2 h3
  have hwfk := h2.step (skip_comment_step _)
  have hp := lexer_peek_cons hwfk (k1.trans hR)
  rw [h1, skip_ignorable_of_comment _ h2.2 k3 k2,
    skip_ignorable_fixed _ (by rw [hp]; exact hb) (by
      unfold at_comment
      rw [hp]
      exact fun h => h.elim (fun x => hc.1 x.1) (fun h => h.elim hc.2.1 (fun x => hc.2.2 x.1)))]
  exact ⟨hwfk, k1⟩

theorem token_texts_statement :
    token_texts ("a = 1;\n".toList ++ "b = 2;".toList) =
      [(TOKEN_IDENTIFIER, "a"), (TOKEN_EQ, "="), (TOKEN_NUMBER, "1"), (TOKEN_SEMICOLON, ";"),
        (TOKEN_IDENTIFIER, "b"), (TOKEN_EQ, "="), (TOKEN_NUMBER, "2"), (TOKEN_SEMICOLON, ";"),
        (TOKEN_EOF, "")] := by
  decide

theorem statement_comment_tokens (body : List Char)
    (hbody : ∀ x ∈ body, x ≠ '\n' ∧ x ≠ '*' ∧ x ≠ '%' ∧ x ≠ NUL)
    (C : List Char) (hC : C ∈ comment_forms body) (R : List Char) (c : Char) (R1 : List Char)
    (hR : R = c :: R1) (hb : is_blank c = false) (hc : c ≠ '/' ∧ c ≠ '$' ∧ c ≠ '%') :
    token_texts (statement_then (C ++ R)) = token_texts (statement_then R) := by
  obtain ⟨a1, a2⟩ := skip_ignorable_statement_comment body hbody C hC R c R1 hR hb hc
  obtain ⟨b1, b2⟩ := skip_ignorable_statement R c R1 hR hb hc
  have hsim := tokens_loop_sim ((C ++ R).length + 4) (R.length + 4)
    (statement_state (C ++ R) 6 7) (statement_state R 6 7) ⟨a1, b1, a2.trans b2.symm⟩
    (by simp only [statement_state]; omega) (by simp only [statement_state]; omega)
  have hsrc : ∀ T, (statement_state T 6 7).source = statement_then T := fun _ => rfl
  rw [hsrc, hsrc] at hsim
  rw [statement_tokens, statement_tokens, hsim]

/-- C11. Comments contribute no tokens. For each of the four comment forms
(`//body` and `$body` with their newline, `/*body*/`, `%%body%%`) and every
body without a newline, `*`, `%` or NUL character, the kinds and lexemes of the
tokens of `a = 1;`, a newline, the comment and `b = 2;` are those of the same
source without the comment. -/
theorem comments_contribute_no_tokens (body : List Char)
    (hbody : ∀ x ∈ body, x ≠ '\n' ∧ x ≠ '*' ∧ x ≠ '%' ∧ x ≠ NUL) :
    ∀ C ∈ comment_forms body,
      token_texts ("a = 1;\n".toList ++ C ++ "b = 2;".toList) =
        token_texts ("a = 1;\n".toList ++ "b = 2;".toList) := by
  intro C hC
  have h := statement_comment_tokens body hbody C hC ['b', ' ', '=', ' ', '2', ';'] 'b'
    [' ', '=', ' ', '2', ';'] rfl rfl ⟨by decide, by decide, by decide⟩
  have e1 : "a = 1;\n".toList ++ C ++ "b = 2;".toList =
      statement_then (C ++ ['b', ' ', '=', ' ', '2', ';']) := by
    simp [statement_then]
  have e2 : "a = 1;\n".toList ++ "b = 2;".toList =
      statement_then ['b', ' ', '=', ' ', '2', ';'] := rfl
  rw [e1, e2]
  exact h

theorem comments_contribute_no_tokens_witness :
    token_texts ("a = 1;\n".toList ++ "// x = 3; \n".toList ++ "b = 2;".toList) =
        token_texts ("a = 1;\n".toList ++ "b = 2;".toList) ∧
      token_texts ("a = 1;\n".toList ++ "/* x = 3; */".toList ++ "b = 2;".toList) =
        token_texts ("a = 1;\n".toList ++ "b = 2;".toList) ∧
      token_texts ("a = 1;\n".toList ++ "b = 2;".toList) =
        [(TOKEN_IDENTIFIER, "a"), (TOKEN_EQ, "="), (TOKEN_NUMBER, "1"), (TOKEN_SEMICOLON, ";"),
          (TOKEN_IDENTIFIER, "b"), (TOKEN_EQ, "="), (TOKEN_NUMBER, "2"), (TOKEN_SEMICOLON, ";"),
          (TOKEN_EOF, "")] :=
  ⟨comments_contribute_no_tokens " x = 3; ".toList (by decide) "// x = 3; \n".toList (by decide),
    comments_contribute_no_tokens " x = 3; ".toList (by decide) "/* x = 3; */".toList
      (by decide), token_texts_statement⟩


/-! ## The column of a token -/

/-- C16. Token column. On `int x = 5;` the tokens `int`, `x`, `=`, `5` and `;`
start at the columns 1, 5, 7, 9 and 10 of line 1, and `make_token` reports the
columns 2, 6, 8, 10 and 11: one more than the column of the first character of
the lexeme. The end-of-input token reports the column 11 it is at. -/
theorem token_column_one_past_start :
    (tokenize "int x = 5;".toList).map (fun token => (token.type, token.line, token.column)) =
      [(TOKEN_KW_INT, 1, 2), (TOKEN_IDENTIFIER, 1, 6), (TOKEN_EQ, 1, 8), (TOKEN_NUMBER, 1, 10),
        (TOKEN_SEMICOLON, 1, 11), (TOKEN_EOF, 1, 11)] := by
  decide!


/-! ## The dispatch on an identifier -/

theorem parse_identifier_node_ok (parser : Parser)
    (hc : parser.current.type = TOKEN_IDENTIFIER) (he : parser.had_error = false) :
    parse_identifier_node parser =
      (some (.mk AST_IDENTIFIER parser.current []), (parser_advance parser).allocated) := by
  simp [parse_identifier_node, parser_consume, parser_advance, ast_create, hc, he]

theorem parse_instruction_identifier (block : Bool → Parser → Res) (fuel : Nat) (parser : Parser)
    (hc : parser.current.type = TOKEN_IDENTIFIER) :
    parse_instruction block fuel parser =
      if parser.next.type = TOKEN_LPAREN then parse_call_statement fuel parser
      else parse_assignment fuel parser := by
  unfold parse_instruction
  dsimp only
  rw [hc]
  simp only [reduceCtorEq, or_self, if_false, if_true]

theorem parse_assignment_missing_eq (fuel : Nat) (parser : Parser)
    (hc : parser.current.type = TOKEN_IDENTIFIER) (he : parser.had_error = false)
    (ht : parser.next.type ≠ TOKEN_EQ) (hfuel : parser.remaining < fuel) :
    ∃ b, parse_assignment fuel parser = some (none, b) ∧ b.had_error = true ∧
      b.error_token = parser.next ∧ b.error_message = "Se esperaba '=' en la asignación." := by
  have hcons : (parser_consume (parser_advance parser).allocated TOKEN_EQ
      "Se esperaba '=' en la asignación.").2 =
      { (parser_advance parser).allocated with
        had_error := true, error_token := parser.next,
        error_message := "Se esperaba '=' en la asignación." } := by
    simp [parser_consume, parser_advance, parser_error, Parser.allocated, he, ht]
  have hrem : (parser_consume (parser_advance parser).allocated TOKEN_EQ
      "Se esperaba '=' en la asignación.").2.remaining < fuel := by
    have h1 := (parser_consume_frame (parser_advance parser).allocated TOKEN_EQ
      "Se esperaba '=' en la asignación." (by decide)).2.2.1
    have h2 := (parser_advance_remaining parser).1
    rw [Parser.remaining_allocated] at h1
    omega
  obtain ⟨x, p2, hx, hpost⟩ := parse_expression_runs fuel _ hrem
  have hk := hpost.1.2.2.2.1 (by rw [hcons])
  have hk3 := parser_consume_keeps p2 TOKEN_SEMICOLON "Se esperaba ';' tras la asignación." hk.1
  rw [hcons] at hk
  refine ⟨((parser_consume p2 TOKEN_SEMICOLON "Se esperaba ';' tras la asignación.").2.released
      (some (.mk AST_IDENTIFIER parser.current []))).released x, ?_, hk3.1,
    hk3.2.1.trans hk.2.1, hk3.2.2.trans hk.2.2⟩
  unfold parse_assignment
  dsimp only
  rw [parse_identifier_node_ok parser hc he]
  dsimp only
  rw [hx]
  dsimp only
  rw [hk3.1]
  rfl

theorem parser_parse_missing_assign (fuel : Nat) (parser : Parser)
    (hc : parser.current.type = TOKEN_IDENTIFIER) (he : parser.had_error = false)
    (hp : parser.next.type ≠ TOKEN_LPAREN) (ht : parser.next.type ≠ TOKEN_EQ)
    (hfuel : parser.remaining < fuel + 1) :
    ∃ b, parser_parse (fuel + 1) parser = some (none, b) ∧ b.had_error = true ∧
      b.error_token = parser.next ∧ b.error_message = "Se esperaba '=' en la asignación." := by
  obtain ⟨b, hb, h1, h2, h3⟩ := parse_assignment_missing_eq (fuel + 1)
    parser.allocated.allocated hc he ht hfuel
  have hinstr : parse_instruction (parse_instruction_list fuel) (fuel + 1)
      parser.allocated.allocated = some (none, b) := by
    rw [← hb, parse_instruction_identifier _ _ parser.allocated.allocated hc]
    exact if_neg hp
  have hne : parser_check parser.allocated.allocated TOKEN_EOF = false := by
    unfold parser_check
    have hcur : parser.allocated.allocated.current.type = parser.current.type := rfl
    exact decide_eq_false (by rw [hcur, hc]; decide)
  refine ⟨(b.released (ast_create AST_INSTRUCTION_LIST parser.allocated.current)).released
    (ast_create AST_PROGRAM parser.current), ?_, h1, h2, h3⟩
  unfold parser_parse
  dsimp only
  rw [parse_instruction_list_succ]
  unfold instruction_loop
  rw [hne, hinstr]
  rfl

/-- C20. Two-token lookahead dispatch. An instruction whose first token is an
identifier is parsed by `parse_call_statement` when the next token is `(` and
by `parse_assignment` otherwise. Hence for every source whose first token is
an identifier and whose second token is neither `(` nor `=`, parsing fails,
and the recorded error is that of the second token with the message of the
assignment that expects `=`. -/
theorem identifier_dispatch :
    (∀ (block : Bool → Parser → Res) (fuel : Nat) (parser : Parser),
      parser.current.type = TOKEN_IDENTIFIER →
      parse_instruction block fuel parser =
        if parser.next.type = TOKEN_LPAREN then parse_call_statement fuel parser
        else parse_assignment fuel parser) ∧
    (∀ source : List Char,
      (token_at source source.length 0).type = TOKEN_IDENTIFIER →
      (token_at source source.length 1).type ≠ TOKEN_LPAREN →
      (token_at source source.length 1).type ≠ TOKEN_EQ →
      ∃ b, parse source = some (none, b) ∧ parser_has_error b = true ∧
        parser_error_token b = token_at source source.length 1 ∧
        parser_error_message b = "Se esperaba '=' en la asignación.") := by
  refine ⟨parse_instruction_identifier, ?_⟩
  intro source h0 h1 h2
  rw [token_at_zero, ← parser_init_current] at h0
  rw [token_at_one, ← parser_init_next] at h1 h2 ⊢
  have hrem := parser_init_remaining source source.length
  unfold parse
  unfold parse_fuel at hrem ⊢
  exact parser_parse_missing_assign _ (parser_init source source.length) h0
    (parser_init_had_error _ _) h1 h2 hrem

theorem identifier_dispatch_witness :
    ∃ b, parse "x + 1;".toList = some (none, b) ∧ parser_has_error b = true ∧
      parser_error_token b =
        { type := TOKEN_PLUS, lexeme := some 2, length := 1, line := 1, column := 4 } ∧
      parser_error_message b = "Se esperaba '=' en la asignación." :=
  identifier_dispatch.2 "x + 1;".toList (by decide) (by decide) (by decide)


/-! ## The special calls `csay` and `cread` -/

theorem parser_consume_match (parser : Parser) (type : TokenType) (message : String)
    (h : parser.current.type = type) :
    (parser_consume parser type message).2 = parser_advance parser := by
  unfold parser_consume
  rw [if_pos h]

/-- A parse whose first instruction comes back with the error flag set returns
no tree, and the error recorded is that of the first instruction. -/
theorem parser_parse_first_error (fuel : Nat) (parser : Parser)
    (hrem : parser.remaining < fuel + 1) (hne : parser.current.type ≠ TOKEN_EOF)
    (r : Option ASTNode) (b1 : Parser)
    (hinstr : parse_instruction (parse_instruction_list fuel) (fuel + 1)
      parser.allocated.allocated = some (r, b1))
    (herr : b1.had_error = true) :
    ∃ b, parser_parse (fuel + 1) parser = some (none, b) ∧ b.had_error = true ∧
      b.error_token = b1.error_token ∧ b.error_message = b1.error_message := by
  have hruns : ∀ q : Parser, q.current.type ≠ TOKEN_EOF → q.remaining ≤ fuel →
      q.RunsInstr (parse_instruction (parse_instruction_list fuel) (fuel + 1)) := by
    intro q hq hle
    have := (parser_advance_remaining q).2 hq
    exact parse_instruction_runs _ fuel (parse_instruction_list_runs fuel) (fuel + 1) q
      (by omega) (by omega)
  obtain ⟨r1, b2, h1, hpost, hprog⟩ := hruns parser.allocated.allocated hne
    (by rw [Parser.remaining_allocated, Parser.remaining_allocated]; omega)
  rw [hinstr] at h1
  obtain ⟨rfl, rfl⟩ : r = r1 ∧ b1 = b2 := by
    have := Option.some.inj h1
    exact ⟨congrArg Prod.fst this, congrArg Prod.snd this⟩
  have hcheck : parser_check parser.allocated.allocated TOKEN_EOF = false := by
    unfold parser_check
    exact decide_eq_false hne
  unfold parser_parse
  dsimp only
  rw [parse_instruction_list_succ]
  unfold instruction_loop
  rw [hcheck, hinstr]
  dsimp only
  cases r with
  | none =>
    exact ⟨_, rfl, herr, rfl, rfl⟩
  | some c =>
    have hlt := hprog hne rfl
    rw [Parser.remaining_allocated, Parser.remaining_allocated] at hlt
    obtain ⟨r2, b3, h2, hpost2⟩ := instruction_loop_runs
      (parse_instruction (parse_instruction_list fuel) (fuel + 1)) fuel hruns false fuel
      (ast_add_child (ast_create AST_INSTRUCTION_LIST parser.allocated.current) (some c)) b1
      (by omega) (by omega)
      ⟨_, _, rfl, fun h => absurd (herr.symm.trans h) (by decide)⟩
    have hk := hpost2.1.2.2.2.1 herr
    simp only [Option.isNone_some, Bool.false_eq_true, if_false]
    rw [h2]
    cases r2 with
    | none => exact ⟨_, rfl, hk.1, hk.2.1, hk.2.2⟩
    | some list =>
      simp only [Option.isNone_some, Bool.false_eq_true, if_false, hk.1, Bool.not_true,
        Bool.false_and, if_true]
      exact ⟨_, rfl, hk.1, hk.2.1, hk.2.2⟩

theorem parser_advance_had_error (parser : Parser) :
    (parser_advance parser).had_error = parser.had_error := rfl

theorem allocated_had_error (parser : Parser) :
    parser.allocated.had_error = parser.had_error := rfl

theorem parse_special_call_csay (fuel : Nat) (parser : Parser) (A : ASTNode) (q3 : Parser)
    (hc : parser.current.type = TOKEN_KW_CSAY) (hn : parser.next.type = TOKEN_LPAREN)
    (hA : parse_argument_list (parse_expression fuel) fuel
      (parser_advance (parser_advance parser)) = some (some A, q3))
    (hr : q3.current.type = TOKEN_RPAREN) (hs : q3.next.type = TOKEN_SEMICOLON) :
    parse_special_call fuel parser parser.current =
      some (some (.mk AST_CALL parser.current [A]),
        parser_advance (parser_advance q3).allocated) := by
  unfold parse_special_call
  dsimp only
  rw [parser_consume_match (parser_advance parser) TOKEN_LPAREN _ hn, hA]
  dsimp only
  rw [parser_consume_match q3 TOKEN_RPAREN _ hr, if_neg (by rw [hc]; decide),
    parser_consume_match (parser_advance q3).allocated TOKEN_SEMICOLON _ hs]
  rfl

theorem parse_special_call_cread (fuel : Nat) (parser : Parser) (A : ASTNode) (q3 : Parser)
    (hc : parser.current.type = TOKEN_KW_CREAD) (hn : parser.next.type = TOKEN_LPAREN)
    (hA : parse_argument_list (parse_expression fuel) fuel
      (parser_advance (parser_advance parser)) = some (some A, q3))
    (he : q3.had_error = false)
    (hr : q3.current.type = TOKEN_RPAREN) (hd : q3.next.type = TOKEN_IDENTIFIER)
    (hs : (lexer_next_token q3.lexer).1.type = TOKEN_SEMICOLON) :
    parse_special_call fuel parser parser.current =
      some (some (.mk AST_CALL parser.current [A, .mk AST_IDENTIFIER q3.next []]),
        parser_advance (parser_advance (parser_advance q3).allocated).allocated) := by
  unfold parse_special_call
  dsimp only
  rw [parser_consume_match (parser_advance parser) TOKEN_LPAREN _ hn, hA]
  dsimp only
  rw [parser_consume_match q3 TOKEN_RPAREN _ hr, if_pos hc,
    parse_identifier_node_ok (parser_advance q3).allocated hd he]
  dsimp only
  rw [parser_consume_match _ TOKEN_SEMICOLON _ hs]
  rfl

theorem parse_identifier_node_fail (parser : Parser)
    (hc : parser.current.type ≠ TOKEN_IDENTIFIER) :
    parse_identifier_node parser =
      (none, parser_error parser parser.current "Se esperaba un identificador.") := by
  unfold parse_identifier_node parser_consume
  rw [if_neg hc]
  dsimp only
  rw [parser_error_had_error, if_pos rfl]

theorem parse_special_call_cread_alone (fuel : Nat) (parser : Parser) (A : ASTNode)
    (q3 : Parser)
    (hc : parser.current.type = TOKEN_KW_CREAD) (hn : parser.next.type = TOKEN_LPAREN)
    (hA : parse_argument_list (parse_expression fuel) fuel
      (parser_advance (parser_advance parser)) = some (some A, q3))
    (he : q3.had_error = false)
    (hr : q3.current.type = TOKEN_RPAREN) (hs : q3.next.type = TOKEN_SEMICOLON) :
    ∃ b, parse_special_call fuel parser parser.current =
        some (some (.mk AST_CALL parser.current [A]), b) ∧
      b.had_error = true ∧ b.error_token = q3.next ∧
      b.error_message = "Se esperaba un identificador." := by
  have hcur : (parser_advance q3).allocated.current.type ≠ TOKEN_IDENTIFIER := by
    show q3.next.type ≠ TOKEN_IDENTIFIER
    rw [hs]
    decide
  have hcur2 : (parser_error (parser_advance q3).allocated (parser_advance q3).allocated.current
      "Se esperaba un identificador.").current.type = TOKEN_SEMICOLON := by
    simp [parser_error, parser_advance, Parser.allocated, he, hs]
  refine ⟨parser_advance (parser_error (parser_advance q3).allocated
    (parser_advance q3).allocated.current "Se esperaba un identificador."), ?_, ?_⟩
  · unfold parse_special_call
    dsimp only
    rw [parser_consume_match (parser_advance parser) TOKEN_LPAREN _ hn, hA]
    dsimp only
    rw [parser_consume_match q3 TOKEN_RPAREN _ hr, if_pos hc,
      parse_identifier_node_fail _ hcur]
    dsimp only
    rw [parser_consume_match _ TOKEN_SEMICOLON _ hcur2]
    rfl
  · simp [parser_error, parser_advance, Parser.allocated, he]

theorem ast_add_child_type (parent child : Option ASTNode) (kind : ASTNodeType)
    (h : ∀ t, parent = some t → t.type = kind) :
    ∀ t, ast_add_child parent child = some t → t.type = kind := by
  intro t ht
  cases parent with
  | none =>
    cases child <;> simp [ast_add_child] at ht
  | some p =>
    cases p with
    | mk type token children =>
      have hk := h _ rfl
      cases child with
      | none =>
        simp only [ast_add_child] at ht
        rw [← Option.some.inj ht]
        exact hk
      | some c =>
        simp only [ast_add_child] at ht
        rw [← Option.some.inj ht]
        exact hk

theorem argument_loop_type (expr : Parser → Res) (fuel : Nat) (args : Option ASTNode)
    (parser : Parser) (h : ∀ t, args = some t → t.type = AST_ARG_LIST)
    (A : ASTNode) (b : Parser) (hr : argument_loop expr fuel args parser = some (some A, b)) :
    A.type = AST_ARG_LIST := by
  induction fuel generalizing args parser with
  | zero => simp [argument_loop] at hr
  | succ n ih =>
    unfold argument_loop at hr
    cases he : expr parser with
    | none => rw [he] at hr; cases hr
    | some r =>
      obtain ⟨e, p1⟩ := r
      rw [he] at hr
      dsimp only at hr
      cases hn : e.isNone
      · rw [hn] at hr
        simp only [Bool.false_eq_true, if_false] at hr
        cases hm : (parser_match p1 TOKEN_COMMA).1
        · rw [hm] at hr
          simp only [Bool.false_eq_true, if_false] at hr
          have h1 := Option.some.inj hr
          exact ast_add_child_type args e AST_ARG_LIST h A (congrArg Prod.fst h1)
        · rw [hm] at hr
          simp only [if_true] at hr
          exact ih _ _ (ast_add_child_type args e AST_ARG_LIST h) hr
      · rw [hn] at hr
        simp only [if_true] at hr
        have h1 := Option.some.inj hr
        cases congrArg Prod.fst h1

theorem parse_argument_list_type (expr : Parser → Res) (fuel : Nat) (parser : Parser)
    (A : ASTNode) (b : Parser) (hr : parse_argument_list expr fuel parser = some (some A, b)) :
    A.type = AST_ARG_LIST := by
  unfold parse_argument_list at hr
  dsimp only at hr
  by_cases hc : parser_check parser.allocated TOKEN_RPAREN = true
  · rw [if_pos hc] at hr
    have h1 := Option.some.inj hr
    have h2 := Option.some.inj (congrArg Prod.fst h1)
    rw [← h2]
    rfl
  · rw [if_neg hc] at hr
    exact argument_loop_type expr fuel _ _ (fun t ht => by
      rw [← Option.some.inj ht]
      rfl) A b hr

theorem parse_instruction_special (block : Bool → Parser → Res) (fuel : Nat) (parser : Parser)
    (hc : parser.current.type = TOKEN_KW_CSAY ∨ parser.current.type = TOKEN_KW_CREAD) :
    parse_instruction block fuel parser = parse_special_call fuel parser parser.current := by
  unfold parse_instruction
  dsimp only
  rcases hc with hc | hc <;> rw [hc] <;>
    simp only [reduceCtorEq, or_self, or_true, true_or, if_false, if_true]

/-- C19. Special calls. Let the call start at the keyword, followed by `(`, and
let the argument list parse without error to the node `A`, followed by `)`.
Then `csay(A);` parses to a call node whose token is the keyword and whose only
child is `A`, an argument list; `cread(A) d;` parses to a call node with the
two children `A` and the identifier `d`; and `cread(A);` records the error of
a missing identifier at the `;`, so that a source that begins with it fails to
parse. -/
theorem special_calls (fuel : Nat) (parser : Parser) (A : ASTNode) (q3 : Parser)
    (hn : parser.next.type = TOKEN_LPAREN)
    (hA : parse_argument_list (parse_expression fuel) fuel
      (parser_advance (parser_advance parser)) = some (some A, q3))
    (he : q3.had_error = false) (hr : q3.current.type = TOKEN_RPAREN) :
    A.type = AST_ARG_LIST ∧
    (parser.current.type = TOKEN_KW_CSAY → q3.next.type = TOKEN_SEMICOLON →
      ∃ b, parse_special_call fuel parser parser.current =
          some (some (.mk AST_CALL parser.current [A]), b) ∧ b.had_error = false) ∧
    (parser.current.type = TOKEN_KW_CREAD → q3.next.type = TOKEN_IDENTIFIER →
      (lexer_next_token q3.lexer).1.type = TOKEN_SEMICOLON →
      ∃ b, parse_special_call fuel parser parser.current =
          some (some (.mk AST_CALL parser.current [A, .mk AST_IDENTIFIER q3.next []]), b) ∧
        b.had_error = false) ∧
    (parser.current.type = TOKEN_KW_CREAD → q3.next.type = TOKEN_SEMICOLON →
      (∃ b, parse_special_call fuel parser parser.current =
          some (some (.mk AST_CALL parser.current [A]), b) ∧
        b.had_error = true ∧ b.error_token = q3.next ∧
        b.error_message = "Se esperaba un identificador.") ∧
      ∀ source : List Char,
        parser = (parser_init source source.length).allocated.allocated →
        fuel = parse_fuel (parser_init source source.length) →
        ∃ b, parse source = some (none, b) ∧ parser_has_error b = true ∧
          parser_error_token b = q3.next ∧
          parser_error_message b = "Se esperaba un identificador.") := by
  refine ⟨parse_argument_list_type _ _ _ A q3 hA, fun hc hs => ?_, fun hc hd hs => ?_,
    fun hc hs => ?_⟩
  · refine ⟨_, parse_special_call_csay fuel parser A q3 hc hn hA hr hs, ?_⟩
    rw [parser_advance_had_error, allocated_had_error, parser_advance_had_error]
    exact he
  · refine ⟨_, parse_special_call_cread fuel parser A q3 hc hn hA he hr hd hs, ?_⟩
    rw [parser_advance_had_error, allocated_had_error, parser_advance_had_error,
      allocated_had_error, parser_advance_had_error]
    exact he
  · obtain ⟨b, hb, h1, h2, h3⟩ :=
      parse_special_call_cread_alone fuel parser A q3 hc hn hA he hr hs
    refine ⟨⟨b, hb, h1, h2, h3⟩, ?_⟩
    intro source hp hf
    subst hp
    have hrem := parser_init_remaining source source.length
    have hcur : (parser_init source source.length).current.type = TOKEN_KW_CREAD := hc
    obtain ⟨b2, hb2, k1, k2, k3⟩ := parser_parse_first_error
      ((parser_init source source.length).lexer.length -
        (parser_init source source.length).lexer.position + 2)
      (parser_init source source.length) hrem (by rw [hcur]; decide) _ b
      (by
        rw [parse_instruction_special _ _ _ (Or.inr hc)]
        have hf2 : fuel = (parser_init source source.length).lexer.length -
            (parser_init source source.length).lexer.position + 2 + 1 := hf
        rw [← hf2]
        exact hb) h1
    exact ⟨b2, hb2, k1, k2.trans h2, k3.trans h3⟩

theorem special_calls_witness :
    (∃ A b, parse_special_call 14 (parser_init "csay(1, x);".toList 11)
          (parser_init "csay(1, x);".toList 11).current =
        some (some (.mk AST_CALL (parser_init "csay(1, x);".toList 11).current [A]), b) ∧
      A.type = AST_ARG_LIST ∧ b.had_error = false) ∧
    (∃ b, parse "cread(1);".toList = some (none, b) ∧ parser_has_error b = true ∧
      parser_error_message b = "Se esperaba un identificador.") ∧
    parse_summary "csay(1, x);" =
      some (some (.node AST_PROGRAM "csay" [.node AST_INSTRUCTION_LIST "csay"
        [.node AST_CALL "csay" [.node AST_ARG_LIST "1"
          [.node AST_LITERAL "1" [], .node AST_IDENTIFIER "x" []]]]]), false, "", "csay", 6) ∧
    parse_summary "cread(1) d;" =
      some (some (.node AST_PROGRAM "cread" [.node AST_INSTRUCTION_LIST "cread"
        [.node AST_CALL "cread" [.node AST_ARG_LIST "1" [.node AST_LITERAL "1" []],
          .node AST_IDENTIFIER "d" []]]]), false, "", "cread", 6) ∧
    parse_summary "cread(1);" = some (none, true, "Se esperaba un identificador.", ";", 5) := by
  have hres : ∃ A q3, parse_argument_list (parse_expression 14) 14
      (parser_advance (parser_advance (parser_init "csay(1, x);".toList 11))) =
        some (some A, q3) ∧ q3.had_error = false ∧ q3.current.type = TOKEN_RPAREN ∧
        q3.next.type = TOKEN_SEMICOLON := ⟨_, _, rfl, rfl, rfl, rfl⟩
  obtain ⟨A, q3, hA, he, hr, hs⟩ := hres
  have h := special_calls 14 (parser_init "csay(1, x);".toList 11) A q3 (by decide!) hA he hr
  obtain ⟨b, hb, hbe⟩ := h.2.1 (by decide!) hs
  have hres2 : ∃ A q3, parse_argument_list
      (parse_expression (parse_fuel (parser_init "cread(1);".toList 9)))
      (parse_fuel (parser_init "cread(1);".toList 9))
      (parser_advance (parser_advance (parser_init "cread(1);".toList 9).allocated.allocated)) =
        some (some A, q3) ∧ q3.had_error = false ∧ q3.current.type = TOKEN_RPAREN ∧
        q3.next.type = TOKEN_SEMICOLON := ⟨_, _, rfl, rfl, rfl, rfl⟩
  obtain ⟨A2, q4, hA2, he2, hr2, hs2⟩ := hres2
  have h2 := special_calls (parse_fuel (parser_init "cread(1);".toList 9))
    (parser_init "cread(1);".toList 9).allocated.allocated A2 q4 (by decide!) hA2 he2 hr2
  obtain ⟨b2, hb2, k1, _, k3⟩ := (h2.2.2.2 (by decide!) hs2).2 "cread(1);".toList rfl rfl
  exact ⟨⟨A, b, hb, h.1, hbe⟩, ⟨b2, hb2, k1, k3⟩, rfl, rfl, rfl⟩

/-! ## The expression ladder on operators and identifiers -/

theorem parse_level_eq (expr : Parser → Res) (fuel : Nat) :
    parse_mul expr fuel = parse_level expr fuel 1 ∧
    parse_add expr fuel = parse_level expr fuel 2 ∧
    parse_rel expr fuel = parse_level expr fuel 3 ∧
    parse_eq expr fuel = parse_level expr fuel 4 ∧
    parse_and expr fuel = parse_level expr fuel 5 ∧
    parse_or expr fuel = parse_level expr fuel 6 := by
  have h1 : parse_mul expr fuel = parse_level expr fuel 1 := by
    funext parser
    unfold parse_mul
    rfl
  have h2 : parse_add expr fuel = parse_level expr fuel 2 := by
    funext parser
    unfold parse_add
    rw [h1]
    rfl
  have h3 : parse_rel expr fuel = parse_level expr fuel 3 := by
    funext parser
    unfold parse_rel
    rw [h2]
    rfl
  have h4 : parse_eq expr fuel = parse_level expr fuel 4 := by
    funext parser
    unfold parse_eq
    rw [h3]
    rfl
  have h5 : parse_and expr fuel = parse_level expr fuel 5 := by
    funext parser
    unfold parse_and
    rw [h4]
    rfl
  have h6 : parse_or expr fuel = parse_level expr fuel 6 := by
    funext parser
    unfold parse_or
    rw [h5]
    rfl
  exact ⟨h1, h2, h3, h4, h5, h6⟩

theorem parse_expression_level (fuel : Nat) (parser : Parser) :
    parse_expression (fuel + 1) parser =
      parse_level (parse_expression fuel) (fuel + 1) 6 parser := by
  rw [← (parse_level_eq (parse_expression fuel) (fuel + 1)).2.2.2.2.2]
  rfl

theorem mem_level_ops (type : TokenType) (level : Nat) :
    type ∈ level_ops level ↔ binary_level type = level ∧ 1 ≤ level := by
  rcases level with _ | _ | _ | _ | _ | _ | _ | n
  all_goals cases type <;> simp [level_ops, binary_level]

theorem binary_level_le (type : TokenType) : binary_level type ≤ 6 := by
  cases type <;> simp [binary_level]

theorem Parser.bump_bump (parser : Parser) (a b : Nat) :
    (parser.bump a).bump b = parser.bump (a + b) := by
  simp [Parser.bump, Nat.add_assoc]

theorem Parser.allocated_bump (parser : Parser) (n : Nat) :
    (parser.bump n).allocated = parser.bump (n + 1) := by
  simp [Parser.bump, Parser.allocated, Nat.add_assoc]

theorem Parser.allocated_eq_bump (parser : Parser) : parser.allocated = parser.bump 1 := rfl

theorem Parser.bump_zero (parser : Parser) : parser.bump 0 = parser := rfl

theorem parser_advance_bump (parser : Parser) (n : Nat) :
    parser_advance (parser.bump n) = (parser_advance parser).bump n := rfl

theorem Parser.skip_succ (k : Nat) (parser : Parser) :
    Parser.skip (k + 1) parser = parser_advance (Parser.skip k parser) := by
  induction k generalizing parser with
  | zero => rfl
  | succ n ih =>
    show Parser.skip (n + 1) (parser_advance parser) = _
    rw [ih]
    rfl

theorem Parser.skip_add (a b : Nat) (parser : Parser) :
    Parser.skip (a + b) parser = Parser.skip b (Parser.skip a parser) := by
  induction b with
  | zero => rfl
  | succ n ih =>
    rw [← Nat.add_assoc, Parser.skip_succ, ih, Parser.skip_succ]

theorem Parser.skip_bump (k n : Nat) (parser : Parser) :
    Parser.skip k (parser.bump n) = (Parser.skip k parser).bump n := by
  induction k generalizing parser with
  | zero => rfl
  | succ m ih =>
    show Parser.skip m (parser_advance (parser.bump n)) = _
    rw [parser_advance_bump, ih]
    rfl

theorem Parser.skip_had_error (k : Nat) (parser : Parser) :
    (Parser.skip k parser).had_error = parser.had_error := by
  induction k generalizing parser with
  | zero => rfl
  | succ m ih =>
    show (Parser.skip m (parser_advance parser)).had_error = _
    rw [ih]
    rfl

theorem Parser.skip_next (k : Nat) (parser : Parser) :
    (Parser.skip k parser).next = parser.ahead (k + 1) := by
  unfold Parser.ahead
  rw [Parser.skip_succ]
  rfl

theorem Parser.ahead_skip_bump (a n i : Nat) (parser : Parser) :
    ((Parser.skip a parser).bump n).ahead i = parser.ahead (a + i) := by
  unfold Parser.ahead
  rw [Parser.skip_bump, Parser.skip_add]
  rfl


theorem parse_primary_identifier (expr : Parser → Res) (fuel : Nat) (parser : Parser)
    (hc : parser.current.type = TOKEN_IDENTIFIER) (he : parser.had_error = false)
    (hn : parser.next.type ≠ TOKEN_LPAREN) :
    parse_primary expr fuel parser =
      some (some (identifier_leaf parser.current), (parser_advance parser).allocated) := by
  unfold parse_primary
  dsimp only
  rw [hc, if_neg (by decide), if_pos rfl, parse_identifier_node_ok parser hc he]
  dsimp only
  have hn2 : (parser_advance parser).allocated.current.type ≠ TOKEN_LPAREN := hn
  rw [if_neg hn2]
  rfl

theorem parse_unary_identifier (expr : Parser → Res) (fuel : Nat) (parser : Parser)
    (hf : 1 ≤ fuel)
    (hc : parser.current.type = TOKEN_IDENTIFIER) (he : parser.had_error = false)
    (hn : parser.next.type ≠ TOKEN_LPAREN) :
    parse_unary expr fuel parser =
      some (some (identifier_leaf parser.current), (parser_advance parser).allocated) := by
  obtain ⟨n, rfl⟩ : ∃ n, fuel = n + 1 := ⟨fuel - 1, by omega⟩
  unfold parse_unary
  have h : (parser_check parser TOKEN_MINUS || parser_check parser TOKEN_BANG ||
      parser_check parser TOKEN_PLUSPLUS || parser_check parser TOKEN_MINUSMINUS) = false := by
    simp [parser_check, hc]
  rw [h]
  simp only [Bool.false_eq_true, if_false]
  exact parse_primary_identifier expr (n + 1) parser hc he hn

theorem any_parser_check (ops : List TokenType) (parser : Parser) :
    ops.any (fun type => parser_check parser type) = true ↔ parser.current.type ∈ ops := by
  induction ops with
  | nil => simp
  | cons t rest ih =>
    rw [List.any_cons, Bool.or_eq_true, ih, List.mem_cons]
    unfold parser_check
    rw [decide_eq_true_iff]

theorem binary_loop_stop (ops : List TokenType) (operand : Parser → Res) (fuel : Nat)
    (left : Option ASTNode) (parser : Parser) (hf : 1 ≤ fuel)
    (h : parser.current.type ∉ ops) :
    binary_loop ops operand fuel left parser = some (left, parser) := by
  obtain ⟨n, rfl⟩ : ∃ n, fuel = n + 1 := ⟨fuel - 1, by omega⟩
  unfold binary_loop
  rw [if_neg (fun x => h ((any_parser_check ops parser).mp x))]

theorem binary_loop_step (ops : List TokenType) (operand : Parser → Res) (fuel : Nat)
    (left right : ASTNode) (parser parser1 : Parser)
    (h : parser.current.type ∈ ops)
    (hr : operand (parser_advance parser) = some (some right, parser1)) :
    binary_loop ops operand (fuel + 1) (some left) parser =
      binary_loop ops operand fuel (some (binary_node parser.current left right))
        parser1.allocated := by
  conv => lhs; unfold binary_loop
  rw [if_pos ((any_parser_check ops parser).mpr h)]
  dsimp only
  rw [hr]
  rfl

theorem parse_level_succ (expr : Parser → Res) (fuel k : Nat) (parser : Parser)
    (left : Option ASTNode) (parser1 : Parser)
    (h : parse_level expr fuel k parser = some (left, parser1)) :
    parse_level expr fuel (k + 1) parser =
      binary_loop (level_ops (k + 1)) (parse_level expr fuel k) fuel left parser1 := by
  conv => lhs; unfold parse_level
  rw [h]

/-- A result of a level of the ladder is the result of the levels above it up
to a level whose operators the token after the result is not among. -/
theorem parse_level_lift (expr : Parser → Res) (fuel : Nat) (hf : 1 ≤ fuel) (j : Nat)
    (parser : Parser) (r : Option ASTNode) (b : Parser)
    (h : parse_level expr fuel j parser = some (r, b)) :
    ∀ k, j ≤ k → ¬ (j < binary_level b.current.type ∧ binary_level b.current.type ≤ k) →
      parse_level expr fuel k parser = some (r, b) := by
  intro k
  induction k with
  | zero =>
    intro hjk _
    obtain rfl : j = 0 := by omega
    exact h
  | succ n ih =>
    intro hjk hb
    by_cases hj : j = n + 1
    · subst hj
      exact h
    · have h1 := ih (by omega) (fun x => hb ⟨x.1, by omega⟩)
      rw [parse_level_succ expr fuel n parser r b h1]
      exact binary_loop_stop _ _ _ _ _ hf (fun hm => by
        have := (mem_level_ops _ _).mp hm
        exact hb ⟨by omega, by omega⟩)

theorem parse_level_atom (expr : Parser → Res) (fuel : Nat) (hf : 1 ≤ fuel) (k : Nat)
    (parser : Parser)
    (hc : parser.current.type = TOKEN_IDENTIFIER) (he : parser.had_error = false)
    (hn : parser.next.type ≠ TOKEN_LPAREN)
    (hb : ¬ (1 ≤ binary_level parser.next.type ∧ binary_level parser.next.type ≤ k)) :
    parse_level expr fuel k parser =
      some (some (identifier_leaf parser.current), (parser_advance parser).allocated) :=
  parse_level_lift expr fuel hf 0 parser _ _
    (parse_unary_identifier expr fuel parser hf hc he hn) k (Nat.zero_le _) hb


theorem chain_state_advance (parser : Parser) (a n : Nat) :
    parser_advance ((Parser.skip a parser).bump n) = (Parser.skip (a + 1) parser).bump n := by
  rw [parser_advance_bump, ← Parser.skip_succ]

theorem chain_state_current (parser : Parser) (a n : Nat) :
    ((Parser.skip a parser).bump n).current = parser.ahead a := rfl

theorem chain_state_next (parser : Parser) (a n : Nat) :
    ((Parser.skip a parser).bump n).next = parser.ahead (a + 1) :=
  Parser.skip_next a parser

theorem chain_state_had_error (parser : Parser) (a n : Nat) :
    ((Parser.skip a parser).bump n).had_error = parser.had_error :=
  Parser.skip_had_error a parser

theorem binary_level_lparen {type : TokenType} {level : Nat}
    (h : binary_level type = level + 1) : type ≠ TOKEN_LPAREN := by
  intro e
  rw [e] at h
  cases h

/-- The loop of a level of the ladder over `op x op x ... op x` with operators
of the level. -/
theorem binary_loop_chain (expr : Parser → Res) (F : Nat) (hF : 1 ≤ F) (level : Nat)
    (parser : Parser) (n : Nat) (he : parser.had_error = false)
    (hid : ∀ i, i ≤ n → (parser.ahead (2 * i)).type = TOKEN_IDENTIFIER)
    (hop : ∀ i, i < n → binary_level (parser.ahead (2 * i + 1)).type = level + 1)
    (hend : (parser.ahead (2 * n + 1)).type ≠ TOKEN_LPAREN)
    (hlevel : ¬ (1 ≤ binary_level (parser.ahead (2 * n + 1)).type ∧
      binary_level (parser.ahead (2 * n + 1)).type ≤ level + 1)) :
    ∀ (m t fuel : Nat), t + m = n → m + 1 ≤ fuel →
      binary_loop (level_ops (level + 1)) (parse_level expr F level) fuel
          (some (left_chain t parser)) ((Parser.skip (2 * t + 1) parser).bump (2 * t + 1)) =
        some (some (left_chain n parser),
          (Parser.skip (2 * n + 1) parser).bump (2 * n + 1)) := by
  intro m
  induction m with
  | zero =>
    intro t fuel ht hfuel
    obtain rfl : t = n := by omega
    refine binary_loop_stop _ _ _ _ _ hfuel (fun hm => ?_)
    rw [chain_state_current] at hm
    have := (mem_level_ops _ _).mp hm
    exact hlevel ⟨by omega, by omega⟩
  | succ m ih =>
    intro t fuel ht hfuel
    obtain ⟨f, rfl⟩ : ∃ f, fuel = f + 1 := ⟨fuel - 1, by omega⟩
    have hnext : (parser.ahead (2 * t + 3)).type ≠ TOKEN_LPAREN ∧
        ¬ (1 ≤ binary_level (parser.ahead (2 * t + 3)).type ∧
          binary_level (parser.ahead (2 * t + 3)).type ≤ level) := by
      by_cases hlast : t + 1 = n
      · have e : 2 * t + 3 = 2 * n + 1 := by omega
        rw [e]
        exact ⟨hend, fun x => hlevel ⟨x.1, by omega⟩⟩
      · have h1 := hop (t + 1) (by omega)
        have e : 2 * (t + 1) + 1 = 2 * t + 3 := by omega
        rw [e] at h1
        exact ⟨binary_level_lparen h1, fun x => by omega⟩
    have hatom := parse_level_atom expr F hF level
      ((Parser.skip (2 * t + 2) parser).bump (2 * t + 1))
      (by rw [chain_state_current]; exact hid (t + 1) (by omega))
      (by rw [chain_state_had_error]; exact he)
      (by rw [chain_state_next]; exact hnext.1)
      (by rw [chain_state_next]; exact hnext.2)
    rw [chain_state_advance, Parser.allocated_bump, chain_state_current] at hatom
    rw [binary_loop_step (level_ops (level + 1)) (parse_level expr F level) f
      (left_chain t parser) (identifier_leaf (parser.ahead (2 * t + 2)))
      ((Parser.skip (2 * t + 1) parser).bump (2 * t + 1))
      ((Parser.skip (2 * t + 2 + 1) parser).bump (2 * t + 1 + 1))
      (by
        rw [chain_state_current]
        exact (mem_level_ops _ _).mpr ⟨hop t (by omega), by omega⟩)
      (by rw [chain_state_advance]; exact hatom),
      Parser.allocated_bump, chain_state_current]
    exact ih (t + 1) f (by omega) (by omega)

/-- A level of the ladder on `x0 op1 x1 ... opn xn` with operators of the level. -/
theorem parse_level_chain (expr : Parser → Res) (fuel : Nat) (level : Nat)
    (parser : Parser) (n : Nat) (hfuel : n + 1 ≤ fuel) (he : parser.had_error = false)
    (hid : ∀ i, i ≤ n → (parser.ahead (2 * i)).type = TOKEN_IDENTIFIER)
    (hop : ∀ i, i < n → binary_level (parser.ahead (2 * i + 1)).type = level + 1)
    (hend : (parser.ahead (2 * n + 1)).type ≠ TOKEN_LPAREN)
    (hlevel : ¬ (1 ≤ binary_level (parser.ahead (2 * n + 1)).type ∧
      binary_level (parser.ahead (2 * n + 1)).type ≤ level + 1)) :
    parse_level expr fuel (level + 1) parser =
      some (some (left_chain n parser),
        (Parser.skip (2 * n + 1) parser).bump (2 * n + 1)) := by
  have hF : 1 ≤ fuel := by omega
  have hfirst : (parser.ahead 1).type ≠ TOKEN_LPAREN ∧
      ¬ (1 ≤ binary_level (parser.ahead 1).type ∧ binary_level (parser.ahead 1).type ≤ level) := by
    by_cases hlast : n = 0
    · subst hlast
      simp only [Nat.mul_zero, Nat.zero_add] at hend hlevel
      exact ⟨hend, fun x => hlevel ⟨x.1, by omega⟩⟩
    · have h1 : binary_level (parser.ahead 1).type = level + 1 := hop 0 (by omega)
      exact ⟨binary_level_lparen h1, fun x => by omega⟩
  have hatom := parse_level_atom expr fuel hF level parser (hid 0 (Nat.zero_le _)) he
    hfirst.1 hfirst.2
  rw [parse_level_succ expr fuel level parser _ _ hatom]
  exact binary_loop_chain expr fuel hF level parser n he hid hop hend hlevel n 0 fuel
    (by omega) hfuel


/-! ## Left associativity -/

theorem parse_expression_chain (parser : Parser) (n level fuel : Nat) (hn : 1 ≤ n)
    (hlevel : 1 ≤ level) (hfuel : n + 1 ≤ fuel) (he : parser.had_error = false)
    (hid : ∀ i, i ≤ n → (parser.ahead (2 * i)).type = TOKEN_IDENTIFIER)
    (hop : ∀ i, i < n → binary_level (parser.ahead (2 * i + 1)).type = level)
    (hend : (parser.ahead (2 * n + 1)).type ≠ TOKEN_LPAREN)
    (hend2 : binary_level (parser.ahead (2 * n + 1)).type = 0) :
    parse_expression fuel parser =
      some (some (left_chain n parser),
        (Parser.skip (2 * n + 1) parser).bump (2 * n + 1)) := by
  obtain ⟨f, rfl⟩ : ∃ f, fuel = f + 1 := ⟨fuel - 1, by omega⟩
  obtain ⟨l, rfl⟩ : ∃ l, level = l + 1 := ⟨level - 1, by omega⟩
  have h6 : l + 1 ≤ 6 := by
    rw [← hop 0 (by omega)]
    exact binary_level_le _
  have hchain := parse_level_chain (parse_expression f) (f + 1) l parser n hfuel he hid hop hend
    (by rw [hend2]; omega)
  rw [parse_expression_level]
  exact parse_level_lift _ _ (by omega) (l + 1) parser _ _ hchain 6 h6 (by
    rw [chain_state_current, hend2]
    omega)

/-- C18. Left associativity. For every `n ≥ 1`, when the tokens from the
current one on are identifiers `x0 ... xn` separated by operators `op1 ... opn`
of one level of the ladder, followed by a token that is neither a binary
operator nor `(`, `parse_expression` with fuel above `n` returns the tree
`(...((x0 op1 x1) op2 x2)...) opn xn`, without error and with that token as
the current one. -/
theorem left_associativity (parser : Parser) (n level fuel : Nat) (hn : 1 ≤ n)
    (hlevel : 1 ≤ level) (hfuel : n + 1 ≤ fuel) (he : parser.had_error = false)
    (hid : ∀ i, i ≤ n → (parser.ahead (2 * i)).type = TOKEN_IDENTIFIER)
    (hop : ∀ i, i < n → binary_level (parser.ahead (2 * i + 1)).type = level)
    (hend : (parser.ahead (2 * n + 1)).type ≠ TOKEN_LPAREN)
    (hend2 : binary_level (parser.ahead (2 * n + 1)).type = 0) :
    ∃ b, parse_expression fuel parser = some (some (left_chain n parser), b) ∧
      b.had_error = false ∧ b.current = parser.ahead (2 * n + 1) :=
  ⟨_, parse_expression_chain parser n level fuel hn hlevel hfuel he hid hop hend hend2,
    (chain_state_had_error parser _ _).trans he, chain_state_current parser _ _⟩

theorem left_associativity_witness :
    (∃ b, parse_expression 4 (parser_init "a - b + c - d;".toList 14) =
        some (some (left_chain 3 (parser_init "a - b + c - d;".toList 14)), b) ∧
      b.had_error = false ∧ b.current = (parser_init "a - b + c - d;".toList 14).ahead 7) ∧
    (left_chain 3 (parser_init "a - b + c - d;".toList 14)).outline "a - b + c - d;".toList =
      .node AST_EXPRESSION "-" [.node AST_EXPRESSION "+" [.node AST_EXPRESSION "-"
        [.node AST_IDENTIFIER "a" [], .node AST_IDENTIFIER "b" []], .node AST_IDENTIFIER "c" []],
        .node AST_IDENTIFIER "d" []] :=
  ⟨left_associativity (parser_init "a - b + c - d;".toList 14) 3 2 4 (by decide) (by decide)
    (by decide) (by decide!) (by decide!) (by decide!) (by decide!) (by decide!), rfl⟩


/-! ## Operator precedence -/

theorem first_state (parser : Parser) :
    (parser_advance parser).allocated = (Parser.skip 1 parser).bump 1 := rfl

theorem ahead_one (parser : Parser) : parser.ahead 1 = parser.next := rfl

theorem ahead_zero (parser : Parser) : parser.ahead 0 = parser.current := rfl

theorem left_chain_one (parser : Parser) :
    left_chain 1 parser =
      binary_node (parser.ahead 1) (identifier_leaf (parser.ahead 0))
        (identifier_leaf (parser.ahead 2)) := rfl

/-- The expression `a op1 b op2 c` with `op2` of a tighter level than `op1`. -/
theorem parse_expression_loose_tight (parser : Parser) (fuel : Nat) (hfuel : 2 ≤ fuel)
    (he : parser.had_error = false)
    (ha : (parser.ahead 0).type = TOKEN_IDENTIFIER)
    (hb : (parser.ahead 2).type = TOKEN_IDENTIFIER)
    (hc : (parser.ahead 4).type = TOKEN_IDENTIFIER)
    (hend : (parser.ahead 5).type ≠ TOKEN_LPAREN)
    (hend2 : binary_level (parser.ahead 5).type = 0)
    (h12 : binary_level (parser.ahead 3).type < binary_level (parser.ahead 1).type)
    (h2 : 1 ≤ binary_level (parser.ahead 3).type) :
    parse_expression fuel parser =
      some (some (binary_node (parser.ahead 1) (identifier_leaf (parser.ahead 0))
          (binary_node (parser.ahead 3) (identifier_leaf (parser.ahead 2))
            (identifier_leaf (parser.ahead 4)))),
        (Parser.skip 5 parser).bump 5) := by
  obtain ⟨f, rfl⟩ : ∃ f, fuel = f + 1 := ⟨fuel - 1, by omega⟩
  obtain ⟨k, hk⟩ : ∃ k, binary_level (parser.ahead 1).type = k + 1 :=
    ⟨binary_level (parser.ahead 1).type - 1, by omega⟩
  obtain ⟨j, hj⟩ : ∃ j, binary_level (parser.ahead 3).type = j + 1 :=
    ⟨binary_level (parser.ahead 3).type - 1, by omega⟩
  have hk6 : k + 1 ≤ 6 := by rw [← hk]; exact binary_level_le _
  have hF : 1 ≤ f + 1 := by omega
  -- the operand `a`
  have hatom := parse_level_atom (parse_expression f) (f + 1) hF k parser ha he
    (by rw [← ahead_one]; exact binary_level_lparen hk)
    (by
      rw [← ahead_one, hk]
      omega)
  rw [first_state] at hatom
  -- the operand `b op2 c`
  have hchain := parse_level_chain (parse_expression f) (f + 1) j
    ((Parser.skip 2 parser).bump 1) 1 (by omega)
    (by rw [chain_state_had_error]; exact he)
    (fun i hi => by
      rw [Parser.ahead_skip_bump]
      rcases Nat.le_one_iff_eq_zero_or_eq_one.mp hi with rfl | rfl
      · exact hb
      · exact hc)
    (fun i hi => by
      obtain rfl : i = 0 := by omega
      rw [Parser.ahead_skip_bump]
      exact hj)
    (by rw [Parser.ahead_skip_bump]; exact hend)
    (by rw [Parser.ahead_skip_bump, hend2]; omega)
  rw [left_chain_one, Parser.ahead_skip_bump, Parser.ahead_skip_bump, Parser.ahead_skip_bump,
    Parser.skip_bump, ← Parser.skip_add, Parser.bump_bump] at hchain
  have hright := parse_level_lift (parse_expression f) (f + 1) hF (j + 1) _ _ _ hchain k
    (by omega) (by
      rw [chain_state_current, hend2]
      omega)
  -- the loop of the level of `op1`
  have hloop := binary_loop_step (level_ops (k + 1)) (parse_level (parse_expression f) (f + 1) k)
    f (identifier_leaf parser.current) _ ((Parser.skip 1 parser).bump 1) _
    (by
      rw [chain_state_current]
      exact (mem_level_ops _ _).mpr ⟨hk, by omega⟩)
    (by rw [chain_state_advance]; exact hright)
  rw [Parser.allocated_bump, chain_state_current] at hloop
  have hstop := binary_loop_stop (level_ops (k + 1))
    (parse_level (parse_expression f) (f + 1) k) f
    (some (binary_node (parser.ahead 1) (identifier_leaf parser.current)
      (binary_node (parser.ahead (2 + 1)) (identifier_leaf (parser.ahead (2 + 0)))
        (identifier_leaf (parser.ahead (2 + 2))))))
    ((Parser.skip (2 + 3) parser).bump (1 + 3 + 1)) (by omega) (fun hm => by
      rw [chain_state_current] at hm
      have := (mem_level_ops _ _).mp hm
      have e : binary_level (parser.ahead 5).type = 0 := hend2
      have e2 : binary_level (parser.ahead (2 + 3)).type = k + 1 := this.1
      have e3 : parser.ahead (2 + 3) = parser.ahead 5 := rfl
      rw [e3] at e2
      omega)
  have hlevel : parse_level (parse_expression f) (f + 1) (k + 1) parser =
      some (some (binary_node (parser.ahead 1) (identifier_leaf parser.current)
        (binary_node (parser.ahead (2 + 1)) (identifier_leaf (parser.ahead (2 + 0)))
          (identifier_leaf (parser.ahead (2 + 2))))),
        (Parser.skip (2 + 3) parser).bump (1 + 3 + 1)) := by
    rw [parse_level_succ _ _ _ _ _ _ hatom, hloop, hstop]
  rw [parse_expression_level]
  exact parse_level_lift _ _ hF (k + 1) parser _ _ hlevel 6 hk6 (by
    rw [chain_state_current]
    have e3 : parser.ahead (2 + 3) = parser.ahead 5 := rfl
    rw [e3, hend2]
    omega)

/-- The expression `a op1 b op2 c` with `op1` of a tighter level than `op2`. -/
theorem parse_expression_tight_loose (parser : Parser) (fuel : Nat) (hfuel : 2 ≤ fuel)
    (he : parser.had_error = false)
    (ha : (parser.ahead 0).type = TOKEN_IDENTIFIER)
    (hb : (parser.ahead 2).type = TOKEN_IDENTIFIER)
    (hc : (parser.ahead 4).type = TOKEN_IDENTIFIER)
    (hend : (parser.ahead 5).type ≠ TOKEN_LPAREN)
    (hend2 : binary_level (parser.ahead 5).type = 0)
    (h12 : binary_level (parser.ahead 1).type < binary_level (parser.ahead 3).type)
    (h1 : 1 ≤ binary_level (parser.ahead 1).type) :
    parse_expression fuel parser =
      some (some (binary_node (parser.ahead 3)
          (binary_node (parser.ahead 1) (identifier_leaf (parser.ahead 0))
            (identifier_leaf (parser.ahead 2)))
          (identifier_leaf (parser.ahead 4))),
        (Parser.skip 5 parser).bump 5) := by
  obtain ⟨f, rfl⟩ : ∃ f, fuel = f + 1 := ⟨fuel - 1, by omega⟩
  obtain ⟨k, hk⟩ : ∃ k, binary_level (parser.ahead 3).type = k + 1 :=
    ⟨binary_level (parser.ahead 3).type - 1, by omega⟩
  obtain ⟨j, hj⟩ : ∃ j, binary_level (parser.ahead 1).type = j + 1 :=
    ⟨binary_level (parser.ahead 1).type - 1, by omega⟩
  have hk6 : k + 1 ≤ 6 := by rw [← hk]; exact binary_level_le _
  have hF : 1 ≤ f + 1 := by omega
  -- the operand `a op1 b`
  have hchain := parse_level_chain (parse_expression f) (f + 1) j parser 1 (by omega) he
    (fun i hi => by
      rcases Nat.le_one_iff_eq_zero_or_eq_one.mp hi with rfl | rfl
      · exact ha
      · exact hb)
    (fun i hi => by
      obtain rfl : i = 0 := by omega
      exact hj)
    (binary_level_lparen hk)
    (by
      have e : binary_level (parser.ahead (2 * 1 + 1)).type = k + 1 := hk
      rw [e]
      omega)
  rw [left_chain_one] at hchain
  have hleft := parse_level_lift (parse_expression f) (f + 1) hF (j + 1) _ _ _ hchain k
    (by omega) (by
      rw [chain_state_current]
      have e : binary_level (parser.ahead (2 * 1 + 1)).type = k + 1 := hk
      rw [e]
      omega)
  -- the operand `c`
  have hatom := parse_level_atom (parse_expression f) (f + 1) hF k
    ((Parser.skip 4 parser).bump 3)
    (by rw [chain_state_current]; exact hc)
    (by rw [chain_state_had_error]; exact he)
    (by rw [chain_state_next]; exact hend)
    (by rw [chain_state_next, hend2]; omega)
  rw [chain_state_advance, Parser.allocated_bump, chain_state_current] at hatom
  -- the loop of the level of `op2`
  have hloop := binary_loop_step (level_ops (k + 1)) (parse_level (parse_expression f) (f + 1) k)
    f (binary_node (parser.ahead 1) (identifier_leaf (parser.ahead 0))
      (identifier_leaf (parser.ahead 2))) _ ((Parser.skip (2 * 1 + 1) parser).bump (2 * 1 + 1)) _
    (by
      rw [chain_state_current]
      exact (mem_level_ops _ _).mpr ⟨hk, by omega⟩)
    (by rw [chain_state_advance]; exact hatom)
  rw [Parser.allocated_bump, chain_state_current] at hloop
  have hstop := binary_loop_stop (level_ops (k + 1))
    (parse_level (parse_expression f) (f + 1) k) f
    (some (binary_node (parser.ahead (2 * 1 + 1))
      (binary_node (parser.ahead 1) (identifier_leaf (parser.ahead 0))
        (identifier_leaf (parser.ahead 2)))
      (identifier_leaf (parser.ahead 4))))
    ((Parser.skip (4 + 1) parser).bump (3 + 1 + 1)) (by omega) (fun hm => by
      rw [chain_state_current] at hm
      have e2 : binary_level (parser.ahead (4 + 1)).type = k + 1 := ((mem_level_ops _ _).mp hm).1
      have e3 : parser.ahead (4 + 1) = parser.ahead 5 := rfl
      rw [e3] at e2
      omega)
  have hlevel : parse_level (parse_expression f) (f + 1) (k + 1) parser =
      some (some (binary_node (parser.ahead (2 * 1 + 1))
        (binary_node (parser.ahead 1) (identifier_leaf (parser.ahead 0))
          (identifier_leaf (parser.ahead 2)))
        (identifier_leaf (parser.ahead 4))),
        (Parser.skip (4 + 1) parser).bump (3 + 1 + 1)) := by
    rw [parse_level_succ _ _ _ _ _ _ hleft, hloop, hstop]
  rw [parse_expression_level]
  exact parse_level_lift _ _ hF (k + 1) parser _ _ hlevel 6 hk6 (by
    rw [chain_state_current]
    have e3 : parser.ahead (4 + 1) = parser.ahead 5 := rfl
    rw [e3, hend2]
    omega)

/-- C17. Operator precedence. Let the tokens from the current one on be an
identifier `a`, an operator, an identifier `b`, an operator, an identifier `c`
and a token that is neither a binary operator nor `(`, the two operators being
binary operators of different levels of the ladder. When the second operator
binds tighter, `parse_expression` returns `first[a, second[b, c]]`; when the
first operator binds tighter, it returns `second[first[a, b], c]`. In both cases
no error is recorded and the token after `c` is the current one. -/
theorem operator_precedence (parser : Parser) (fuel : Nat) (hfuel : 2 ≤ fuel)
    (he : parser.had_error = false)
    (ha : (parser.ahead 0).type = TOKEN_IDENTIFIER)
    (hb : (parser.ahead 2).type = TOKEN_IDENTIFIER)
    (hc : (parser.ahead 4).type = TOKEN_IDENTIFIER)
    (hend : (parser.ahead 5).type ≠ TOKEN_LPAREN)
    (hend2 : binary_level (parser.ahead 5).type = 0) :
    (1 ≤ binary_level (parser.ahead 3).type →
      binary_level (parser.ahead 3).type < binary_level (parser.ahead 1).type →
      ∃ b, parse_expression fuel parser =
          some (some (binary_node (parser.ahead 1) (identifier_leaf (parser.ahead 0))
            (binary_node (parser.ahead 3) (identifier_leaf (parser.ahead 2))
              (identifier_leaf (parser.ahead 4)))), b) ∧
        b.had_error = false ∧ b.current = parser.ahead 5) ∧
    (1 ≤ binary_level (parser.ahead 1).type →
      binary_level (parser.ahead 1).type < binary_level (parser.ahead 3).type →
      ∃ b, parse_expression fuel parser =
          some (some (binary_node (parser.ahead 3)
            (binary_node (parser.ahead 1) (identifier_leaf (parser.ahead 0))
              (identifier_leaf (parser.ahead 2)))
            (identifier_leaf (parser.ahead 4))), b) ∧
        b.had_error = false ∧ b.current = parser.ahead 5) :=
  ⟨fun h2 h12 => ⟨_, parse_expression_loose_tight parser fuel hfuel he ha hb hc hend hend2 h12 h2,
      (chain_state_had_error parser _ _).trans he, chain_state_current parser _ _⟩,
    fun h1 h12 => ⟨_, parse_expression_tight_loose parser fuel hfuel he ha hb hc hend hend2 h12 h1,
      (chain_state_had_error parser _ _).trans he, chain_state_current parser _ _⟩⟩

theorem operator_precedence_witness :
    (∃ b, parse_expression 2 (parser_init "a + b * c;".toList 10) =
        some (some (binary_node ((parser_init "a + b * c;".toList 10).ahead 1)
          (identifier_leaf ((parser_init "a + b * c;".toList 10).ahead 0))
          (binary_node ((parser_init "a + b * c;".toList 10).ahead 3)
            (identifier_leaf ((parser_init "a + b * c;".toList 10).ahead 2))
            (identifier_leaf ((parser_init "a + b * c;".toList 10).ahead 4)))), b) ∧
      b.had_error = false ∧ b.current = (parser_init "a + b * c;".toList 10).ahead 5) ∧
    result_summary "a + b * c;".toList
        (parse_expression 2 (parser_init "a + b * c;".toList 10)) =
      some (some (.node AST_EXPRESSION "+" [.node AST_IDENTIFIER "a" [],
        .node AST_EXPRESSION "*" [.node AST_IDENTIFIER "b" [], .node AST_IDENTIFIER "c" []]]),
        false, "") ∧
    result_summary "a * b + c;".toList
        (parse_expression 2 (parser_init "a * b + c;".toList 10)) =
      some (some (.node AST_EXPRESSION "+" [.node AST_EXPRESSION "*"
        [.node AST_IDENTIFIER "a" [], .node AST_IDENTIFIER "b" []], .node AST_IDENTIFIER "c" []]),
        false, "") ∧
    result_summary "a || b == c;".toList
        (parse_expression 2 (parser_init "a || b == c;".toList 12)) =
      some (some (.node AST_EXPRESSION "||" [.node AST_IDENTIFIER "a" [],
        .node AST_EXPRESSION "==" [.node AST_IDENTIFIER "b" [], .node AST_IDENTIFIER "c" []]]),
        false, "") :=
  ⟨(operator_precedence (parser_init "a + b * c;".toList 10) 2 (by decide) (by decide!)
      (by decide!) (by decide!) (by decide!) (by decide!) (by decide!)).1 (by decide!)
      (by decide!), rfl, rfl, rfl⟩


/-! ## Skipping reaches a fixed point -/

theorem skip_whitespace_loop_peek (fuel : Nat) (lexer : Lexer)
    (hfuel : lexer.length - lexer.position < fuel) :
    is_blank (lexer_peek (skip_whitespace_loop fuel lexer)) = false := by
  induction fuel generalizing lexer with
  | zero => omega
  | succ n ih =>
    unfold skip_whitespace_loop
    dsimp only
    by_cases hc : lexer_peek lexer = ' ' ∨ lexer_peek lexer = '\t' ∨ lexer_peek lexer = '\r' ∨
        lexer_peek lexer = '\n'
    · rw [if_pos hc]
      have hlt : lexer.position < lexer.length := by
        apply lexer_peek_lt
        rcases hc with hc | hc | hc | hc <;> rw [hc] <;> decide
      exact ih _ (by have := lexer_advance_left hlt; omega)
    · rw [if_neg hc]
      cases hb : is_blank (lexer_peek lexer)
      · rfl
      · exact absurd ((is_blank_iff _).mp hb) hc

theorem skip_whitespace_peek (lexer : Lexer) :
    is_blank (lexer_peek (skip_whitespace lexer)) = false :=
  skip_whitespace_loop_peek _ lexer (Nat.lt_succ_self _)

theorem skip_ignorable_loop_exit (fuel : Nat) (lexer : Lexer)
    (hle : lexer.position ≤ lexer.length) (hfuel : lexer.length - lexer.position < fuel) :
    is_blank (lexer_peek (skip_ignorable_loop fuel lexer)) = false ∧
      ¬ at_comment (skip_ignorable_loop fuel lexer) := by
  induction fuel generalizing lexer with
  | zero => omega
  | succ n ih =>
    have hw : Lexer.Step lexer (skip_whitespace lexer) := skip_whitespace_loop_step _ _
    have h1 := hw.2.2.1
    have h2 := hw.2.2.2 hle
    have h3 := hw.2.1
    unfold skip_ignorable_loop
    dsimp only
    by_cases hp : (skip_whitespace lexer).position ≠ lexer.position
    · rw [if_pos hp]
      exact ih _ (by omega) (by omega)
    · rw [if_neg hp]
      by_cases hc : at_comment (skip_whitespace lexer)
      · have hc2 := hc
        unfold at_comment at hc2
        rw [if_pos hc2]
        have hs := skip_comment_step (skip_whitespace lexer)
        have hpr := @skip_comment_progress (skip_whitespace lexer) hc
        have h4 := hs.2.2.2 (by omega)
        have h5 := hs.2.1
        exact ih _ (by omega) (by omega)
      · have hc2 := hc
        unfold at_comment at hc2
        rw [if_neg hc2]
        exact ⟨skip_whitespace_peek lexer, hc⟩

theorem skip_whitespace_moves (lexer : Lexer) (hb : is_blank (lexer_peek lexer) = true) :
    skip_whitespace lexer = skip_whitespace (lexer_advance lexer).2 ∧
      lexer.position < (skip_whitespace lexer).position := by
  have hlt : lexer.position < lexer.length :=
    lexer_peek_lt (by intro e; rw [e] at hb; exact absurd hb (by decide))
  have hleft := lexer_advance_left hlt
  have heq : skip_whitespace lexer = skip_whitespace (lexer_advance lexer).2 := by
    conv => lhs; unfold skip_whitespace lexer_fuel skip_whitespace_loop
    dsimp only
    rw [if_pos ((is_blank_iff _).mp hb)]
    unfold skip_whitespace lexer_fuel
    rw [hleft]
  refine ⟨heq, ?_⟩
  rw [heq]
  have hs : Lexer.Step (lexer_advance lexer).2 (skip_whitespace (lexer_advance lexer).2) :=
    skip_whitespace_loop_step _ _
  have := hs.2.2.1
  rw [lexer_advance_succ hlt] at this
  omega

theorem skip_ignorable_blank_step (lexer : Lexer) (hle : lexer.position ≤ lexer.length)
    (hb : is_blank (lexer_peek lexer) = true) :
    skip_ignorable lexer = skip_ignorable (lexer_advance lexer).2 := by
  obtain ⟨heq, hlt⟩ := skip_whitespace_moves lexer hb
  have hadv := lexer_advance_step lexer
  have hle2 : (lexer_advance lexer).2.position ≤ (lexer_advance lexer).2.length := by
    rw [hadv.2.1]
    exact hadv.2.2.2 hle
  rw [skip_ignorable_of_blank lexer hle (by omega), heq]
  cases hb2 : is_blank (lexer_peek (lexer_advance lexer).2)
  · rw [skip_whitespace_fixed _ hb2]
  · rw [skip_ignorable_of_blank _ hle2 (by
      have := (skip_whitespace_moves _ hb2).2
      omega)]

theorem begins_token_iff (lexer : Lexer) (hwf : lexer.WF) :
    begins_token lexer.rest ↔ is_blank (lexer_peek lexer) = false ∧ ¬ at_comment lexer := by
  unfold begins_token at_comment
  rw [lexer_peek_rest hwf, lexer_peek_next_rest hwf]

theorem skip_ignorable_wf (lexer : Lexer) (hwf : lexer.WF) : (skip_ignorable lexer).WF :=
  hwf.step (skip_ignorable_step lexer)

theorem skip_ignorable_pieces (pieces : List (List Char)) (R : List Char)
    (hR : begins_token R) :
    ∀ lexer : Lexer, lexer.WF → (∀ p ∈ pieces, ignorable_piece p) →
      lexer.rest = pieces.flatten ++ R → (skip_ignorable lexer).rest = R := by
  induction pieces with
  | nil =>
    intro lexer hwf _ hr
    have hr2 : lexer.rest = R := by simpa using hr
    have h := (begins_token_iff lexer hwf).mp (by rw [hr2]; exact hR)
    rw [skip_ignorable_fixed lexer h.1 h.2]
    exact hr2
  | cons p ps ih =>
    intro lexer hwf hp hr
    have hps : ∀ q ∈ ps, ignorable_piece q := fun q hq => hp q (List.mem_cons_of_mem _ hq)
    rw [List.flatten_cons, List.append_assoc] at hr
    rcases hp p (List.mem_cons_self _ _) with ⟨c, rfl, hc⟩ | ⟨body, hbody, hC⟩
    · have hr2 : lexer.rest = c :: (ps.flatten ++ R) := hr
      rw [skip_ignorable_blank_step lexer hwf.2 (by rw [lexer_peek_cons hwf hr2]; exact hc)]
      exact ih _ (lexer_advance_wf hwf) hps (lexer_advance_cons hwf hr2)
    · obtain ⟨k1, k2, k3⟩ := skip_comment_rest body (ps.flatten ++ R) hbody p hC lexer hwf hr
      rw [skip_ignorable_of_comment lexer hwf.2 k3 k2]
      exact ih _ (hwf.step (skip_comment_step lexer)) hps k1

theorem first_token_after_comments :
    (tokenize "// x\n// y".toList).map (fun token => token.type) = [TOKEN_EOF] ∧
    token_texts "// x\n  /* y */ $ z\n %% w %% a".toList =
      [(TOKEN_IDENTIFIER, "a"), (TOKEN_EOF, "")] := by
  constructor <;> decide

/-- C25. Skipping reaches a fixed point. At a state inside its buffer, the
state `skip_ignorable` returns, at which `lexer_next_token` begins its token,
is not at a space, tab, CR or LF nor at the opening of a comment (at the end of
the input it is at neither), and skipping again from it changes nothing. Hence,
when the characters left are blanks and comments in any order followed by text
that begins a token, all of them are skipped: the characters left after
skipping are that text. -/
theorem skipping_fixed_point (lexer : Lexer) (hwf : lexer.WF) :
    is_blank (lexer_peek (skip_ignorable lexer)) = false ∧
    ¬ at_comment (skip_ignorable lexer) ∧
    skip_ignorable (skip_ignorable lexer) = skip_ignorable lexer ∧
    ((lexer_next_token lexer).1.type ≠ TOKEN_EOF →
      (lexer_next_token lexer).1.lexeme = some (skip_ignorable lexer).position) ∧
    (∀ (pieces : List (List Char)) (R : List Char),
      (∀ p ∈ pieces, ignorable_piece p) → begins_token R →
      lexer.rest = pieces.flatten ++ R → (skip_ignorable lexer).rest = R) := by
  have h := skip_ignorable_loop_exit (lexer_fuel lexer) lexer hwf.2 (Nat.lt_succ_self _)
  refine ⟨h.1, h.2, skip_ignorable_fixed _ h.1 h.2, fun hne => ?_,
    fun pieces R hp hR hr => skip_ignorable_pieces pieces R hR lexer hwf hp hr⟩
  by_cases hc : (skip_ignorable lexer).position < (skip_ignorable lexer).length
  · exact (lexer_next_token_scanned hc).2.1
  · rw [lexer_next_token_eof (not_lt.mp hc)] at hne
    exact absurd rfl hne

theorem skipping_fixed_point_witness :
    (skip_ignorable (lexer_init " // x\n/* y */\t$ z\nw = 1;".toList 24)).rest = "w = 1;".toList ∧
    (tokenize "// x\n// y".toList).map (fun token => token.type) = [TOKEN_EOF] ∧
    token_texts "// x\n  /* y */ $ z\n %% w %% a".toList =
      [(TOKEN_IDENTIFIER, "a"), (TOKEN_EOF, "")] :=
  ⟨(skipping_fixed_point (lexer_init " // x\n/* y */\t$ z\nw = 1;".toList 24)
      ⟨by decide, Nat.zero_le _⟩).2.2.2.2
      [" ".toList, "// x\n".toList, "/* y */".toList, "\t".toList, "$ z\n".toList]
      "w = 1;".toList
      (by
        intro p hp
        simp only [List.mem_cons, List.mem_singleton, List.mem_nil_iff, or_false] at hp
        rcases hp with rfl | rfl | rfl | rfl | rfl
        · exact Or.inl ⟨' ', rfl, by decide⟩
        · exact Or.inr ⟨" x".toList, by decide, by decide⟩
        · exact Or.inr ⟨" y ".toList, by decide, by decide⟩
        · exact Or.inl ⟨'\t', rfl, by decide⟩
        · exact Or.inr ⟨" z".toList, by decide, by decide⟩)
      (by unfold begins_token; decide) (by decide),
    first_token_after_comments.1, first_token_after_comments.2⟩


/-! ## The tokenizer moves by `lexer_advance` only -/

theorem Lexer.Advances.still (a : Lexer) : Lexer.Advances a a := ⟨0, rfl⟩

theorem advance_times_add (m n : Nat) (a : Lexer) :
    advance_times (m + n) a = advance_times n (advance_times m a) := by
  induction m generalizing a with
  | zero => rw [Nat.zero_add]; rfl
  | succ k ih =>
    rw [Nat.add_right_comm]
    exact ih _

theorem Lexer.Advances.next {a b c : Lexer} (h1 : Lexer.Advances a b)
    (h2 : Lexer.Advances b c) : Lexer.Advances a c := by
  obtain ⟨m, rfl⟩ := h1
  obtain ⟨n, rfl⟩ := h2
  exact ⟨m + n, (advance_times_add m n a).symm⟩

theorem lexer_advance_advances (lexer : Lexer) : Lexer.Advances lexer (lexer_advance lexer).2 :=
  ⟨1, rfl⟩

theorem skip_whitespace_loop_advances (fuel : Nat) (lexer : Lexer) :
    Lexer.Advances lexer (skip_whitespace_loop fuel lexer) := by
  induction fuel generalizing lexer with
  | zero => exact Lexer.Advances.still _
  | succ n ih =>
    unfold skip_whitespace_loop
    simp only
    split
    · exact (lexer_advance_advances lexer).next (ih _)
    · exact Lexer.Advances.still _

theorem skip_line_loop_advances (fuel : Nat) (c : Char) (lexer : Lexer) :
    Lexer.Advances lexer (skip_line_loop fuel c lexer) := by
  induction fuel generalizing c lexer with
  | zero => exact Lexer.Advances.still _
  | succ n ih =>
    unfold skip_line_loop
    split
    · exact (lexer_advance_advances lexer).next (ih _ _)
    · exact Lexer.Advances.still _

theorem skip_block_loop_advances (c1 c2 : Char) (fuel : Nat) (lexer : Lexer) :
    Lexer.Advances lexer (skip_block_loop c1 c2 fuel lexer) := by
  induction fuel generalizing lexer with
  | zero => exact Lexer.Advances.still _
  | succ n ih =>
    unfold skip_block_loop
    split
    · exact Lexer.Advances.still _
    · split
      · exact (lexer_advance_advances lexer).next (lexer_advance_advances _)
      · exact (lexer_advance_advances lexer).next (ih _)

theorem skip_comment_advances (lexer : Lexer) : Lexer.Advances lexer (skip_comment lexer) := by
  unfold skip_comment
  simp only
  split
  · exact skip_line_loop_advances _ _ _
  · split
    · exact skip_line_loop_advances _ _ _
    · split
      · exact ((lexer_advance_advances lexer).next (lexer_advance_advances _)).next
          (skip_block_loop_advances _ _ _ _)
      · split
        · exact ((lexer_advance_advances lexer).next (lexer_advance_advances _)).next
            (skip_block_loop_advances _ _ _ _)
        · exact Lexer.Advances.still _

theorem skip_ignorable_loop_advances (fuel : Nat) (lexer : Lexer) :
    Lexer.Advances lexer (skip_ignorable_loop fuel lexer) := by
  induction fuel generalizing lexer with
  | zero => exact Lexer.Advances.still _
  | succ n ih =>
    unfold skip_ignorable_loop
    simp only
    split
    · exact (skip_whitespace_loop_advances _ lexer).next (ih _)
    · split
      · exact ((skip_whitespace_loop_advances _ lexer).next (skip_comment_advances _)).next
          (ih _)
      · exact skip_whitespace_loop_advances _ lexer

theorem skip_ignorable_advances (lexer : Lexer) :
    Lexer.Advances lexer (skip_ignorable lexer) :=
  skip_ignorable_loop_advances _ _

theorem identifier_loop_advances (fuel : Nat) (lexer : Lexer) :
    Lexer.Advances lexer (identifier_loop fuel lexer) := by
  induction fuel generalizing lexer with
  | zero => exact Lexer.Advances.still _
  | succ n ih =>
    unfold identifier_loop
    split
    · exact (lexer_advance_advances lexer).next (ih _)
    · exact Lexer.Advances.still _

theorem number_loop_advances (fuel : Nat) (has_dot : Bool) (lexer : Lexer) :
    Lexer.Advances lexer (number_loop fuel has_dot lexer) := by
  induction fuel generalizing has_dot lexer with
  | zero => exact Lexer.Advances.still _
  | succ n ih =>
    unfold number_loop
    split
    · split
      · split
        · exact Lexer.Advances.still _
        · exact (lexer_advance_advances lexer).next (ih _ _)
      · exact (lexer_advance_advances lexer).next (ih _ _)
    · exact Lexer.Advances.still _

theorem string_loop_advances (quote : Char) (fuel : Nat) (lexer : Lexer) :
    Lexer.Advances lexer (string_loop quote fuel lexer) := by
  induction fuel generalizing lexer with
  | zero => exact Lexer.Advances.still _
  | succ n ih =>
    unfold string_loop
    simp only
    split
    · exact Lexer.Advances.still _
    · split
      · exact lexer_advance_advances lexer
      · split
        · exact ((lexer_advance_advances lexer).next (lexer_advance_advances _)).next (ih _)
        · exact (lexer_advance_advances lexer).next (ih _)

/-- A token and the state it is returned with: the state is reached from `s`
by calls of `lexer_advance`, and the token is made by `make_token` in that
state, with the lexeme at the offset of `s`. -/
theorem made_of_advances {s l : Lexer} (hl : Lexer.Advances (lexer_advance s).2 l)
    (type : TokenType) (length : Nat) :
    Lexer.Advances s (make_token l type s.position length, l).2 ∧
      (make_token l type s.position length, l).1 =
        make_token (make_token l type s.position length, l).2
          (make_token l type s.position length, l).1.type s.position
          (make_token l type s.position length, l).1.length :=
  ⟨(lexer_advance_advances s).next hl, rfl⟩

theorem made_two (s : Lexer) (second : Char) (two one : TokenType) :
    Lexer.Advances s (two_char (lexer_advance s).2 s.position second two
        (make_token (lexer_advance s).2 one s.position 1, (lexer_advance s).2)).2 ∧
      (two_char (lexer_advance s).2 s.position second two
        (make_token (lexer_advance s).2 one s.position 1, (lexer_advance s).2)).1 =
        make_token (two_char (lexer_advance s).2 s.position second two
            (make_token (lexer_advance s).2 one s.position 1, (lexer_advance s).2)).2
          (two_char (lexer_advance s).2 s.position second two
            (make_token (lexer_advance s).2 one s.position 1, (lexer_advance s).2)).1.type
          s.position
          (two_char (lexer_advance s).2 s.position second two
            (make_token (lexer_advance s).2 one s.position 1, (lexer_advance s).2)).1.length := by
  unfold two_char
  split
  · exact made_of_advances (lexer_advance_advances _) two 2
  · exact made_of_advances (Lexer.Advances.still _) one 1

theorem lexer_next_token_made {lexer : Lexer}
    (h : (skip_ignorable lexer).position < (skip_ignorable lexer).length) :
    Lexer.Advances (skip_ignorable lexer) (lexer_next_token lexer).2 ∧
      (lexer_next_token lexer).1 =
        make_token (lexer_next_token lexer).2 (lexer_next_token lexer).1.type
          (skip_ignorable lexer).position (lexer_next_token lexer).1.length := by
  have hn : ¬ (skip_ignorable lexer).position ≥ (skip_ignorable lexer).length := not_le.mpr h
  let P : Token × Lexer → Prop := fun r =>
    Lexer.Advances (skip_ignorable lexer) r.2 ∧
      r.1 = make_token r.2 r.1.type (skip_ignorable lexer).position r.1.length
  show P (lexer_next_token lexer)
  unfold lexer_next_token
  dsimp only
  rw [if_neg hn]
  refine ite_cases P (fun _ => made_of_advances (identifier_loop_advances _ _) _ _) (fun _ => ?_)
  refine ite_cases P (fun _ => made_of_advances (number_loop_advances _ _ _) _ _) (fun _ => ?_)
  refine ite_cases P (fun _ => made_of_advances (string_loop_advances _ _ _) _ _) (fun _ => ?_)
  refine ite_cases P (fun _ => made_of_advances (string_loop_advances _ _ _) _ _) (fun _ => ?_)
  refine ite_cases P (fun _ => made_two _ _ _ _) (fun _ => ?_)
  refine ite_cases P (fun _ => made_two _ _ _ _) (fun _ => ?_)
  refine ite_cases P (fun _ => made_of_advances (Lexer.Advances.still _) _ 1) (fun _ => ?_)
  refine ite_cases P (fun _ => made_of_advances (Lexer.Advances.still _) _ 1) (fun _ => ?_)
  refine ite_cases P (fun _ => made_of_advances (Lexer.Advances.still _) _ 1) (fun _ => ?_)
  refine ite_cases P (fun _ => made_two _ _ _ _) (fun _ => ?_)
  refine ite_cases P (fun _ => made_two _ _ _ _) (fun _ => ?_)
  refine ite_cases P (fun _ => made_two _ _ _ _) (fun _ => ?_)
  refine ite_cases P (fun _ => made_two _ _ _ _) (fun _ => ?_)
  refine ite_cases P (fun _ => made_two _ _ _ _) (fun _ => ?_)
  refine ite_cases P (fun _ => made_two _ _ _ _) (fun _ => ?_)
  refine ite_cases P (fun _ => made_of_advances (Lexer.Advances.still _) _ 1) (fun _ => ?_)
  refine ite_cases P (fun _ => made_of_advances (Lexer.Advances.still _) _ 1) (fun _ => ?_)
  refine ite_cases P (fun _ => made_of_advances (Lexer.Advances.still _) _ 1) (fun _ => ?_)
  refine ite_cases P (fun _ => made_of_advances (Lexer.Advances.still _) _ 1) (fun _ => ?_)
  refine ite_cases P (fun _ => made_of_advances (Lexer.Advances.still _) _ 1) (fun _ => ?_)
  refine ite_cases P (fun _ => made_of_advances (Lexer.Advances.still _) _ 1) (fun _ => ?_)
  refine ite_cases P (fun _ => made_of_advances (Lexer.Advances.still _) _ 1) (fun _ => ?_)
  refine ite_cases P (fun _ => made_of_advances (Lexer.Advances.still _) _ 1) (fun _ => ?_)
  refine ite_cases P (fun _ => made_of_advances (Lexer.Advances.still _) _ 1) (fun _ => ?_)
  exact made_of_advances (Lexer.Advances.still _) _ 1

theorem lexer_next_token_advances (lexer : Lexer) :
    Lexer.Advances lexer (lexer_next_token lexer).2 := by
  by_cases h : (skip_ignorable lexer).position < (skip_ignorable lexer).length
  · exact (skip_ignorable_advances lexer).next (lexer_next_token_made h).1
  · rw [lexer_next_token_eof (not_lt.mp h)]
    exact skip_ignorable_advances lexer

theorem lexer_next_token_line (lexer : Lexer) :
    (lexer_next_token lexer).1.line = (lexer_next_token lexer).2.line := by
  by_cases h : (skip_ignorable lexer).position < (skip_ignorable lexer).length
  · have hm := (lexer_next_token_made h).2
    generalize lexer_next_token lexer = r at hm
    rw [hm]
    rfl
  · rw [lexer_next_token_eof (not_lt.mp h)]


/-! ## Line and column tracking -/

theorem lexer_init_tracked (source : List Char) (length : Nat) :
    (lexer_init source length).Tracked :=
  ⟨rfl, rfl⟩

theorem take_succ_getD (source : List Char) (n : Nat) (h : n < source.length) :
    source.take (n + 1) = source.take n ++ [source.getD n NUL] := by
  rw [List.take_succ, List.getD_eq_getElem?_getD, List.getElem?_eq_getElem h]
  rfl

theorem newline_count_snoc (text : List Char) (c : Char) :
    newline_count (text ++ [c]) = newline_count text + if c = '\n' then 1 else 0 := by
  unfold newline_count
  rw [List.count_append, List.count_singleton]
  by_cases h : c = '\n'
  · subst h; rfl
  · rw [if_neg h]
    have h2 : ¬ (c == '\n') = true := by simpa using h
    rw [if_neg h2]

theorem column_after_newline (text : List Char) : column_after (text ++ ['\n']) = 1 := by
  unfold column_after
  rw [List.reverse_append]
  rfl

theorem column_after_snoc (text : List Char) (c : Char) (h : c ≠ '\n') :
    column_after (text ++ [c]) = column_after text + 1 := by
  unfold column_after
  rw [List.reverse_append]
  have h2 : (c != '\n') = true := by simpa using h
  show 1 + (List.takeWhile (fun c => c != '\n') (c :: text.reverse)).length = _
  rw [List.takeWhile_cons, h2]
  simp only [if_true, List.length_cons]
  omega

theorem lexer_advance_tracked {lexer : Lexer} (hwf : lexer.WF) (ht : lexer.Tracked) :
    (lexer_advance lexer).2.Tracked := by
  unfold lexer_advance
  by_cases h : lexer.position ≥ lexer.length
  · rw [if_pos h]; exact ht
  · rw [if_neg h]
    have hlt : lexer.position < lexer.source.length := by
      have := hwf.1
      omega
    have htake := take_succ_getD lexer.source lexer.position hlt
    dsimp only
    by_cases hc : lexer.source.getD lexer.position NUL = '\n'
    · rw [if_pos hc]
      refine ⟨?_, ?_⟩
      · show lexer.line + 1 = 1 + newline_count (lexer.source.take (lexer.position + 1))
        rw [htake, newline_count_snoc, if_pos hc, ht.1]
        omega
      · show 1 = column_after (lexer.source.take (lexer.position + 1))
        rw [htake, hc, column_after_newline]
    · rw [if_neg hc]
      refine ⟨?_, ?_⟩
      · show lexer.line = 1 + newline_count (lexer.source.take (lexer.position + 1))
        rw [htake, newline_count_snoc, if_neg hc, ht.1]
        rfl
      · show lexer.column + 1 = column_after (lexer.source.take (lexer.position + 1))
        rw [htake, column_after_snoc _ _ hc, ht.2]

theorem advance_times_tracked (n : Nat) {lexer : Lexer} (hwf : lexer.WF) (ht : lexer.Tracked) :
    (advance_times n lexer).WF ∧ (advance_times n lexer).Tracked := by
  induction n generalizing lexer with
  | zero => exact ⟨hwf, ht⟩
  | succ k ih => exact ih (lexer_advance_wf hwf) (lexer_advance_tracked hwf ht)

theorem Lexer.Advances.tracked {a b : Lexer} (h : Lexer.Advances a b) (hwf : a.WF)
    (ht : a.Tracked) : b.WF ∧ b.Tracked := by
  obtain ⟨n, rfl⟩ := h
  exact advance_times_tracked n hwf ht

theorem lexer_at_tracked (source : List Char) (k : Nat) :
    (lexer_at source source.length k).WF ∧ (lexer_at source source.length k).Tracked := by
  induction k with
  | zero => exact ⟨lexer_init_wf source, lexer_init_tracked source _⟩
  | succ n ih => exact (lexer_next_token_advances _).tracked ih.1 ih.2

theorem token_at_end (source : List Char) (k : Nat) (start : Nat)
    (htype : (token_at source source.length k).type ≠ TOKEN_EOF)
    (hlex : (token_at source source.length k).lexeme = some start) :
    start + (token_at source source.length k).length =
      (lexer_at source source.length (k + 1)).position := by
  by_cases h : (skip_ignorable (lexer_at source source.length k)).position <
      (skip_ignorable (lexer_at source source.length k)).length
  · obtain ⟨_, h2, h3, h4, _⟩ := lexer_next_token_scanned h
    have hl : (lexer_next_token (lexer_at source source.length k)).1.lexeme = some start := hlex
    rw [h2] at hl
    have hs : (skip_ignorable (lexer_at source source.length k)).position = start :=
      Option.some.inj hl
    show start + (lexer_next_token (lexer_at source source.length k)).1.length =
      (lexer_next_token (lexer_at source source.length k)).2.position
    rw [h3]
    omega
  · exfalso
    apply htype
    show (lexer_next_token (lexer_at source source.length k)).1.type = TOKEN_EOF
    rw [lexer_next_token_eof (not_lt.mp h)]

/-- C26. Line tracking. After any number `k` of calls of `lexer_next_token`
from `lexer_init` on a buffer, the line of the tokenizer is 1 plus the number
of newline characters of `source[0, position)`, and its column is 1 plus the
number of characters consumed since the last of them (since the start when
there is none). The line reported by every token is 1 plus the number of
newline characters before the offset the tokenizer has reached with the
token, which for a token other than the end-of-input token is the end
offset of the token, its start plus its length. -/
theorem line_tracking (source : List Char) (k : Nat) :
    (lexer_at source source.length k).line =
        1 + newline_count (source.take (lexer_at source source.length k).position) ∧
      (lexer_at source source.length k).column =
        column_after (source.take (lexer_at source source.length k).position) ∧
      (token_at source source.length k).line =
        1 + newline_count (source.take (lexer_at source source.length (k + 1)).position) ∧
      ∀ start, (token_at source source.length k).type ≠ TOKEN_EOF →
        (token_at source source.length k).lexeme = some start →
        (token_at source source.length k).line =
          1 + newline_count (source.take (start + (token_at source source.length k).length)) := by
  have hsrc : ∀ n, (lexer_at source source.length n).source = source := by
    intro n
    induction n with
    | zero => rfl
    | succ m ih => exact (lexer_next_token_step _).1.trans ih
  have h0 := (lexer_at_tracked source k).2
  have h1 := (lexer_at_tracked source (k + 1)).2
  rw [Lexer.Tracked, hsrc] at h0 h1
  have hline : (token_at source source.length k).line =
      1 + newline_count (source.take (lexer_at source source.length (k + 1)).position) :=
    (lexer_next_token_line _).trans h1.1
  refine ⟨h0.1, h0.2, hline, fun start htype hlex => ?_⟩
  rw [token_at_end source k start htype hlex]
  exact hline


/-- The tracking theorem at the buffer `a`, newline, `bc`: the second token is
the identifier `bc` at offset 2, and its line is 2. -/
theorem line_tracking_witness :
    (token_at ['a', '\n', 'b', 'c'] ['a', '\n', 'b', 'c'].length 1).type ≠ TOKEN_EOF ∧
      (token_at ['a', '\n', 'b', 'c'] ['a', '\n', 'b', 'c'].length 1).lexeme = some 2 ∧
      (token_at ['a', '\n', 'b', 'c'] ['a', '\n', 'b', 'c'].length 1).line =
        1 + newline_count (['a', '\n', 'b', 'c'].take
          (2 + (token_at ['a', '\n', 'b', 'c'] ['a', '\n', 'b', 'c'].length 1).length)) ∧
      (token_at ['a', '\n', 'b', 'c'] ['a', '\n', 'b', 'c'].length 1).line = 2 ∧
      (lexer_at ['a', '\n', 'b', 'c'] ['a', '\n', 'b', 'c'].length 2).column = 3 :=
  ⟨by decide!, by decide!,
    (line_tracking ['a', '\n', 'b', 'c'] 1).2.2.2 2 (by decide!) (by decide!),
    by decide!, by decide!⟩


/-! ## The column of a token that spans lines -/

theorem make_token_column_wrap (lexer : Lexer) (type : TokenType) (start length : Nat)
    (hcol : lexer.column < length - 1) (hlen : length - 1 < 2 ^ 64) :
    (make_token lexer type start length).column = 2 ^ 64 - (length - 1 - lexer.column) := by
  have h264 : (2 : Nat) ^ 64 = 18446744073709551616 := by norm_num
  have hne : length ≠ 0 := by omega
  show (lexer.column + 2 ^ 64 - (if length ≠ 0 then length - 1 else 0) % 2 ^ 64) % 2 ^ 64 = _
  rw [if_pos hne, h264] at *
  omega

theorem make_token_column_plain (lexer : Lexer) (type : TokenType) (start length : Nat)
    (hcol : length - 1 ≤ lexer.column) (hlen : lexer.column < 2 ^ 64) :
    (make_token lexer type start length).column = lexer.column - (length - 1) := by
  have h264 : (2 : Nat) ^ 64 = 18446744073709551616 := by norm_num
  show (lexer.column + 2 ^ 64 - (if length ≠ 0 then length - 1 else 0) % 2 ^ 64) % 2 ^ 64 = _
  rw [h264] at *
  by_cases hne : length ≠ 0
  · rw [if_pos hne]; omega
  · rw [if_neg hne]; omega

/-- C29. Column wrap-around for tokens that span lines. The column reported
for a token other than the end-of-input token is the column the tokenizer
has after the token minus the token length less one, computed modulo `2^64`:
when the column after the token is smaller than the length less one, which
a string that contains a newline can cause, the reported column is `2^64`
minus the difference. The 5-character string token of a double quote, `ab`,
a newline and a double quote leaves the tokenizer at column 2 and is
reported at column `2^64 - 2`. -/
theorem column_wrap_around (lexer : Lexer)
    (htype : (lexer_next_token lexer).1.type ≠ TOKEN_EOF)
    (hcol : (lexer_next_token lexer).2.column < (lexer_next_token lexer).1.length - 1)
    (hlen : (lexer_next_token lexer).1.length - 1 < 2 ^ 64) :
    (lexer_next_token lexer).1.column =
        2 ^ 64 - ((lexer_next_token lexer).1.length - 1 - (lexer_next_token lexer).2.column) ∧
      (lexer_next_token (lexer_init [DQUOTE, 'a', 'b', '\n', DQUOTE] 5)).1.type = TOKEN_STRING ∧
      (lexer_next_token (lexer_init [DQUOTE, 'a', 'b', '\n', DQUOTE] 5)).1.length = 5 ∧
      (lexer_next_token (lexer_init [DQUOTE, 'a', 'b', '\n', DQUOTE] 5)).2.column = 2 ∧
      (lexer_next_token (lexer_init [DQUOTE, 'a', 'b', '\n', DQUOTE] 5)).1.column =
        2 ^ 64 - 2 := by
  refine ⟨?_, by decide!, by decide!, by decide!, by decide!⟩
  by_cases h : (skip_ignorable lexer).position < (skip_ignorable lexer).length
  · have hm := (lexer_next_token_made h).2
    generalize lexer_next_token lexer = r at hm hcol hlen
    rw [hm]
    exact make_token_column_wrap _ _ _ _ hcol hlen
  · exfalso
    apply htype
    rw [lexer_next_token_eof (not_lt.mp h)]

/-- The wrap-around theorem at the string token that contains a newline. -/
theorem column_wrap_around_witness :
    (lexer_next_token (lexer_init [DQUOTE, 'a', 'b', '\n', DQUOTE] 5)).1.type ≠ TOKEN_EOF ∧
      (lexer_next_token (lexer_init [DQUOTE, 'a', 'b', '\n', DQUOTE] 5)).2.column <
        (lexer_next_token (lexer_init [DQUOTE, 'a', 'b', '\n', DQUOTE] 5)).1.length - 1 ∧
      (lexer_next_token (lexer_init [DQUOTE, 'a', 'b', '\n', DQUOTE] 5)).1.column =
        2 ^ 64 - ((lexer_next_token (lexer_init [DQUOTE, 'a', 'b', '\n', DQUOTE] 5)).1.length - 1 -
          (lexer_next_token (lexer_init [DQUOTE, 'a', 'b', '\n', DQUOTE] 5)).2.column) :=
  ⟨by decide!, by decide!,
    (column_wrap_around (lexer_init [DQUOTE, 'a', 'b', '\n', DQUOTE] 5) (by decide!) (by decide!)
      (by decide!)).1⟩


/-! ## The tree constructors -/

theorem set_length_snoc {α : Type} (l : List α) (x y : α) :
    (l ++ [x]).set l.length y = l ++ [y] := by
  induction l with
  | nil => rfl
  | cons a t ih =>
    show a :: (t ++ [x]).set t.length y = a :: (t ++ [y])
    rw [ih]

theorem realloc_block_succ (block : List (Option ASTNode)) :
    realloc_block block (block.length + 1) = block ++ [none] := by
  unfold realloc_block
  rw [List.take_of_length_le (Nat.le_succ _), Nat.add_sub_cancel_left]
  rfl

theorem ast_add_child_cells_node (type : ASTNodeType) (token : Token) (cs : List ASTNode)
    (c : ASTNode) :
    ast_add_child_cells (some (ASTNode.mk type token cs).cells) (some c) =
      some (ASTNode.mk type token (cs ++ [c])).cells := by
  show some _ = some _
  congr 1
  show NodeCells.mk type token
      ((realloc_block (cs.map some) (cs.length + 1)).set cs.length (some c)) (cs.length + 1) =
    NodeCells.mk type token ((cs ++ [c]).map some) (cs ++ [c]).length
  have h := realloc_block_succ (cs.map some)
  rw [List.length_map] at h
  have h2 := set_length_snoc (cs.map some) none (some c)
  rw [List.length_map] at h2
  rw [h, h2, List.map_append, List.length_append]
  rfl

/-- C23. The tree constructors. The function `ast_create` returns a node of the
given kind and token with no children (an empty block and a count of zero).
The function `ast_add_child` on a parent with children `cs` and a child `c`,
neither null, leaves the parent with the children `cs` followed by `c` and
with its kind and token unchanged, and this is what the code does on the
fields of the struct: it grows the block by one cell, writes `c` in the cell
number `child_count` and adds one to `child_count`. With a null parent or a
null child the call changes nothing. -/
theorem tree_constructors (type : ASTNodeType) (token : Token) (cs : List ASTNode)
    (c : ASTNode) (parent : Option ASTNode) (child : Option ASTNode)
    (cells : Option NodeCells) :
    ast_create type token = some (ASTNode.mk type token []) ∧
      ast_create_cells type token = some (ASTNode.mk type token []).cells ∧
      ast_add_child (some (ASTNode.mk type token cs)) (some c) =
        some (ASTNode.mk type token (cs ++ [c])) ∧
      ast_add_child_cells (some (ASTNode.mk type token cs).cells) (some c) =
        some (ASTNode.mk type token (cs ++ [c])).cells ∧
      ((ASTNode.mk type token (cs ++ [c])).cells.children.take
          (ASTNode.mk type token (cs ++ [c])).cells.child_count = (cs ++ [c]).map some) ∧
      ast_add_child none child = none ∧ ast_add_child parent none = parent ∧
      ast_add_child_cells none child = none ∧ ast_add_child_cells cells none = cells := by
  refine ⟨rfl, rfl, rfl, ast_add_child_cells_node type token cs c, ?_, rfl, ?_, rfl, ?_⟩
  · show ((cs ++ [c]).map some).take (cs ++ [c]).length = _
    rw [← List.length_map (cs ++ [c]) some, List.take_length]
  · cases parent with
    | none => rfl
    | some p => cases p; rfl
  · cases cells <;> rfl


/-! ## Termination -/

/-- C24. Parsing terminates on every input. For every source, `parser_parse`
after `parser_init` returns, with the fuel `parse_fuel`, which the length of
the source bounds. Every grammar rule returns from every state, with the error
flag set or clear, whenever its fuel covers the tokens the state has left
(`parse_call`, which takes a nullable node, from every state with the flag
set), and it returns in a state with no more tokens left than before: a
failed expectation consumes nothing and a matched one consumes a token. An
instruction called before the end of the input that returns a node has
consumed a token, so every iteration of the loop of `parse_instruction_list`
consumes a token or ends the loop. The loop of `skip_ignorable` reaches its
result within the fuel `lexer_fuel`, and more fuel does not change it. -/
theorem parsing_terminates (source : List Char) (rule : Rule) (n : Nat) (parser : Parser)
    (hn : parser.remaining ≤ n)
    (hcall : ∀ callee, rule = Rule.call callee → parser.had_error = true) :
    (∃ r b, parse source = some (r, b)) ∧
      parse_fuel (parser_init source source.length) ≤ source.length + 3 ∧
      (∃ r b, rule.run n parser = some (r, b) ∧ b.remaining ≤ parser.remaining ∧
        (parser.had_error = true → b.had_error = true)) ∧
      (parser.current.type ≠ TOKEN_EOF →
        ∃ r b, Rule.run n Rule.instruction parser = some (r, b) ∧
          (r.isSome = true → b.remaining < parser.remaining)) ∧
      ∀ j k, skip_ignorable_loop (lexer_fuel (lexer_at source source.length j) + k)
          (lexer_at source source.length j) = skip_ignorable (lexer_at source source.length j) := by
  refine ⟨?_, ?_, ?_, fun hne => ?_, fun j k => ?_⟩
  · obtain ⟨r, b, hr, _⟩ := parser_parse_runs
      (parse_fuel (parser_init source source.length)) (parser_init source source.length)
      (parser_init_remaining source source.length)
    exact ⟨r, b, hr⟩
  · have hlen := (parser_init_source source source.length).2
    unfold parse_fuel
    omega
  · obtain ⟨r, b, hr, hf⟩ := rule_run_frame rule n parser hn
      (fun callee hc => ⟨fun _ => hcall callee hc,
        fun t _ hne => absurd (hcall callee hc) (by rw [hne]; decide)⟩)
    exact ⟨r, b, hr, hf.2.2.1, fun h => (hf.2.2.2.1 h).1⟩
  · have hle := (parser_advance_remaining parser).1
    obtain ⟨r, b, hr, _, hlt⟩ := parse_instruction_runs (parse_instruction_list (n + 1)) (n + 1)
      (parse_instruction_list_runs (n + 1)) (n + 1) parser (by omega) (by omega)
    exact ⟨r, b, hr, hlt hne⟩
  · exact skip_ignorable_fuel _ (lexer_at_inside source j) k

/-- The termination theorem at the state of `parser_init` on `a b` in which
`parser_error` has recorded an error, for the rule `parse_instruction`. -/
theorem parsing_terminates_witness :
    (∃ r b, parse "a b".toList = some (r, b)) ∧
      ∃ r b,
        Rule.run 3 Rule.instruction
            (parser_error (parser_init "a b".toList 3) (parser_init "a b".toList 3).current
              "Se esperaba ';' tras la expresión.") = some (r, b) ∧
          b.remaining ≤ (parser_error (parser_init "a b".toList 3)
            (parser_init "a b".toList 3).current "Se esperaba ';' tras la expresión.").remaining ∧
          b.had_error = true :=
  have h := parsing_terminates "a b".toList Rule.instruction 3
    (parser_error (parser_init "a b".toList 3) (parser_init "a b".toList 3).current
      "Se esperaba ';' tras la expresión.") (by decide) (fun _ hc => by cases hc)
  ⟨h.1, h.2.2.1.elim fun r hr => hr.elim fun b hb => ⟨r, b, hb.1, hb.2.1, hb.2.2 rfl⟩⟩


/-! ## The position of the parser in the token stream -/

theorem parser_init_at (source : List Char) (length : Nat) :
    (parser_init source length).At source length 0 :=
  ⟨by rw [parser_init_current, token_at_zero], by rw [parser_init_next, token_at_one],
    by rw [parser_init_lexer, lexer_at_two]⟩

theorem Parser.At.forward {source : List Char} {length : Nat} {parser : Parser} {k : Nat}
    (h : parser.At source length k) : (parser_advance parser).At source length (k + 1) := by
  refine ⟨h.2.1, ?_, ?_⟩
  · show (lexer_next_token parser.lexer).1 = token_at source length (k + 2)
    rw [h.2.2]
    rfl
  · show (lexer_next_token parser.lexer).2 = lexer_at source length (k + 3)
    rw [h.2.2]
    rfl

theorem Parser.At.skip {source : List Char} {length : Nat} (n : Nat) {parser : Parser} {k : Nat}
    (h : parser.At source length k) : (Parser.skip n parser).At source length (k + n) := by
  induction n generalizing parser k with
  | zero => exact h
  | succ m ih =>
    have h2 := ih h.forward
    rw [Nat.add_right_comm] at h2
    exact h2

theorem parser_init_ahead (source : List Char) (length : Nat) (n : Nat) :
    (parser_init source length).ahead n = token_at source length n := by
  have h := (parser_init_at source length).skip n
  rw [Nat.zero_add] at h
  exact h.1


/-! ## Array declarations -/

theorem parse_instruction_array (block : Bool → Parser → Res) (fuel : Nat) (parser : Parser)
    (hc : parser.current.type = TOKEN_KW_ARRAY) :
    parse_instruction block fuel parser = parse_array_declaration fuel parser := by
  unfold parse_instruction
  dsimp only
  rw [hc]
  simp only [reduceCtorEq, or_self, if_false, if_true]

theorem parser_error_record (parser : Parser) (token : Token) (message : String)
    (he : parser.had_error = false) :
    (parser_error parser token message).had_error = true ∧
      (parser_error parser token message).error_token = token ∧
      (parser_error parser token message).error_message = message := by
  unfold parser_error
  rw [he]
  exact ⟨rfl, rfl, rfl⟩

theorem parse_array_literal_missing (fuel : Nat) (parser : Parser)
    (he : parser.had_error = false) (ht : parser.current.type ≠ TOKEN_LBRACKET)
    (hfuel : parser.remaining < fuel) :
    ∃ x b, parse_array_literal (parse_expression fuel) fuel parser = some (x, b) ∧
      b.had_error = true ∧ b.error_token = parser.current ∧
      b.error_message = "Se esperaba '['." := by
  have hcons : parser_consume parser TOKEN_LBRACKET "Se esperaba '['." =
      (parser.current, parser_error parser parser.current "Se esperaba '['.") := by
    unfold parser_consume
    rw [if_neg ht]
  have hrec := parser_error_record parser parser.current "Se esperaba '['." he
  have hrem : (parser_error parser parser.current "Se esperaba '['.").remaining <
      fuel := by
    have h := (parser_consume_frame parser TOKEN_LBRACKET "Se esperaba '['." (by decide)).2.2.1
    rw [hcons] at h
    exact lt_of_le_of_lt h hfuel
  generalize parser_error parser parser.current "Se esperaba '['." = E at hcons hrec hrem
  have hkeep : ∀ b : Parser, E.allocated.Frame b →
      b.had_error = true ∧ b.error_token = parser.current ∧
        b.error_message = "Se esperaba '['." := by
    intro b hf
    obtain ⟨k1, k2, k3⟩ := hf.2.2.2.1 hrec.1
    exact ⟨k1, k2.trans hrec.2.1, k3.trans hrec.2.2⟩
  have hacc : ListAcc AST_ARRAY_LITERAL (ast_create AST_ARRAY_LITERAL parser.current)
      E.allocated := ⟨_, [], rfl, fun _ c hc => by cases hc⟩
  unfold parse_array_literal
  dsimp only
  rw [hcons]
  dsimp only
  split
  · obtain ⟨r, p2, hr, hp⟩ := array_loop_runs (parse_expression fuel) fuel
      (fun q hq => parse_expression_runs fuel q hq) fuel _ E.allocated hrem hrem hacc
    rw [hr]
    dsimp only
    split
    · exact ⟨_, _, rfl, hkeep _ hp.1⟩
    · exact ⟨_, _, rfl, hkeep _ (hp.1.trans (parser_consume_frame _ _ _ (by decide)))⟩
  · exact ⟨_, _, rfl, hkeep _ (parser_consume_frame _ _ _ (by decide))⟩

/-- The first three tokens of an array declaration taken: the state in which
`parse_array_declaration` calls `parse_array_literal`. -/
theorem array_header_state (parser : Parser) :
    parser_advance (parser_advance (parser_advance parser).allocated).allocated =
      (Parser.skip 3 parser).bump 2 := by
  rw [Parser.skip_succ, Parser.skip_succ, Parser.skip_succ]
  simp only [Parser.allocated_eq_bump, parser_advance_bump, Parser.bump_bump]
  rfl

theorem array_header_current (parser : Parser) :
    (parser_advance (parser_advance parser).allocated).allocated.current = parser.ahead 2 := by
  unfold Parser.ahead
  rw [Parser.skip_succ, Parser.skip_succ]
  rfl

theorem skip_bump_current (k n : Nat) (parser : Parser) :
    ((Parser.skip k parser).bump n).current = parser.ahead k := by
  unfold Parser.ahead Parser.bump
  rfl

theorem bump_had_error (parser : Parser) (n : Nat) :
    (parser.bump n).had_error = parser.had_error := rfl

theorem Parser.remaining_bump (parser : Parser) (n : Nat) :
    (parser.bump n).remaining = parser.remaining := by
  unfold Parser.remaining Parser.bump
  rfl

theorem Parser.skip_remaining (k : Nat) (parser : Parser) :
    (Parser.skip k parser).remaining ≤ parser.remaining := by
  induction k generalizing parser with
  | zero => exact le_refl _
  | succ m ih => exact le_trans (ih _) (parser_advance_remaining parser).1

theorem parse_array_declaration_missing (fuel : Nat) (parser : Parser)
    (hi : parser.next.type = TOKEN_IDENTIFIER) (he : parser.had_error = false)
    (heq : (parser.ahead 2).type = TOKEN_EQ) (ht : (parser.ahead 3).type ≠ TOKEN_LBRACKET)
    (hfuel : parser.remaining < fuel) :
    ∃ b, parse_array_declaration fuel parser = some (none, b) ∧ b.had_error = true ∧
      b.error_token = parser.ahead 3 ∧ b.error_message = "Se esperaba '['." := by
  have hrem : ((Parser.skip 3 parser).bump 2).remaining < fuel := by
    rw [Parser.remaining_bump]
    exact lt_of_le_of_lt (Parser.skip_remaining 3 parser) hfuel
  rw [← array_header_current] at heq
  have hi2 : (parser_advance parser).allocated.current.type = TOKEN_IDENTIFIER := hi
  have he2 : (parser_advance parser).allocated.had_error = false := he
  have he3 : ((Parser.skip 3 parser).bump 2).had_error = false := by
    rw [bump_had_error, Parser.skip_had_error]
    exact he
  have ht3 : ((Parser.skip 3 parser).bump 2).current.type ≠ TOKEN_LBRACKET := by
    rw [skip_bump_current]
    exact ht
  obtain ⟨x, p3, hx, h1, h2, h3⟩ := parse_array_literal_missing fuel
    ((Parser.skip 3 parser).bump 2) he3 ht3 hrem
  rw [skip_bump_current] at h2
  have hk := parser_consume_keeps p3 TOKEN_SEMICOLON
    "Se esperaba ';' tras la declaración de arreglo." h1
  unfold parse_array_declaration
  dsimp only
  rw [parse_identifier_node_ok (parser_advance parser).allocated hi2 he2]
  dsimp only
  rw [parser_consume_match _ _ _ heq, array_header_state, hx]
  dsimp only
  rw [hk.1]
  exact ⟨_, rfl, hk.1, hk.2.1.trans h2, hk.2.2.trans h3⟩

theorem array_loop_elements (expr : Parser → Res) {a b : Parser} {es : List ASTNode}
    (h : Elements expr a es b) :
    ∀ (fuel : Nat) (kind : ASTNodeType) (token : Token) (cs : List ASTNode), es.length ≤ fuel →
      array_loop expr fuel (some (.mk kind token cs)) a =
        some (some (.mk kind token (cs ++ es)), b) := by
  induction h with
  | last a b e he hc =>
    intro fuel kind token cs hfuel
    cases fuel with
    | zero => cases hfuel
    | succ n =>
      have hm : parser_match b TOKEN_COMMA = (false, b) := by
        unfold parser_match parser_check
        rw [if_neg (by simpa using hc)]
      unfold array_loop
      rw [he]
      dsimp only
      rw [hm]
      rfl
  | more a a1 b e es he hc _ ih =>
    intro fuel kind token cs hfuel
    cases fuel with
    | zero => cases hfuel
    | succ n =>
      have hm : parser_match a1 TOKEN_COMMA = (true, parser_advance a1) := by
        unfold parser_match parser_check
        rw [if_pos (by simpa using hc)]
      have hn : es.length ≤ n := Nat.le_of_succ_le_succ hfuel
      have h2 := ih n kind token (cs ++ [e]) hn
      rw [List.append_assoc] at h2
      unfold array_loop
      rw [he]
      dsimp only
      rw [hm]
      exact h2

theorem elements_length (fuel : Nat) {a b : Parser} {es : List ASTNode}
    (h : Elements (parse_expression fuel) a es b) :
    a.remaining < fuel → es.length + b.remaining ≤ a.remaining + 1 := by
  induction h with
  | last a b e he hc =>
    intro hfuel
    obtain ⟨r, q, hr, hp⟩ := parse_expression_runs fuel a hfuel
    rw [he] at hr
    have hq : b = q := congrArg Prod.snd (Option.some.inj hr)
    have hle := hp.1.2.2.1
    rw [← hq] at hle
    show 1 + b.remaining ≤ a.remaining + 1
    omega
  | more a a1 b e es he hc _ ih =>
    intro hfuel
    obtain ⟨r, q, hr, hp⟩ := parse_expression_runs fuel a hfuel
    rw [he] at hr
    have hq : a1 = q := congrArg Prod.snd (Option.some.inj hr)
    have hle := hp.1.2.2.1
    rw [← hq] at hle
    have hlt := (parser_advance_remaining a1).2 (by rw [hc]; decide)
    have h2 := ih (by omega)
    show es.length + 1 + b.remaining ≤ a.remaining + 1
    omega

theorem parse_array_literal_elements (fuel : Nat) (parser : Parser) (es : List ASTNode)
    (q : Parser) (hl : parser.current.type = TOKEN_LBRACKET)
    (hn : parser.next.type ≠ TOKEN_RBRACKET)
    (hes : Elements (parse_expression fuel) (parser_advance parser).allocated es q)
    (hr : q.current.type = TOKEN_RBRACKET) (hfuel : parser.remaining < fuel) :
    parse_array_literal (parse_expression fuel) fuel parser =
      some (some (.mk AST_ARRAY_LITERAL parser.current es), parser_advance q) := by
  have hcons : parser_consume parser TOKEN_LBRACKET "Se esperaba '['." =
      (parser.current, parser_advance parser) := by
    unfold parser_consume
    rw [if_pos hl]
  have hcheck : parser_check (parser_advance parser).allocated TOKEN_RBRACKET = false := by
    unfold parser_check
    exact decide_eq_false hn
  have hlen : es.length ≤ fuel := by
    have h1 := elements_length fuel hes
      (lt_of_le_of_lt (parser_advance_remaining parser).1 hfuel)
    have h2 := (parser_advance_remaining parser).2 (by rw [hl]; decide)
    have h3 : (parser_advance parser).allocated.remaining = (parser_advance parser).remaining :=
      rfl
    omega
  unfold parse_array_literal
  dsimp only
  rw [hcons]
  dsimp only
  rw [hcheck]
  have hloop := array_loop_elements (parse_expression fuel) hes fuel AST_ARRAY_LITERAL
    parser.current [] hlen
  rw [List.nil_append] at hloop
  simp only [Bool.not_false, if_true]
  rw [show ast_create AST_ARRAY_LITERAL parser.current =
    some (.mk AST_ARRAY_LITERAL parser.current []) from rfl, hloop]
  dsimp only
  rw [parser_consume_match _ _ _ hr]
  rfl

theorem parse_array_literal_empty (expr : Parser → Res) (fuel : Nat) (parser : Parser)
    (hl : parser.current.type = TOKEN_LBRACKET) (hn : parser.next.type = TOKEN_RBRACKET) :
    parse_array_literal expr fuel parser =
      some (some (.mk AST_ARRAY_LITERAL parser.current []),
        parser_advance (parser_advance parser).allocated) := by
  have hcons : parser_consume parser TOKEN_LBRACKET "Se esperaba '['." =
      (parser.current, parser_advance parser) := by
    unfold parser_consume
    rw [if_pos hl]
  have hcheck : parser_check (parser_advance parser).allocated TOKEN_RBRACKET = true := by
    unfold parser_check
    exact decide_eq_true hn
  unfold parse_array_literal
  dsimp only
  rw [hcons]
  dsimp only
  rw [hcheck]
  simp only [Bool.not_true, Bool.false_eq_true, if_false]
  rw [parser_consume_match _ _ _ hn]
  rfl

theorem parse_array_declaration_literal (fuel : Nat) (parser : Parser) (lit : ASTNode)
    (p3 : Parser) (hi : parser.next.type = TOKEN_IDENTIFIER) (he : parser.had_error = false)
    (heq : (parser.ahead 2).type = TOKEN_EQ)
    (hlit : parse_array_literal (parse_expression fuel) fuel ((Parser.skip 3 parser).bump 2) =
      some (some lit, p3))
    (hs : p3.current.type = TOKEN_SEMICOLON) (he3 : p3.had_error = false) :
    parse_array_declaration fuel parser =
      some (some (.mk AST_DECLARATION parser.current [.mk AST_IDENTIFIER parser.next [], lit]),
        parser_advance p3) := by
  have he4 : (parser_advance p3).had_error = false := by
    rw [parser_advance_had_error]
    exact he3
  have hi2 : (parser_advance parser).allocated.current.type = TOKEN_IDENTIFIER := hi
  have he2 : (parser_advance parser).allocated.had_error = false := he
  rw [← array_header_current] at heq
  unfold parse_array_declaration
  dsimp only
  rw [parse_identifier_node_ok (parser_advance parser).allocated hi2 he2]
  dsimp only
  rw [parser_consume_match _ _ _ heq, array_header_state, hlit]
  dsimp only
  rw [parser_consume_match _ _ _ hs, he4]
  rfl

theorem advance_current (parser : Parser) :
    (parser_advance parser).current = parser.next := rfl

theorem skip_bump_next (k n : Nat) (parser : Parser) :
    ((Parser.skip k parser).bump n).next = parser.ahead (k + 1) := by
  rw [← Parser.skip_next]
  rfl

theorem array_literal_state (parser : Parser) :
    (parser_advance ((Parser.skip 3 parser).bump 2)).allocated = (Parser.skip 4 parser).bump 3 := by
  rw [parser_advance_bump, ← Parser.skip_succ, Parser.allocated_bump]

theorem allocated_twice_ahead (parser : Parser) (i : Nat) :
    parser.allocated.allocated.ahead i = parser.ahead i := by
  have h := Parser.ahead_skip_bump 0 2 i parser
  rw [Nat.zero_add] at h
  exact h

theorem parse_missing_lbracket (source : List Char)
    (h0 : (token_at source source.length 0).type = TOKEN_KW_ARRAY)
    (h1 : (token_at source source.length 1).type = TOKEN_IDENTIFIER)
    (h2 : (token_at source source.length 2).type = TOKEN_EQ)
    (h3 : (token_at source source.length 3).type ≠ TOKEN_LBRACKET) :
    ∃ b, parse source = some (none, b) ∧ parser_has_error b = true ∧
      parser_error_token b = token_at source source.length 3 ∧
      parser_error_message b = "Se esperaba '['." := by
  have hrem := parser_init_remaining source source.length
  have hinit := parser_init_had_error source source.length
  rw [← parser_init_ahead] at h0 h1 h2 h3 ⊢
  unfold parse
  unfold parse_fuel at hrem ⊢
  generalize parser_init source source.length = init at h0 h1 h2 h3 hrem hinit ⊢
  have hc : init.current.type = TOKEN_KW_ARRAY := h0
  have hcur : init.allocated.allocated.current.type = TOKEN_KW_ARRAY := h0
  have hi : init.allocated.allocated.next.type = TOKEN_IDENTIFIER := h1
  have he : init.allocated.allocated.had_error = false := hinit
  obtain ⟨b1, hb1, e1, e2, e3⟩ := parse_array_declaration_missing
    (init.lexer.length - init.lexer.position + 2 + 1) init.allocated.allocated hi he
    (by rw [allocated_twice_ahead]; exact h2) (by rw [allocated_twice_ahead]; exact h3) hrem
  rw [allocated_twice_ahead] at e2
  obtain ⟨b, hb, k1, k2, k3⟩ := parser_parse_first_error
    (init.lexer.length - init.lexer.position + 2) init hrem (by rw [hc]; decide) none b1
    (by rw [parse_instruction_array _ _ _ hcur]; exact hb1) e1
  exact ⟨b, hb, k1, k2.trans e2, k3.trans e3⟩

/-- C21. Array declarations accept only an array literal. The instruction that
starts at `array` is parsed by `parse_array_declaration`. When `array`, an
identifier and `=` are followed by a token `T` that is not `[`, the rule
returns no node and records the error of `T` with the message that expects
`[`, and a source that starts so fails to parse with that error. When they
are followed by `[`, by expressions `e1, ..., en` separated by commas that
parse to the nodes `es`, by `]` and by `;`, the rule returns, without error,
the declaration node with the children identifier and array literal, the
children of the array literal being `es`; and when they are followed by `[`,
`]` and `;` it returns the declaration node of the identifier and the array
literal with no children. -/
theorem array_declarations (fuel : Nat) (parser : Parser)
    (hi : parser.next.type = TOKEN_IDENTIFIER) (he : parser.had_error = false)
    (heq : (parser.ahead 2).type = TOKEN_EQ) (hfuel : parser.remaining < fuel) :
    (∀ block : Bool → Parser → Res, parser.current.type = TOKEN_KW_ARRAY →
      parse_instruction block fuel parser = parse_array_declaration fuel parser) ∧
    ((parser.ahead 3).type ≠ TOKEN_LBRACKET →
      ∃ b, parse_array_declaration fuel parser = some (none, b) ∧ b.had_error = true ∧
        b.error_token = parser.ahead 3 ∧ b.error_message = "Se esperaba '['.") ∧
    (∀ source : List Char,
      (token_at source source.length 0).type = TOKEN_KW_ARRAY →
      (token_at source source.length 1).type = TOKEN_IDENTIFIER →
      (token_at source source.length 2).type = TOKEN_EQ →
      (token_at source source.length 3).type ≠ TOKEN_LBRACKET →
      ∃ b, parse source = some (none, b) ∧ parser_has_error b = true ∧
        parser_error_token b = token_at source source.length 3 ∧
        parser_error_message b = "Se esperaba '['.") ∧
    (∀ (es : List ASTNode) (q : Parser),
      (parser.ahead 3).type = TOKEN_LBRACKET → (parser.ahead 4).type ≠ TOKEN_RBRACKET →
      Elements (parse_expression fuel) ((Parser.skip 4 parser).bump 3) es q →
      q.had_error = false → q.current.type = TOKEN_RBRACKET → q.next.type = TOKEN_SEMICOLON →
      ∃ b, parse_array_declaration fuel parser =
          some (some (.mk AST_DECLARATION parser.current
            [.mk AST_IDENTIFIER parser.next [], .mk AST_ARRAY_LITERAL (parser.ahead 3) es]), b) ∧
        b.had_error = false) ∧
    ((parser.ahead 3).type = TOKEN_LBRACKET → (parser.ahead 4).type = TOKEN_RBRACKET →
      (parser.ahead 5).type = TOKEN_SEMICOLON →
      ∃ b, parse_array_declaration fuel parser =
          some (some (.mk AST_DECLARATION parser.current
            [.mk AST_IDENTIFIER parser.next [], .mk AST_ARRAY_LITERAL (parser.ahead 3) []]), b) ∧
        b.had_error = false) := by
  have hrem : ((Parser.skip 3 parser).bump 2).remaining < fuel := by
    rw [Parser.remaining_bump]
    exact lt_of_le_of_lt (Parser.skip_remaining 3 parser) hfuel
  have he3 : ((Parser.skip 3 parser).bump 2).had_error = false := by
    rw [bump_had_error, Parser.skip_had_error]
    exact he
  refine ⟨fun block hc => parse_instruction_array block fuel parser hc,
    fun ht => parse_array_declaration_missing fuel parser hi he heq ht hfuel,
    parse_missing_lbracket, fun es q hl hn hes hqe hqr hqs => ?_, fun hl hr hs => ?_⟩
  · rw [← array_literal_state] at hes
    have hlit := parse_array_literal_elements fuel ((Parser.skip 3 parser).bump 2) es q
      (by rw [skip_bump_current]; exact hl) (by rw [skip_bump_next]; exact hn) hes hqr hrem
    rw [skip_bump_current] at hlit
    have hqs2 : (parser_advance q).current.type = TOKEN_SEMICOLON := by
      rw [advance_current]
      exact hqs
    have hqe2 : (parser_advance q).had_error = false := by
      rw [parser_advance_had_error]
      exact hqe
    have hqe3 : (parser_advance (parser_advance q)).had_error = false := by
      rw [parser_advance_had_error]
      exact hqe2
    have hdecl := parse_array_declaration_literal fuel parser
      (.mk AST_ARRAY_LITERAL (parser.ahead 3) es) (parser_advance q) hi he heq hlit hqs2 hqe2
    exact ⟨parser_advance (parser_advance q), hdecl, hqe3⟩
  · have hlit := parse_array_literal_empty (parse_expression fuel) fuel
      ((Parser.skip 3 parser).bump 2) (by rw [skip_bump_current]; exact hl)
      (by rw [skip_bump_next]; exact hr)
    rw [skip_bump_current, array_literal_state] at hlit
    have hcur : (parser_advance ((Parser.skip 4 parser).bump 3)).current = parser.ahead 5 := by
      rw [advance_current, skip_bump_next]
    have herr : (parser_advance ((Parser.skip 4 parser).bump 3)).had_error = false := by
      rw [parser_advance_had_error, bump_had_error, Parser.skip_had_error]
      exact he
    have hdecl := parse_array_declaration_literal fuel parser
      (.mk AST_ARRAY_LITERAL (parser.ahead 3) [])
      (parser_advance ((Parser.skip 4 parser).bump 3)) hi he heq hlit
      (by rw [hcur]; exact hs) herr
    have herr2 : (parser_advance (parser_advance ((Parser.skip 4 parser).bump 3))).had_error =
        false := by
      rw [parser_advance_had_error]
      exact herr
    exact ⟨parser_advance (parser_advance ((Parser.skip 4 parser).bump 3)), hdecl, herr2⟩

/-- The array declaration theorem at the sources `array a = [1, x];`,
`array a = [];` and `array a = x;`. -/
theorem array_declarations_witness :
    (∃ es b, parse_array_declaration 20 (parser_init "array a = [1, x];".toList 17) =
        some (some (.mk AST_DECLARATION (parser_init "array a = [1, x];".toList 17).current
          [.mk AST_IDENTIFIER (parser_init "array a = [1, x];".toList 17).next [],
            .mk AST_ARRAY_LITERAL ((parser_init "array a = [1, x];".toList 17).ahead 3) es]),
          b) ∧ es.length = 2 ∧ b.had_error = false) ∧
    (∃ b, parse "array a = x;".toList = some (none, b) ∧ parser_has_error b = true ∧
      parser_error_token b =
        { type := TOKEN_IDENTIFIER, lexeme := some 10, length := 1, line := 1, column := 12 } ∧
      parser_error_message b = "Se esperaba '['.") ∧
    parse_summary "array a = [1, x];" =
      some (some (.node AST_PROGRAM "array" [.node AST_INSTRUCTION_LIST "array"
        [.node AST_DECLARATION "array" [.node AST_IDENTIFIER "a" [],
          .node AST_ARRAY_LITERAL "[" [.node AST_LITERAL "1" [], .node AST_IDENTIFIER "x" []]]]]),
        false, "", "array", 7) ∧
    parse_summary "array a = [];" =
      some (some (.node AST_PROGRAM "array" [.node AST_INSTRUCTION_LIST "array"
        [.node AST_DECLARATION "array" [.node AST_IDENTIFIER "a" [],
          .node AST_ARRAY_LITERAL "[" []]]]), false, "", "array", 5) ∧
    parse_summary "array a = 5;" = some (none, true, "Se esperaba '['.", "5", 0) := by
  have h := array_declarations 20 (parser_init "array a = [1, x];".toList 17) (by decide!)
    (by decide!) (by decide!) (by decide!)
  have hes : ∃ e1 e2 a1 q,
      parse_expression 20 ((Parser.skip 4 (parser_init "array a = [1, x];".toList 17)).bump 3) =
        some (some e1, a1) ∧ a1.current.type = TOKEN_COMMA ∧
      parse_expression 20 (parser_advance a1) = some (some e2, q) ∧
      q.current.type ≠ TOKEN_COMMA ∧ q.had_error = false ∧ q.current.type = TOKEN_RBRACKET ∧
      q.next.type = TOKEN_SEMICOLON :=
    ⟨_, _, _, _, rfl, rfl, rfl, by decide!, rfl, rfl, rfl⟩
  obtain ⟨e1, e2, a1, q, h1, h2, h3, h4, h5, h6, h7⟩ := hes
  obtain ⟨b, hb, hbe⟩ := h.2.2.2.1 [e1, e2] q (by decide!) (by decide!)
    (Elements.more _ a1 _ e1 _ h1 h2 (Elements.last _ _ e2 h3 h4)) h5 h6 h7
  exact ⟨⟨[e1, e2], b, hb, rfl, hbe⟩,
    h.2.2.1 "array a = x;".toList (by decide!) (by decide!) (by decide!) (by decide!),
    rfl, rfl, rfl⟩


/-! ## What a parse without error has consumed -/

theorem functions_ok_list_append (cs : List ASTNode) (c : ASTNode) :
    ASTNode.functions_ok_list (cs ++ [c]) = (ASTNode.functions_ok_list cs && c.functions_ok) := by
  induction cs with
  | nil => simp [ASTNode.functions_ok_list]
  | cons x xs ih =>
    show (x.functions_ok && ASTNode.functions_ok_list (xs ++ [c])) = _
    rw [ih]
    simp [ASTNode.functions_ok_list, Bool.and_assoc]

theorem functions_ok_mk (type : ASTNodeType) (token : Token) (children : List ASTNode) :
    (ASTNode.mk type token children).functions_ok =
      ((decide (type ≠ AST_FUNCTION) || function_children children) &&
        ASTNode.functions_ok_list children) := by
  simp [ASTNode.functions_ok]

theorem NodeOk.tree {kind : ASTNodeType} {node : Option ASTNode} (h : NodeOk kind node) :
    TreeOk node :=
  fun t ht => (h t ht).2

theorem tree_ok_none : TreeOk none :=
  fun t ht => by cases ht

theorem node_ok_none (kind : ASTNodeType) : NodeOk kind none :=
  fun t ht => by cases ht

theorem node_ok_create (kind : ASTNodeType) (token : Token) (hk : kind ≠ AST_FUNCTION) :
    NodeOk kind (ast_create kind token) := by
  intro t ht
  simp only [ast_create, Option.some.injEq] at ht
  subst ht
  refine ⟨rfl, ?_⟩
  rw [functions_ok_mk]
  simp [hk, ASTNode.functions_ok_list]

theorem node_ok_add {kind : ASTNodeType} {parent child : Option ASTNode}
    (hk : kind ≠ AST_FUNCTION) (hp : NodeOk kind parent) (hc : TreeOk child) :
    NodeOk kind (ast_add_child parent child) := by
  cases child with
  | none => rw [ast_add_child_none]; exact hp
  | some c =>
    cases parent with
    | none => exact node_ok_none kind
    | some p =>
      obtain ⟨type, token, children⟩ := p
      obtain ⟨h1, h2⟩ := hp _ rfl
      have h1 : type = kind := h1
      subst h1
      intro t ht
      rw [ast_add_child_some] at ht
      have ht := Option.some.inj ht
      subst ht
      refine ⟨rfl, ?_⟩
      rw [functions_ok_mk] at h2 ⊢
      rw [functions_ok_list_append, hc c rfl]
      simp [hk] at h2 ⊢
      exact h2

theorem Parser.Trail.here {S : List Char} {L : Nat} (a : Parser) : a.Trail S L a :=
  ⟨fun h => h, fun h => h⟩

theorem Parser.Trail.chain {S : List Char} {L : Nat} {a b c : Parser} (h1 : a.Trail S L b)
    (h2 : b.Trail S L c) : a.Trail S L c :=
  ⟨fun h => h2.1 (h1.1 h), fun h => h2.2 (h1.2 h)⟩

theorem Parser.Trail.alloc {S : List Char} {L : Nat} {a b : Parser} (h : a.Trail S L b) :
    a.Trail S L b.allocated := h

theorem Parser.Trail.free {S : List Char} {L : Nat} {a b : Parser} (h : a.Trail S L b)
    (node : Option ASTNode) : a.Trail S L (b.released node) := h

theorem trail_advance {S : List Char} {L : Nat} (a : Parser)
    (hu : a.current.type ≠ TOKEN_UNKNOWN) : a.Trail S L (parser_advance a) := by
  refine ⟨fun h => h, fun hs => ⟨hs.1, fun he => ?_⟩⟩
  obtain ⟨k, hat, hclean⟩ := hs.2 he
  refine ⟨k + 1, hat.forward, fun i hi => ?_⟩
  by_cases hik : i < k
  · exact hclean i hik
  · have hk : i = k := by omega
    rw [hk, ← hat.1]
    exact hu

theorem trail_error {S : List Char} {L : Nat} (a : Parser) (token : Token) (message : String)
    (hm : message ≠ "Fin inesperado del programa.") :
    a.Trail S L (parser_error a token message) := by
  unfold parser_error
  split
  · exact Parser.Trail.here a
  · exact ⟨fun _ => rfl, fun _ => ⟨hm, fun he => by cases he⟩⟩

theorem trail_consume {S : List Char} {L : Nat} (a : Parser) (type : TokenType)
    (message : String) (ht : type ≠ TOKEN_UNKNOWN)
    (hm : message ≠ "Fin inesperado del programa.") :
    a.Trail S L (parser_consume a type message).2 := by
  unfold parser_consume
  split
  · rename_i hc
    exact trail_advance a (by rw [hc]; exact ht)
  · exact trail_error a _ message hm

theorem trail_match {S : List Char} {L : Nat} (a : Parser) (type : TokenType)
    (ht : type ≠ TOKEN_UNKNOWN) : a.Trail S L (parser_match a type).2 := by
  unfold parser_match parser_check
  split
  · rename_i hc
    exact trail_advance a (by rw [of_decide_eq_true hc]; exact ht)
  · exact Parser.Trail.here a

theorem Parser.Yields.none {S : List Char} {L : Nat} {good : Option ASTNode → Prop}
    {a : Parser} : a.Yields S L good none :=
  fun r b h => by cases h

theorem Parser.Yields.pure {S : List Char} {L : Nat} {good : Option ASTNode → Prop}
    {a b : Parser} {r : Option ASTNode} (ht : a.Trail S L b) (hg : good r) :
    a.Yields S L good (some (r, b)) := by
  intro r1 b1 h
  have h := Option.some.inj h
  have h1 : r = r1 := congrArg Prod.fst h
  have h2 : b = b1 := congrArg Prod.snd h
  rw [← h1, ← h2]
  exact ⟨ht, hg⟩

theorem Parser.Yields.since {S : List Char} {L : Nat} {good : Option ASTNode → Prop}
    {a a1 : Parser} {res : Res} (ht : a.Trail S L a1) (h : a1.Yields S L good res) :
    a.Yields S L good res :=
  fun r b hr => ⟨ht.chain (h r b hr).1, (h r b hr).2⟩

theorem Parser.Yields.weaken {S : List Char} {L : Nat} {good good2 : Option ASTNode → Prop}
    {a : Parser} {res : Res} (h : a.Yields S L good res) (hg : ∀ r, good r → good2 r) :
    a.Yields S L good2 res :=
  fun r b hr => ⟨(h r b hr).1, hg r (h r b hr).2⟩

theorem parse_identifier_node_trail {S : List Char} {L : Nat} (a : Parser) :
    a.Trail S L (parse_identifier_node a).2 ∧ NodeOk AST_IDENTIFIER (parse_identifier_node a).1 := by
  have h := @trail_consume S L a TOKEN_IDENTIFIER "Se esperaba un identificador." (by decide)
    (by decide)
  unfold parse_identifier_node
  dsimp only
  split
  · exact ⟨h, node_ok_none _⟩
  · exact ⟨h.alloc, node_ok_create _ _ (by decide)⟩


/-! ### The expression rules -/

theorem argument_loop_yields {S : List Char} {L : Nat} (expr : Parser → Res)
    (hexpr : ∀ q : Parser, q.Yields S L TreeOk (expr q)) :
    ∀ (fuel : Nat) (args : Option ASTNode) (a : Parser), NodeOk AST_ARG_LIST args →
      a.Yields S L (NodeOk AST_ARG_LIST) (argument_loop expr fuel args a) := by
  intro fuel
  induction fuel with
  | zero => intro args a _; exact Parser.Yields.none
  | succ n ih =>
    intro args a hargs
    unfold argument_loop
    split
    · exact Parser.Yields.none
    · rename_i e p1 he
      obtain ⟨t1, g1⟩ := hexpr a e p1 he
      dsimp only
      split
      · exact Parser.Yields.pure (t1.free _) (node_ok_none _)
      · have hm := @trail_match S L p1 TOKEN_COMMA (by decide)
        split
        · exact (ih _ _ (node_ok_add (by decide) hargs g1)).since (t1.chain hm)
        · exact Parser.Yields.pure (t1.chain hm) (node_ok_add (by decide) hargs g1)

theorem parse_argument_list_yields {S : List Char} {L : Nat} (expr : Parser → Res)
    (hexpr : ∀ q : Parser, q.Yields S L TreeOk (expr q)) (fuel : Nat) (a : Parser) :
    a.Yields S L (NodeOk AST_ARG_LIST) (parse_argument_list expr fuel a) := by
  unfold parse_argument_list
  dsimp only
  split
  · exact Parser.Yields.pure (Parser.Trail.here a).alloc (node_ok_create _ _ (by decide))
  · exact (argument_loop_yields expr hexpr fuel _ _ (node_ok_create _ _ (by decide))).since
      (Parser.Trail.here a).alloc

theorem parse_call_yields {S : List Char} {L : Nat} (expr : Parser → Res)
    (hexpr : ∀ q : Parser, q.Yields S L TreeOk (expr q)) (fuel : Nat) (a : Parser)
    (callee : Option ASTNode) (hcallee : TreeOk callee) :
    a.Yields S L (NodeOk AST_CALL) (parse_call expr fuel a callee) := by
  have h1 := @trail_consume S L a TOKEN_LPAREN "Se esperaba '(' en la llamada." (by decide)
    (by decide)
  unfold parse_call
  dsimp only
  split
  · exact Parser.Yields.none
  · rename_i args p2 hargs
    obtain ⟨t2, g2⟩ := parse_argument_list_yields expr hexpr fuel _ args p2 hargs
    have h3 := @trail_consume S L p2 TOKEN_RPAREN "Se esperaba ')' al cerrar la llamada."
      (by decide) (by decide)
    split
    · exact Parser.Yields.pure ((((h1.chain t2).chain h3).free _).free _)
        (node_ok_none _)
    · exact Parser.Yields.pure ((h1.chain t2).chain h3).alloc
        (node_ok_add (by decide) (node_ok_add (by decide) (node_ok_create _ _ (by decide))
          hcallee) g2.tree)

theorem array_loop_yields {S : List Char} {L : Nat} (expr : Parser → Res)
    (hexpr : ∀ q : Parser, q.Yields S L TreeOk (expr q)) :
    ∀ (fuel : Nat) (array : Option ASTNode) (a : Parser), NodeOk AST_ARRAY_LITERAL array →
      a.Yields S L (NodeOk AST_ARRAY_LITERAL) (array_loop expr fuel array a) := by
  intro fuel
  induction fuel with
  | zero => intro array a _; exact Parser.Yields.none
  | succ n ih =>
    intro array a harray
    unfold array_loop
    split
    · exact Parser.Yields.none
    · rename_i e p1 he
      obtain ⟨t1, g1⟩ := hexpr a e p1 he
      dsimp only
      split
      · exact Parser.Yields.pure (t1.free _) (node_ok_none _)
      · have hm := @trail_match S L p1 TOKEN_COMMA (by decide)
        split
        · exact (ih _ _ (node_ok_add (by decide) harray g1)).since (t1.chain hm)
        · exact Parser.Yields.pure (t1.chain hm) (node_ok_add (by decide) harray g1)

theorem parse_array_literal_yields {S : List Char} {L : Nat} (expr : Parser → Res)
    (hexpr : ∀ q : Parser, q.Yields S L TreeOk (expr q)) (fuel : Nat) (a : Parser) :
    a.Yields S L (NodeOk AST_ARRAY_LITERAL) (parse_array_literal expr fuel a) := by
  have h1 := @trail_consume S L a TOKEN_LBRACKET "Se esperaba '['." (by decide) (by decide)
  unfold parse_array_literal
  dsimp only
  split
  · split
    · exact Parser.Yields.none
    · rename_i array1 p2 hloop
      obtain ⟨t2, g2⟩ := array_loop_yields expr hexpr fuel _ _
        (node_ok_create _ _ (by decide)) array1 p2 hloop
      split
      · exact Parser.Yields.pure (h1.alloc.chain t2) (node_ok_none _)
      · exact Parser.Yields.pure ((h1.alloc.chain t2).chain
          (trail_consume _ _ _ (by decide) (by decide))) g2
  · exact Parser.Yields.pure (h1.alloc.chain (trail_consume _ _ _ (by decide) (by decide)))
      (node_ok_create _ _ (by decide))

theorem parse_primary_yields {S : List Char} {L : Nat} (expr : Parser → Res)
    (hexpr : ∀ q : Parser, q.Yields S L TreeOk (expr q)) (fuel : Nat) (a : Parser) :
    a.Yields S L TreeOk (parse_primary expr fuel a) := by
  unfold parse_primary
  dsimp only
  split
  · rename_i hc
    have hu : a.current.type ≠ TOKEN_UNKNOWN := by
      rcases hc with h | h | h | h | h <;> rw [h] <;> decide
    exact Parser.Yields.pure (trail_advance a hu).alloc
      (node_ok_create AST_LITERAL _ (by decide)).tree
  split
  · have hid := @parse_identifier_node_trail S L a
    split
    · exact ((parse_call_yields expr hexpr fuel _ _ hid.2.tree).since hid.1).weaken
        (fun _ h => h.tree)
    · exact Parser.Yields.pure hid.1 hid.2.tree
  split
  · rename_i _ _ hc
    have hu : a.current.type ≠ TOKEN_UNKNOWN := by rw [hc]; decide
    split
    · exact Parser.Yields.none
    · rename_i e p1 he
      obtain ⟨t1, g1⟩ := hexpr _ e p1 he
      exact Parser.Yields.pure (((trail_advance a hu).chain t1).chain
        (trail_consume _ _ _ (by decide) (by decide))) g1
  split
  · exact (parse_array_literal_yields expr hexpr fuel a).weaken (fun _ h => h.tree)
  · exact Parser.Yields.pure (trail_error a _ _ (by decide)) tree_ok_none

theorem parse_unary_yields {S : List Char} {L : Nat} (expr : Parser → Res)
    (hexpr : ∀ q : Parser, q.Yields S L TreeOk (expr q)) :
    ∀ (fuel : Nat) (a : Parser), a.Yields S L TreeOk (parse_unary expr fuel a) := by
  intro fuel
  induction fuel with
  | zero => intro a; exact Parser.Yields.none
  | succ n ih =>
    intro a
    unfold parse_unary
    split
    · rename_i hc
      have hu : a.current.type ≠ TOKEN_UNKNOWN := by
        simp only [parser_check, Bool.or_eq_true, decide_eq_true_eq] at hc
        rcases hc with ((h | h) | h) | h <;> rw [h] <;> decide
      dsimp only
      split
      · exact Parser.Yields.none
      · rename_i e p1 he
        obtain ⟨t1, g1⟩ := ih _ e p1 he
        exact Parser.Yields.pure ((trail_advance a hu).chain t1).alloc
          (node_ok_add (by decide) (node_ok_create AST_EXPRESSION _ (by decide)) g1).tree
    · exact parse_primary_yields expr hexpr (n + 1) a

theorem binary_loop_yields {S : List Char} {L : Nat} (ops : List TokenType)
    (operand : Parser → Res) (hops : TOKEN_UNKNOWN ∉ ops)
    (hoperand : ∀ q : Parser, q.Yields S L TreeOk (operand q)) :
    ∀ (fuel : Nat) (left : Option ASTNode) (a : Parser), TreeOk left →
      a.Yields S L TreeOk (binary_loop ops operand fuel left a) := by
  intro fuel
  induction fuel with
  | zero => intro left a _; exact Parser.Yields.none
  | succ n ih =>
    intro left a hleft
    unfold binary_loop
    split
    · rename_i hc
      have hu : a.current.type ≠ TOKEN_UNKNOWN := by
        intro h
        rw [any_parser_check, h] at hc
        exact hops hc
      dsimp only
      split
      · exact Parser.Yields.none
      · rename_i right p1 hr
        obtain ⟨t1, g1⟩ := hoperand _ right p1 hr
        exact (ih _ _ (node_ok_add (by decide) (node_ok_add (by decide)
          (node_ok_create AST_EXPRESSION _ (by decide)) hleft) g1).tree).since
          ((trail_advance a hu).chain t1).alloc
    · exact Parser.Yields.pure (Parser.Trail.here a) hleft

theorem binary_level_yields {S : List Char} {L : Nat} (ops : List TokenType)
    (operand : Parser → Res) (hops : TOKEN_UNKNOWN ∉ ops)
    (hoperand : ∀ q : Parser, q.Yields S L TreeOk (operand q)) (fuel : Nat) (a : Parser) :
    a.Yields S L TreeOk
      (match operand a with
      | none => none
      | some (left, parser1) => binary_loop ops operand fuel left parser1) := by
  split
  · exact Parser.Yields.none
  · rename_i left p1 hl
    obtain ⟨t1, g1⟩ := hoperand a left p1 hl
    exact (binary_loop_yields ops operand hops hoperand fuel left p1 g1).since t1

theorem parse_or_yields {S : List Char} {L : Nat} (expr : Parser → Res)
    (hexpr : ∀ q : Parser, q.Yields S L TreeOk (expr q)) (fuel : Nat) (a : Parser) :
    a.Yields S L TreeOk (parse_or expr fuel a) := by
  have h0 := parse_unary_yields expr hexpr fuel
  have h1 : ∀ q : Parser, q.Yields S L TreeOk (parse_mul expr fuel q) :=
    fun q => binary_level_yields _ _ (by decide) h0 fuel q
  have h2 : ∀ q : Parser, q.Yields S L TreeOk (parse_add expr fuel q) :=
    fun q => binary_level_yields _ _ (by decide) h1 fuel q
  have h3 : ∀ q : Parser, q.Yields S L TreeOk (parse_rel expr fuel q) :=
    fun q => binary_level_yields _ _ (by decide) h2 fuel q
  have h4 : ∀ q : Parser, q.Yields S L TreeOk (parse_eq expr fuel q) :=
    fun q => binary_level_yields _ _ (by decide) h3 fuel q
  have h5 : ∀ q : Parser, q.Yields S L TreeOk (parse_and expr fuel q) :=
    fun q => binary_level_yields _ _ (by decide) h4 fuel q
  exact binary_level_yields _ _ (by decide) h5 fuel a

theorem parse_expression_yields {S : List Char} {L : Nat} :
    ∀ (fuel : Nat) (a : Parser), a.Yields S L TreeOk (parse_expression fuel a) := by
  intro fuel
  induction fuel with
  | zero => intro a; exact Parser.Yields.none
  | succ n ih => intro a; exact parse_or_yields (parse_expression n) ih (n + 1) a


/-! ### The instruction rules -/

theorem parse_declaration_yields {S : List Char} {L : Nat} (fuel : Nat) (a : Parser)
    (hu : a.current.type ≠ TOKEN_UNKNOWN) :
    a.Yields S L TreeOk (parse_declaration fuel a) := by
  have h1 := (@trail_advance S L a hu).alloc
  have hid := @parse_identifier_node_trail S L (parser_advance a).allocated
  unfold parse_declaration
  dsimp only
  split
  · exact Parser.Yields.pure ((h1.chain hid.1).free _) tree_ok_none
  · have h2 := (h1.chain hid.1).chain (@trail_consume S L (parse_identifier_node
      (parser_advance a).allocated).2 TOKEN_EQ "Se esperaba '=' en la declaración."
      (by decide) (by decide))
    split
    · exact Parser.Yields.pure ((h2.free _).free _) tree_ok_none
    · split
      · exact Parser.Yields.none
      · rename_i e p3 he
        obtain ⟨t3, g3⟩ := parse_expression_yields fuel _ e p3 he
        have h4 := (h2.chain t3).chain (@trail_consume S L p3 TOKEN_SEMICOLON
          "Se esperaba ';' al final de la declaración." (by decide) (by decide))
        split
        · exact Parser.Yields.pure (((h4.free _).free _).free _) tree_ok_none
        · exact Parser.Yields.pure h4 (node_ok_add (by decide) (node_ok_add (by decide)
            (node_ok_create AST_DECLARATION _ (by decide)) hid.2.tree) g3).tree

theorem parse_array_declaration_yields {S : List Char} {L : Nat} (fuel : Nat) (a : Parser)
    (hu : a.current.type ≠ TOKEN_UNKNOWN) :
    a.Yields S L TreeOk (parse_array_declaration fuel a) := by
  have h1 := (@trail_advance S L a hu).alloc
  have hid := @parse_identifier_node_trail S L (parser_advance a).allocated
  have h2 := (h1.chain hid.1).chain (@trail_consume S L (parse_identifier_node
    (parser_advance a).allocated).2 TOKEN_EQ "Se esperaba '=' en la declaración de arreglo."
    (by decide) (by decide))
  unfold parse_array_declaration
  dsimp only
  split
  · exact Parser.Yields.none
  · rename_i lit p3 hl
    obtain ⟨t3, g3⟩ := parse_array_literal_yields (parse_expression fuel)
      (parse_expression_yields fuel) fuel _ lit p3 hl
    have h4 := (h2.chain t3).chain (@trail_consume S L p3 TOKEN_SEMICOLON
      "Se esperaba ';' tras la declaración de arreglo." (by decide) (by decide))
    split
    · exact Parser.Yields.pure (((h4.free _).free _).free _) tree_ok_none
    · exact Parser.Yields.pure h4 (node_ok_add (by decide) (node_ok_add (by decide)
        (node_ok_create AST_DECLARATION _ (by decide)) hid.2.tree) g3.tree).tree

theorem parse_assignment_yields {S : List Char} {L : Nat} (fuel : Nat) (a : Parser) :
    a.Yields S L TreeOk (parse_assignment fuel a) := by
  have hid := @parse_identifier_node_trail S L a
  have h1 := hid.1.chain (@trail_consume S L (parse_identifier_node a).2 TOKEN_EQ
    "Se esperaba '=' en la asignación." (by decide) (by decide))
  unfold parse_assignment
  dsimp only
  split
  · exact Parser.Yields.none
  · rename_i e p2 he
    obtain ⟨t2, g2⟩ := parse_expression_yields fuel _ e p2 he
    have h3 := (h1.chain t2).chain (@trail_consume S L p2 TOKEN_SEMICOLON
      "Se esperaba ';' tras la asignación." (by decide) (by decide))
    split
    · exact Parser.Yields.pure ((h3.free _).free _) tree_ok_none
    · rename_i identifier hi
      split
      · exact Parser.Yields.pure ((h3.free _).free _) tree_ok_none
      · exact Parser.Yields.pure h3.alloc (node_ok_add (by decide) (node_ok_add (by decide)
          (node_ok_create AST_ASSIGNMENT _ (by decide)) hid.2.tree) g2).tree

theorem parse_if_yields {S : List Char} {L : Nat} (block : Bool → Parser → Res)
    (hblock : ∀ (stop : Bool) (q : Parser), q.YieldsBlock S L stop (block stop q))
    (fuel : Nat) (a : Parser) (hu : a.current.type ≠ TOKEN_UNKNOWN) :
    a.Yields S L TreeOk (parse_if block fuel a) := by
  have h2 := (@trail_advance S L a hu).chain (@trail_consume S L (parser_advance a)
    TOKEN_LPAREN "Se esperaba '(' en la condición del if." (by decide) (by decide))
  unfold parse_if
  dsimp only
  split
  · exact Parser.Yields.none
  · rename_i condition p3 hc
    obtain ⟨t3, g3⟩ := parse_expression_yields fuel _ condition p3 hc
    have h5 := ((h2.chain t3).chain (@trail_consume S L p3 TOKEN_RPAREN
      "Se esperaba ')' tras la condición del if." (by decide) (by decide))).chain
      (@trail_consume S L _ TOKEN_LBRACE "Se esperaba '\x7b' para iniciar el bloque del if."
        (by decide) (by decide))
    split
    · exact Parser.Yields.none
    · rename_i body p6 hb
      obtain ⟨t6, g6, _⟩ := hblock true _ body p6 hb
      have h7 := (h5.chain t6).chain (@trail_consume S L p6 TOKEN_RBRACE
        "Se esperaba '\x7d' al cerrar el bloque del if." (by decide) (by decide))
      split
      · exact Parser.Yields.pure ((h7.free _).free _) tree_ok_none
      · exact Parser.Yields.pure h7.alloc (node_ok_add (by decide) (node_ok_add (by decide)
          (node_ok_create AST_IF _ (by decide)) g3) g6.tree).tree

theorem parse_for_yields {S : List Char} {L : Nat} (block : Bool → Parser → Res)
    (hblock : ∀ (stop : Bool) (q : Parser), q.YieldsBlock S L stop (block stop q))
    (a : Parser) (hu : a.current.type ≠ TOKEN_UNKNOWN) :
    a.Yields S L TreeOk (parse_for block a) := by
  have h2 := (@trail_advance S L a hu).chain (@trail_consume S L (parser_advance a)
    TOKEN_LPAREN "Se esperaba '(' en el for." (by decide) (by decide))
  have hi1 := @parse_identifier_node_trail S L
    (parser_consume (parser_advance a) TOKEN_LPAREN "Se esperaba '(' en el for.").2
  have h3 := (h2.chain hi1.1).chain (@trail_consume S L _ TOKEN_KW_IN
    "Se esperaba la palabra clave 'in'." (by decide) (by decide))
  have hi2 := @parse_identifier_node_trail S L
    (parser_consume (parse_identifier_node
      (parser_consume (parser_advance a) TOKEN_LPAREN "Se esperaba '(' en el for.").2).2
      TOKEN_KW_IN "Se esperaba la palabra clave 'in'.").2
  have h5 := ((h3.chain hi2.1).chain (@trail_consume S L _ TOKEN_RPAREN
    "Se esperaba ')' tras la cabecera del for." (by decide) (by decide))).chain
    (@trail_consume S L _ TOKEN_LBRACE "Se esperaba '\x7b' para el cuerpo del for."
      (by decide) (by decide))
  unfold parse_for
  dsimp only
  split
  · exact Parser.Yields.none
  · rename_i body p6 hb
    obtain ⟨t6, g6, _⟩ := hblock true _ body p6 hb
    have h7 := (h5.chain t6).chain (@trail_consume S L p6 TOKEN_RBRACE
      "Se esperaba '\x7d' al cerrar el for." (by decide) (by decide))
    split
    · exact Parser.Yields.pure (((h7.free _).free _).free _) tree_ok_none
    · exact Parser.Yields.pure h7.alloc (node_ok_add (by decide) (node_ok_add (by decide)
        (node_ok_add (by decide) (node_ok_create AST_FOR _ (by decide)) hi1.2.tree)
        hi2.2.tree) g6.tree).tree

theorem parse_while_yields {S : List Char} {L : Nat} (block : Bool → Parser → Res)
    (hblock : ∀ (stop : Bool) (q : Parser), q.YieldsBlock S L stop (block stop q))
    (fuel : Nat) (a : Parser) (hu : a.current.type ≠ TOKEN_UNKNOWN) :
    a.Yields S L TreeOk (parse_while block fuel a) := by
  have h2 := (@trail_advance S L a hu).chain (@trail_consume S L (parser_advance a)
    TOKEN_LPAREN "Se esperaba '(' en el while." (by decide) (by decide))
  unfold parse_while
  dsimp only
  split
  · exact Parser.Yields.none
  · rename_i condition p3 hc
    obtain ⟨t3, g3⟩ := parse_expression_yields fuel _ condition p3 hc
    have h5 := ((h2.chain t3).chain (@trail_consume S L p3 TOKEN_RPAREN
      "Se esperaba ')' tras la condición del while." (by decide) (by decide))).chain
      (@trail_consume S L _ TOKEN_LBRACE "Se esperaba '\x7b' para el cuerpo del while."
        (by decide) (by decide))
    split
    · exact Parser.Yields.none
    · rename_i body p6 hb
      obtain ⟨t6, g6, _⟩ := hblock true _ body p6 hb
      have h7 := (h5.chain t6).chain (@trail_consume S L p6 TOKEN_RBRACE
        "Se esperaba '\x7d' al cerrar el while." (by decide) (by decide))
      split
      · exact Parser.Yields.pure ((h7.free _).free _) tree_ok_none
      · exact Parser.Yields.pure h7.alloc (node_ok_add (by decide) (node_ok_add (by decide)
          (node_ok_create AST_WHILE _ (by decide)) g3) g6.tree).tree

theorem parameter_loop_yields {S : List Char} {L : Nat} :
    ∀ (fuel : Nat) (params : Option ASTNode) (a : Parser), NodeOk AST_PARAM_LIST params →
      a.Yields S L (NodeOk AST_PARAM_LIST) (parameter_loop fuel params a) := by
  intro fuel
  induction fuel with
  | zero => intro params a _; exact Parser.Yields.none
  | succ n ih =>
    intro params a hparams
    have hid := @parse_identifier_node_trail S L a
    unfold parameter_loop
    dsimp only
    split
    · exact Parser.Yields.pure (hid.1.free _) (node_ok_none _)
    · have hm := hid.1.chain (@trail_match S L (parse_identifier_node a).2 TOKEN_COMMA
        (by decide))
      split
      · exact (ih _ _ (node_ok_add (by decide) hparams hid.2.tree)).since hm
      · exact Parser.Yields.pure hm (node_ok_add (by decide) hparams hid.2.tree)

theorem parse_parameter_list_yields {S : List Char} {L : Nat} (fuel : Nat) (a : Parser) :
    a.Yields S L (NodeOk AST_PARAM_LIST) (parse_parameter_list fuel a) := by
  unfold parse_parameter_list
  dsimp only
  split
  · exact Parser.Yields.pure (Parser.Trail.here a).alloc (node_ok_create _ _ (by decide))
  · exact (parameter_loop_yields fuel _ _ (node_ok_create _ _ (by decide))).since
      (Parser.Trail.here a).alloc

theorem parse_return_yields {S : List Char} {L : Nat} (fuel : Nat) (a : Parser)
    (hu : a.current.type ≠ TOKEN_UNKNOWN) :
    a.Yields S L TreeOk (parse_return fuel a) := by
  have h1 := @trail_advance S L a hu
  unfold parse_return
  dsimp only
  split
  · exact Parser.Yields.none
  · rename_i e p2 he
    obtain ⟨t2, g2⟩ := parse_expression_yields fuel _ e p2 he
    have h3 := (h1.chain t2).chain (@trail_consume S L p2 TOKEN_SEMICOLON
      "Se esperaba ';' tras return." (by decide) (by decide))
    split
    · exact Parser.Yields.pure (h3.free _) tree_ok_none
    · exact Parser.Yields.pure h3.alloc (node_ok_add (by decide)
        (node_ok_create AST_RETURN _ (by decide)) g2).tree

theorem parse_call_statement_yields {S : List Char} {L : Nat} (fuel : Nat) (a : Parser) :
    a.Yields S L TreeOk (parse_call_statement fuel a) := by
  have hid := @parse_identifier_node_trail S L a
  unfold parse_call_statement
  dsimp only
  split
  · exact Parser.Yields.none
  · rename_i call p1 hc
    obtain ⟨t1, g1⟩ := parse_call_yields (parse_expression fuel) (parse_expression_yields fuel)
      fuel _ _ hid.2.tree call p1 hc
    exact Parser.Yields.pure ((hid.1.chain t1).chain (@trail_consume S L p1 TOKEN_SEMICOLON
      "Se esperaba ';' tras la llamada." (by decide) (by decide))) g1.tree

theorem parse_special_call_yields {S : List Char} {L : Nat} (fuel : Nat) (a : Parser)
    (keyword : Token) (hu : a.current.type ≠ TOKEN_UNKNOWN) :
    a.Yields S L TreeOk (parse_special_call fuel a keyword) := by
  have h2 := (@trail_advance S L a hu).chain (@trail_consume S L (parser_advance a)
    TOKEN_LPAREN "Se esperaba '(' tras llamada especial." (by decide) (by decide))
  unfold parse_special_call
  dsimp only
  split
  · exact Parser.Yields.none
  · rename_i args p3 hargs
    obtain ⟨t3, g3⟩ := parse_argument_list_yields (parse_expression fuel)
      (parse_expression_yields fuel) fuel _ args p3 hargs
    have h5 := ((h2.chain t3).chain (@trail_consume S L p3 TOKEN_RPAREN
      "Se esperaba ')' en la llamada especial." (by decide) (by decide))).alloc
    have hcall := node_ok_add (by decide) (node_ok_create AST_CALL keyword (by decide)) g3.tree
    split
    · have hid := @parse_identifier_node_trail S L
        (parser_consume p3 TOKEN_RPAREN "Se esperaba ')' en la llamada especial.").2.allocated
      exact Parser.Yields.pure ((h5.chain hid.1).chain (@trail_consume S L _ TOKEN_SEMICOLON
        "Se esperaba ';' tras la llamada especial." (by decide) (by decide)))
        (node_ok_add (by decide) hcall hid.2.tree).tree
    · exact Parser.Yields.pure (h5.chain (@trail_consume S L _ TOKEN_SEMICOLON
        "Se esperaba ';' tras la llamada especial." (by decide) (by decide))) hcall.tree

theorem parse_expression_statement_yields {S : List Char} {L : Nat} (fuel : Nat) (a : Parser) :
    a.Yields S L TreeOk (parse_expression_statement fuel a) := by
  unfold parse_expression_statement
  split
  · exact Parser.Yields.none
  · rename_i e p1 he
    obtain ⟨t1, g1⟩ := parse_expression_yields fuel _ e p1 he
    have h2 := t1.chain (@trail_consume S L p1 TOKEN_SEMICOLON
      "Se esperaba ';' tras la expresión." (by decide) (by decide))
    dsimp only
    split
    · exact Parser.Yields.pure (h2.free _) tree_ok_none
    · split
      · exact Parser.Yields.pure (h2.free _) tree_ok_none
      · exact Parser.Yields.pure h2.alloc (node_ok_add (by decide)
          (node_ok_create AST_EXPRESSION _ (by decide)) g1).tree

/-- The optional `return` of `parse_function`: after a body that is not null
the current token is `}` or the end of the input, so nothing is parsed. -/
theorem maybe_return_yields {S : List Char} {L : Nat} (fuel : Nat) (p6 : Parser)
    (body : Option ASTNode)
    (hexit : body.isSome = true → p6.current.type = TOKEN_EOF ∨
      (true = true ∧ p6.current.type = TOKEN_RBRACE))
    (r : Option ASTNode) (p7 : Parser)
    (h : (if parser_check p6 TOKEN_KW_RETURN then parse_return fuel p6
      else some (none, p6)) = some (r, p7)) :
    p6.Trail S L p7 ∧ (body.isSome = true → r = none) := by
  by_cases hc : parser_check p6 TOKEN_KW_RETURN = true
  · rw [if_pos hc] at h
    have hk : p6.current.type = TOKEN_KW_RETURN := of_decide_eq_true hc
    refine ⟨(parse_return_yields fuel p6 (by rw [hk]; decide) r p7 h).1, fun hb => ?_⟩
    rcases hexit hb with he | ⟨_, he⟩ <;> rw [hk] at he <;> cases he
  · rw [if_neg hc] at h
    have h := Option.some.inj h
    have h1 : none = r := congrArg Prod.fst h
    have h2 : p6 = p7 := congrArg Prod.snd h
    rw [← h2]
    exact ⟨Parser.Trail.here p6, fun _ => h1.symm⟩

theorem function_node_ok (token : Token) (name params body : Option ASTNode)
    (hn : NodeOk AST_IDENTIFIER name) (hp : NodeOk AST_PARAM_LIST params)
    (hb : NodeOk AST_INSTRUCTION_LIST body) (hsn : name.isNone = false)
    (hsp : params.isNone = false) (hsb : body.isNone = false) :
    ∃ tn tp tb, name = some tn ∧ params = some tp ∧ body = some tb ∧
      ast_add_child (ast_add_child (ast_add_child (ast_add_child
        (ast_create AST_FUNCTION token) name) params) body) none =
        some (.mk AST_FUNCTION token [tn, tp, tb]) ∧
      (ASTNode.mk AST_FUNCTION token [tn, tp, tb]).functions_ok = true := by
  cases name with
  | none => cases hsn
  | some tn =>
    cases params with
    | none => cases hsp
    | some tp =>
      cases body with
      | none => cases hsb
      | some tb =>
        obtain ⟨n1, n2⟩ := hn tn rfl
        obtain ⟨p1, p2⟩ := hp tp rfl
        obtain ⟨b1, b2⟩ := hb tb rfl
        refine ⟨tn, tp, tb, rfl, rfl, rfl, rfl, ?_⟩
        rw [functions_ok_mk]
        simp [function_children, ASTNode.functions_ok_list, n1, n2, p1, p2, b1, b2]

theorem parse_function_node {S : List Char} {L : Nat} (block : Bool → Parser → Res)
    (hblock : ∀ (stop : Bool) (q : Parser), q.YieldsBlock S L stop (block stop q))
    (fuel : Nat) (a : Parser) (hu : a.current.type ≠ TOKEN_UNKNOWN) :
    a.Yields S L (fun r => ∀ t, r = some t → t.functions_ok = true ∧
      ∃ tn tp tb, t = .mk AST_FUNCTION a.current [tn, tp, tb]) (parse_function block fuel a) := by
  have h1 := @trail_advance S L a hu
  have hid := @parse_identifier_node_trail S L (parser_advance a)
  have h2 := (h1.chain hid.1).chain (@trail_consume S L _ TOKEN_LPAREN
    "Se esperaba '(' tras el nombre de la función." (by decide) (by decide))
  unfold parse_function
  dsimp only
  split
  · exact Parser.Yields.none
  · rename_i params p3 hparams
    obtain ⟨t3, g3⟩ := parse_parameter_list_yields fuel _ params p3 hparams
    have h5 := ((h2.chain t3).chain (@trail_consume S L p3 TOKEN_RPAREN
      "Se esperaba ')' tras los parámetros." (by decide) (by decide))).chain
      (@trail_consume S L _ TOKEN_LBRACE "Se esperaba '\x7b' para el cuerpo de la función."
        (by decide) (by decide))
    split
    · exact Parser.Yields.none
    · rename_i body p6 hbody
      obtain ⟨t6, g6, hexit⟩ := hblock true _ body p6 hbody
      split
      · exact Parser.Yields.none
      · rename_i ret p7 hret
        obtain ⟨t7, hnone⟩ := @maybe_return_yields S L fuel p6 body hexit ret p7 hret
        have h8 := ((h5.chain t6).chain t7).chain (@trail_consume S L p7 TOKEN_RBRACE
          "Se esperaba '\x7d' al cerrar la función." (by decide) (by decide))
        split
        · exact Parser.Yields.pure ((((h8.free _).free _).free _).free _)
            (fun t ht => by cases ht)
        · rename_i hc
          simp only [Bool.or_eq_true, not_or, Bool.not_eq_true] at hc
          obtain ⟨⟨⟨_, hsn⟩, hsp⟩, hsb⟩ := hc
          have hret : ret = none := hnone (by
            cases body with
            | none => cases hsb
            | some _ => rfl)
          obtain ⟨tn, tp, tb, _, _, _, hnode, hok⟩ :=
            function_node_ok a.current _ params body hid.2 g3 g6 hsn hsp hsb
          rw [hret, hnode]
          exact Parser.Yields.pure h8.alloc
            (fun t ht => by rw [← Option.some.inj ht]; exact ⟨hok, tn, tp, tb, rfl⟩)

theorem parse_function_yields {S : List Char} {L : Nat} (block : Bool → Parser → Res)
    (hblock : ∀ (stop : Bool) (q : Parser), q.YieldsBlock S L stop (block stop q))
    (fuel : Nat) (a : Parser) (hu : a.current.type ≠ TOKEN_UNKNOWN) :
    a.Yields S L TreeOk (parse_function block fuel a) :=
  (parse_function_node block hblock fuel a hu).weaken (fun _ h t ht => (h t ht).1)

theorem parse_instruction_yields {S : List Char} {L : Nat} (block : Bool → Parser → Res)
    (hblock : ∀ (stop : Bool) (q : Parser), q.YieldsBlock S L stop (block stop q))
    (fuel : Nat) (a : Parser) :
    a.Yields S L TreeOk (parse_instruction block fuel a) := by
  unfold parse_instruction
  dsimp only
  split
  · rename_i hc
    exact parse_declaration_yields fuel a (by rcases hc with h | h | h | h <;> rw [h] <;> decide)
  split
  · rename_i hc
    exact parse_array_declaration_yields fuel a (by rw [hc]; decide)
  split
  · rename_i hc
    exact parse_if_yields block hblock fuel a (by rw [hc]; decide)
  split
  · rename_i hc
    exact parse_for_yields block hblock a (by rw [hc]; decide)
  split
  · rename_i hc
    exact parse_while_yields block hblock fuel a (by rw [hc]; decide)
  split
  · rename_i hc
    exact parse_function_yields block hblock fuel a (by rw [hc]; decide)
  split
  · rename_i hc
    exact parse_return_yields fuel a (by rw [hc]; decide)
  split
  · rename_i hc
    exact parse_special_call_yields fuel a _ (by rcases hc with h | h <;> rw [h] <;> decide)
  split
  · split
    · exact parse_call_statement_yields fuel a
    · exact parse_assignment_yields fuel a
  · exact parse_expression_statement_yields fuel a

theorem instruction_loop_yields {S : List Char} {L : Nat} (instruction : Parser → Res)
    (hinstr : ∀ q : Parser, q.Yields S L TreeOk (instruction q)) (stop : Bool) :
    ∀ (fuel : Nat) (list : Option ASTNode) (a : Parser), NodeOk AST_INSTRUCTION_LIST list →
      a.YieldsBlock S L stop (instruction_loop instruction stop fuel list a) := by
  intro fuel
  induction fuel with
  | zero => intro list a _ r b h; cases h
  | succ n ih =>
    intro list a hlist r b h
    unfold instruction_loop at h
    split at h
    · rename_i hc
      have h := Option.some.inj h
      have h1 : list = r := congrArg Prod.fst h
      have h2 : a = b := congrArg Prod.snd h
      rw [← h1, ← h2]
      exact ⟨Parser.Trail.here a, hlist, fun _ => Or.inl (of_decide_eq_true hc)⟩
    · split at h
      · rename_i hc
        have h := Option.some.inj h
        have h1 : list = r := congrArg Prod.fst h
        have h2 : a = b := congrArg Prod.snd h
        rw [← h1, ← h2]
        simp only [Bool.and_eq_true] at hc
        exact ⟨Parser.Trail.here a, hlist, fun _ => Or.inr ⟨hc.1, of_decide_eq_true hc.2⟩⟩
      · split at h
        · cases h
        · rename_i instr p1 hi
          obtain ⟨t1, g1⟩ := hinstr a instr p1 hi
          split at h
          · have h := Option.some.inj h
            have h1 : none = r := congrArg Prod.fst h
            have h2 : p1.released list = b := congrArg Prod.snd h
            rw [← h1, ← h2]
            exact ⟨t1.free _, node_ok_none _, fun hs => by cases hs⟩
          · obtain ⟨t2, g2, e2⟩ := ih _ _ (node_ok_add (by decide) hlist g1) r b h
            exact ⟨t1.chain t2, g2, e2⟩

theorem parse_instruction_list_yields {S : List Char} {L : Nat} :
    ∀ (fuel : Nat) (stop : Bool) (a : Parser),
      a.YieldsBlock S L stop (parse_instruction_list fuel stop a) := by
  intro fuel
  induction fuel with
  | zero => intro stop a r b h; cases h
  | succ n ih =>
    intro stop a r b h
    rw [parse_instruction_list_succ] at h
    obtain ⟨t, g, e⟩ := instruction_loop_yields
      (parse_instruction (parse_instruction_list n) (n + 1))
      (fun q => parse_instruction_yields (parse_instruction_list n) ih (n + 1) q) stop (n + 1)
      _ _ (node_ok_create AST_INSTRUCTION_LIST a.current (by decide)) r b h
    exact ⟨(Parser.Trail.here a).alloc.chain t, g, e⟩

theorem parser_parse_yields {S : List Char} {L : Nat} (fuel : Nat) (a : Parser)
    (r : Option ASTNode) (b : Parser) (h : parser_parse fuel a = some (r, b)) :
    a.Trail S L b ∧ TreeOk r ∧ (r.isSome = true → b.current.type = TOKEN_EOF) ∧
      ∃ list p1, parse_instruction_list fuel false a.allocated = some (list, p1) ∧
        b.error_message = p1.error_message ∧ b.error_token = p1.error_token ∧
        b.had_error = p1.had_error ∧ (list.isSome = true → p1.current.type = TOKEN_EOF) := by
  unfold parser_parse at h
  dsimp only at h
  split at h
  · cases h
  · rename_i list p1 hl
    obtain ⟨t1, g1, e1⟩ := @parse_instruction_list_yields S L fuel false a.allocated list p1 hl
    have hexit : list.isSome = true → p1.current.type = TOKEN_EOF := by
      intro hs
      rcases e1 hs with he | ⟨hf, _⟩
      · exact he
      · cases hf
    have ht1 : a.Trail S L p1 := (Parser.Trail.here a).alloc.chain t1
    split at h
    · have h := Option.some.inj h
      have h1 : none = r := congrArg Prod.fst h
      have h2 : p1.released (ast_create AST_PROGRAM a.current) = b := congrArg Prod.snd h
      rw [← h1, ← h2]
      exact ⟨ht1.free _, tree_ok_none, fun hs => (by cases hs), list, p1, hl, rfl, rfl, rfl,
        hexit⟩
    · rename_i hn
      have hs : list.isSome = true := by
        cases list with
        | none => exact absurd rfl hn
        | some _ => rfl
      have heof := hexit hs
      split at h
      · rename_i hc
        simp only [Bool.and_eq_true, decide_eq_true_eq] at hc
        exact absurd heof hc.2
      · have h := Option.some.inj h
        have h1 : (if p1.had_error = true then none
            else ast_add_child (ast_create AST_PROGRAM a.current) list) = r :=
          congrArg Prod.fst h
        have h2 : p1 = b := congrArg Prod.snd h
        rw [← h1, ← h2]
        refine ⟨ht1, ?_, fun _ => heof, list, p1, hl, rfl, rfl, rfl, hexit⟩
        split
        · exact tree_ok_none
        · exact (node_ok_add (by decide) (node_ok_create AST_PROGRAM _ (by decide))
            g1.tree).tree


/-! ## The trailing-token check, unknown tokens and function nodes -/

theorem parser_init_sound (source : List Char) (length : Nat) :
    (parser_init source length).Sound source length := by
  refine ⟨?_, fun _ => ⟨0, parser_init_at source length, fun i hi => absurd hi (Nat.not_lt_zero i)⟩⟩
  unfold parser_init
  dsimp only
  decide

/-- The result of a parse, with what the pass over the rules gives of it. -/
theorem parse_result (source : List Char) :
    ∃ r b, parse source = some (r, b) ∧ (r = none ↔ b.had_error = true) ∧
      b.Sound source source.length ∧ TreeOk r ∧
      (r.isSome = true → b.current.type = TOKEN_EOF) ∧
      ∃ list p1,
        parse_instruction_list (parse_fuel (parser_init source source.length)) false
          (parser_init source source.length).allocated = some (list, p1) ∧
        b.error_message = p1.error_message ∧ b.error_token = p1.error_token ∧
        b.had_error = p1.had_error ∧ (list.isSome = true → p1.current.type = TOKEN_EOF) := by
  obtain ⟨r, b, hr, _, hiff, _⟩ := parser_parse_runs
    (parse_fuel (parser_init source source.length)) (parser_init source source.length)
    (parser_init_remaining source source.length)
  obtain ⟨t, g, e, hl⟩ := @parser_parse_yields source source.length _ _ r b hr
  exact ⟨r, b, hr, hiff, t.2 (parser_init_sound source source.length), g, e, hl⟩

/-- C27. The message of the trailing-token check is never the recorded error.
For every source the parse returns, and the message it has recorded is not
`Fin inesperado del programa.`: the error record of the final state is the one
`parse_instruction_list` has left, no grammar rule records that message, and
whenever the top-level `parse_instruction_list`, which does not stop at `}`,
returns a list, the current token is the end of the input, for every state it
is called in and every fuel, so the check of `parser_parse` for a trailing
token does not fire. -/
theorem trailing_check_never_fires (source : List Char) :
    (∃ r b, parse source = some (r, b) ∧
      parser_error_message b ≠ "Fin inesperado del programa." ∧
      ∃ list p1,
        parse_instruction_list (parse_fuel (parser_init source source.length)) false
          (parser_init source source.length).allocated = some (list, p1) ∧
        parser_error_message b = p1.error_message ∧ parser_error_token b = p1.error_token ∧
        parser_has_error b = p1.had_error ∧
        (list.isSome = true → p1.current.type = TOKEN_EOF)) ∧
    (∀ (fuel : Nat) (parser : Parser) (list : ASTNode) (p1 : Parser),
      parse_instruction_list fuel false parser = some (some list, p1) →
      p1.current.type = TOKEN_EOF ∧
        ¬ (!p1.had_error && decide (p1.current.type ≠ TOKEN_EOF)) = true) := by
  refine ⟨?_, fun fuel parser list p1 h => ?_⟩
  · obtain ⟨r, b, hr, _, hs, _, _, hl⟩ := parse_result source
    exact ⟨r, b, hr, hs.1, hl⟩
  · obtain ⟨_, _, e⟩ := @parse_instruction_list_yields source source.length fuel false parser
      (some list) p1 h
    have heof : p1.current.type = TOKEN_EOF := by
      rcases e rfl with he | ⟨hf, _⟩
      · exact he
      · cases hf
    refine ⟨heof, ?_⟩
    rw [heof]
    simp


/-! ## Unknown tokens -/

theorem tokens_loop_at (source : List Char) (length : Nat) :
    ∀ (fuel j : Nat) (t : Token), t ∈ tokens_loop fuel (lexer_at source length j) →
      ∃ i, t = token_at source length i ∧
        ∀ m, j ≤ m → m < i → (token_at source length m).type ≠ TOKEN_EOF := by
  intro fuel
  induction fuel with
  | zero => intro j t h; cases h
  | succ n ih =>
    intro j t h
    unfold tokens_loop at h
    dsimp only at h
    split at h
    · rw [List.mem_singleton] at h
      exact ⟨j, h, fun m h1 h2 => absurd h2 (by omega)⟩
    · rename_i hne
      rcases List.mem_cons.mp h with h | h
      · exact ⟨j, h, fun m h1 h2 => absurd h2 (by omega)⟩
      · obtain ⟨i, hi, hclean⟩ := ih (j + 1) t h
        refine ⟨i, hi, fun m h1 h2 => ?_⟩
        by_cases hm : m = j
        · rw [hm]
          exact hne
        · exact hclean m (by omega) h2

theorem tokenize_at (source : List Char) (t : Token) (h : t ∈ tokenize source) :
    ∃ i, t = token_at source source.length i ∧
      ∀ m, m < i → (token_at source source.length m).type ≠ TOKEN_EOF := by
  obtain ⟨i, hi, hclean⟩ := tokens_loop_at source source.length (source.length + 1) 0 t h
  exact ⟨i, hi, fun m hm => hclean m (Nat.zero_le m) hm⟩

/-- C22. Deferred lexical anomaly. For every source whose token stream has an
unknown-character token, the parse returns no tree and has recorded a syntax
error, with a message and a token of the source; so a parse that returns a
tree has consumed no unknown token. For `x = @;` the recorded error is that
of the token `@`. -/
theorem unknown_token_fails (source : List Char) (t : Token) (ht : t ∈ tokenize source)
    (hu : t.type = TOKEN_UNKNOWN) :
    (∃ b, parse source = some (none, b) ∧ parser_has_error b = true ∧
      parser_error_message b ≠ "" ∧
      ∃ j, parser_error_token b = token_at source source.length j) ∧
    parse_summary "x = @;" = some (none, true, "Expresión primaria inválida.", "@", 0) := by
  refine ⟨?_, rfl⟩
  obtain ⟨r, b, hr, hf, hiff, _⟩ := parser_parse_runs
    (parse_fuel (parser_init source source.length)) (parser_init source source.length)
    (parser_init_remaining source source.length)
  obtain ⟨tr, _, heof, _⟩ := @parser_parse_yields source source.length _ _ r b hr
  cases r with
  | some tree =>
    exfalso
    have hb : b.had_error = false := by
      cases hbe : b.had_error
      · rfl
      · exact absurd (hiff.mpr hbe) (by simp)
    obtain ⟨k, hat, hclean⟩ := (tr.2 (parser_init_sound source source.length)).2 hb
    have hk : (token_at source source.length k).type = TOKEN_EOF := by
      rw [← hat.1]
      exact heof rfl
    obtain ⟨i, hi, hbefore⟩ := tokenize_at source t ht
    rw [hi] at hu
    by_cases h1 : i < k
    · exact hclean i h1 hu
    · by_cases h2 : i = k
      · rw [h2, hk] at hu
        cases hu
      · exact hbefore k (by omega) hk
  | none =>
    have he : b.had_error = true := hiff.mp rfl
    have hrec : b.Recorded := hf.2.2.2.2.1
      (fun h => absurd h (by rw [parser_init_had_error]; decide))
    obtain ⟨k, _, _, _, htok⟩ := hf.2.2.2.2.2 (parser_init_aligned source source.length)
    obtain ⟨j, hj⟩ := htok he
    rw [hf.1, hf.2.1, (parser_init_source source source.length).1,
      (parser_init_source source source.length).2] at hj
    exact ⟨b, hr, he, hrec he, j, hj⟩

/-- The theorem at `x = @;`, whose third token is the unknown token `@`. -/
theorem unknown_token_fails_witness :
    ∃ b, parse "x = @;".toList = some (none, b) ∧ parser_has_error b = true ∧
      parser_error_message b ≠ "" ∧
      ∃ j, parser_error_token b = token_at "x = @;".toList "x = @;".toList.length j :=
  (unknown_token_fails "x = @;".toList
    { type := TOKEN_UNKNOWN, lexeme := some 4, length := 1, line := 1, column := 6 }
    (by decide!) rfl).1


/-! ## Function nodes -/

theorem functions_ok_list_mem {children : List ASTNode}
    (h : ASTNode.functions_ok_list children = true) :
    ∀ c ∈ children, c.functions_ok = true := by
  induction children with
  | nil => intro c hc; cases hc
  | cons x xs ih =>
    have h2 : (x.functions_ok && ASTNode.functions_ok_list xs) = true := h
    rw [Bool.and_eq_true] at h2
    intro c hc
    rcases List.mem_cons.mp hc with hx | hx
    · rw [hx]; exact h2.1
    · exact ih h2.2 c hx

theorem functions_ok_inside {node tree : ASTNode} (h : ASTNode.Inside node tree)
    (hok : tree.functions_ok = true) : node.functions_ok = true := by
  induction h with
  | self => exact hok
  | child c tree hc _ ih =>
    obtain ⟨type, token, children⟩ := tree
    rw [functions_ok_mk, Bool.and_eq_true] at hok
    exact ih (functions_ok_list_mem hok.2 c hc)

theorem function_children_three {children : List ASTNode}
    (h : function_children children = true) :
    ∃ name params body, children = [name, params, body] ∧ name.type = AST_IDENTIFIER ∧
      params.type = AST_PARAM_LIST ∧ body.type = AST_INSTRUCTION_LIST := by
  match children, h with
  | [name, params, body], h =>
    simp only [function_children, Bool.and_eq_true, decide_eq_true_eq] at h
    exact ⟨name, params, body, rfl, h.1.1, h.1.2, h.2⟩

theorem function_node_children {node : ASTNode} (hok : node.functions_ok = true)
    (hf : node.type = AST_FUNCTION) :
    ∃ name params body, node.children = [name, params, body] ∧
      name.type = AST_IDENTIFIER ∧ params.type = AST_PARAM_LIST ∧
      body.type = AST_INSTRUCTION_LIST := by
  obtain ⟨type, token, children⟩ := node
  have hf : type = AST_FUNCTION := hf
  rw [functions_ok_mk, Bool.and_eq_true, Bool.or_eq_true] at hok
  rcases hok.1 with h | h
  · rw [hf] at h
    exact absurd h (by decide)
  · exact function_children_three h

/-- C28. Function nodes have three children. In the tree of every source that
parses successfully, every node of kind function has exactly the three
children identifier, parameter list and instruction list, in this order.
Whenever `parse_function` returns a node, the body has ended at `}` or at
the end of the input, so the optional `return` after the body is not parsed
and adds no child: the node returned has three children, and a `return`
written last in the body is in the instruction list of the body. -/
theorem function_nodes_three_children (source : List Char) (tree : ASTNode) (b : Parser)
    (h : parse source = some (some tree, b)) :
    (∀ node, ASTNode.Inside node tree → node.type = AST_FUNCTION →
      ∃ name params body, node.children = [name, params, body] ∧
        name.type = AST_IDENTIFIER ∧ params.type = AST_PARAM_LIST ∧
        body.type = AST_INSTRUCTION_LIST) ∧
    (∀ (n fuel : Nat) (parser : Parser) (t : ASTNode) (q : Parser),
      parser.current.type = TOKEN_KW_FUNC →
      parse_function (parse_instruction_list n) fuel parser = some (some t, q) →
      ∃ name params body, t = .mk AST_FUNCTION parser.current [name, params, body] ∧
        name.type = AST_IDENTIFIER ∧ params.type = AST_PARAM_LIST ∧
        body.type = AST_INSTRUCTION_LIST) ∧
    parse_summary "func f(a) \x7b return a; \x7d" =
      some (some (.node AST_PROGRAM "func" [.node AST_INSTRUCTION_LIST "func"
        [.node AST_FUNCTION "func" [.node AST_IDENTIFIER "f" [],
          .node AST_PARAM_LIST "a" [.node AST_IDENTIFIER "a" []],
          .node AST_INSTRUCTION_LIST "return"
            [.node AST_RETURN "return" [.node AST_IDENTIFIER "a" []]]]]]),
        false, "", "func", 9) := by
  refine ⟨fun node hin hf => ?_, fun n fuel parser t q hc ht => ?_, rfl⟩
  · obtain ⟨_, hok, _⟩ := @parser_parse_yields source source.length _ _ _ _ h
    exact function_node_children (functions_ok_inside hin (hok tree rfl)) hf
  · obtain ⟨_, hnode⟩ := @parse_function_node source source.length (parse_instruction_list n)
      (parse_instruction_list_yields n) fuel parser (by rw [hc]; decide) _ _ ht
    obtain ⟨hok, tn, tp, tb, htree⟩ := hnode t rfl
    obtain ⟨name, params, body, hch, h1, h2, h3⟩ :=
      function_node_children hok (by rw [htree]; rfl)
    rw [htree] at hch
    have hch : [tn, tp, tb] = [name, params, body] := hch
    rw [htree, hch]
    exact ⟨name, params, body, rfl, h1, h2, h3⟩

/-- The theorem at the source `func f(a) { return a; }`: the parse returns
a tree, and the function node of the tree has three children. -/
theorem function_nodes_three_children_witness :
    ∃ tree b, parse "func f(a) \x7b return a; \x7d".toList = some (some tree, b) ∧
      ∀ node, ASTNode.Inside node tree → node.type = AST_FUNCTION →
        ∃ name params body, node.children = [name, params, body] ∧
          name.type = AST_IDENTIFIER ∧ params.type = AST_PARAM_LIST ∧
          body.type = AST_INSTRUCTION_LIST :=
  have h : ∃ tree b, parse "func f(a) \x7b return a; \x7d".toList = some (some tree, b) :=
    ⟨_, _, rfl⟩
  h.elim fun tree h2 => h2.elim fun b h3 =>
    ⟨tree, b, h3, (function_nodes_three_children _ tree b h3).1⟩


end TEO
